import Mathlib

/-!
lotus-bench: the sealing benchmark driver

A shallow embedding of `cmd/lotus-bench/main.go`:

* `BenchResults.SumSealingTime`, the aggregation of per-sector timings;
* `runSeals`, the orchestrator that adds one piece per sector and then drives
  `par.PreCommit1` worker goroutines through the sealing stages, with two
  buffered channels used as counting gates.

`runSeals` is concurrent.  It is embedded as a small-step machine: every
statement that touches shared state (the Sealer, the clock, a channel, a result
slice) is one step of the goroutine that executes it, and a schedule (a list of
`Choice`) picks which goroutine moves next or lets the clock tick.  A blocked
goroutine that is picked does not move.  Properties are stated for every
schedule.

Modelling conventions:

* Go `int` and `time.Duration` are `Int`; where an addition can overflow the
  result is wrapped to 64 bits (`wrap64`).  Slice and channel allocation is
  taken to succeed for every non-negative size (memory is not modelled).
* The Sealer, the storage provider, the proof verifier and the file system are
  external: they are operations on an abstract world state `σ`, each returning
  a result and a new world.  Every call is recorded in the trace with its
  arguments and its result.
* A Go `nil` slice is `none`, a `nil` error is `none`.
-/

set_option linter.unusedTactic false
set_option linter.unnecessarySeqFocus false
set_option linter.unreachableTactic false
set_option linter.unusedVariables false
set_option maxRecDepth 100000

namespace LotusBench

/-! ## Go values -/

/-- Go error values: a message, or an error wrapped by `xerrors.Errorf("pfx: %w", err)`. -/
inductive GoError where
  | msg (text : String)
  | wrap (pfx : String) (inner : GoError)
  deriving DecidableEq, Repr

deriving instance DecidableEq for Except

/-- The text of `err.Error()`. -/
def GoError.Error : GoError → String
  | .msg t => t
  | .wrap p e => p ++ ": " ++ e.Error

/-- Two's complement wrap-around of a 64-bit signed integer operation. -/
def wrap64 (x : Int) : Int :=
  (x + 9223372036854775808) % 18446744073709551616 - 9223372036854775808

/-- A value that fits a Go `int64`. -/
def isInt64 (x : Int) : Prop :=
  -9223372036854775808 ≤ x ∧ x < 9223372036854775808

instance (x : Int) : Decidable (isInt64 x) := by
  unfold isInt64; exact inferInstance

abbrev Bytes := List Nat

abbrev Cid := Nat

/-! ## `SealingResult`, `BenchResults`, `SumSealingTime` (main.go 44-93) -/

/-- Go `SealingResult`: one `time.Duration` (int64 nanoseconds) per stage. -/
structure SealingResult where
  AddPiece : Int
  PreCommit1 : Int
  PreCommit2 : Int
  Commit1 : Int
  Commit2 : Int
  Verify : Int
  Unseal : Int
  deriving DecidableEq, Repr

/-- The zero value of `SealingResult`. -/
def SealingResult.zero : SealingResult := ⟨0, 0, 0, 0, 0, 0, 0⟩

/-- Go `BenchResults` (the environment map is left out). -/
structure BenchResults where
  SectorSize : Nat
  SectorNumber : Int
  SealingSum : SealingResult
  SealingResults : List SealingResult
  PostGenerateCandidates : Int
  PostWinningProofCold : Int
  PostWinningProofHot : Int
  VerifyWinningPostCold : Int
  VerifyWinningPostHot : Int
  PostWindowProofCold : Int
  PostWindowProofHot : Int
  VerifyWindowPostCold : Int
  VerifyWindowPostHot : Int
  deriving DecidableEq, Repr

/-- One iteration of the loop of `SumSealingTime`: seven `+=` on int64. -/
def SealingResult.accumulate (sum sealing : SealingResult) : SealingResult :=
  { AddPiece := wrap64 (sum.AddPiece + sealing.AddPiece)
    PreCommit1 := wrap64 (sum.PreCommit1 + sealing.PreCommit1)
    PreCommit2 := wrap64 (sum.PreCommit2 + sealing.PreCommit2)
    Commit1 := wrap64 (sum.Commit1 + sealing.Commit1)
    Commit2 := wrap64 (sum.Commit2 + sealing.Commit2)
    Verify := wrap64 (sum.Verify + sealing.Verify)
    Unseal := wrap64 (sum.Unseal + sealing.Unseal) }

/-- Go `(bo *BenchResults) SumSealingTime() error`: the returned error and the
receiver after the call. -/
def BenchResults.SumSealingTime (bo : BenchResults) : Option GoError × BenchResults :=
  if (bo.SealingResults.length : Int) ≤ 0 then
    (some (.msg "BenchResults SealingResults len <= 0"), bo)
  else if (bo.SealingResults.length : Int) ≠ bo.SectorNumber then
    (some (.msg ("BenchResults SealingResults len(" ++ toString bo.SealingResults.length
      ++ ") != bo.SectorNumber(" ++ toString bo.SectorNumber ++ ")")), bo)
  else
    (none, { bo with SealingSum := bo.SealingResults.foldl SealingResult.accumulate bo.SealingSum })

/-- Every duration of a timing record fits an int64, as every Go value of the type does. -/
def SealingResult.wf (r : SealingResult) : Prop :=
  isInt64 r.AddPiece ∧ isInt64 r.PreCommit1 ∧ isInt64 r.PreCommit2 ∧ isInt64 r.Commit1 ∧
  isInt64 r.Commit2 ∧ isInt64 r.Verify ∧ isInt64 r.Unseal

/-- The seven duration fields of a `SealingResult`. -/
def SealingResult.fields : List (SealingResult → Int) :=
  [SealingResult.AddPiece, SealingResult.PreCommit1, SealingResult.PreCommit2,
   SealingResult.Commit1, SealingResult.Commit2, SealingResult.Verify, SealingResult.Unseal]

/-- The arithmetic sum of one duration field over a list of timing records. -/
def fieldSum (f : SealingResult → Int) (l : List SealingResult) : Int :=
  (l.map f).sum

/-- Two sectors whose `AddPiece` durations add up to one more than the largest int64. -/
def overflowBench : BenchResults :=
  { SectorSize := 2048, SectorNumber := 2, SealingSum := SealingResult.zero,
    SealingResults := [⟨9223372036854775807, 0, 0, 0, 0, 0, 0⟩, ⟨1, 0, 0, 0, 0, 0, 0⟩],
    PostGenerateCandidates := 0, PostWinningProofCold := 0, PostWinningProofHot := 0,
    VerifyWinningPostCold := 0, VerifyWinningPostHot := 0, PostWindowProofCold := 0,
    PostWindowProofHot := 0, VerifyWindowPostCold := 0, VerifyWindowPostHot := 0 }

/-- Two sectors with small durations. -/
def smallBench : BenchResults :=
  { overflowBench with SealingResults := [⟨1, 2, 3, 4, 5, 6, 7⟩, ⟨10, 20, 30, 40, 50, 60, 70⟩] }

instance (r : SealingResult) : Decidable r.wf := by
  unfold SealingResult.wf; exact inferInstance

/-! ## Data passed between the stages of `runSeals` -/

structure SectorID where
  Miner : Nat
  Number : Nat
  deriving DecidableEq, Repr

structure SectorRef where
  ID : SectorID
  ProofType : Nat
  deriving DecidableEq, Repr

structure PieceInfo where
  Size : Nat
  PieceCID : Cid
  deriving DecidableEq, Repr

structure SectorCids where
  Unsealed : Cid
  Sealed : Cid
  deriving DecidableEq, Repr

/-- Go `saproof2.SectorInfo`, the sealed-sector summary. -/
structure SectorInfo where
  SealProof : Nat
  SectorNumber : Nat
  SealedCID : Cid
  deriving DecidableEq, Repr

structure SealVerifyInfo where
  SectorID : SectorID
  SealedCID : Cid
  SealProof : Nat
  Proof : Bytes
  DealIDs : List Nat
  Randomness : Bytes
  InteractiveRandomness : Bytes
  UnsealedCID : Cid
  deriving DecidableEq, Repr

structure Commit2In where
  SectorNum : Int
  Phase1Out : Bytes
  SectorSize : Nat
  deriving DecidableEq, Repr

structure ParCfg where
  PreCommit1 : Int
  PreCommit2 : Int
  Commit : Int
  deriving DecidableEq, Repr

/-- The parameters of `runSeals` other than the Sealer and the storage provider. -/
structure Cfg where
  numSectors : Int
  par : ParCfg
  mid : Nat
  sectorSize : Nat
  ticketPreimage : Bytes
  saveC2inp : String
  skipc2 : Bool
  skipunseal : Bool
  deriving DecidableEq, Repr

/-- The external collaborators of `runSeals` over a world state `σ`: the Sealer `sb`,
the storage provider `sbfs`, `ffiwrapper.ProofVerifier`, `os.Remove`,
`ioutil.WriteFile`, and the pure library functions the code calls.  `spt` is
`miner.SealProofTypeFromSectorSize` at the newest network version, `none` where
the Go helper `spt` panics. -/
structure Env (σ : Type) where
  AddPiece : SectorRef → Nat → Int → σ → Except GoError PieceInfo × σ
  SealPreCommit1 : SectorRef → Bytes → List PieceInfo → σ → Except GoError Bytes × σ
  SealPreCommit2 : SectorRef → Bytes → σ → Except GoError SectorCids × σ
  SealCommit1 : SectorRef → Bytes → Bytes → List PieceInfo → SectorCids → σ →
    Except GoError Bytes × σ
  SealCommit2 : SectorRef → Bytes → σ → Except GoError Bytes × σ
  VerifySeal : SealVerifyInfo → σ → Except GoError Bool × σ
  AcquireSector : SectorRef → σ → Except GoError String × σ
  Remove : String → σ → Option GoError × σ
  UnsealPiece : SectorRef → Nat → Nat → Bytes → Cid → σ → Option GoError × σ
  WriteFile : String → Bytes → σ → Option GoError × σ
  spt : Nat → Option Nat
  blake2b : Bytes → Bytes
  unpadded : Nat → Nat
  jsonMarshal : Commit2In → Except GoError Bytes

/-! ## The trace of external calls -/

/-- The two gates of `runSeals`: `preCommit2Sema` and `commitSema`. -/
inductive Gate where
  | preCommit2
  | commit
  deriving DecidableEq, Repr

/-- One observable action, with the arguments passed and the result returned. -/
inductive Op where
  | addPiece (sid : SectorRef) (size : Nat) (seed : Int) (res : Except GoError PieceInfo)
  | sealPreCommit1 (sid : SectorRef) (ticket : Bytes) (pieces : List PieceInfo)
      (res : Except GoError Bytes)
  | sealPreCommit2 (sid : SectorRef) (pc1o : Bytes) (res : Except GoError SectorCids)
  | sealCommit1 (sid : SectorRef) (ticket : Bytes) (seed : Bytes) (pieces : List PieceInfo)
      (cids : SectorCids) (res : Except GoError Bytes)
  | sealCommit2 (sid : SectorRef) (c1o : Bytes) (res : Except GoError Bytes)
  | verifySeal (svi : SealVerifyInfo) (res : Except GoError Bool)
  | acquireSector (sid : SectorRef) (res : Except GoError String)
  | remove (path : String) (res : Option GoError)
  | unsealPiece (sid : SectorRef) (offset : Nat) (size : Nat) (ticket : Bytes) (unsealed : Cid)
      (res : Option GoError)
  | writeFile (name : String) (data : Bytes) (res : Option GoError)
  | acquire (g : Gate)
  | release (g : Gate)
  deriving DecidableEq, Repr

/-- An action in the trace: the goroutine that performed it (`none` for the
orchestrator, `some w` for worker `w`), the sector index it was performed for,
the clock at that moment, and the action. -/
structure Event where
  worker : Option Nat
  sector : Nat
  time : Nat
  op : Op
  deriving DecidableEq, Repr

/-! ## Goroutine states -/

/-- Program points of a worker goroutine (main.go 1425-1572). -/
inductive PC where
  | idle          -- not launched yet
  | head          -- loop test, sid, start := time.Now(), ticket, piece
  | pc1           -- sb.SealPreCommit1
  | tPc1          -- precommit1 := time.Now()
  | acqPC2        -- preCommit2Sema <- struct{}{}
  | tPc2Start     -- pc2Start := time.Now()
  | pc2           -- sb.SealPreCommit2
  | tPc2          -- precommit2 := time.Now()
  | relPC2        -- <-preCommit2Sema; sealedSectors[i] = ...
  | acqCommit     -- commitSema <- struct{}{}
  | tCommitStart  -- commitStart := time.Now()
  | c1            -- sb.SealCommit1
  | tC1           -- sealcommit1 := time.Now()
  | save          -- if saveC2inp != "" ... json.Marshal, ioutil.WriteFile
  | c2            -- if !skipc2 ... sb.SealCommit2
  | tC2           -- sealcommit2 := time.Now()
  | relCommit     -- <-commitSema
  | verify        -- if !skipc2 ... VerifySeal
  | tVerify       -- verifySeal := time.Now()
  | unsealAcq     -- if !skipunseal ... sbfs.AcquireSector; done()
  | unsealRm      -- os.Remove(p.Unsealed)
  | unseal        -- sb.UnsealPiece
  | tUnseal       -- unseal := time.Now(); sealTimings[i]...; i++
  | send          -- errs <- sealerr
  | halted
  deriving DecidableEq, Repr

/-- The local variables of a worker goroutine.  `held2` and `heldC` count the
tokens the worker has put into `preCommit2Sema` / `commitSema` and not yet taken
back; they are bookkeeping of the embedding, the Go code has no such variable. -/
structure Worker where
  pc : PC
  i : Nat
  stop : Nat
  sid : SectorRef
  ticket : Bytes
  piece : List PieceInfo
  pc1o : Bytes
  cids : SectorCids
  c1o : Bytes
  proof : Bytes
  path : String
  tStart : Nat
  tPrecommit1 : Nat
  tPc2Start : Nat
  tPrecommit2 : Nat
  tCommitStart : Nat
  tSealcommit1 : Nat
  tSealcommit2 : Nat
  tVerifySeal : Nat
  sealerr : Option GoError
  held2 : Nat
  heldC : Nat
  deriving DecidableEq, Repr

/-- A goroutine that has not been launched. -/
def Worker.idle : Worker :=
  { pc := .idle, i := 0, stop := 0, sid := ⟨⟨0, 0⟩, 0⟩, ticket := [], piece := [], pc1o := [],
    cids := ⟨0, 0⟩, c1o := [], proof := [], path := "", tStart := 0, tPrecommit1 := 0,
    tPc2Start := 0, tPrecommit2 := 0, tCommitStart := 0, tSealcommit1 := 0, tSealcommit2 := 0,
    tVerifySeal := 0, sealerr := none, held2 := 0, heldC := 0 }

/-- Program points of the orchestrator, the body of `runSeals` itself. -/
inductive MainPC where
  | apHead    -- AddPiece loop: test, sid, start := time.Now()
  | apCall    -- sb.AddPiece; pieces = append(pieces, pi)
  | apDone    -- sealTimings[i].AddPiece = time.Since(start); i++
  | mkErrs    -- sectorsPerWorker := ...; errs := make(chan error, par.PreCommit1)
  | spawn     -- go func(worker int) ... (wid)
  | collect   -- err := <-errs
  | done      -- returned or panicked
  deriving DecidableEq, Repr

/-- What `runSeals` returns. -/
structure RunResult where
  timings : Option (List SealingResult)
  sealed : Option (List SectorInfo)
  err : Option GoError
  deriving DecidableEq, Repr

/-- The state of one execution of `runSeals`. -/
structure State (σ : Type) where
  world : σ
  clock : Nat
  trace : List Event
  pieces : List PieceInfo
  sealTimings : List SealingResult
  sealedSectors : List SectorInfo
  preCommit2Sema : Nat
  commitSema : Nat
  errs : List (Option GoError)
  sectorsPerWorker : Nat
  mainPc : MainPC
  mainI : Nat
  mainSid : SectorRef
  mainStart : Nat
  launched : Nat
  received : Nat
  workers : Nat → Worker
  ret : Option RunResult
  panicked : Option String

/-! ## The machine -/

variable {σ : Type}

/-- The number of workers, `par.PreCommit1` once it is known to be positive. -/
def Cfg.W (cfg : Cfg) : Nat := cfg.par.PreCommit1.toNat

/-- The number of sectors, `numSectors` once it is known to be non-negative. -/
def Cfg.N (cfg : Cfg) : Nat := cfg.numSectors.toNat

/-- The fixed `seed.Value` of main.go 1471. -/
def seedValue : Bytes :=
  [1, 2, 3, 4, 5, 6, 7, 8, 9, 10, 11, 12, 13, 14, 15, 16, 17, 18, 19, 20, 21, 22, 23, 24, 25,
    26, 27, 28, 29, 30, 31, 255]

/-- A Go panic: the whole process stops. -/
def State.crash (s : State σ) (why : String) : State σ :=
  { s with panicked := some why }

/-- The Go runtime's `maxAlloc` on the 64-bit platforms the program is built for: `make`
panics when asked for more bytes. -/
def maxAlloc : Nat := 281474976710656

/-- The sector count is one for which `make([]SealingResult, numSectors)` does not exceed
`maxAlloc`: a `SealingResult` is seven int64, 56 bytes.  The `SectorInfo` of the second
`make` is smaller (32 bytes), so that this allocation passes when the first does. -/
def Cfg.fits (cfg : Cfg) : Prop := cfg.numSectors * 56 ≤ (maxAlloc : Int)

instance (cfg : Cfg) : Decidable cfg.fits := by
  unfold Cfg.fits; exact inferInstance

/-- What the allocations and the divisibility test of main.go 1387-1396 need in order
to pass: no negative size, a worker count other than zero, a zero remainder
(Go `%` truncates towards zero), and slices within the allocation limit. -/
def Cfg.valid (cfg : Cfg) : Prop :=
  0 ≤ cfg.numSectors ∧ 0 ≤ cfg.par.PreCommit2 ∧ 0 ≤ cfg.par.Commit ∧
  cfg.par.PreCommit1 ≠ 0 ∧ Int.tmod cfg.numSectors cfg.par.PreCommit1 = 0 ∧ cfg.fits

instance (cfg : Cfg) : Decidable cfg.valid := by
  unfold Cfg.valid; exact inferInstance

/-- Assignment to the local variables of worker `w`. -/
def State.setW (s : State σ) (w : Nat) (k : Worker) : State σ :=
  { s with workers := Function.update s.workers w k }

/-- Record an action of worker `w` on sector `i`. -/
def State.log (s : State σ) (who : Option Nat) (i : Nat) (op : Op) : State σ :=
  { s with trace := s.trace ++ [⟨who, i, s.clock, op⟩] }

/-- A worker leaves its closure with `sealerr = e` and goes on to `errs <- sealerr`. -/
def Worker.fail (k : Worker) (e : GoError) : Worker :=
  { k with pc := .send, sealerr := some e }

/-- The `SealVerifyInfo` built at main.go 1515-1524 from the locals of the iteration. -/
def Worker.svi (k : Worker) (cfg : Cfg) : SealVerifyInfo :=
  { SectorID := ⟨cfg.mid, k.i⟩, SealedCID := k.cids.Sealed, SealProof := k.sid.ProofType,
    Proof := k.proof, DealIDs := [], Randomness := k.ticket,
    InteractiveRandomness := seedValue, UnsealedCID := k.cids.Unsealed }

/-- The state in which `runSeals` starts, after the allocations and the
divisibility test of main.go 1387-1396.  `make` of a slice panics for a negative length
and for a size beyond `maxAlloc`, `make` of a channel for a negative capacity; an
allocation within these limits is taken to succeed. -/
def init (cfg : Cfg) (w0 : σ) : State σ :=
  let s : State σ :=
    { world := w0, clock := 0, trace := [], pieces := [],
      sealTimings := List.replicate cfg.N SealingResult.zero,
      sealedSectors := List.replicate cfg.N ⟨0, 0, 0⟩,
      preCommit2Sema := 0, commitSema := 0, errs := [], sectorsPerWorker := 0,
      mainPc := .apHead, mainI := 0, mainSid := ⟨⟨0, 0⟩, 0⟩, mainStart := 0,
      launched := 0, received := 0, workers := fun _ => Worker.idle,
      ret := none, panicked := none }
  if cfg.numSectors < 0 ∨ ¬ cfg.fits then
    { s.crash "makeslice: len out of range" with mainPc := .done }
  else if cfg.par.PreCommit2 < 0 ∨ cfg.par.Commit < 0 then
    { s.crash "makechan: size out of range" with mainPc := .done }
  else if cfg.par.PreCommit1 = 0 then { s.crash "integer divide by zero" with mainPc := .done }
  else if Int.tmod cfg.numSectors cfg.par.PreCommit1 ≠ 0 then
    { s with mainPc := .done,
             ret := some ⟨none, none, some (.msg "parallelism factor must cleanly divide numSectors")⟩ }
  else s

/-- One step of the orchestrator. -/
def mainStep (cfg : Cfg) (env : Env σ) (s : State σ) : State σ :=
  match s.mainPc with
  | .apHead =>
    if s.mainI < cfg.N then
      match env.spt cfg.sectorSize with
      | none => s.crash "spt"
      | some p =>
        { s with mainPc := .apCall, mainSid := ⟨⟨cfg.mid, s.mainI⟩, p⟩, mainStart := s.clock }
    else { s with mainPc := .mkErrs }
  | .apCall =>
    let r := env.AddPiece s.mainSid (env.unpadded cfg.sectorSize) (wrap64 (100 + s.mainI)) s.world
    let s1 := { s.log none s.mainI
      (.addPiece s.mainSid (env.unpadded cfg.sectorSize) (wrap64 (100 + s.mainI)) r.1) with
      world := r.2 }
    match r.1 with
    | .error e => { s1 with mainPc := .done, ret := some ⟨none, none, some e⟩ }
    | .ok pi => { s1 with mainPc := .apDone, pieces := s1.pieces ++ [pi] }
  | .apDone =>
    match s.sealTimings[s.mainI]? with
    | none => s.crash "index out of range"
    | some t =>
      { s with mainPc := .apHead, mainI := s.mainI + 1,
               sealTimings := s.sealTimings.set s.mainI
                 { t with AddPiece := (s.clock : Int) - (s.mainStart : Int) } }
  | .mkErrs =>
    if cfg.par.PreCommit1 < 0 then s.crash "makechan: size out of range"
    else { s with mainPc := .spawn,
                  sectorsPerWorker := (Int.tdiv cfg.numSectors cfg.par.PreCommit1).toNat }
  | .spawn =>
    if s.launched < cfg.W then
      { s with launched := s.launched + 1,
               workers := Function.update s.workers s.launched
                 { Worker.idle with pc := .head, i := s.launched * s.sectorsPerWorker,
                                    stop := s.launched * s.sectorsPerWorker + s.sectorsPerWorker } }
    else { s with mainPc := .collect }
  | .collect =>
    if s.received < cfg.W then
      match s.errs with
      | [] => s
      | some e :: rest => { s with errs := rest, mainPc := .done, ret := some ⟨none, none, some e⟩ }
      | none :: rest => { s with errs := rest, received := s.received + 1 }
    else
      { s with mainPc := .done, ret := some ⟨some s.sealTimings, some s.sealedSectors, none⟩ }
  | .done => s

/-- One step of worker `w`. -/
def workerStep (cfg : Cfg) (env : Env σ) (w : Nat) (s : State σ) : State σ :=
  let k := s.workers w
  match k.pc with
  | .idle => s
  | .head =>
    if k.i < k.stop then
      match env.spt cfg.sectorSize with
      | none => s.crash "spt"
      | some p =>
        match s.pieces[k.i]? with
        | none => s.crash "index out of range"
        | some pi =>
          s.setW w { k with pc := .pc1, sid := ⟨⟨cfg.mid, k.i⟩, p⟩, tStart := s.clock,
                            ticket := env.blake2b cfg.ticketPreimage, piece := [pi] }
    else s.setW w { k with pc := .send, sealerr := none }
  | .pc1 =>
    let r := env.SealPreCommit1 k.sid k.ticket k.piece s.world
    let s1 := { s.log (some w) k.i (.sealPreCommit1 k.sid k.ticket k.piece r.1) with world := r.2 }
    match r.1 with
    | .error e => s1.setW w (k.fail (.wrap "commit" e))
    | .ok o => s1.setW w { k with pc := .tPc1, pc1o := o }
  | .tPc1 => s.setW w { k with pc := .acqPC2, tPrecommit1 := s.clock }
  | .acqPC2 =>
    if (s.preCommit2Sema : Int) < cfg.par.PreCommit2 then
      ({ s.log (some w) k.i (.acquire .preCommit2) with
          preCommit2Sema := s.preCommit2Sema + 1 }).setW w
        { k with pc := .tPc2Start, held2 := k.held2 + 1 }
    else s
  | .tPc2Start => s.setW w { k with pc := .pc2, tPc2Start := s.clock }
  | .pc2 =>
    let r := env.SealPreCommit2 k.sid k.pc1o s.world
    let s1 := { s.log (some w) k.i (.sealPreCommit2 k.sid k.pc1o r.1) with world := r.2 }
    match r.1 with
    | .error e => s1.setW w (k.fail (.wrap "commit" e))
    | .ok c => s1.setW w { k with pc := .tPc2, cids := c }
  | .tPc2 => s.setW w { k with pc := .relPC2, tPrecommit2 := s.clock }
  | .relPC2 =>
    if 0 < s.preCommit2Sema then
      if k.i < s.sealedSectors.length then
        ({ s.log (some w) k.i (.release .preCommit2) with
            preCommit2Sema := s.preCommit2Sema - 1,
            sealedSectors := s.sealedSectors.set k.i ⟨k.sid.ProofType, k.i, k.cids.Sealed⟩ }).setW w
          { k with pc := .acqCommit, held2 := k.held2 - 1 }
      else s.crash "index out of range"
    else s
  | .acqCommit =>
    if (s.commitSema : Int) < cfg.par.Commit then
      ({ s.log (some w) k.i (.acquire .commit) with commitSema := s.commitSema + 1 }).setW w
        { k with pc := .tCommitStart, heldC := k.heldC + 1 }
    else s
  | .tCommitStart => s.setW w { k with pc := .c1, tCommitStart := s.clock }
  | .c1 =>
    let r := env.SealCommit1 k.sid k.ticket seedValue k.piece k.cids s.world
    let s1 := { s.log (some w) k.i (.sealCommit1 k.sid k.ticket seedValue k.piece k.cids r.1) with
      world := r.2 }
    match r.1 with
    | .error e => s1.setW w (k.fail e)
    | .ok o => s1.setW w { k with pc := .tC1, c1o := o }
  | .tC1 => s.setW w { k with pc := .save, tSealcommit1 := s.clock }
  | .save =>
    if cfg.saveC2inp ≠ "" then
      match env.jsonMarshal ⟨(k.i : Int), k.c1o, cfg.sectorSize⟩ with
      | .error e => s.setW w (k.fail e)
      | .ok b =>
        let r := env.WriteFile cfg.saveC2inp b s.world
        ({ s.log (some w) k.i (.writeFile cfg.saveC2inp b r.1) with world := r.2 }).setW w
          { k with pc := .c2 }
    else s.setW w { k with pc := .c2 }
  | .c2 =>
    if !cfg.skipc2 then
      let r := env.SealCommit2 k.sid k.c1o s.world
      let s1 := { s.log (some w) k.i (.sealCommit2 k.sid k.c1o r.1) with world := r.2 }
      match r.1 with
      | .error e => s1.setW w (k.fail e)
      | .ok p => s1.setW w { k with pc := .tC2, proof := p }
    else s.setW w { k with pc := .tC2, proof := [] }
  | .tC2 => s.setW w { k with pc := .relCommit, tSealcommit2 := s.clock }
  | .relCommit =>
    if 0 < s.commitSema then
      ({ s.log (some w) k.i (.release .commit) with commitSema := s.commitSema - 1 }).setW w
        { k with pc := .verify, heldC := k.heldC - 1 }
    else s
  | .verify =>
    if !cfg.skipc2 then
      let r := env.VerifySeal (k.svi cfg) s.world
      let s1 := { s.log (some w) k.i (.verifySeal (k.svi cfg) r.1) with world := r.2 }
      match r.1 with
      | .error e => s1.setW w (k.fail e)
      | .ok false =>
        s1.setW w (k.fail (.msg ("porep proof for sector " ++ toString k.i ++ " was invalid")))
      | .ok true => s1.setW w { k with pc := .tVerify }
    else s.setW w { k with pc := .tVerify }
  | .tVerify => s.setW w { k with pc := .unsealAcq, tVerifySeal := s.clock }
  | .unsealAcq =>
    if !cfg.skipunseal then
      let r := env.AcquireSector k.sid s.world
      let s1 := { s.log (some w) k.i (.acquireSector k.sid r.1) with world := r.2 }
      match r.1 with
      | .error e => s1.setW w (k.fail (.wrap "acquire unsealed sector for removing" e))
      | .ok p => s1.setW w { k with pc := .unsealRm, path := p }
    else s.setW w { k with pc := .tUnseal }
  | .unsealRm =>
    let r := env.Remove k.path s.world
    let s1 := { s.log (some w) k.i (.remove k.path r.1) with world := r.2 }
    match r.1 with
    | some e => s1.setW w (k.fail (.wrap "removing unsealed sector" e))
    | none => s1.setW w { k with pc := .unseal }
  | .unseal =>
    let r := env.UnsealPiece k.sid 0 (env.unpadded cfg.sectorSize) k.ticket k.cids.Unsealed s.world
    let s1 := { s.log (some w) k.i
      (.unsealPiece k.sid 0 (env.unpadded cfg.sectorSize) k.ticket k.cids.Unsealed r.1) with
      world := r.2 }
    match r.1 with
    | some e => s1.setW w (k.fail e)
    | none => s1.setW w { k with pc := .tUnseal }
  | .tUnseal =>
    match s.sealTimings[k.i]? with
    | none => s.crash "index out of range"
    | some t =>
      ({ s with
          sealTimings := s.sealTimings.set k.i
            { t with PreCommit1 := (k.tPrecommit1 : Int) - (k.tStart : Int),
                     PreCommit2 := (k.tPrecommit2 : Int) - (k.tPc2Start : Int),
                     Commit1 := (k.tSealcommit1 : Int) - (k.tCommitStart : Int),
                     Commit2 := (k.tSealcommit2 : Int) - (k.tSealcommit1 : Int),
                     Verify := (k.tVerifySeal : Int) - (k.tSealcommit2 : Int),
                     Unseal := (s.clock : Int) - (k.tVerifySeal : Int) } }).setW w
        { k with pc := .head, i := k.i + 1 }
  | .send =>
    if s.errs.length < cfg.W then
      ({ s with errs := s.errs ++ [k.sealerr] }).setW w { k with pc := .halted }
    else s
  | .halted => s

/-- What the scheduler may pick: let time pass, run the orchestrator, run worker `w`. -/
inductive Choice where
  | tick
  | main
  | worker (w : Nat)
  deriving DecidableEq, Repr

/-- One step of the machine.  Nothing moves after a panic. -/
def step (cfg : Cfg) (env : Env σ) (c : Choice) (s : State σ) : State σ :=
  match s.panicked with
  | some _ => s
  | none =>
    match c with
    | .tick => { s with clock := s.clock + 1 }
    | .main => mainStep cfg env s
    | .worker w => workerStep cfg env w s

/-- Run a schedule from a state. -/
def run (cfg : Cfg) (env : Env σ) (sched : List Choice) (s : State σ) : State σ :=
  sched.foldl (fun t c => step cfg env c t) s

/-- The state of `runSeals` after the schedule `sched`. -/
def runSeals (cfg : Cfg) (env : Env σ) (w0 : σ) (sched : List Choice) : State σ :=
  run cfg env sched (init cfg w0)

/-! ## Reading the trace -/

/-- Calls of sealing stages and of the storage operations of the unseal stage, as opposed
to gate operations and to writing the Commit2 input file. -/
def Op.isStage : Op → Bool
  | .writeFile _ _ _ => false
  | .acquire _ => false
  | .release _ => false
  | _ => true

/-- The position of a call in the order of the pipeline. -/
def Op.rank : Op → Nat
  | .addPiece _ _ _ _ => 0
  | .sealPreCommit1 _ _ _ _ => 1
  | .sealPreCommit2 _ _ _ => 2
  | .sealCommit1 _ _ _ _ _ _ => 3
  | .sealCommit2 _ _ _ => 4
  | .verifySeal _ _ => 5
  | .acquireSector _ _ => 6
  | .remove _ _ => 7
  | .unsealPiece _ _ _ _ _ _ => 8
  | .writeFile _ _ _ => 4
  | .acquire _ => 0
  | .release _ => 0

/-- The error a goroutine of `runSeals` leaves with after this call, `none` when the call
does not make it leave: the library error as it is for AddPiece, SealCommit1, SealCommit2,
VerifySeal and UnsealPiece, wrapped with the text of main.go 1447, 1457, 1542, 1547 for
the others, and the message of main.go 1531 for a proof judged invalid. -/
def Op.reported : Op → Option GoError
  | .addPiece _ _ _ (.error e) => some e
  | .sealPreCommit1 _ _ _ (.error e) => some (.wrap "commit" e)
  | .sealPreCommit2 _ _ (.error e) => some (.wrap "commit" e)
  | .sealCommit1 _ _ _ _ _ (.error e) => some e
  | .sealCommit2 _ _ (.error e) => some e
  | .verifySeal _ (.error e) => some e
  | .verifySeal v (.ok false) =>
    some (.msg ("porep proof for sector " ++ toString v.SectorID.Number ++ " was invalid"))
  | .acquireSector _ (.error e) => some (.wrap "acquire unsealed sector for removing" e)
  | .remove _ (some e) => some (.wrap "removing unsealed sector" e)
  | .unsealPiece _ _ _ _ _ (some e) => some e
  | _ => none

/-- A call that failed: it returned an error, or the proof was judged invalid. -/
def Op.failed (o : Op) : Bool := o.reported.isSome

/-- The stage calls made for sector `j`, in the order of the trace. -/
def sectorOps (tr : List Event) (j : Nat) : List Op :=
  ((tr.filter (fun e => decide (e.sector = j))).map Event.op).filter Op.isStage

/-- The events of worker `w` for sector `j`. -/
def workerEvents (tr : List Event) (w j : Nat) : List Event :=
  tr.filter (fun e => decide (e.worker = some w ∧ e.sector = j))

/-- The stage calls made by worker `w` for sector `j`, in the order of the trace. -/
def workerOps (tr : List Event) (w j : Nat) : List Op :=
  ((workerEvents tr w j).map Event.op).filter Op.isStage

def Op.isPc1 : Op → Bool
  | .sealPreCommit1 _ _ _ _ => true
  | _ => false

/-- The sectors on which worker `w` called SealPreCommit1, in the order of the trace. -/
def pc1Sectors (tr : List Event) (w : Nat) : List Nat :=
  (tr.filter (fun e => decide (e.worker = some w) && e.op.isPc1)).map Event.sector

/-- The sector reference built at main.go 1398-1404 and 1430-1436 for sector `j`. -/
def Cfg.sid (cfg : Cfg) (env : Env σ) (j : Nat) : SectorRef :=
  ⟨⟨cfg.mid, j⟩, (env.spt cfg.sectorSize).getD 0⟩

/-- The AddPiece call of main.go 1411 for sector `j`, with its result. -/
def addPieceOp (cfg : Cfg) (env : Env σ) (j : Nat) (r : Except GoError PieceInfo) : Op :=
  .addPiece (cfg.sid env j) (env.unpadded cfg.sectorSize) (wrap64 (100 + j)) r

/-- The successful AddPiece calls that produced the slice `pieces`, each with its sector. -/
def addPieceLog (cfg : Cfg) (env : Env σ) (pieces : List PieceInfo) : List (Nat × Op) :=
  pieces.mapIdx (fun j pi => (j, addPieceOp cfg env j (.ok pi)))

/-- The sector and the action of an event. -/
def Event.view (e : Event) : Nat × Op := (e.sector, e.op)

/-- The failed AddPiece call after which `runSeals` returned, if it did so. -/
def State.failedAdd (s : State σ) (cfg : Cfg) (env : Env σ) : List (Nat × Op) :=
  if s.mainPc = .done ∧ s.launched = 0 then
    match s.ret with
    | some ⟨_, _, some e⟩ => [(s.mainI, addPieceOp cfg env s.mainI (.error e))]
    | _ => []
  else []

/-- The events of the orchestrator. -/
def mainEvents (tr : List Event) : List Event :=
  tr.filter (fun e => decide (e.worker = none))

/-- The events of the workers. -/
def workerTrace (tr : List Event) : List Event :=
  tr.filter (fun e => !decide (e.worker = none))

/-- The block of sector indices of worker `w`: the loop of main.go 1427-1429 runs `i` from
`worker * sectorsPerWorker` up to, not including, `start + sectorsPerWorker`. -/
def block (cfg : Cfg) (w : Nat) : List Nat :=
  List.range' (w * (cfg.N / cfg.W)) (cfg.N / cfg.W)

/-- Program points inside the body of the worker loop. -/
def PC.inIter : PC → Bool
  | .idle => false
  | .head => false
  | .send => false
  | .halted => false
  | _ => true

/-- The successful calls of the current iteration when the worker is at a program point,
read from its local variables. -/
def Worker.opsPc1 (k : Worker) : List Op :=
  [.sealPreCommit1 k.sid k.ticket k.piece (.ok k.pc1o)]

def Worker.opsPc2 (k : Worker) : List Op :=
  k.opsPc1 ++ [.sealPreCommit2 k.sid k.pc1o (.ok k.cids)]

def Worker.opsC1 (k : Worker) : List Op :=
  k.opsPc2 ++ [.sealCommit1 k.sid k.ticket seedValue k.piece k.cids (.ok k.c1o)]

def Worker.opsC2 (k : Worker) (cfg : Cfg) : List Op :=
  k.opsC1 ++ (if cfg.skipc2 then [] else [.sealCommit2 k.sid k.c1o (.ok k.proof)])

def Worker.opsVerify (k : Worker) (cfg : Cfg) : List Op :=
  k.opsC2 cfg ++ (if cfg.skipc2 then [] else [.verifySeal (k.svi cfg) (.ok true)])

def Worker.opsAcq (k : Worker) (cfg : Cfg) : List Op :=
  k.opsVerify cfg ++ [.acquireSector k.sid (.ok k.path)]

def Worker.opsRm (k : Worker) (cfg : Cfg) : List Op :=
  k.opsAcq cfg ++ [.remove k.path none]

def Worker.opsUnseal (k : Worker) (cfg : Cfg) (env : Env σ) : List Op :=
  k.opsVerify cfg ++ (if cfg.skipunseal then [] else
    [.acquireSector k.sid (.ok k.path), .remove k.path none,
     .unsealPiece k.sid 0 (env.unpadded cfg.sectorSize) k.ticket k.cids.Unsealed none])

def Worker.doneOps (k : Worker) (cfg : Cfg) (env : Env σ) : PC → List Op
  | .idle => []
  | .head => []
  | .pc1 => []
  | .tPc1 => k.opsPc1
  | .acqPC2 => k.opsPc1
  | .tPc2Start => k.opsPc1
  | .pc2 => k.opsPc1
  | .tPc2 => k.opsPc2
  | .relPC2 => k.opsPc2
  | .acqCommit => k.opsPc2
  | .tCommitStart => k.opsPc2
  | .c1 => k.opsPc2
  | .tC1 => k.opsC1
  | .save => k.opsC1
  | .c2 => k.opsC1
  | .tC2 => k.opsC2 cfg
  | .relCommit => k.opsC2 cfg
  | .verify => k.opsC2 cfg
  | .tVerify => k.opsVerify cfg
  | .unsealAcq => k.opsVerify cfg
  | .unsealRm => k.opsAcq cfg
  | .unseal => k.opsRm cfg
  | .tUnseal => k.opsUnseal cfg env
  | .send => []
  | .halted => []

/-- The rank of the call a worker makes at a program point. -/
def PC.rank : PC → Nat
  | .pc1 => 1
  | .pc2 => 2
  | .c1 => 3
  | .save => 4
  | .c2 => 4
  | .verify => 5
  | .unsealAcq => 6
  | .unsealRm => 7
  | .unseal => 8
  | _ => 0

/-- The program points at which a worker can leave with an error. -/
def PC.canFail : PC → Bool
  | .pc1 => true
  | .pc2 => true
  | .c1 => true
  | .save => true
  | .c2 => true
  | .verify => true
  | .unsealAcq => true
  | .unsealRm => true
  | .unseal => true
  | _ => false

/-- Whether the worker has called SealPreCommit1 for its current sector. -/
def Worker.started (k : Worker) : Nat :=
  if (k.pc.inIter && decide (k.pc ≠ .pc1)) || k.sealerr.isSome then 1 else 0

/-- The first sector index for which the worker has made no call yet. -/
def Worker.bound (k : Worker) : Nat :=
  if k.pc.inIter || k.sealerr.isSome then k.i + 1 else k.i

/-- Program points between `preCommit2Sema <- struct{}{}` and `<-preCommit2Sema`. -/
def PC.in2 : PC → Bool
  | .tPc2Start => true
  | .pc2 => true
  | .tPc2 => true
  | .relPC2 => true
  | _ => false

/-- Program points between `commitSema <- struct{}{}` and `<-commitSema`. -/
def PC.inC : PC → Bool
  | .tCommitStart => true
  | .c1 => true
  | .tC1 => true
  | .save => true
  | .c2 => true
  | .tC2 => true
  | .relCommit => true
  | _ => false

/-- Program points after `sealedSectors[i]` was written in the current iteration. -/
def PC.sealedDone : PC → Bool
  | .acqCommit => true
  | .tCommitStart => true
  | .c1 => true
  | .tC1 => true
  | .save => true
  | .c2 => true
  | .tC2 => true
  | .relCommit => true
  | .verify => true
  | .tVerify => true
  | .unsealAcq => true
  | .unsealRm => true
  | .unseal => true
  | .tUnseal => true
  | _ => false

/-! ## Invariants of the trace of one worker -/

/-- How the calls of a sector end when its worker left with the error `err` at program
point `p`: with the failed call, or with no further call when `json.Marshal` failed. -/
def FailTail (cfg : Cfg) (env : Env σ) (k : Worker) (p : PC) (fl : List Op) (err : GoError) :
    Prop :=
  (p = .save ∧ fl = [] ∧ env.jsonMarshal ⟨(k.i : Int), k.c1o, cfg.sectorSize⟩ = .error err) ∨
  (∃ f, fl = [f] ∧ f.reported = some err ∧ f.rank = p.rank ∧ f.isStage = true)

/-- Sector `j` went through a whole iteration of worker `w`: `k` holds the local variables
of that iteration. -/
def Completed (cfg : Cfg) (env : Env σ) (s : State σ) (w j : Nat) (k : Worker) : Prop :=
  k.i = j ∧ k.sid = cfg.sid env j ∧ (∃ pi, s.pieces[j]? = some pi ∧ k.piece = [pi]) ∧
  k.ticket = env.blake2b cfg.ticketPreimage ∧
  workerOps s.trace w j = k.doneOps cfg env .tUnseal ∧
  s.sealedSectors[j]? = some ⟨k.sid.ProofType, j, k.cids.Sealed⟩

/-- What holds of every event of a run: AddPiece is called by the orchestrator and nothing
else is; SealPreCommit1 and SealCommit1 get the sector reference of their sector, the ticket
`blake2b(ticketPreimage)` and the one piece that AddPiece returned for their sector;
SealCommit2 and VerifySeal are called only when `skipc2` is unset. -/
def EvOK (cfg : Cfg) (env : Env σ) (pieces : List PieceInfo) (e : Event) : Prop :=
  match e.op with
  | .addPiece _ _ _ _ => e.worker = none
  | .sealPreCommit1 sid t ps _ =>
    e.worker ≠ none ∧ sid = cfg.sid env e.sector ∧ t = env.blake2b cfg.ticketPreimage ∧
      ∃ pi, pieces[e.sector]? = some pi ∧ ps = [pi]
  | .sealCommit1 sid t _ ps _ _ =>
    e.worker ≠ none ∧ sid = cfg.sid env e.sector ∧ t = env.blake2b cfg.ticketPreimage ∧
      ∃ pi, pieces[e.sector]? = some pi ∧ ps = [pi]
  | .sealCommit2 _ _ _ => e.worker ≠ none ∧ cfg.skipc2 = false
  | .verifySeal _ _ => e.worker ≠ none ∧ cfg.skipc2 = false
  | _ => e.worker ≠ none

/-! ## A Sealer stub and schedules, for concrete runs -/

/-- The stage at which the stub is told to fail. -/
inductive StubFail where
  | never
  | addPiece (sector : Nat)
  | preCommit1 (sector : Nat)
  | preCommit2 (sector : Nat)
  | commit1 (sector : Nat)
  | verifyFalse (sector : Nat)
  | unseal (sector : Nat)
  deriving DecidableEq, Repr

/-- A Sealer stub with fixed artifacts per sector; its world counts the calls made.  It
fails with the error `boom` where `f` says so. -/
def stubEnv (f : StubFail) : Env Nat :=
  { AddPiece := fun sid sz _ n =>
      (if f = .addPiece sid.ID.Number then .error (.msg "boom")
       else .ok ⟨sz, 1000 + sid.ID.Number⟩, n + 1)
    SealPreCommit1 := fun sid _ _ n =>
      (if f = .preCommit1 sid.ID.Number then .error (.msg "boom")
       else .ok [sid.ID.Number, 1], n + 1)
    SealPreCommit2 := fun sid _ n =>
      (if f = .preCommit2 sid.ID.Number then .error (.msg "boom")
       else .ok ⟨2000 + sid.ID.Number, 3000 + sid.ID.Number⟩, n + 1)
    SealCommit1 := fun sid _ _ _ _ n =>
      (if f = .commit1 sid.ID.Number then .error (.msg "boom")
       else .ok [sid.ID.Number, 3], n + 1)
    SealCommit2 := fun sid _ n => (.ok [sid.ID.Number, 4], n + 1)
    VerifySeal := fun v n => (.ok (decide (f ≠ .verifyFalse v.SectorID.Number)), n + 1)
    AcquireSector := fun sid n => (.ok (String.mk (List.replicate sid.ID.Number 'u')), n + 1)
    Remove := fun _ n => (none, n + 1)
    UnsealPiece := fun sid _ _ _ _ n =>
      (if f = .unseal sid.ID.Number then some (.msg "boom") else none, n + 1)
    WriteFile := fun _ _ n => (none, n + 1)
    spt := fun _ => some 8
    blake2b := fun b => b
    unpadded := fun s => s - s / 128
    jsonMarshal := fun c => .ok c.Phase1Out }

/-- Two sectors, `w` workers, gates of capacity one, no stage skipped. -/
def stubCfg (n w : Int) : Cfg :=
  { numSectors := n, par := ⟨w, 1, 1⟩, mid := 1000, sectorSize := 2048, ticketPreimage := [7],
    saveC2inp := "", skipc2 := false, skipunseal := false }

/-- The schedule that lets the orchestrator, the clock and the workers `0 .. w-1` move in
turn, `rounds` times over. -/
def roundRobin (w : Nat) : Nat → List Choice
  | 0 => []
  | rounds + 1 => (Choice.main :: Choice.tick :: (List.range w).map Choice.worker) ++
      roundRobin w rounds

/-- One sector, one worker, a commit gate of capacity zero. -/
def zeroGateCfg : Cfg := { stubCfg 1 1 with par := ⟨1, 1, 0⟩ }

/-- The stub with a sector size that has no seal proof type: the Go helper `spt` panics. -/
def noSptEnv : Env Nat := { stubEnv .never with spt := fun _ => none }

/-- Three sectors, two workers, a PreCommit2 gate of negative capacity. -/
def negGateCfg : Cfg := { stubCfg 3 2 with par := ⟨2, -1, 1⟩ }

/-- A list of calls in pipeline order in which only the last call may have failed. -/
def GoodLog (l : List Op) : Prop :=
  l.Pairwise (fun a b => a.rank < b.rank ∧ a.failed = false)

/-- The loop of the worker that owns sector `j` has moved past `j`. -/
def State.processed (s : State σ) (j : Nat) : Prop :=
  ∃ w, w < s.launched ∧ w * s.sectorsPerWorker ≤ j ∧ j < (s.workers w).i

/-- The local variables `k` are those of an iteration for sector `j`. -/
def IterOf (cfg : Cfg) (env : Env σ) (s : State σ) (j : Nat) (k : Worker) : Prop :=
  k.i = j ∧ k.sid = cfg.sid env j ∧ (∃ pi, s.pieces[j]? = some pi ∧ k.piece = [pi]) ∧
  k.ticket = env.blake2b cfg.ticketPreimage

/-- One sector, one worker, Commit2 and Verify skipped. -/
def stubSkipC2 : Cfg :=
  { numSectors := 1, par := ⟨1, 1, 1⟩, mid := 1000, sectorSize := 2048, ticketPreimage := [7],
    saveC2inp := "", skipc2 := true, skipunseal := false }

/-- The error `err` is what a goroutine of `runSeals` leaves with after a failed call of the
trace `tr`, or it is the error of `json.Marshal` (main.go 1493-1496). -/
def Reported (env : Env σ) (tr : List Event) (err : GoError) : Prop :=
  (∃ e ∈ tr, e.op.isStage = true ∧ e.op.reported = some err) ∨
  (∃ c, env.jsonMarshal c = .error err)

/-! ## Runs in which every call succeeds -/

/-- Every operation of the environment succeeds, on every input and in every world. -/
structure AllSucceed (env : Env σ) : Prop where
  addPiece : ∀ sid sz seed w, ∃ pi, (env.AddPiece sid sz seed w).1 = .ok pi
  preCommit1 : ∀ sid t ps w, ∃ o, (env.SealPreCommit1 sid t ps w).1 = .ok o
  preCommit2 : ∀ sid o w, ∃ c, (env.SealPreCommit2 sid o w).1 = .ok c
  commit1 : ∀ sid t sd ps c w, ∃ o, (env.SealCommit1 sid t sd ps c w).1 = .ok o
  commit2 : ∀ sid o w, ∃ pr, (env.SealCommit2 sid o w).1 = .ok pr
  verify : ∀ v w, (env.VerifySeal v w).1 = .ok true
  acquire : ∀ sid w, ∃ path, (env.AcquireSector sid w).1 = .ok path
  remove : ∀ path w, (env.Remove path w).1 = none
  unsealPiece : ∀ sid o sz t c w, (env.UnsealPiece sid o sz t c w).1 = none
  marshal : ∀ c, ∃ b, env.jsonMarshal c = .ok b

/-- The position of a program point in the body of the worker loop. -/
def PC.idx : PC → Nat
  | .head => 0
  | .pc1 => 1
  | .tPc1 => 2
  | .acqPC2 => 3
  | .tPc2Start => 4
  | .pc2 => 5
  | .tPc2 => 6
  | .relPC2 => 7
  | .acqCommit => 8
  | .tCommitStart => 9
  | .c1 => 10
  | .tC1 => 11
  | .save => 12
  | .c2 => 13
  | .tC2 => 14
  | .relCommit => 15
  | .verify => 16
  | .tVerify => 17
  | .unsealAcq => 18
  | .unsealRm => 19
  | .unseal => 20
  | .tUnseal => 21
  | _ => 0

/-- A bound on the number of steps a worker has yet to make. -/
def Worker.todo (k : Worker) : Nat :=
  match k.pc with
  | .idle => 0
  | .halted => 0
  | .send => 1
  | p => (k.stop - k.i) * 30 + (30 - p.idx)

/-- What the launch of one worker costs in `State.todo`. -/
def Cfg.budget (cfg : Cfg) : Nat := cfg.N / cfg.W * 30 + 31

/-- A bound on the number of steps the orchestrator has yet to make, launches included. -/
def mainTodo (cfg : Cfg) (s : State σ) : Nat :=
  match s.mainPc with
  | .apHead => (cfg.N - s.mainI) * 3 + 3 + (cfg.W * cfg.budget + cfg.W + 3)
  | .apCall => (cfg.N - s.mainI) * 3 + 2 + (cfg.W * cfg.budget + cfg.W + 3)
  | .apDone => (cfg.N - s.mainI) * 3 + 1 + (cfg.W * cfg.budget + cfg.W + 3)
  | .mkErrs => cfg.W * cfg.budget + cfg.W + 3
  | .spawn => (cfg.W - s.launched) * cfg.budget + cfg.W + 2
  | .collect => cfg.W - s.received + 1
  | .done => 0

/-- The sum of `f 0 .. f (n-1)`. -/
def sumOver (n : Nat) (f : Nat → Nat) : Nat := ((List.range n).map f).sum

/-- A bound on the number of steps of the run that change the state. -/
def State.todo (cfg : Cfg) (s : State σ) : Nat :=
  mainTodo cfg s + sumOver s.launched (fun w => (s.workers w).todo)

/-- The number of workers that have sent their outcome. -/
def State.haltedCount (s : State σ) : Nat :=
  sumOver s.launched (fun w => if (s.workers w).pc = .halted then 1 else 0)

/-- The number of slots of a gate the workers hold. -/
def State.sum2 (s : State σ) : Nat := sumOver s.launched (fun w => (s.workers w).held2)

def State.sumC (s : State σ) : Nat := sumOver s.launched (fun w => (s.workers w).heldC)

/-- Worker `w` is neither blocked on a channel nor at its end. -/
def WEnabled (cfg : Cfg) (s : State σ) (w : Nat) : Prop :=
  match (s.workers w).pc with
  | .idle => False
  | .halted => False
  | .acqPC2 => (s.preCommit2Sema : Int) < cfg.par.PreCommit2
  | .relPC2 => 0 < s.preCommit2Sema
  | .acqCommit => (s.commitSema : Int) < cfg.par.Commit
  | .relCommit => 0 < s.commitSema
  | .send => s.errs.length < cfg.W
  | _ => True

instance (cfg : Cfg) (s : State σ) (w : Nat) : Decidable (WEnabled cfg s w) := by
  unfold WEnabled; split <;> exact inferInstance

/-- The number of launched workers between `preCommit2Sema <- struct{}{}` and
`<-preCommit2Sema`. -/
def State.holders2 (s : State σ) : Nat :=
  sumOver s.launched (fun w => if (s.workers w).pc.in2 then 1 else 0)

/-- The number of launched workers between `commitSema <- struct{}{}` and `<-commitSema`. -/
def State.holdersC (s : State σ) : Nat :=
  sumOver s.launched (fun w => if (s.workers w).pc.inC then 1 else 0)

/-- Two workers, one sector each; the first is made to fail at once, the orchestrator
receives its error while the second has not started. -/
def earlyReturn : List Choice :=
  List.replicate 11 .main ++ List.replicate 3 (.worker 0) ++ [.main]

/-- The schedule `earlyReturn` without its last step: the error of the first worker is in
the channel, the orchestrator is about to receive it, the second worker has not started. -/
def earlyCollect : List Choice :=
  List.replicate 11 .main ++ List.replicate 3 (.worker 0)

/-- What holds of the arguments of every event: SealPreCommit2, SealCommit2 and UnsealPiece
get the sector reference of their sector, VerifySeal the sector id of its sector; VerifySeal
and UnsealPiece get the ticket `blake2b(ticketPreimage)`; UnsealPiece starts at offset 0. -/
def EvArgs (cfg : Cfg) (env : Env σ) (e : Event) : Prop :=
  match e.op with
  | .sealPreCommit2 sid _ _ => sid = cfg.sid env e.sector
  | .sealCommit2 sid _ _ => sid = cfg.sid env e.sector
  | .verifySeal svi _ =>
    svi.SectorID = ⟨cfg.mid, e.sector⟩ ∧ svi.Randomness = env.blake2b cfg.ticketPreimage ∧
      svi.InteractiveRandomness = seedValue
  | .unsealPiece sid off _ t _ _ =>
    sid = cfg.sid env e.sector ∧ off = 0 ∧ t = env.blake2b cfg.ticketPreimage
  | _ => True

/-- The gate a worker holds while it makes a call: the PreCommit2 gate for SealPreCommit2,
the commit gate for SealCommit1, for writing the saved Commit2 input and for SealCommit2. -/
def Op.gateOf : Op → Option Gate
  | .sealPreCommit2 _ _ _ => some .preCommit2
  | .sealCommit1 _ _ _ _ _ _ => some .commit
  | .writeFile _ _ _ => some .commit
  | .sealCommit2 _ _ _ => some .commit
  | _ => none

def Op.isGate : Op → Bool
  | .acquire _ => true
  | .release _ => true
  | _ => false

/-- One sector, one worker, the Commit2 input saved to a file. -/
def stubSave : Cfg :=
  { numSectors := 1, par := ⟨1, 1, 1⟩, mid := 1000, sectorSize := 2048, ticketPreimage := [7],
    saveC2inp := "c2.json", skipc2 := false, skipunseal := false }

/-- Program points of the unseal stage, after the reading `verifySeal := time.Now()`. -/
def PC.inUnseal : PC → Bool
  | .unsealAcq => true
  | .unsealRm => true
  | .unseal => true
  | .tUnseal => true
  | _ => false

/-- While worker `w` is in the unseal stage, the reading `verifySeal` is not later than
any call of that stage for the current sector, and none of them is later than now. -/
def WTimeU (s : State σ) (w : Nat) : Prop :=
  (s.workers w).pc.inUnseal = true →
    (s.workers w).tVerifySeal ≤ s.clock ∧
    ∀ e ∈ s.trace, e.worker = some w → e.sector = (s.workers w).i → 6 ≤ e.op.rank →
      (s.workers w).tVerifySeal ≤ e.time ∧ e.time ≤ s.clock

/-! ## The `sealing` command after its set-up (main.go 1142-1336) -/

variable {τ : Type}

/-- A sector of the pre-seal file (`genesis.PreSeal`), as far as the command reads it. -/
structure PreSeal where
  CommR : Cid
  SectorID : Nat
  ProofType : Nat
  deriving DecidableEq, Repr

/-- Go `saproof2.WinningPoStVerifyInfo` and `saproof2.WindowPoStVerifyInfo`: the two types
have the same four fields. -/
structure PoStVerifyInfo where
  Randomness : Bytes
  Proofs : List Bytes
  ChallengedSectors : List SectorInfo
  Prover : Nat
  deriving DecidableEq, Repr

/-- The external collaborators of the command over a world state `τ`: the clock
(`time.Now`), `ioutil.ReadFile`, `json.Unmarshal` of the pre-seal file (a list of miner
addresses with their sectors), `rand.Read`, the proof-type tables, the Sealer and the
proof verifier. -/
structure CmdEnv (τ : Type) where
  now : τ → Int
  ReadFile : String → τ → Except GoError Bytes × τ
  Unmarshal : Bytes → Except GoError (List (String × List PreSeal))
  randRead : τ → Bytes × τ
  spt : Nat → Option Nat
  RegisteredWinningPoStProof : Nat → Except GoError Nat
  GenerateWinningPoStSectorChallenge : Nat → Nat → Bytes → Nat → τ →
    Except GoError (List Nat) × τ
  GenerateWinningPoSt : Nat → List SectorInfo → Bytes → τ → Except GoError (List Bytes) × τ
  VerifyWinningPoSt : PoStVerifyInfo → τ → Except GoError Bool × τ
  GenerateWindowPoSt : Nat → List SectorInfo → Bytes → τ → Except GoError (List Bytes) × τ
  VerifyWindowPoSt : PoStVerifyInfo → τ → Except GoError Bool × τ

/-- What the flags and the set-up of the command (main.go 1064-1140) have fixed when the
modelled part starts: `robench` is the flag `benchmark-existing-sectorbuilder`, `sbdir` the
sector directory, `maddr` and `mid` the miner address and its id, `sectorNumber` the flag
`num-sectors`, `skipc2` the flag `skip-commit2`. -/
structure CmdArgs where
  robench : String
  sbdir : String
  maddr : String
  mid : Nat
  sectorSize : Nat
  sectorNumber : Int
  skipc2 : Bool
  deriving DecidableEq, Repr

/-- What the PoSt benchmark does that can be observed from outside: a call of the proof
verifier, with its argument and with what it returned, and a line written with
`log.Error`. -/
inductive CmdEvent where
  | verifyWinning (info : PoStVerifyInfo) (res : Except GoError Bool)
  | verifyWindow (info : PoStVerifyInfo) (res : Except GoError Bool)
  | logError (line : String)
  deriving DecidableEq, Repr

/-- How the command ends: with a panic, with an error, or with the report `bo` that it
prints.  `trace` holds the calls of the proof verifier and the lines written with
`log.Error`, in the order in which the command made them; `reachedPost` tells whether the
command entered the PoSt benchmark (it is set by `sealBench`). -/
structure CmdResult where
  panicked : Option String
  err : Option GoError
  report : Option BenchResults
  trace : List CmdEvent
  reachedPost : Bool
  deriving DecidableEq, Repr

def CmdResult.failed (e : GoError) : CmdResult := ⟨none, some e, none, [], false⟩

def CmdResult.panic (m : String) : CmdResult := ⟨some m, none, none, [], false⟩

/-- The result `r` of what the command goes on to do after the events `evs`. -/
def CmdResult.after (evs : List CmdEvent) (r : CmdResult) : CmdResult :=
  { r with trace := evs ++ r.trace }

/-- The lines written with `log.Error` in a list of events, in order. -/
def logLines (tr : List CmdEvent) : List String :=
  tr.filterMap (fun ev => match ev with
    | .logError l => some l
    | _ => none)

/-- The lines the command wrote with `log.Error`, in order. -/
def CmdResult.log (r : CmdResult) : List String := logLines r.trace

/-- What the command returns and prints, without its trace. -/
def CmdResult.core (r : CmdResult) : Option String × Option GoError × Option BenchResults :=
  (r.panicked, r.err, r.report)

/-- The window PoSt part of the benchmark (main.go 1267-1322), from the reading
`verifyWinningPost2` on; `bo` holds the winning PoSt durations already. -/
def windowPhase (env : CmdEnv τ) (a : CmdArgs) (sealedSectors : List SectorInfo)
    (challenge : Bytes) (bo : BenchResults) (verifyWinningPost2 : Int) (w0 : τ) : CmdResult :=
  let r1 := env.GenerateWindowPoSt a.mid sealedSectors challenge w0
  match r1.1 with
  | .error e => .failed e
  | .ok wproof1 =>
    let windowpost1 := env.now r1.2
    let r2 := env.GenerateWindowPoSt a.mid sealedSectors challenge r1.2
    match r2.1 with
    | .error e => .failed e
    | .ok wproof2 =>
      let windowpost2 := env.now r2.2
      let r3 := env.VerifyWindowPoSt ⟨challenge, wproof1, sealedSectors, a.mid⟩ r2.2
      CmdResult.after [.verifyWindow ⟨challenge, wproof1, sealedSectors, a.mid⟩ r3.1]
        (match r3.1 with
         | .error e => .failed e
         | .ok ok1 =>
           CmdResult.after
             (if ok1 then [] else [.logError "window post verification failed"])
             (let verifyWindowpost1 := env.now r3.2
              let r4 := env.VerifyWindowPoSt ⟨challenge, wproof2, sealedSectors, a.mid⟩ r3.2
              CmdResult.after [.verifyWindow ⟨challenge, wproof2, sealedSectors, a.mid⟩ r4.1]
                (match r4.1 with
                 | .error e => .failed e
                 | .ok ok2 =>
                   CmdResult.after
                     (if ok2 then [] else [.logError "window post verification failed"])
                     (let verifyWindowpost2 := env.now r4.2
                      ⟨none, none, some { bo with
                         PostWindowProofCold := windowpost1 - verifyWinningPost2
                         PostWindowProofHot := windowpost2 - windowpost1
                         VerifyWindowPostCold := verifyWindowpost1 - windowpost2
                         VerifyWindowPostHot := verifyWindowpost2 - verifyWindowpost1 },
                       [], false⟩))))

/-- The PoSt benchmark of the command (main.go 1200-1322), run when `skip-commit2` is
unset: winning PoSt candidates, two winning proofs, their verification, then the window
PoSt part. -/
def postPhase (env : CmdEnv τ) (a : CmdArgs) (sealedSectors : List SectorInfo)
    (challenge : Bytes) (bo : BenchResults) (w0 : τ) : CmdResult :=
  let beforePost := env.now w0
  match env.spt a.sectorSize with
  | none => .panic "spt"
  | some p =>
    match env.RegisteredWinningPoStProof p with
    | .error e => .failed e
    | .ok wipt =>
      let r1 := env.GenerateWinningPoStSectorChallenge wipt a.mid challenge
        sealedSectors.length w0
      match r1.1 with
      | .error e => .failed e
      | .ok fcandidates =>
        match fcandidates.mapM (fun i => sealedSectors[i]?) with
        | none => .panic "index out of range"
        | some candidates =>
          let gencandidates := env.now r1.2
          let r2 := env.GenerateWinningPoSt a.mid candidates challenge r1.2
          match r2.1 with
          | .error e => .failed e
          | .ok proof1 =>
            let winningpost1 := env.now r2.2
            let r3 := env.GenerateWinningPoSt a.mid candidates challenge r2.2
            match r3.1 with
            | .error e => .failed e
            | .ok proof2 =>
              let winnningpost2 := env.now r3.2
              let r4 := env.VerifyWinningPoSt ⟨challenge, proof1, candidates, a.mid⟩ r3.2
              CmdResult.after [.verifyWinning ⟨challenge, proof1, candidates, a.mid⟩ r4.1]
                (match r4.1 with
                 | .error e => .failed e
                 | .ok ok1 =>
                   CmdResult.after (if ok1 then [] else [.logError "post verification failed"])
                     (let verifyWinningPost1 := env.now r4.2
                      let r5 := env.VerifyWinningPoSt ⟨challenge, proof2, candidates, a.mid⟩ r4.2
                      CmdResult.after
                        [.verifyWinning ⟨challenge, proof2, candidates, a.mid⟩ r5.1]
                        (match r5.1 with
                         | .error e => .failed e
                         | .ok ok2 =>
                           CmdResult.after
                             (if ok2 then [] else [.logError "post verification failed"])
                             (let verifyWinningPost2 := env.now r5.2
                              windowPhase env a sealedSectors challenge
                                { bo with
                                  PostGenerateCandidates := gencandidates - beforePost
                                  PostWinningProofCold := winningpost1 - gencandidates
                                  PostWinningProofHot := winnningpost2 - winningpost1
                                  VerifyWinningPostCold := verifyWinningPost1 - winnningpost2
                                  VerifyWinningPostHot :=
                                    verifyWinningPost2 - verifyWinningPost1 }
                                verifyWinningPost2 r5.2))))

/-- The sealing step of the command (main.go 1147-1186): the timings and the sealed
sectors, from `runSeals` (whose returned values are `rs`) or, with the flag
`benchmark-existing-sectorbuilder`, the sealed sectors of the pre-seal file, the timings
staying nil. -/
def sealOrLoad (env : CmdEnv τ) (a : CmdArgs) (rs : RunResult) (w0 : τ) :
    Except GoError (List SealingResult × List SectorInfo × τ) :=
  if a.robench = "" then
    match rs.err with
    | some e => .error (.wrap "failed to run seals" e)
    | none => .ok (rs.timings.getD [], rs.sealed.getD [], w0)
  else
    let r := env.ReadFile (a.sbdir ++ "/pre-seal-" ++ a.maddr ++ ".json") w0
    match r.1 with
    | .error e => .error e
    | .ok fdata =>
      match env.Unmarshal fdata with
      | .error e => .error e
      | .ok genmm =>
        match genmm.lookup a.maddr with
        | none => .error (.msg "preseal file didnt have expected miner in it")
        | some sectors =>
          .ok ([], sectors.map (fun s => ⟨s.ProofType, s.SectorID, s.CommR⟩), r.2)

/-- The action of the `sealing` command from main.go 1142 to the report: seal or load,
sum the sealing times, draw the challenge, run the PoSt benchmark unless `skip-commit2`
is set. -/
def sealBench (env : CmdEnv τ) (a : CmdArgs) (rs : RunResult) (w0 : τ) : CmdResult :=
  match sealOrLoad env a rs w0 with
  | .error e => .failed e
  | .ok (sealTimings, sealedSectors, w1) =>
    let bo : BenchResults :=
      { SectorSize := a.sectorSize, SectorNumber := a.sectorNumber,
        SealingSum := SealingResult.zero, SealingResults := sealTimings,
        PostGenerateCandidates := 0, PostWinningProofCold := 0, PostWinningProofHot := 0,
        VerifyWinningPostCold := 0, VerifyWinningPostHot := 0, PostWindowProofCold := 0,
        PostWindowProofHot := 0, VerifyWindowPostCold := 0, VerifyWindowPostHot := 0 }
    match bo.SumSealingTime with
    | (some e, _) => .failed e
    | (none, bo1) =>
      let c := env.randRead w1
      if a.skipc2 then ⟨none, none, some bo1, [], false⟩
      else { postPhase env a sealedSectors c.1 bo1 c.2 with reachedPost := true }

/-- The environment in which every PoSt verification that returns a verdict returns
`true`, all else being equal. -/
def CmdEnv.accept (env : CmdEnv τ) : CmdEnv τ :=
  { env with
    VerifyWinningPoSt := fun v w =>
      ((env.VerifyWinningPoSt v w).1.map (fun _ => true), (env.VerifyWinningPoSt v w).2)
    VerifyWindowPoSt := fun v w =>
      ((env.VerifyWindowPoSt v w).1.map (fun _ => true), (env.VerifyWindowPoSt v w).2) }

/-- A stub of the collaborators of the command: the clock is the world, every operation
takes one unit of time, the verification called at time `bad` returns the verdict `false`
and every other one `true`. -/
def stubCmd (bad : Option Nat) : CmdEnv Nat :=
  { now := fun w => w
    ReadFile := fun _ w => (.ok [1], w + 1)
    Unmarshal := fun _ => .ok [("t01000", [⟨3000, 0, 8⟩, ⟨3001, 1, 8⟩])]
    randRead := fun w => ([9], w + 1)
    spt := fun _ => some 8
    RegisteredWinningPoStProof := fun _ => .ok 3
    GenerateWinningPoStSectorChallenge := fun _ _ _ _ w => (.ok [0], w + 1)
    GenerateWinningPoSt := fun _ _ _ w => (.ok [[5]], w + 1)
    VerifyWinningPoSt := fun _ w => (.ok (decide (bad ≠ some w)), w + 1)
    GenerateWindowPoSt := fun _ _ _ w => (.ok [[6]], w + 1)
    VerifyWindowPoSt := fun _ w => (.ok (decide (bad ≠ some w)), w + 1) }

/-- The line that the command is to log after an event: "post verification failed" after
a VerifyWinningPoSt call that returned `false` without error, "window post verification
failed" after such a VerifyWindowPoSt call, none after any other event. -/
def CmdEvent.line : CmdEvent → Option String
  | .verifyWinning _ (.ok false) => some "post verification failed"
  | .verifyWindow _ (.ok false) => some "window post verification failed"
  | _ => none

/-- Arguments of a run that seals two sectors itself. -/
def stubArgs : CmdArgs :=
  { robench := "", sbdir := "/tmp/bench", maddr := "t01000", mid := 1000, sectorSize := 2048,
    sectorNumber := 2, skipc2 := false }

/-- Arguments of a run on an existing sector directory. -/
def stubExisting : CmdArgs := { stubArgs with robench := "/data/sb" }

/-- What `runSeals` returned in the stub run of two sectors. -/
def stubSealed : RunResult :=
  ⟨some [⟨2, 2, 2, 2, 3, 3, 4⟩, ⟨2, 2, 2, 2, 3, 3, 4⟩], some [⟨8, 0, 3000⟩, ⟨8, 1, 3001⟩], none⟩

/-- A report whose totals are not zero and whose one timing record does not match its two
sectors. -/
def staleBench : BenchResults :=
  { overflowBench with SealingSum := ⟨1, 2, 3, 4, 5, 6, 7⟩,
                       SealingResults := [⟨10, 20, 30, 40, 50, 60, 70⟩] }

/-- A report with totals that are not zero and no timing record. -/
def emptyBench : BenchResults :=
  { overflowBench with SealingSum := ⟨1, 2, 3, 4, 5, 6, 7⟩, SealingResults := [] }

/-! ## Throughput (main.go 1668-1674) -/

/-- The number that Go `bps` formats: `sectorSize * sectorNum * 10^9 / d` computed with
`big.Int`, or `none` when the call panics.  The arguments are a uint64, an int and the
int64 `d.Nanoseconds()`; `SetUint64` and `big.NewInt` convert them exactly,
`time.Second.Nanoseconds()` is `10^9`, `big.Int.Mul` is exact, and `big.Int.Div` is the
Euclidean division, which panics on a zero divisor. -/
def bpsValue (sectorSize : Nat) (sectorNum : Int) (d : Int) : Option Int :=
  let bdata : Int := (sectorSize : Int)
  let bdata := bdata * sectorNum
  let bdata := bdata * 1000000000
  if d = 0 then none else some (Int.ediv bdata d)

/-- Go `bps`: the throughput formatted by `types.SizeStr`, a function of another package
that is the parameter `SizeStr` here, followed by "/s"; the error stands for the panic
of `big.Int.Div`. -/
def bps (SizeStr : Int → String) (sectorSize : Nat) (sectorNum : Int) (d : Int) :
    Except String String :=
  match bpsValue sectorSize sectorNum d with
  | none => .error "division by zero"
  | some v => .ok (SizeStr v ++ "/s")

/-! ## The operations of one sector, gate operations included -/

/-- The kind of an observable action: which operation was called, or which gate was
acquired or released. -/
inductive OpName where
  | addPiece
  | sealPreCommit1
  | acquirePreCommit2
  | sealPreCommit2
  | releasePreCommit2
  | acquireCommit
  | sealCommit1
  | writeFile
  | sealCommit2
  | releaseCommit
  | verifySeal
  | acquireSector
  | remove
  | unsealPiece
  deriving DecidableEq, Repr

def Op.name : Op → OpName
  | .addPiece _ _ _ _ => .addPiece
  | .sealPreCommit1 _ _ _ _ => .sealPreCommit1
  | .sealPreCommit2 _ _ _ => .sealPreCommit2
  | .sealCommit1 _ _ _ _ _ _ => .sealCommit1
  | .sealCommit2 _ _ _ => .sealCommit2
  | .verifySeal _ _ => .verifySeal
  | .acquireSector _ _ => .acquireSector
  | .remove _ _ => .remove
  | .unsealPiece _ _ _ _ _ _ => .unsealPiece
  | .writeFile _ _ _ => .writeFile
  | .acquire .preCommit2 => .acquirePreCommit2
  | .acquire .commit => .acquireCommit
  | .release .preCommit2 => .releasePreCommit2
  | .release .commit => .releaseCommit

/-- The actions of the body of the worker loop (main.go 1443-1563) in the order of the
code, for a run that saves the Commit2 input (`save`), that runs SealCommit2 and VerifySeal
(`c2`) and that runs the unseal stage (`uns`). -/
def pipelineNames (save c2 uns : Bool) : List OpName :=
  [.sealPreCommit1, .acquirePreCommit2, .sealPreCommit2, .releasePreCommit2, .acquireCommit,
    .sealCommit1] ++
  (if save then [.writeFile] else []) ++ (if c2 then [.sealCommit2] else []) ++
  [.releaseCommit] ++ (if c2 then [.verifySeal] else []) ++
  (if uns then [.acquireSector, .remove, .unsealPiece] else [])

/-- The actions of the body of the worker loop under the flags of `cfg`. -/
def Cfg.pipeline (cfg : Cfg) : List OpName :=
  pipelineNames (decide (cfg.saveC2inp ≠ "")) (!cfg.skipc2) (!cfg.skipunseal)

/-- The number of actions of the loop body that lie before a program point. -/
def PC.made (save c2 uns : Bool) : PC → Nat
  | .idle => 0
  | .head => 0
  | .pc1 => 0
  | .tPc1 => 1
  | .acqPC2 => 1
  | .tPc2Start => 2
  | .pc2 => 2
  | .tPc2 => 3
  | .relPC2 => 3
  | .acqCommit => 4
  | .tCommitStart => 5
  | .c1 => 5
  | .tC1 => 6
  | .save => 6
  | .c2 => 6 + save.toNat
  | .tC2 => 6 + save.toNat + c2.toNat
  | .relCommit => 6 + save.toNat + c2.toNat
  | .verify => 7 + save.toNat + c2.toNat
  | .tVerify => 7 + save.toNat + c2.toNat + c2.toNat
  | .unsealAcq => 7 + save.toNat + c2.toNat + c2.toNat
  | .unsealRm => 8 + save.toNat + c2.toNat + c2.toNat
  | .unseal => 9 + save.toNat + c2.toNat + c2.toNat
  | .tUnseal => 7 + save.toNat + c2.toNat + c2.toNat + 3 * uns.toNat
  | .send => 0
  | .halted => 0

def Cfg.made (cfg : Cfg) (p : PC) : Nat :=
  p.made (decide (cfg.saveC2inp ≠ "")) (!cfg.skipc2) (!cfg.skipunseal)

/-- The kinds of the actions of worker `w` for sector `j`, gate operations and the writing
of the Commit2 input included, in the order of the trace. -/
def wnames (tr : List Event) (w j : Nat) : List OpName :=
  (workerEvents tr w j).map (fun e => e.op.name)

/-- A state in which the orchestrator is done and no worker was launched. -/
def Quiet (s : State σ) : Prop :=
  s.mainPc = .done ∧ ∀ w, (s.workers w).pc = .idle

/-- Facts about the local variables of worker `w`. -/
structure WLocal (cfg : Cfg) (env : Env σ) (s : State σ) (w : Nat) : Prop where
  stop_eq : (s.workers w).stop = w * s.sectorsPerWorker + s.sectorsPerWorker
  lo : w * s.sectorsPerWorker ≤ (s.workers w).i
  hi : (s.workers w).i ≤ (s.workers w).stop
  hi_iter : (s.workers w).pc.inIter = true → (s.workers w).i < (s.workers w).stop
  not_idle : (s.workers w).pc ≠ .idle
  locals : (s.workers w).pc.inIter = true →
    (∃ pi, s.pieces[(s.workers w).i]? = some pi ∧ (s.workers w).piece = [pi]) ∧
    (s.workers w).sid = cfg.sid env (s.workers w).i ∧
    (s.workers w).ticket = env.blake2b cfg.ticketPreimage
  finished : ((s.workers w).pc = .send ∨ (s.workers w).pc = .halted) →
    (s.workers w).sealerr = none → (s.workers w).i = (s.workers w).stop
  running : (s.workers w).pc ≠ .send → (s.workers w).pc ≠ .halted → (s.workers w).sealerr = none
  unsealing : ((s.workers w).pc = .unsealRm ∨ (s.workers w).pc = .unseal) →
    cfg.skipunseal = false
  proofEmpty : cfg.skipc2 = true → (s.workers w).proof = []
  held2 : (s.workers w).sealerr = none →
    (s.workers w).held2 = if (s.workers w).pc.in2 then 1 else 0
  heldC : (s.workers w).sealerr = none →
    (s.workers w).heldC = if (s.workers w).pc.inC then 1 else 0
  failed_lt : (s.workers w).sealerr.isSome = true → (s.workers w).i < (s.workers w).stop

/-- Facts about the orchestrator and the shared slices. -/
structure MInv (cfg : Cfg) (env : Env σ) (s : State σ) : Prop where
  lenT : s.sealTimings.length = cfg.N
  lenS : s.sealedSectors.length = cfg.N
  pieces_len : s.pieces.length = if s.mainPc = .apDone then s.mainI + 1 else s.mainI
  mainI_le : s.mainI ≤ cfg.N
  at_call : (s.mainPc = .apCall ∨ s.mainPc = .apDone) → s.mainI < cfg.N
  sid : s.mainPc = .apCall → s.mainSid = cfg.sid env s.mainI
  after : (s.mainPc = .mkErrs ∨ s.mainPc = .spawn ∨ s.mainPc = .collect ∨ 0 < s.launched) →
    s.mainI = cfg.N
  launched0 : (s.mainPc = .apHead ∨ s.mainPc = .apCall ∨ s.mainPc = .apDone ∨
    s.mainPc = .mkErrs) → s.launched = 0
  spw : (s.mainPc = .spawn ∨ s.mainPc = .collect ∨ 0 < s.launched) →
    0 < cfg.W ∧ s.sectorsPerWorker = cfg.N / cfg.W
  launched_le : s.launched ≤ cfg.W
  collect_all : s.mainPc = .collect → s.launched = cfg.W
  done_all : s.mainPc = .done → s.launched = 0 ∨ s.launched = cfg.W
  idle : ∀ w, s.launched ≤ w → s.workers w = Worker.idle
  ret_none : s.mainPc ≠ .done → s.ret = none
  ret_some : s.mainPc = .done → s.ret.isSome = true

/-- The orchestrator and the local invariant of every launched worker. -/
def Inv1 (cfg : Cfg) (env : Env σ) (s : State σ) : Prop :=
  MInv cfg env s ∧ ∀ w, w < s.launched → WLocal cfg env s w

/-- Facts about the events of worker `w`. -/
structure WTrace (cfg : Cfg) (env : Env σ) (s : State σ) (w : Nat) : Prop where
  range : ∀ e ∈ s.trace, e.worker = some w →
    w * s.sectorsPerWorker ≤ e.sector ∧ e.sector < (s.workers w).bound
  cur : (s.workers w).pc.inIter = true →
    workerOps s.trace w (s.workers w).i = (s.workers w).doneOps cfg env (s.workers w).pc
  failed : ∀ err, (s.workers w).sealerr = some err → ∃ p fl, p.canFail = true ∧
    workerOps s.trace w (s.workers w).i = (s.workers w).doneOps cfg env p ++ fl ∧
    FailTail cfg env (s.workers w) p fl err
  starts : pc1Sectors s.trace w = List.range' (w * s.sectorsPerWorker)
    ((s.workers w).i - w * s.sectorsPerWorker + (s.workers w).started)
  sealed : (s.workers w).pc.sealedDone = true → s.sealedSectors[(s.workers w).i]? =
    some ⟨(s.workers w).sid.ProofType, (s.workers w).i, (s.workers w).cids.Sealed⟩
  past : ∀ j, w * s.sectorsPerWorker ≤ j → j < (s.workers w).i →
    ∃ k, Completed cfg env s w j k

/-- The invariant of a run with a valid configuration. -/
def Inv2 (cfg : Cfg) (env : Env σ) (s : State σ) : Prop :=
  Inv1 cfg env s ∧ (∀ w, w < s.launched → WTrace cfg env s w) ∧
  (∀ e ∈ s.trace, ∀ w, e.worker = some w → w < s.launched)

/-- The events of the orchestrator come first and are the AddPiece calls, in index order. -/
structure MLog (cfg : Cfg) (env : Env σ) (s : State σ) : Prop where
  order : s.trace = mainEvents s.trace ++ workerTrace s.trace
  log : (mainEvents s.trace).map Event.view = addPieceLog cfg env s.pieces ++ s.failedAdd cfg env

/-- The invariant of a run with a valid configuration, with the facts about its events. -/
def Inv3 (cfg : Cfg) (env : Env σ) (s : State σ) : Prop :=
  Inv2 cfg env s ∧ MLog cfg env s ∧ ∀ e ∈ s.trace, EvOK cfg env s.pieces e

/-- Errors in the channel and the returned error are reported by a call of the trace; with
an error the result slices are nil. -/
def Inv4 (env : Env σ) (s : State σ) : Prop :=
  (∀ err, some err ∈ s.errs → Reported env s.trace err) ∧
  (∀ a b err, s.ret = some ⟨a, b, some err⟩ → a = none ∧ b = none ∧ Reported env s.trace err)

/-- Facts about a run in which no call fails: no panic, no error, the gate counters count
what the workers hold, the orchestrator has received what the ended workers sent less what
is still in the channel, and a result, once returned, holds the final slices. -/
structure Inv5 (cfg : Cfg) (s : State σ) : Prop where
  nopanic : s.panicked = none
  nofail : ∀ w, (s.workers w).sealerr = none
  errsNone : ∀ x ∈ s.errs, x = none
  gate2 : s.preCommit2Sema = s.sum2
  gateC : s.commitSema = s.sumC
  count : s.mainPc ≠ .done → s.received + s.errs.length = s.haltedCount
  retOK : ∀ r, s.ret = some r → r = ⟨some s.sealTimings, some s.sealedSectors, none⟩ ∧
    s.launched = cfg.W ∧ ∀ w, w < s.launched → (s.workers w).pc = .halted

/-- Facts about the gates and the outcomes that hold in every run: the gate counters count
what the workers hold and stay within the capacities; the orchestrator has received what
the ended workers sent less what is still in the channel; an error in the channel or
returned after the launch is the outcome of a worker that has ended; a result without
error is returned after `W` nil outcomes, when every worker has ended, and holds the
slices. -/
structure Inv6 (cfg : Cfg) (s : State σ) : Prop where
  gate2 : s.preCommit2Sema = s.sum2
  gateC : s.commitSema = s.sumC
  cap2 : (s.preCommit2Sema : Int) ≤ cfg.par.PreCommit2
  capC : (s.commitSema : Int) ≤ cfg.par.Commit
  count : s.mainPc ≠ .done → s.received + s.errs.length = s.haltedCount
  errsFrom : ∀ err, some err ∈ s.errs →
    ∃ w, w < s.launched ∧ (s.workers w).pc = .halted ∧ (s.workers w).sealerr = some err
  retErr : ∀ a b err, s.ret = some ⟨a, b, some err⟩ → 0 < s.launched →
    a = none ∧ b = none ∧ s.received < cfg.W ∧
    ∃ w, w < s.launched ∧ (s.workers w).pc = .halted ∧ (s.workers w).sealerr = some err
  retOK : ∀ a b, s.ret = some ⟨a, b, none⟩ →
    a = some s.sealTimings ∧ b = some s.sealedSectors ∧ s.received = cfg.W ∧
    s.launched = cfg.W ∧ ∀ w, w < s.launched → (s.workers w).pc = .halted

/-- Every verification that returned `false` without error is followed at once by its
line in the log. -/
def Logged : List CmdEvent → Prop
  | [] => True
  | ev :: rest => (∀ l, ev.line = some l → ∃ r2, rest = .logError l :: r2) ∧ Logged rest

/-- A recorded call of the verifier holds what the verifier returned for its argument. -/
def FromEnv (env : CmdEnv τ) : CmdEvent → Prop
  | .verifyWinning info res => ∃ w, (env.VerifyWinningPoSt info w).1 = res
  | .verifyWindow info res => ∃ w, (env.VerifyWindowPoSt info w).1 = res
  | .logError _ => True

/-- What holds of the trace of the command. -/
def GoodTrace (env : CmdEnv τ) (tr : List CmdEvent) : Prop :=
  Logged tr ∧ (∀ ev ∈ tr, FromEnv env ev) ∧ logLines tr = tr.filterMap CmdEvent.line

/-- The actions of the current sector of worker `w` are those before its program point,
and the actions of every sector follow the loop body from its first action. -/
structure WGate (cfg : Cfg) (s : State σ) (w : Nat) : Prop where
  cur : (s.workers w).pc.inIter = true →
    wnames s.trace w (s.workers w).i = cfg.pipeline.take (cfg.made (s.workers w).pc)
  all : ∀ j, wnames s.trace w j <+: cfg.pipeline

/-- The invariant of a run with the actions of the sectors. -/
def GInv (cfg : Cfg) (env : Env σ) (s : State σ) : Prop :=
  Inv2 cfg env s ∧ ∀ w, w < s.launched → WGate cfg s w

/-! # Theorems -/

/-! ## `SumSealingTime` -/

theorem wrap64_add_left (a b : Int) : wrap64 (wrap64 a + b) = wrap64 (a + b) := by
  unfold wrap64; omega

theorem wrap64_of_isInt64 {x : Int} (h : isInt64 x) : wrap64 x = x := by
  unfold isInt64 at h; unfold wrap64; omega

theorem wrap64_isInt64 (x : Int) : isInt64 (wrap64 x) := by
  unfold isInt64 wrap64; omega

/-- Folding the loop body: a field that `accumulate` adds with wrap-around ends as the
wrapped sum of its start value and the field over the list. -/
theorem foldl_accumulate_field (f : SealingResult → Int)
    (hf : ∀ a b, f (SealingResult.accumulate a b) = wrap64 (f a + f b))
    (l : List SealingResult) (acc : SealingResult) (hacc : isInt64 (f acc)) :
    f (l.foldl SealingResult.accumulate acc) = wrap64 (f acc + fieldSum f l) := by
  induction l generalizing acc with
  | nil => simp [fieldSum, wrap64_of_isInt64 hacc]
  | cons x xs ih =>
    rw [List.foldl_cons, ih _ (by rw [hf]; exact wrap64_isInt64 _), hf]
    simp only [fieldSum, List.map_cons, List.sum_cons]
    rw [wrap64_add_left, add_assoc]

theorem accumulate_fields (f : SealingResult → Int) (hf : f ∈ SealingResult.fields) :
    ∀ a b, f (SealingResult.accumulate a b) = wrap64 (f a + f b) := by
  intro a b
  simp only [SealingResult.fields, List.mem_cons, List.mem_singleton, List.not_mem_nil,
    or_false] at hf
  rcases hf with h | h | h | h | h | h | h <;> subst h <;> rfl

theorem SumSealingTime_err_iff (bo : BenchResults) :
    bo.SumSealingTime.1.isSome = true ↔
      (bo.SealingResults = [] ∨ (bo.SealingResults.length : Int) ≠ bo.SectorNumber) := by
  unfold BenchResults.SumSealingTime
  by_cases h1 : (bo.SealingResults.length : Int) ≤ 0
  · have : bo.SealingResults = [] := by
      apply List.eq_nil_of_length_eq_zero; omega
    rw [if_pos h1]; simp [this]
  · have hne : bo.SealingResults ≠ [] := by
      intro h; rw [h] at h1; simp at h1
    rw [if_neg h1]
    by_cases h2 : (bo.SealingResults.length : Int) = bo.SectorNumber
    · rw [if_neg (not_not.mpr h2)]; simp [hne, h2]
    · rw [if_pos h2]; simp [h2]

/-- C5. `SumSealingTime` returns an error exactly when `SealingResults` is empty or its
length differs from `SectorNumber`, and returns nil in every other case. -/
theorem SumSealingTime_error_iff (bo : BenchResults) :
    (bo.SumSealingTime.1.isSome = true ↔
      (bo.SealingResults = [] ∨ (bo.SealingResults.length : Int) ≠ bo.SectorNumber)) ∧
    (¬ (bo.SealingResults = [] ∨ (bo.SealingResults.length : Int) ≠ bo.SectorNumber) →
      bo.SumSealingTime.1 = none) := by
  refine ⟨SumSealingTime_err_iff bo, fun h => ?_⟩
  have := (SumSealingTime_err_iff bo).not.mpr h
  simpa using this

/-- C4 as stated fails: two int64 durations whose arithmetic sum does not fit an int64.
The aggregated `AddPiece` total is the wrapped value, not the arithmetic sum. -/
theorem SumSealingTime_overflow_counterexample :
    overflowBench.SealingSum = SealingResult.zero ∧
    overflowBench.SealingResults ≠ [] ∧
    (overflowBench.SealingResults.length : Int) = overflowBench.SectorNumber ∧
    (∀ r ∈ overflowBench.SealingResults, r.wf) ∧
    overflowBench.SumSealingTime.1 = none ∧
    overflowBench.SumSealingTime.2.SealingSum.AddPiece = -9223372036854775808 ∧
    fieldSum SealingResult.AddPiece overflowBench.SealingResults = 9223372036854775808 := by
  refine ⟨rfl, by decide, by decide, by decide, by decide, by decide, by decide⟩

/-- C4 (amended). With `SealingSum` all zero, a non-empty list and length equal to
`SectorNumber`, `SumSealingTime` returns nil and each of the seven totals is the sum of
that field over the list wrapped to 64 bits; it is the arithmetic sum itself whenever
that sum fits an int64. -/
theorem SumSealingTime_sums (bo : BenchResults)
    (h0 : bo.SealingSum = SealingResult.zero) (hne : bo.SealingResults ≠ [])
    (hlen : (bo.SealingResults.length : Int) = bo.SectorNumber) :
    bo.SumSealingTime.1 = none ∧
    ∀ f ∈ SealingResult.fields,
      f bo.SumSealingTime.2.SealingSum = wrap64 (fieldSum f bo.SealingResults) ∧
      (isInt64 (fieldSum f bo.SealingResults) →
        f bo.SumSealingTime.2.SealingSum = fieldSum f bo.SealingResults) := by
  have h1 : ¬ (bo.SealingResults.length : Int) ≤ 0 := by
    have : bo.SealingResults.length ≠ 0 := fun h => hne (List.eq_nil_of_length_eq_zero h)
    omega
  have hrun : bo.SumSealingTime = (none, { bo with
      SealingSum := List.foldl SealingResult.accumulate bo.SealingSum bo.SealingResults }) := by
    unfold BenchResults.SumSealingTime
    rw [if_neg h1, if_neg (not_not.mpr hlen)]
  refine ⟨by rw [hrun], fun f hf => ?_⟩
  have hz : f SealingResult.zero = 0 := by
    simp only [SealingResult.fields, List.mem_cons, List.mem_singleton, List.not_mem_nil,
      or_false] at hf
    rcases hf with h | h | h | h | h | h | h <;> subst h <;> rfl
  have key : f bo.SumSealingTime.2.SealingSum = wrap64 (fieldSum f bo.SealingResults) := by
    rw [hrun]
    simp only
    rw [foldl_accumulate_field f (accumulate_fields f hf) _ _ (by rw [h0, hz]; decide), h0, hz,
      zero_add]
  exact ⟨key, fun hin => by rw [key, wrap64_of_isInt64 hin]⟩

theorem SumSealingTime_sums_witness :
    smallBench.SumSealingTime.1 = none ∧
    ∀ f ∈ SealingResult.fields,
      f smallBench.SumSealingTime.2.SealingSum = wrap64 (fieldSum f smallBench.SealingResults) ∧
      (isInt64 (fieldSum f smallBench.SealingResults) →
        f smallBench.SumSealingTime.2.SealingSum = fieldSum f smallBench.SealingResults) :=
  SumSealingTime_sums smallBench rfl (by decide) (by decide)

/-! ## Runs that stop before the first Sealer call -/

theorem step_quiet (cfg : Cfg) (env : Env σ) (c : Choice) (s : State σ) (h : Quiet s) :
    step cfg env c s = s ∨ step cfg env c s = { s with clock := s.clock + 1 } := by
  obtain ⟨hm, hw⟩ := h
  unfold step
  split
  · exact Or.inl rfl
  · cases c with
    | tick => exact Or.inr rfl
    | main => left; simp only []; unfold mainStep; rw [hm]
    | worker w => left; simp only []; unfold workerStep; simp only []; rw [hw w]

theorem run_quiet (cfg : Cfg) (env : Env σ) (sched : List Choice) (s : State σ) (h : Quiet s) :
    ∃ t, run cfg env sched s = { s with clock := t } := by
  induction sched generalizing s with
  | nil => exact ⟨s.clock, rfl⟩
  | cons c cs ih =>
    have hrun : run cfg env (c :: cs) s = run cfg env cs (step cfg env c s) := rfl
    rw [hrun]
    rcases step_quiet cfg env c s h with h1 | h1
    · rw [h1]; exact ih s h
    · rw [h1]
      obtain ⟨t, ht⟩ := ih { s with clock := s.clock + 1 } h
      exact ⟨t, ht⟩

theorem init_invalid_quiet (cfg : Cfg) (w0 : σ) (h : ¬ cfg.valid) :
    Quiet (init cfg w0) ∧ (init cfg w0).trace = [] ∧ (init cfg w0).world = w0 ∧
      (init cfg w0).launched = 0 := by
  unfold init
  simp only [State.crash]
  split
  · exact ⟨⟨rfl, fun _ => rfl⟩, rfl, rfl, rfl⟩
  · split
    · exact ⟨⟨rfl, fun _ => rfl⟩, rfl, rfl, rfl⟩
    · split
      · exact ⟨⟨rfl, fun _ => rfl⟩, rfl, rfl, rfl⟩
      · split
        · exact ⟨⟨rfl, fun _ => rfl⟩, rfl, rfl, rfl⟩
        · exfalso; apply h
          unfold Cfg.valid
          rename_i h1 h2 h3 h4
          push_neg at h1 h2 h4
          exact ⟨h1.1, h2.1, h2.2, h3, h4, h1.2⟩

/-- With an invalid configuration nothing is ever called and no worker is launched. -/
theorem runSeals_invalid (cfg : Cfg) (env : Env σ) (w0 : σ) (sched : List Choice)
    (h : ¬ cfg.valid) :
    (runSeals cfg env w0 sched).trace = [] ∧ (runSeals cfg env w0 sched).world = w0 ∧
    (runSeals cfg env w0 sched).launched = 0 ∧
    (∀ w, ((runSeals cfg env w0 sched).workers w).pc = .idle) ∧
    (runSeals cfg env w0 sched).ret = (init cfg w0).ret ∧
    (runSeals cfg env w0 sched).panicked = (init cfg w0).panicked := by
  obtain ⟨hq, ht, hw, hl⟩ := init_invalid_quiet cfg w0 h
  obtain ⟨t, hrun⟩ := run_quiet cfg env sched (init cfg w0) hq
  unfold runSeals
  rw [hrun]
  exact ⟨ht, hw, hl, hq.2, rfl, rfl⟩

/-- After a panic in the allocations nothing moves: the run stays in its first state. -/
theorem runSeals_crashed (cfg : Cfg) (env : Env σ) (w0 : σ) (sched : List Choice)
    (h : (init cfg w0).panicked ≠ none) : runSeals cfg env w0 sched = init cfg w0 := by
  unfold runSeals
  generalize init cfg w0 = s at h
  induction sched with
  | nil => rfl
  | cons c cs ih =>
    have hrun : run cfg env (c :: cs) s = run cfg env cs (step cfg env c s) := rfl
    have hst : step cfg env c s = s := by
      unfold step
      cases hp : s.panicked with
      | none => exact absurd hp h
      | some m => rfl
    rw [hrun, hst, ih]

/-- With a sector count beyond the allocation limit `runSeals` panics in `make` and stays
in its first state. -/
theorem runSeals_nofit (cfg : Cfg) (env : Env σ) (w0 : σ) (sched : List Choice)
    (h : ¬ cfg.fits) :
    runSeals cfg env w0 sched =
      { world := w0, clock := 0, trace := [], pieces := [],
        sealTimings := List.replicate cfg.N SealingResult.zero,
        sealedSectors := List.replicate cfg.N ⟨0, 0, 0⟩,
        preCommit2Sema := 0, commitSema := 0, errs := [], sectorsPerWorker := 0,
        mainPc := .done, mainI := 0, mainSid := ⟨⟨0, 0⟩, 0⟩, mainStart := 0,
        launched := 0, received := 0, workers := fun _ => Worker.idle,
        ret := none, panicked := some "makeslice: len out of range" } := by
  have hi : init cfg w0 =
      { world := w0, clock := 0, trace := [], pieces := [],
        sealTimings := List.replicate cfg.N SealingResult.zero,
        sealedSectors := List.replicate cfg.N ⟨0, 0, 0⟩,
        preCommit2Sema := 0, commitSema := 0, errs := [], sectorsPerWorker := 0,
        mainPc := .done, mainI := 0, mainSid := ⟨⟨0, 0⟩, 0⟩, mainStart := 0,
        launched := 0, received := 0, workers := fun _ => Worker.idle,
        ret := none, panicked := some "makeslice: len out of range" } := by
    unfold init
    simp only [State.crash]
    rw [if_pos (Or.inr h)]
  rw [runSeals_crashed cfg env w0 sched (by rw [hi]; simp), hi]

/-- C1, counterexample: with `N = 2^62 + 1` and `W = 2`, which does not divide `N`,
`make([]SealingResult, numSectors)` panics, and with `N = 3`, `W = 2` and a gate of
capacity `-1`, `make(chan struct{}, par.PreCommit2)` panics: in both runs `runSeals`
panics before the divisibility test and returns no error. -/
theorem indivisible_panics_counterexample :
    (0 : Int) ≤ (stubCfg 4611686018427387905 2).numSectors ∧
    (1 : Int) ≤ (stubCfg 4611686018427387905 2).par.PreCommit1 ∧
    (stubCfg 4611686018427387905 2).numSectors % (stubCfg 4611686018427387905 2).par.PreCommit1
      ≠ 0 ∧
    (runSeals (stubCfg 4611686018427387905 2) (stubEnv .never) 0 (roundRobin 2 5)).panicked =
      some "makeslice: len out of range" ∧
    (runSeals (stubCfg 4611686018427387905 2) (stubEnv .never) 0 (roundRobin 2 5)).ret = none ∧
    (0 : Int) ≤ negGateCfg.numSectors ∧ (1 : Int) ≤ negGateCfg.par.PreCommit1 ∧
    negGateCfg.numSectors % negGateCfg.par.PreCommit1 ≠ 0 ∧
    (runSeals negGateCfg (stubEnv .never) 0 (roundRobin 2 5)).panicked =
      some "makechan: size out of range" ∧
    (runSeals negGateCfg (stubEnv .never) 0 (roundRobin 2 5)).ret = none := by
  refine ⟨by decide, by decide, by decide, ?_, ?_, by decide, by decide, by decide,
    by decide, by decide⟩
  · rw [runSeals_nofit _ _ _ _ (by decide)]
  · rw [runSeals_nofit _ _ _ _ (by decide)]

/-- C1 (amended). When the worker count `W >= 1` does not divide the sector count `N >= 0`,
the timing slice of `N` records is within the allocation limit of `make` and the gate
capacities are not negative, `runSeals` returns the divisibility error with nil result
slices under every schedule, without any Sealer call (the trace is empty and the world is
untouched) and without launching a worker. -/
theorem runSeals_indivisible (cfg : Cfg) (env : Env σ) (w0 : σ) (sched : List Choice)
    (hN : 0 ≤ cfg.numSectors) (hW : 1 ≤ cfg.par.PreCommit1)
    (h2 : 0 ≤ cfg.par.PreCommit2) (hC : 0 ≤ cfg.par.Commit)
    (hfit : cfg.fits)
    (hmod : cfg.numSectors % cfg.par.PreCommit1 ≠ 0) :
    (runSeals cfg env w0 sched).ret =
      some ⟨none, none, some (.msg "parallelism factor must cleanly divide numSectors")⟩ ∧
    (runSeals cfg env w0 sched).panicked = none ∧
    (runSeals cfg env w0 sched).trace = [] ∧
    (runSeals cfg env w0 sched).world = w0 ∧
    (runSeals cfg env w0 sched).launched = 0 ∧
    ∀ w, ((runSeals cfg env w0 sched).workers w).pc = .idle := by
  have hmod2 : Int.tmod cfg.numSectors cfg.par.PreCommit1 ≠ 0 := by
    rw [Int.tmod_eq_emod hN (by omega)]; exact hmod
  have hinv : ¬ cfg.valid := fun hv => hmod2 hv.2.2.2.2.1
  obtain ⟨ht, hw, hl, hidle, hret, hpan⟩ := runSeals_invalid cfg env w0 sched hinv
  have hinit : (init cfg w0).ret =
      some ⟨none, none, some (.msg "parallelism factor must cleanly divide numSectors")⟩ ∧
      (init cfg w0).panicked = none := by
    unfold init
    simp only [State.crash]
    rw [if_neg (by simp only [not_or, not_not]; exact ⟨by omega, hfit⟩), if_neg (by omega),
      if_neg (by omega), if_pos hmod2]
    exact ⟨rfl, rfl⟩
  exact ⟨hret.trans hinit.1, hpan.trans hinit.2, ht, hw, hl, hidle⟩

/-! ## Invariants of a launched worker: its local variables -/

theorem WLocal_step_self (cfg : Cfg) (env : Env σ) (s : State σ) (w : Nat)
    (h : WLocal cfg env s w) : WLocal cfg env (workerStep cfg env w s) w := by
  obtain ⟨h1, h2, h3, h4, h5, h6, h7, h8, h9, h10, h11, h12, h13⟩ := h
  cases hpc : (s.workers w).pc <;>
    simp [hpc, PC.inIter, PC.in2, PC.inC] at h4 h5 h6 h7 h8 h9 h11 h12 <;>
    simp only [workerStep, hpc] <;> (try split) <;> (try split) <;> (try split) <;>
    constructor <;>
    (try simp only [State.setW, State.crash, State.log, Worker.fail, Function.update_same, hpc,
      PC.inIter, PC.in2, PC.inC]) <;>
    first
    | assumption
    | (simp [Cfg.sid, *]; done)
    | omega
    | (simp_all; done)

/-! ## What one worker step changes -/

theorem workerStep_others (cfg : Cfg) (env : Env σ) (w w' : Nat) (s : State σ) (h : w' ≠ w) :
    (workerStep cfg env w s).workers w' = s.workers w' := by
  cases hpc : (s.workers w).pc <;> simp only [workerStep, hpc] <;>
    (try split) <;> (try split) <;> (try split) <;>
    (try simp only [State.setW, State.crash, State.log, Function.update_noteq h])

theorem workerStep_frame (cfg : Cfg) (env : Env σ) (w : Nat) (s : State σ) :
    (workerStep cfg env w s).pieces = s.pieces ∧
    (workerStep cfg env w s).sectorsPerWorker = s.sectorsPerWorker ∧
    (workerStep cfg env w s).launched = s.launched ∧
    (workerStep cfg env w s).mainPc = s.mainPc ∧
    (workerStep cfg env w s).mainI = s.mainI ∧
    (workerStep cfg env w s).mainSid = s.mainSid ∧
    (workerStep cfg env w s).ret = s.ret ∧
    (workerStep cfg env w s).received = s.received ∧
    (workerStep cfg env w s).clock = s.clock := by
  cases hpc : (s.workers w).pc <;> simp only [workerStep, hpc] <;>
    (try split) <;> (try split) <;> (try split) <;>
    first
    | exact ⟨rfl, rfl, rfl, rfl, rfl, rfl, rfl, rfl, rfl⟩
    | simp only [and_self]

/-- A worker step appends at most one event, for the sector of the current iteration. -/
theorem workerStep_trace (cfg : Cfg) (env : Env σ) (w : Nat) (s : State σ) :
    (workerStep cfg env w s).trace = s.trace ∨
    ∃ op, (s.workers w).pc.inIter = true ∧
      (workerStep cfg env w s).trace = s.trace ++ [⟨some w, (s.workers w).i, s.clock, op⟩] := by
  cases hpc : (s.workers w).pc <;> simp only [workerStep, hpc] <;>
    (try split) <;> (try split) <;> (try split) <;>
    first
    | exact Or.inl rfl
    | exact Or.inr ⟨_, rfl, rfl⟩
    | simp only [true_or]

theorem workerStep_lengths (cfg : Cfg) (env : Env σ) (w : Nat) (s : State σ) :
    (workerStep cfg env w s).sealTimings.length = s.sealTimings.length ∧
    (workerStep cfg env w s).sealedSectors.length = s.sealedSectors.length := by
  cases hpc : (s.workers w).pc <;> simp only [workerStep, hpc] <;>
    (try split) <;> (try split) <;> (try split) <;>
    (try simp only [State.setW, State.crash, State.log, List.length_set, and_self])

/-- A worker step writes `sealedSectors` at the index of its current iteration only. -/
theorem workerStep_sealed (cfg : Cfg) (env : Env σ) (w : Nat) (s : State σ) (j : Nat)
    (h : (s.workers w).pc = .relPC2 → j ≠ (s.workers w).i) :
    (workerStep cfg env w s).sealedSectors[j]? = s.sealedSectors[j]? := by
  cases hpc : (s.workers w).pc <;> simp only [workerStep, hpc] <;>
    (try split) <;> (try split) <;> (try split) <;>
    (try simp only [State.setW, State.crash, State.log]) <;>
    (try rw [List.getElem?_set_ne (Ne.symm (h hpc))])

/-! ## Invariants of the orchestrator -/

/-- Under a valid configuration the block size times the worker count is the sector count. -/
theorem div_of (cfg : Cfg) (hN : 0 ≤ cfg.numSectors) (hW0 : cfg.par.PreCommit1 ≠ 0)
    (hmod : Int.tmod cfg.numSectors cfg.par.PreCommit1 = 0) (hW : ¬ cfg.par.PreCommit1 < 0) :
    0 < cfg.W ∧ (Int.tdiv cfg.numSectors cfg.par.PreCommit1).toNat = cfg.N / cfg.W ∧
      cfg.N / cfg.W * cfg.W = cfg.N := by
  have hWpos : 0 < cfg.par.PreCommit1 := by omega
  rw [Int.tmod_eq_emod hN (by omega)] at hmod
  rw [Int.tdiv_eq_ediv hN (by omega)]
  unfold Cfg.W Cfg.N
  obtain ⟨n, hn⟩ := Int.eq_ofNat_of_zero_le hN
  obtain ⟨m, hm⟩ := Int.eq_ofNat_of_zero_le (le_of_lt hWpos)
  rw [hn, hm] at hmod ⊢
  have hmpos : 0 < m := by omega
  have hmod' : n % m = 0 := by exact_mod_cast hmod
  refine ⟨by simpa using hmpos, ?_, ?_⟩
  · simp only [Int.toNat_ofNat]
    have : ((n : Int) / (m : Int)) = ((n / m : Nat) : Int) := by norm_cast
    rw [this, Int.toNat_ofNat]
  · simp only [Int.toNat_ofNat]
    exact Nat.div_mul_cancel (Nat.dvd_of_mod_eq_zero hmod')

/-- Under a valid configuration the block size times the worker count is the sector count. -/
theorem valid_div (cfg : Cfg) (hv : cfg.valid) (hW : ¬ cfg.par.PreCommit1 < 0) :
    0 < cfg.W ∧ (Int.tdiv cfg.numSectors cfg.par.PreCommit1).toNat = cfg.N / cfg.W ∧
      cfg.N / cfg.W * cfg.W = cfg.N :=
  div_of cfg hv.1 hv.2.2.2.1 hv.2.2.2.2.1 hW

theorem MInv_init (cfg : Cfg) (env : Env σ) (w0 : σ) (hv : cfg.valid) :
    MInv cfg env (init cfg w0) := by
  obtain ⟨hN, h2, hC, hW0, hmod, hfit⟩ := hv
  unfold init
  simp only [State.crash]
  rw [if_neg (not_or.mpr ⟨by omega, not_not.mpr hfit⟩), if_neg (by omega), if_neg hW0, if_neg (by simpa using hmod)]
  constructor <;> simp

theorem MInv_mainStep (cfg : Cfg) (env : Env σ) (s : State σ) (hv : cfg.valid)
    (h : MInv cfg env s) : MInv cfg env (mainStep cfg env s) := by
  obtain ⟨h1, h2, h3, h4, h5, h6, h7, h8, h9, h10, h11, h12, h13, h14, h15⟩ := h
  cases hpc : s.mainPc <;>
    simp [hpc] at h3 h5 h6 h7 h8 h9 h11 h12 h14 h15 <;>
    simp only [mainStep, hpc] <;> (try split) <;> (try split) <;>
    constructor <;>
    (try simp only [State.crash, State.log, hpc]) <;>
    first
    | assumption
    | (simp [Cfg.sid, *]; done)
    | omega
    | (simp_all; done)
    | skip
  · rename_i hW
    intro _
    exact ⟨(valid_div cfg hv hW).1, (valid_div cfg hv hW).2.1⟩
  · intro w hw
    rw [Function.update_noteq (by omega)]
    exact h13 w (by omega)

theorem workerStep_idle (cfg : Cfg) (env : Env σ) (s : State σ) (w : Nat)
    (h : (s.workers w).pc = .idle) : workerStep cfg env w s = s := by
  simp only [workerStep, h]

theorem MInv_workerStep (cfg : Cfg) (env : Env σ) (s : State σ) (w : Nat)
    (h : MInv cfg env s) : MInv cfg env (workerStep cfg env w s) := by
  by_cases hw : s.launched ≤ w
  · rw [workerStep_idle cfg env s w (by rw [h.idle w hw]; rfl)]; exact h
  · obtain ⟨f1, f2, f3, f4, f5, f6, f7, f8, f9⟩ := workerStep_frame cfg env w s
    obtain ⟨l1, l2⟩ := workerStep_lengths cfg env w s
    obtain ⟨h1, h2, h3, h4, h5, h6, h7, h8, h9, h10, h11, h12, h13, h14, h15⟩ := h
    constructor <;> (try simp only [f1, f2, f3, f4, f5, f6, f7, f8, l1, l2]) <;>
      (try assumption)
    intro w' hw'
    rw [workerStep_others cfg env w w' s (by omega)]
    exact h13 w' hw'

theorem MInv_step (cfg : Cfg) (env : Env σ) (s : State σ) (c : Choice) (hv : cfg.valid)
    (h : MInv cfg env s) : MInv cfg env (step cfg env c s) := by
  unfold step
  split
  · exact h
  · cases c with
    | tick =>
      obtain ⟨h1, h2, h3, h4, h5, h6, h7, h8, h9, h10, h11, h12, h13, h14, h15⟩ := h
      exact ⟨h1, h2, h3, h4, h5, h6, h7, h8, h9, h10, h11, h12, h13, h14, h15⟩
    | main => exact MInv_mainStep cfg env s hv h
    | worker w => exact MInv_workerStep cfg env s w h

/-! ## What one orchestrator step changes -/

/-- The orchestrator never takes a launch back. -/
theorem mainStep_launched_mono (cfg : Cfg) (env : Env σ) (s : State σ) :
    s.launched ≤ (mainStep cfg env s).launched := by
  cases hpc : s.mainPc <;> simp only [mainStep, hpc] <;> (try split) <;> (try split) <;>
    simp [State.crash, State.log]

/-- Before the launch loop the orchestrator launches nothing. -/
theorem mainStep_launched_zero (cfg : Cfg) (env : Env σ) (s : State σ)
    (h : s.mainPc ≠ .spawn) : (mainStep cfg env s).launched = s.launched := by
  cases hpc : s.mainPc <;> simp only [mainStep, hpc] <;> (try split) <;> (try split) <;>
    first
    | rfl
    | exact absurd hpc h

/-- Once a worker is launched the orchestrator makes no call and touches neither the
slices nor the launched workers. -/
theorem mainStep_frame (cfg : Cfg) (env : Env σ) (s : State σ) (hm : MInv cfg env s)
    (hl : 0 < s.launched) :
    (mainStep cfg env s).pieces = s.pieces ∧
    (mainStep cfg env s).sectorsPerWorker = s.sectorsPerWorker ∧
    (mainStep cfg env s).trace = s.trace ∧
    (mainStep cfg env s).sealedSectors = s.sealedSectors ∧
    (mainStep cfg env s).sealTimings = s.sealTimings ∧
    (mainStep cfg env s).world = s.world ∧
    (mainStep cfg env s).preCommit2Sema = s.preCommit2Sema ∧
    (mainStep cfg env s).commitSema = s.commitSema ∧
    ∀ w, w < s.launched → (mainStep cfg env s).workers w = s.workers w := by
  have h0 := hm.launched0
  cases hpc : s.mainPc <;> simp only [hpc] at h0 <;>
    (try (exfalso; simp at h0; omega)) <;>
    simp only [mainStep, hpc] <;> (try split) <;> (try split) <;>
    first
    | (refine ⟨rfl, rfl, rfl, rfl, rfl, rfl, rfl, rfl, fun w hw => ?_⟩
       first
       | rfl
       | (simp only []; rw [Function.update_noteq (by omega)]))
    | simp

/-- The launch of worker `launched`. -/
theorem mainStep_spawn (cfg : Cfg) (env : Env σ) (s : State σ) (hpc : s.mainPc = .spawn)
    (hl : s.launched < cfg.W) :
    (mainStep cfg env s).launched = s.launched + 1 ∧
    (mainStep cfg env s).workers s.launched =
      { Worker.idle with pc := .head, i := s.launched * s.sectorsPerWorker,
                         stop := s.launched * s.sectorsPerWorker + s.sectorsPerWorker } := by
  simp only [mainStep, hpc, if_pos hl, Function.update_same, and_self]

theorem mainStep_launched_succ (cfg : Cfg) (env : Env σ) (s : State σ) :
    (mainStep cfg env s).launched = s.launched ∨
    (s.mainPc = .spawn ∧ s.launched < cfg.W ∧ (mainStep cfg env s).launched = s.launched + 1) := by
  by_cases hpc : s.mainPc = .spawn
  · by_cases hl : s.launched < cfg.W
    · exact Or.inr ⟨hpc, hl, (mainStep_spawn cfg env s hpc hl).1⟩
    · left; simp only [mainStep, hpc, if_neg hl]
  · exact Or.inl (mainStep_launched_zero cfg env s hpc)

/-! ## The local invariant along a run -/

theorem WLocal_congr (cfg : Cfg) (env : Env σ) (s t : State σ) (w : Nat)
    (hw : t.workers w = s.workers w) (hp : t.pieces = s.pieces)
    (hs : t.sectorsPerWorker = s.sectorsPerWorker) (h : WLocal cfg env s w) :
    WLocal cfg env t w := by
  obtain ⟨h1, h2, h3, h4, h5, h6, h7, h8, h9, h10, h11, h12, h13⟩ := h
  constructor <;> simp only [hw, hp, hs] <;> assumption

theorem WLocal_spawned (cfg : Cfg) (env : Env σ) (s : State σ) (w : Nat)
    (hk : s.workers w =
      { Worker.idle with
        pc := .head, i := w * s.sectorsPerWorker,
        stop := w * s.sectorsPerWorker + s.sectorsPerWorker }) : WLocal cfg env s w := by
  constructor <;> simp [hk, PC.inIter, PC.in2, PC.inC, Worker.idle]

theorem Inv1_init (cfg : Cfg) (env : Env σ) (w0 : σ) (hv : cfg.valid) :
    Inv1 cfg env (init cfg w0) := by
  refine ⟨MInv_init cfg env w0 hv, fun w hw => ?_⟩
  have := (MInv_init cfg env w0 hv).launched0
  obtain ⟨hN, h2, hC, hW0, hmod, hfit⟩ := hv
  unfold init at hw
  simp only [State.crash] at hw
  rw [if_neg (not_or.mpr ⟨by omega, not_not.mpr hfit⟩), if_neg (by omega), if_neg hW0, if_neg (by simpa using hmod)] at hw
  simp at hw

theorem Inv1_step (cfg : Cfg) (env : Env σ) (s : State σ) (c : Choice) (hv : cfg.valid)
    (h : Inv1 cfg env s) : Inv1 cfg env (step cfg env c s) := by
  refine ⟨MInv_step cfg env s c hv h.1, ?_⟩
  obtain ⟨hm, hw⟩ := h
  unfold step
  split
  · exact hw
  · cases c with
    | tick => intro w hlt; exact WLocal_congr cfg env s _ w rfl rfl rfl (hw w hlt)
    | main =>
      intro w hlt
      simp only [] at hlt ⊢
      rcases mainStep_launched_succ cfg env s with h1 | ⟨hpc, hl, h1⟩
      · rw [h1] at hlt
        obtain ⟨f1, f2, -, -, -, -, -, -, f9⟩ := mainStep_frame cfg env s hm (by omega)
        exact WLocal_congr cfg env s _ w (f9 w hlt) f1 f2 (hw w hlt)
      · rw [h1] at hlt
        by_cases hlt' : w < s.launched
        · obtain ⟨f1, f2, -, -, -, -, -, -, f9⟩ := mainStep_frame cfg env s hm (by omega)
          exact WLocal_congr cfg env s _ w (f9 w hlt') f1 f2 (hw w hlt')
        · have hwl : w = s.launched := by omega
          subst hwl
          apply WLocal_spawned
          rw [(mainStep_spawn cfg env s hpc hl).2]
          simp only [mainStep, hpc, if_pos hl]
    | worker w0 =>
      intro w hlt
      simp only [] at hlt ⊢
      obtain ⟨f1, f2, f3, -⟩ := workerStep_frame cfg env w0 s
      rw [f3] at hlt
      by_cases hww : w = w0
      · subst hww; exact WLocal_step_self cfg env s w (hw w hlt)
      · exact WLocal_congr cfg env s _ w (workerStep_others cfg env w0 w s hww) f1 f2 (hw w hlt)

/-! ## Filtering a trace that grew by one event -/

theorem workerEvents_append (tr : List Event) (e : Event) (w j : Nat) :
    workerEvents (tr ++ [e]) w j =
      workerEvents tr w j ++ (if e.worker = some w ∧ e.sector = j then [e] else []) := by
  unfold workerEvents
  rw [List.filter_append]
  by_cases h : e.worker = some w ∧ e.sector = j
  · simp [h]
  · simp [h]

theorem workerOps_append (tr : List Event) (e : Event) (w j : Nat) :
    workerOps (tr ++ [e]) w j =
      workerOps tr w j ++
        (if e.worker = some w ∧ e.sector = j ∧ e.op.isStage = true then [e.op] else []) := by
  unfold workerOps
  rw [workerEvents_append]
  by_cases h : e.worker = some w ∧ e.sector = j
  · by_cases h2 : e.op.isStage = true
    · simp [h, h2]
    · simp [h, h2]
  · have : ¬ (e.worker = some w ∧ e.sector = j ∧ e.op.isStage = true) := fun hh =>
      h ⟨hh.1, hh.2.1⟩
    simp [h, this]

theorem workerOps_append_self (tr : List Event) (w j t : Nat) (op : Op) :
    workerOps (tr ++ [⟨some w, j, t, op⟩]) w j =
      workerOps tr w j ++ (if op.isStage = true then [op] else []) := by
  rw [workerOps_append]
  simp

theorem workerOps_append_ne (tr : List Event) (e : Event) (w j : Nat)
    (h : ¬ (e.worker = some w ∧ e.sector = j)) :
    workerOps (tr ++ [e]) w j = workerOps tr w j := by
  rw [workerOps_append]
  have : ¬ (e.worker = some w ∧ e.sector = j ∧ e.op.isStage = true) := fun hh =>
    h ⟨hh.1, hh.2.1⟩
  simp [this]

theorem pc1Sectors_append (tr : List Event) (e : Event) (w : Nat) :
    pc1Sectors (tr ++ [e]) w =
      pc1Sectors tr w ++ (if e.worker = some w ∧ e.op.isPc1 = true then [e.sector] else []) := by
  unfold pc1Sectors
  rw [List.filter_append, List.map_append]
  by_cases h : e.worker = some w ∧ e.op.isPc1 = true
  · simp [h]
  · rw [if_neg h]
    have : (decide (e.worker = some w) && e.op.isPc1) = false := by
      rcases Classical.not_and_iff_or_not_not.mp h with h1 | h1
      · simp [h1]
      · simp [h1]
    simp [this]

theorem workerOps_nil_of_lt (tr : List Event) (w j : Nat)
    (h : ∀ e ∈ tr, e.worker = some w → e.sector < j) : workerOps tr w j = [] := by
  unfold workerOps workerEvents
  have : tr.filter (fun e => decide (e.worker = some w ∧ e.sector = j)) = [] := by
    rw [List.filter_eq_nil_iff]
    intro e he
    simp only [decide_eq_true_eq, not_and]
    intro hw hj
    have := h e he hw
    omega
  rw [this]; rfl

/-! ## The trace of the worker that moves -/

/-- The first untouched sector of a worker never goes down, and the loop index moves by
one at the end of an iteration only. -/
theorem bound_step (cfg : Cfg) (env : Env σ) (s : State σ) (w : Nat)
    (hl : WLocal cfg env s w) :
    (s.workers w).bound ≤ ((workerStep cfg env w s).workers w).bound ∧
    (s.workers w).i ≤ ((workerStep cfg env w s).workers w).i ∧
    (((workerStep cfg env w s).workers w).i = (s.workers w).i ∨
      ((s.workers w).pc = .tUnseal ∧ (workerStep cfg env w s).trace = s.trace ∧
        (workerStep cfg env w s).sealedSectors = s.sealedSectors ∧
        ((workerStep cfg env w s).workers w).i = (s.workers w).i + 1)) := by
  have hrun := hl.running
  cases hpc : (s.workers w).pc <;>
    simp [hpc] at hrun <;>
    simp only [workerStep, hpc] <;> (try split) <;> (try split) <;> (try split) <;>
    (try simp only [State.setW, State.crash, State.log, Worker.fail, Function.update_same,
      Worker.bound, hpc, PC.inIter]) <;>
    simp [hrun]

theorem range_step_self (cfg : Cfg) (env : Env σ) (s : State σ) (w : Nat)
    (hl : WLocal cfg env s w)
    (hr : ∀ e ∈ s.trace, e.worker = some w →
      w * s.sectorsPerWorker ≤ e.sector ∧ e.sector < (s.workers w).bound) :
    ∀ e ∈ (workerStep cfg env w s).trace, e.worker = some w →
      w * (workerStep cfg env w s).sectorsPerWorker ≤ e.sector ∧
        e.sector < ((workerStep cfg env w s).workers w).bound := by
  obtain ⟨hb, -, -⟩ := bound_step cfg env s w hl
  rw [(workerStep_frame cfg env w s).2.1]
  rcases workerStep_trace cfg env w s with h | ⟨op, hin, h⟩
  · rw [h]; intro e he hw
    exact ⟨(hr e he hw).1, lt_of_lt_of_le (hr e he hw).2 hb⟩
  · rw [h]; intro e he hw
    rcases List.mem_append.mp he with he | he
    · exact ⟨(hr e he hw).1, lt_of_lt_of_le (hr e he hw).2 hb⟩
    · rw [List.mem_singleton] at he
      subst he
      refine ⟨hl.lo, lt_of_lt_of_le ?_ hb⟩
      simp [Worker.bound, hin]

theorem cur_step_self (cfg : Cfg) (env : Env σ) (s : State σ) (w : Nat)
    (hl : WLocal cfg env s w)
    (hr : ∀ e ∈ s.trace, e.worker = some w →
      w * s.sectorsPerWorker ≤ e.sector ∧ e.sector < (s.workers w).bound)
    (hc : (s.workers w).pc.inIter = true →
      workerOps s.trace w (s.workers w).i = (s.workers w).doneOps cfg env (s.workers w).pc) :
    ((workerStep cfg env w s).workers w).pc.inIter = true →
      workerOps (workerStep cfg env w s).trace w ((workerStep cfg env w s).workers w).i =
        ((workerStep cfg env w s).workers w).doneOps cfg env
          ((workerStep cfg env w s).workers w).pc := by
  have hrun := hl.running
  have huns := hl.unsealing
  cases hpc : (s.workers w).pc <;>
    simp [hpc, PC.inIter, Worker.doneOps] at hc huns hrun <;>
    simp only [workerStep, hpc] <;> (try split) <;> (try split) <;> (try split) <;>
    (try simp only [State.setW, State.crash, State.log, Worker.fail, Function.update_same, hpc,
      PC.inIter, workerOps_append_self, Op.isStage, Worker.doneOps, Worker.opsPc1, Worker.opsPc2,
      Worker.opsC1, Worker.opsC2, Worker.opsVerify, Worker.opsAcq, Worker.opsRm,
      Worker.opsUnseal, Worker.svi]) <;>
    first
    | (intro h; exact absurd h (by decide))
    | (intro _; simp_all [Worker.opsPc1, Worker.opsPc2,
      Worker.opsC1, Worker.opsC2, Worker.opsVerify, Worker.opsAcq, Worker.opsRm,
      Worker.opsUnseal, Worker.svi]; done)
    | skip
  intro _
  apply workerOps_nil_of_lt
  intro e he hw
  have := (hr e he hw).2
  simpa [Worker.bound, hpc, PC.inIter, hrun] using this

theorem failed_step_self (cfg : Cfg) (env : Env σ) (s : State σ) (w : Nat)
    (hl : WLocal cfg env s w)
    (hc : (s.workers w).pc.inIter = true →
      workerOps s.trace w (s.workers w).i = (s.workers w).doneOps cfg env (s.workers w).pc)
    (hf : ∀ err, (s.workers w).sealerr = some err → ∃ p fl, p.canFail = true ∧
      workerOps s.trace w (s.workers w).i = (s.workers w).doneOps cfg env p ++ fl ∧
      FailTail cfg env (s.workers w) p fl err) :
    ∀ err, ((workerStep cfg env w s).workers w).sealerr = some err → ∃ p fl, p.canFail = true ∧
      workerOps (workerStep cfg env w s).trace w ((workerStep cfg env w s).workers w).i =
        ((workerStep cfg env w s).workers w).doneOps cfg env p ++ fl ∧
      FailTail cfg env ((workerStep cfg env w s).workers w) p fl err := by
  have hrun := hl.running
  cases hpc : (s.workers w).pc <;>
    simp [hpc, PC.inIter, Worker.doneOps] at hc hrun <;>
    simp only [workerStep, hpc] <;> (try split) <;> (try split) <;> (try split) <;>
    (try simp only [State.setW, State.crash, State.log, Worker.fail, Function.update_same,
      workerOps_append_self, Op.isStage, if_true, hc]) <;>
    first
    | exact hf
    | (intro err herr; simp [hrun] at herr; done)
    | (intro err herr
       injection herr with herr
       subst herr
       rename_i heq
       refine ⟨(s.workers w).pc, [?_], by rw [hpc]; rfl, ?_, ?_⟩
       rotate_left
       · rw [hpc]; exact rfl
       · exact Or.inr ⟨_, rfl, by rw [heq]; rfl, by rw [hpc]; rfl, rfl⟩)
    | (intro err herr
       injection herr with herr
       subst herr
       rename_i heq
       exact ⟨(s.workers w).pc, [], by rw [hpc]; rfl, by rw [hpc, List.append_nil]; rfl,
         Or.inl ⟨hpc, rfl, heq⟩⟩)
    | skip

theorem starts_step_self (cfg : Cfg) (env : Env σ) (s : State σ) (w : Nat)
    (hl : WLocal cfg env s w)
    (hs : pc1Sectors s.trace w = List.range' (w * s.sectorsPerWorker)
      ((s.workers w).i - w * s.sectorsPerWorker + (s.workers w).started)) :
    pc1Sectors (workerStep cfg env w s).trace w =
      List.range' (w * (workerStep cfg env w s).sectorsPerWorker)
        (((workerStep cfg env w s).workers w).i - w * (workerStep cfg env w s).sectorsPerWorker +
          ((workerStep cfg env w s).workers w).started) := by
  have hrun := hl.running
  have hlo := hl.lo
  cases hpc : (s.workers w).pc <;>
    simp [hpc, PC.inIter, Worker.started] at hs hrun <;>
    simp only [workerStep, hpc] <;> (try split) <;> (try split) <;> (try split) <;>
    (try simp only [State.setW, State.crash, State.log, Worker.fail, Function.update_same,
      pc1Sectors_append, Op.isPc1, Worker.started, PC.inIter]) <;>
    first
    | (simp [hs, hrun]; done)
    | (simp [hs, hrun, Worker.started, hpc, PC.inIter]; done)
    | skip
  · simp only [hs, hrun, List.range'_1_concat, and_self, if_true, Option.isSome_some,
      Bool.or_true, add_zero, Option.isSome_none, Bool.false_eq_true, if_false,
      Nat.add_sub_cancel' hlo]
  · have h1 : (true && decide (PC.tPc1 ≠ PC.pc1) || false) = true := by decide
    simp only [hs, hrun, h1, List.range'_1_concat, and_self, if_true, Option.isSome_some,
      Bool.or_true, add_zero, Option.isSome_none, Bool.false_eq_true, if_false,
      Nat.add_sub_cancel' hlo]
  · rw [hs]
    simp only [hrun, Option.isSome_none, Bool.false_and, Bool.or_false, Bool.false_eq_true,
      if_false, add_zero]
    congr 1; omega

theorem sealed_step_self (cfg : Cfg) (env : Env σ) (s : State σ) (w : Nat)
    (hsd : (s.workers w).pc.sealedDone = true → s.sealedSectors[(s.workers w).i]? =
      some ⟨(s.workers w).sid.ProofType, (s.workers w).i, (s.workers w).cids.Sealed⟩) :
    ((workerStep cfg env w s).workers w).pc.sealedDone = true →
      (workerStep cfg env w s).sealedSectors[((workerStep cfg env w s).workers w).i]? =
        some ⟨((workerStep cfg env w s).workers w).sid.ProofType,
          ((workerStep cfg env w s).workers w).i, ((workerStep cfg env w s).workers w).cids.Sealed⟩ := by
  cases hpc : (s.workers w).pc <;>
    simp [hpc, PC.sealedDone] at hsd <;>
    simp only [workerStep, hpc] <;> (try split) <;> (try split) <;> (try split) <;>
    (try simp only [State.setW, State.crash, State.log, Worker.fail, Function.update_same,
      PC.sealedDone, hpc]) <;>
    first
    | (intro h; exact absurd h (by decide))
    | (intro _; exact hsd)
    | (intro _; simp [*]; done)

theorem Completed_congr (cfg : Cfg) (env : Env σ) (s t : State σ) (w j : Nat) (k : Worker)
    (hp : t.pieces = s.pieces) (ho : workerOps t.trace w j = workerOps s.trace w j)
    (hs : t.sealedSectors[j]? = s.sealedSectors[j]?) (h : Completed cfg env s w j k) :
    Completed cfg env t w j k := by
  obtain ⟨h1, h2, h3, h4, h5, h6⟩ := h
  exact ⟨h1, h2, by rw [hp]; exact h3, h4, by rw [ho]; exact h5, by rw [hs]; exact h6⟩

/-! ## The invariant of the trace of a launched worker -/

theorem workerOps_step_ne (cfg : Cfg) (env : Env σ) (s : State σ) (w0 w j : Nat)
    (h : ¬ (w = w0 ∧ j = (s.workers w0).i)) :
    workerOps (workerStep cfg env w0 s).trace w j = workerOps s.trace w j := by
  rcases workerStep_trace cfg env w0 s with h1 | ⟨op, -, h1⟩
  · rw [h1]
  · rw [h1, workerOps_append_ne]
    intro hh
    apply h
    simp only [Option.some.injEq] at hh
    exact ⟨hh.1.symm, hh.2.symm⟩

theorem past_step_self (cfg : Cfg) (env : Env σ) (s : State σ) (w : Nat)
    (hl : WLocal cfg env s w) (ht : WTrace cfg env s w) :
    ∀ j, w * (workerStep cfg env w s).sectorsPerWorker ≤ j →
      j < ((workerStep cfg env w s).workers w).i →
      ∃ k, Completed cfg env (workerStep cfg env w s) w j k := by
  obtain ⟨f1, f2, -⟩ := workerStep_frame cfg env w s
  obtain ⟨-, -, hi⟩ := bound_step cfg env s w hl
  rw [f2]
  intro j hb hj
  by_cases hlt : j < (s.workers w).i
  · obtain ⟨k, hk⟩ := ht.past j hb hlt
    refine ⟨k, Completed_congr cfg env s _ w j k f1 ?_ ?_ hk⟩
    · exact workerOps_step_ne cfg env s w w j (fun hh => by omega)
    · exact workerStep_sealed cfg env w s j (fun _ => by omega)
  · rcases hi with hi | ⟨hpc, htr, hss, hi⟩
    · omega
    · have hji : j = (s.workers w).i := by omega
      subst hji
      have hin : (s.workers w).pc.inIter = true := by rw [hpc]; rfl
      obtain ⟨hpiece, hsid, htick⟩ := hl.locals hin
      refine ⟨s.workers w, rfl, hsid, by rw [f1]; exact hpiece, htick, ?_, ?_⟩
      · rw [htr, ht.cur hin, hpc]
      · rw [hss]
        exact ht.sealed (by rw [hpc]; rfl)

theorem WTrace_step_self (cfg : Cfg) (env : Env σ) (s : State σ) (w : Nat)
    (hl : WLocal cfg env s w) (ht : WTrace cfg env s w) :
    WTrace cfg env (workerStep cfg env w s) w :=
  ⟨range_step_self cfg env s w hl ht.range,
   cur_step_self cfg env s w hl ht.range ht.cur,
   failed_step_self cfg env s w hl ht.cur ht.failed,
   starts_step_self cfg env s w hl ht.starts,
   sealed_step_self cfg env s w ht.sealed,
   past_step_self cfg env s w hl ht⟩

/-! ## The trace invariant when another goroutine moves -/

theorem block_disjoint (n w w0 j : Nat) (h1 : w * n ≤ j) (h2 : j < w * n + n)
    (h3 : w0 * n ≤ j) (h4 : j < w0 * n + n) : w = w0 := by
  rcases Nat.lt_trichotomy w w0 with h | h | h
  · have := Nat.mul_le_mul_right n (Nat.succ_le_of_lt h)
    rw [Nat.succ_mul] at this
    omega
  · exact h
  · have := Nat.mul_le_mul_right n (Nat.succ_le_of_lt h)
    rw [Nat.succ_mul] at this
    omega

theorem WTrace_congr (cfg : Cfg) (env : Env σ) (s t : State σ) (w : Nat)
    (hl : WLocal cfg env s w)
    (hw : t.workers w = s.workers w) (hp : t.pieces = s.pieces)
    (hs : t.sectorsPerWorker = s.sectorsPerWorker)
    (hev : ∀ e ∈ t.trace, e.worker = some w → e ∈ s.trace)
    (hops : ∀ j, workerOps t.trace w j = workerOps s.trace w j)
    (hpc1 : pc1Sectors t.trace w = pc1Sectors s.trace w)
    (hsl : ∀ j, w * s.sectorsPerWorker ≤ j → j < w * s.sectorsPerWorker + s.sectorsPerWorker →
      t.sealedSectors[j]? = s.sealedSectors[j]?)
    (h : WTrace cfg env s w) : WTrace cfg env t w := by
  obtain ⟨h1, h2, h3, h4, h5, h6⟩ := h
  have hstop := hl.stop_eq
  have hhi := hl.hi
  refine ⟨?_, ?_, ?_, ?_, ?_, ?_⟩
  · intro e he hew
    rw [hw, hs]
    exact h1 e (hev e he hew) hew
  · rw [hw, hops]; exact h2
  · rw [hw, hops]; exact h3
  · rw [hw, hs, hpc1]; exact h4
  · rw [hw]
    intro hsd
    have hin : (s.workers w).pc.inIter = true := by
      revert hsd; cases (s.workers w).pc <;> simp [PC.sealedDone, PC.inIter]
    rw [hsl _ hl.lo (by have := hl.hi_iter hin; omega)]
    exact h5 hsd
  · rw [hw, hs]
    intro j hb hj
    obtain ⟨k, hk⟩ := h6 j hb hj
    exact ⟨k, Completed_congr cfg env s t w j k hp (hops j) (hsl j hb (by omega)) hk⟩

theorem pc1Sectors_step_ne (cfg : Cfg) (env : Env σ) (s : State σ) (w0 w : Nat) (h : w ≠ w0) :
    pc1Sectors (workerStep cfg env w0 s).trace w = pc1Sectors s.trace w := by
  rcases workerStep_trace cfg env w0 s with h1 | ⟨op, -, h1⟩
  · rw [h1]
  · rw [h1, pc1Sectors_append, if_neg, List.append_nil]
    intro hh
    simp only [Option.some.injEq] at hh
    exact h hh.1.symm

theorem WTrace_step_other (cfg : Cfg) (env : Env σ) (s : State σ) (w0 w : Nat) (h : w ≠ w0)
    (hl : WLocal cfg env s w) (hl0 : (s.workers w0).pc.inIter = true → WLocal cfg env s w0)
    (ht : WTrace cfg env s w) : WTrace cfg env (workerStep cfg env w0 s) w := by
  obtain ⟨f1, f2, -⟩ := workerStep_frame cfg env w0 s
  refine WTrace_congr cfg env s _ w hl (workerStep_others cfg env w0 w s h) f1 f2 ?_ ?_
    (pc1Sectors_step_ne cfg env s w0 w h) ?_ ht
  · intro e he hew
    rcases workerStep_trace cfg env w0 s with h1 | ⟨op, -, h1⟩
    · rw [h1] at he; exact he
    · rw [h1] at he
      rcases List.mem_append.mp he with he | he
      · exact he
      · rw [List.mem_singleton] at he
        subst he
        simp only [Option.some.injEq] at hew
        exact absurd hew.symm h
  · intro j
    exact workerOps_step_ne cfg env s w0 w j (fun hh => h hh.1)
  · intro j hb hj
    apply workerStep_sealed
    intro hpc hji
    have hin : (s.workers w0).pc.inIter = true := by rw [hpc]; rfl
    have hl0' := hl0 hin
    have := hl0'.hi_iter hin
    have := hl0'.stop_eq
    have := hl0'.lo
    exact h (block_disjoint s.sectorsPerWorker w w0 j hb hj (by omega) (by omega))

/-! ## The invariant of a whole run -/

/-- The orchestrator appends at most one event, an AddPiece call of its own. -/
theorem mainStep_trace (cfg : Cfg) (env : Env σ) (s : State σ) :
    (mainStep cfg env s).trace = s.trace ∨
    (s.mainPc = .apCall ∧ (mainStep cfg env s).trace = s.trace ++ [⟨none, s.mainI, s.clock,
      .addPiece s.mainSid (env.unpadded cfg.sectorSize) (wrap64 (100 + s.mainI))
        (env.AddPiece s.mainSid (env.unpadded cfg.sectorSize) (wrap64 (100 + s.mainI))
          s.world).1⟩]) := by
  cases hpc : s.mainPc <;> simp only [mainStep, hpc] <;> (try split) <;> (try split) <;>
    first
    | exact Or.inl rfl
    | exact Or.inr ⟨trivial, rfl⟩
    | simp

theorem pc1Sectors_nil (tr : List Event) (w : Nat) (h : ∀ e ∈ tr, e.worker ≠ some w) :
    pc1Sectors tr w = [] := by
  unfold pc1Sectors
  have : tr.filter (fun e => decide (e.worker = some w) && e.op.isPc1) = [] := by
    rw [List.filter_eq_nil_iff]
    intro e he
    simp [h e he]
  rw [this]; rfl

theorem WTrace_spawned (cfg : Cfg) (env : Env σ) (s : State σ) (w : Nat)
    (hk : s.workers w =
      { Worker.idle with
        pc := .head, i := w * s.sectorsPerWorker,
        stop := w * s.sectorsPerWorker + s.sectorsPerWorker })
    (hev : ∀ e ∈ s.trace, e.worker ≠ some w) : WTrace cfg env s w := by
  refine ⟨?_, ?_, ?_, ?_, ?_, ?_⟩
  · intro e he hw; exact absurd hw (hev e he)
  · rw [hk]; intro h; simp [PC.inIter] at h
  · rw [hk]; intro err h; exact absurd h (by simp [Worker.idle])
  · rw [pc1Sectors_nil _ _ hev, hk]
    simp [Worker.started, Worker.idle, PC.inIter]
  · rw [hk]; intro h; simp [PC.sealedDone] at h
  · rw [hk]; intro j h1 h2; simp only [] at h2; omega

theorem init_valid (cfg : Cfg) (w0 : σ) (hv : cfg.valid) :
    init cfg w0 =
      { world := w0, clock := 0, trace := [], pieces := [],
        sealTimings := List.replicate cfg.N SealingResult.zero,
        sealedSectors := List.replicate cfg.N ⟨0, 0, 0⟩,
        preCommit2Sema := 0, commitSema := 0, errs := [], sectorsPerWorker := 0,
        mainPc := .apHead, mainI := 0, mainSid := ⟨⟨0, 0⟩, 0⟩, mainStart := 0,
        launched := 0, received := 0, workers := fun _ => Worker.idle,
        ret := none, panicked := none } := by
  obtain ⟨hN, h2, hC, hW0, hmod, hfit⟩ := hv
  unfold init
  simp only [State.crash]
  rw [if_neg (not_or.mpr ⟨by omega, not_not.mpr hfit⟩), if_neg (by omega), if_neg hW0, if_neg (by simpa using hmod)]

theorem Inv2_init (cfg : Cfg) (env : Env σ) (w0 : σ) (hv : cfg.valid) :
    Inv2 cfg env (init cfg w0) := by
  refine ⟨Inv1_init cfg env w0 hv, ?_, ?_⟩
  · rw [init_valid cfg w0 hv]; intro w hw; simp at hw
  · rw [init_valid cfg w0 hv]; intro e he; simp at he

theorem Inv2_step (cfg : Cfg) (env : Env σ) (s : State σ) (c : Choice) (hv : cfg.valid)
    (h : Inv2 cfg env s) : Inv2 cfg env (step cfg env c s) := by
  refine ⟨Inv1_step cfg env s c hv h.1, ?_⟩
  obtain ⟨⟨hm, hl⟩, ht, hev⟩ := h
  unfold step
  split
  · exact ⟨ht, hev⟩
  · cases c with
    | tick =>
      refine ⟨fun w hlt => ?_, hev⟩
      exact WTrace_congr cfg env s _ w (hl w hlt) rfl rfl rfl (fun e he _ => he)
        (fun _ => rfl) rfl (fun _ _ _ => rfl) (ht w hlt)
    | main =>
      simp only []
      have hmono := mainStep_launched_mono cfg env s
      constructor
      · intro w hlt
        by_cases hlt' : w < s.launched
        · obtain ⟨f1, f2, f3, f4, -, -, -, -, f9⟩ := mainStep_frame cfg env s hm (by omega)
          exact WTrace_congr cfg env s _ w (hl w hlt') (f9 w hlt') f1 f2
            (fun e he _ => by rw [f3] at he; exact he) (fun _ => by rw [f3]) (by rw [f3])
            (fun _ _ _ => by rw [f4]) (ht w hlt')
        · rcases mainStep_launched_succ cfg env s with h1 | ⟨hpc, hlW, h1⟩
          · omega
          · have hwl : w = s.launched := by omega
            subst hwl
            have htr : (mainStep cfg env s).trace = s.trace := by
              rcases mainStep_trace cfg env s with h2 | ⟨h2, -⟩
              · exact h2
              · rw [hpc] at h2; exact absurd h2 (by decide)
            apply WTrace_spawned
            · rw [(mainStep_spawn cfg env s hpc hlW).2]
              simp only [mainStep, hpc, if_pos hlW]
            · rw [htr]
              intro e he hw
              exact absurd (hev e he _ hw) (by omega)
      · intro e he w hw
        rcases mainStep_trace cfg env s with h2 | ⟨-, h2⟩
        · rw [h2] at he; exact lt_of_lt_of_le (hev e he w hw) hmono
        · rw [h2] at he
          rcases List.mem_append.mp he with he | he
          · exact lt_of_lt_of_le (hev e he w hw) hmono
          · rw [List.mem_singleton] at he
            subst he
            exact absurd hw (by simp)
    | worker w0 =>
      simp only []
      by_cases hw0 : s.launched ≤ w0
      · rw [workerStep_idle cfg env s w0 (by rw [hm.idle w0 hw0]; rfl)]
        exact ⟨ht, hev⟩
      · obtain ⟨f1, f2, f3, -⟩ := workerStep_frame cfg env w0 s
        rw [f3]
        constructor
        · intro w hlt
          by_cases hww : w = w0
          · subst hww; exact WTrace_step_self cfg env s w (hl w hlt) (ht w hlt)
          · exact WTrace_step_other cfg env s w0 w hww (hl w hlt)
              (fun _ => hl w0 (by omega)) (ht w hlt)
        · intro e he w hw
          rcases workerStep_trace cfg env w0 s with h1 | ⟨op, -, h1⟩
          · rw [h1] at he; exact hev e he w hw
          · rw [h1] at he
            rcases List.mem_append.mp he with he | he
            · exact hev e he w hw
            · rw [List.mem_singleton] at he
              subst he
              simp only [Option.some.injEq] at hw
              omega

theorem Inv2_run (cfg : Cfg) (env : Env σ) (sched : List Choice) (s : State σ)
    (hv : cfg.valid) (h : Inv2 cfg env s) : Inv2 cfg env (run cfg env sched s) := by
  induction sched generalizing s with
  | nil => exact h
  | cons c cs ih => exact ih _ (Inv2_step cfg env s c hv h)

theorem Inv2_runSeals (cfg : Cfg) (env : Env σ) (w0 : σ) (sched : List Choice)
    (hv : cfg.valid) : Inv2 cfg env (runSeals cfg env w0 sched) :=
  Inv2_run cfg env sched _ hv (Inv2_init cfg env w0 hv)

/-! ## The AddPiece phase in the trace -/

theorem mainEvents_append (tr : List Event) (e : Event) :
    mainEvents (tr ++ [e]) = mainEvents tr ++ (if e.worker = none then [e] else []) := by
  unfold mainEvents
  rw [List.filter_append]
  by_cases h : e.worker = none <;> simp [h]

theorem workerTrace_append (tr : List Event) (e : Event) :
    workerTrace (tr ++ [e]) = workerTrace tr ++ (if e.worker = none then [] else [e]) := by
  unfold workerTrace
  rw [List.filter_append]
  by_cases h : e.worker = none <;> simp [h]

theorem workerTrace_nil (s : State σ)
    (hev : ∀ e ∈ s.trace, ∀ w, e.worker = some w → w < s.launched) (h0 : s.launched = 0) :
    workerTrace s.trace = [] := by
  unfold workerTrace
  rw [List.filter_eq_nil_iff]
  intro e he
  cases hw : e.worker with
  | none => simp
  | some w => have := hev e he w hw; omega

theorem MLog_workerStep (cfg : Cfg) (env : Env σ) (s : State σ) (w : Nat)
    (h : MLog cfg env s) : MLog cfg env (workerStep cfg env w s) := by
  obtain ⟨f1, f2, f3, f4, f5, f6, f7, f8, f9⟩ := workerStep_frame cfg env w s
  have hfa : (workerStep cfg env w s).failedAdd cfg env = s.failedAdd cfg env := by
    unfold State.failedAdd; rw [f3, f4, f5, f7]
  rcases workerStep_trace cfg env w s with h1 | ⟨op, -, h1⟩
  · exact ⟨by rw [h1]; exact h.order, by rw [h1, f1, hfa]; exact h.log⟩
  · constructor
    · rw [h1, mainEvents_append, workerTrace_append]
      simp only [reduceCtorEq, if_false, List.append_nil]
      rw [← List.append_assoc, ← h.order]
    · rw [h1, mainEvents_append, f1, hfa]
      simp only [reduceCtorEq, if_false, List.append_nil]
      exact h.log

theorem failedAdd_nil (cfg : Cfg) (env : Env σ) (s : State σ)
    (h : s.mainPc ≠ .done ∨ s.launched ≠ 0) : s.failedAdd cfg env = [] := by
  unfold State.failedAdd
  rw [if_neg]
  intro hh
  rcases h with h | h
  · exact h hh.1
  · exact h hh.2

theorem MLog_mainStep (cfg : Cfg) (env : Env σ) (s : State σ)
    (hm : MInv cfg env s)
    (hev : ∀ e ∈ s.trace, ∀ w, e.worker = some w → w < s.launched)
    (h : MLog cfg env s) : MLog cfg env (mainStep cfg env s) := by
  by_cases hcall : s.mainPc = .apCall
  · have hl0 := hm.launched0 (Or.inr (Or.inl hcall))
    have hwt := workerTrace_nil s hev hl0
    have hsid := hm.sid hcall
    have hlen := hm.pieces_len
    rw [hcall] at hlen
    simp only [reduceCtorEq, if_false] at hlen
    have hfa := failedAdd_nil cfg env s (Or.inl (by rw [hcall]; decide))
    have hlog := h.log
    rw [hfa, List.append_nil] at hlog
    have hord := h.order
    rw [hwt, List.append_nil] at hord
    simp only [mainStep, hcall]
    split
    · rename_i e heq
      rw [hsid] at heq
      constructor
      · simp only [State.log, mainEvents_append, workerTrace_append, if_true, hwt,
          List.append_nil]
        rw [← hord]
      · simp only [State.log, mainEvents_append, if_true, List.map_append, List.map_cons,
          List.map_nil, hlog]
        congr 1
        simp only [State.failedAdd, hl0, and_self, if_true, Event.view, heq, hsid, addPieceOp]
    · rename_i pi heq
      rw [hsid] at heq
      constructor
      · simp only [State.log, mainEvents_append, workerTrace_append, if_true, hwt,
          List.append_nil]
        rw [← hord]
      · simp only [State.log, mainEvents_append, if_true, List.map_append, List.map_cons,
          List.map_nil, hlog]
        rw [failedAdd_nil _ _ _ (Or.inl (by simp)), List.append_nil]
        simp only [addPieceLog, List.mapIdx_concat, hlen, Event.view, heq, hsid, addPieceOp]
  · have htr : (mainStep cfg env s).trace = s.trace := by
      rcases mainStep_trace cfg env s with h1 | ⟨h1, -⟩
      · exact h1
      · exact absurd h1 hcall
    have hp : (mainStep cfg env s).pieces = s.pieces := by
      cases hpc : s.mainPc <;> simp only [mainStep, hpc] <;> (try split) <;> (try split) <;>
        first
        | rfl
        | exact absurd hpc hcall
    have hfa : (mainStep cfg env s).failedAdd cfg env = s.failedAdd cfg env := by
      have hc := hm.collect_all
      have hsp := hm.spw
      cases hpc : s.mainPc <;> simp only [hpc] at hc hsp <;>
        simp only [mainStep, hpc] <;> (try split) <;> (try split) <;>
        first
        | rfl
        | exact absurd hpc hcall
        | (simp [State.failedAdd, State.crash, hpc]; done)
        | (have hsp1 := (hsp (Or.inr (Or.inl trivial))).1
           have hc1 := hc trivial
           simp [State.failedAdd, hpc]
           intro _; omega)
    exact ⟨by rw [htr]; exact h.order, by rw [htr, hp, hfa]; exact h.log⟩

/-! ## What holds of every event -/

theorem workerStep_event (cfg : Cfg) (env : Env σ) (s : State σ) (w : Nat)
    (hl : WLocal cfg env s w) :
    ∀ e, (workerStep cfg env w s).trace = s.trace ++ [e] → EvOK cfg env s.pieces e := by
  have hloc := hl.locals
  cases hpc : (s.workers w).pc <;>
    simp [hpc, PC.inIter] at hloc <;>
    simp only [workerStep, hpc] <;> (try split) <;> (try split) <;> (try split) <;>
    (try simp only [State.setW, State.crash, State.log]) <;>
    first
    | (intro e he; exact absurd (List.self_eq_append_right.mp he) (List.cons_ne_nil _ _))
    | (intro e he
       have he2 := List.append_cancel_left he
       simp only [List.cons.injEq, and_true] at he2
       subst he2
       simp_all [EvOK])

theorem EvOK_append (cfg : Cfg) (env : Env σ) (pieces more : List PieceInfo) (e : Event)
    (h : EvOK cfg env pieces e) : EvOK cfg env (pieces ++ more) e := by
  unfold EvOK at h ⊢
  split <;> simp_all
  all_goals
    obtain ⟨pi, h1, h2⟩ := h.2.2.2
    refine ⟨pi, ?_, h2⟩
    rw [List.getElem?_append_left]
    · exact h1
    · exact (List.getElem?_eq_some_iff.mp h1).1

theorem mainStep_pieces (cfg : Cfg) (env : Env σ) (s : State σ) :
    (mainStep cfg env s).pieces = s.pieces ∨ ∃ pi, (mainStep cfg env s).pieces = s.pieces ++ [pi] := by
  cases hpc : s.mainPc <;> simp only [mainStep, hpc] <;> (try split) <;> (try split) <;>
    first
    | exact Or.inl rfl
    | exact Or.inr ⟨_, rfl⟩
    | simp

theorem Inv3_init (cfg : Cfg) (env : Env σ) (w0 : σ) (hv : cfg.valid) :
    Inv3 cfg env (init cfg w0) := by
  refine ⟨Inv2_init cfg env w0 hv, ?_, ?_⟩
  · rw [init_valid cfg w0 hv]
    constructor
    · rfl
    · simp [mainEvents, addPieceLog, State.failedAdd]
  · rw [init_valid cfg w0 hv]; intro e he; simp at he

theorem Inv3_step (cfg : Cfg) (env : Env σ) (s : State σ) (c : Choice) (hv : cfg.valid)
    (h : Inv3 cfg env s) : Inv3 cfg env (step cfg env c s) := by
  refine ⟨Inv2_step cfg env s c hv h.1, ?_⟩
  obtain ⟨⟨⟨hm, hl⟩, ht, hev⟩, hlog, hok⟩ := h
  unfold step
  split
  · exact ⟨hlog, hok⟩
  · cases c with
    | tick => exact ⟨⟨hlog.order, hlog.log⟩, hok⟩
    | main =>
      simp only []
      refine ⟨MLog_mainStep cfg env s hm hev hlog, ?_⟩
      have hmono : ∀ e, EvOK cfg env s.pieces e → EvOK cfg env (mainStep cfg env s).pieces e := by
        intro e he
        rcases mainStep_pieces cfg env s with h1 | ⟨pi, h1⟩
        · rw [h1]; exact he
        · rw [h1]; exact EvOK_append cfg env _ _ e he
      intro e he
      rcases mainStep_trace cfg env s with h2 | ⟨-, h2⟩
      · rw [h2] at he; exact hmono e (hok e he)
      · rw [h2] at he
        rcases List.mem_append.mp he with he | he
        · exact hmono e (hok e he)
        · rw [List.mem_singleton] at he
          subst he
          simp [EvOK]
    | worker w0 =>
      simp only []
      refine ⟨MLog_workerStep cfg env s w0 hlog, ?_⟩
      obtain ⟨f1, -⟩ := workerStep_frame cfg env w0 s
      rw [f1]
      by_cases hw0 : s.launched ≤ w0
      · rw [workerStep_idle cfg env s w0 (by rw [hm.idle w0 hw0]; rfl)]
        exact hok
      · intro e he
        rcases workerStep_trace cfg env w0 s with h1 | ⟨op, -, h1⟩
        · rw [h1] at he; exact hok e he
        · rcases List.mem_append.mp (h1 ▸ he) with he' | he'
          · exact hok e he'
          · rw [List.mem_singleton] at he'
            subst he'
            exact workerStep_event cfg env s w0 (hl w0 (by omega)) _ h1

theorem Inv3_run (cfg : Cfg) (env : Env σ) (sched : List Choice) (s : State σ)
    (hv : cfg.valid) (h : Inv3 cfg env s) : Inv3 cfg env (run cfg env sched s) := by
  induction sched generalizing s with
  | nil => exact h
  | cons c cs ih => exact ih _ (Inv3_step cfg env s c hv h)

theorem Inv3_runSeals (cfg : Cfg) (env : Env σ) (w0 : σ) (sched : List Choice)
    (hv : cfg.valid) : Inv3 cfg env (runSeals cfg env w0 sched) :=
  Inv3_run cfg env sched _ hv (Inv3_init cfg env w0 hv)

/-! ## The partition of the sectors among the workers -/

theorem valid_of (cfg : Cfg) (hN : 0 ≤ cfg.numSectors) (hW : 1 ≤ cfg.par.PreCommit1)
    (h2 : 0 ≤ cfg.par.PreCommit2) (hC : 0 ≤ cfg.par.Commit)
    (hmod : cfg.numSectors % cfg.par.PreCommit1 = 0) (hfit : cfg.fits) : cfg.valid :=
  ⟨hN, h2, hC, by omega, by rw [Int.tmod_eq_emod hN (by omega)]; exact hmod, hfit⟩

theorem div_facts (cfg : Cfg) (hN : 0 ≤ cfg.numSectors) (hW : 1 ≤ cfg.par.PreCommit1)
    (hmod : cfg.numSectors % cfg.par.PreCommit1 = 0) :
    0 < cfg.W ∧ cfg.N / cfg.W * cfg.W = cfg.N := by
  have := div_of cfg hN (by omega) (by rw [Int.tmod_eq_emod hN (by omega)]; exact hmod)
    (by omega)
  exact ⟨this.1, this.2.2⟩

theorem block_mem (cfg : Cfg) (w i : Nat) :
    i ∈ block cfg w ↔ w * (cfg.N / cfg.W) ≤ i ∧ i < w * (cfg.N / cfg.W) + cfg.N / cfg.W := by
  unfold block; exact List.mem_range'_1

theorem block_lt (cfg : Cfg) (hdiv : cfg.N / cfg.W * cfg.W = cfg.N) (w i : Nat)
    (hw : w < cfg.W) (hi : i ∈ block cfg w) : i < cfg.N := by
  rw [block_mem] at hi
  have h1 := Nat.mul_le_mul_right (cfg.N / cfg.W) (Nat.succ_le_of_lt hw)
  rw [Nat.succ_mul] at h1
  have h2 : cfg.W * (cfg.N / cfg.W) = cfg.N := by rw [Nat.mul_comm]; exact hdiv
  omega

theorem block_cover (cfg : Cfg) (hW : 0 < cfg.W) (hdiv : cfg.N / cfg.W * cfg.W = cfg.N)
    (i : Nat) (hi : i < cfg.N) : ∃ w, w < cfg.W ∧ i ∈ block cfg w := by
  have hq : 0 < cfg.N / cfg.W := by
    rcases Nat.eq_zero_or_pos (cfg.N / cfg.W) with h | h
    · rw [h] at hdiv; omega
    · exact h
  refine ⟨i / (cfg.N / cfg.W), ?_, ?_⟩
  · rw [Nat.div_lt_iff_lt_mul hq]
    first
    | (rw [hdiv]; exact hi)
    | (rw [Nat.mul_comm, hdiv]; exact hi)
  · rw [block_mem]
    have h1 := Nat.div_add_mod i (cfg.N / cfg.W)
    have h2 := Nat.mod_lt i hq
    rw [Nat.mul_comm] at h1
    omega

theorem prefix_range' (b m n : Nat) (h : m ≤ n) : List.range' b m <+: List.range' b n := by
  have : List.range' b n = List.range' b m ++ List.range' (b + m) (n - m) := by
    rw [List.range'_append_1]; congr 1; omega
  rw [this]; exact List.prefix_append _ _

theorem started_le (cfg : Cfg) (env : Env σ) (s : State σ) (w : Nat)
    (hl : WLocal cfg env s w) :
    (s.workers w).i - w * s.sectorsPerWorker + (s.workers w).started ≤ s.sectorsPerWorker := by
  have h1 := hl.stop_eq
  have h2 := hl.hi
  have h3 := hl.lo
  unfold Worker.started
  split
  · rename_i hst
    have : (s.workers w).i < (s.workers w).stop := by
      rcases Bool.or_eq_true _ _ |>.mp hst with h | h
      · exact hl.hi_iter (Bool.and_eq_true _ _ |>.mp h).1
      · exact hl.failed_lt h
    omega
  · omega

theorem bound_le (cfg : Cfg) (env : Env σ) (s : State σ) (w : Nat)
    (hl : WLocal cfg env s w) : (s.workers w).bound ≤ (s.workers w).stop := by
  have h2 := hl.hi
  unfold Worker.bound
  split
  · rename_i hst
    have : (s.workers w).i < (s.workers w).stop := by
      rcases Bool.or_eq_true _ _ |>.mp hst with h | h
      · exact hl.hi_iter h
      · exact hl.failed_lt h
    omega
  · omega

/-- Within a run with a valid configuration, what each worker has touched lies in its block. -/
theorem blocks_valid (cfg : Cfg) (env : Env σ) (s : State σ) (h : Inv2 cfg env s) :
    (∀ w, pc1Sectors s.trace w <+: block cfg w) ∧
    (∀ e ∈ s.trace, ∀ w, e.worker = some w → w < cfg.W ∧ e.sector ∈ block cfg w) ∧
    (∀ w, ((s.workers w).pc = .send ∨ (s.workers w).pc = .halted) →
      (s.workers w).sealerr = none → pc1Sectors s.trace w = block cfg w) := by
  obtain ⟨⟨hm, hl⟩, ht, hev⟩ := h
  have hspw : ∀ w, w < s.launched → s.sectorsPerWorker = cfg.N / cfg.W := fun w hw =>
    (hm.spw (Or.inr (Or.inr (by omega)))).2
  refine ⟨fun w => ?_, fun e he w hw => ?_, fun w hpc herr => ?_⟩
  · by_cases hw : w < s.launched
    · rw [(ht w hw).starts, hspw w hw]
      unfold block
      apply prefix_range'
      have := started_le cfg env s w (hl w hw)
      rw [hspw w hw] at this
      exact this
    · rw [pc1Sectors_nil]
      · exact List.nil_prefix
      · intro e he hew
        exact hw (hev e he w hew)
  · have hw' := hev e he w hw
    refine ⟨lt_of_lt_of_le hw' hm.launched_le, ?_⟩
    rw [block_mem]
    have h1 := (ht w hw').range e he hw
    have h2 := bound_le cfg env s w (hl w hw')
    have h3 := (hl w hw').stop_eq
    rw [hspw w hw'] at h1 h3
    generalize cfg.N / cfg.W = q at h1 h3 ⊢
    omega
  · have hw : w < s.launched := by
      by_contra hcon
      have := hm.idle w (by omega)
      rw [this] at hpc
      rcases hpc with h | h <;> exact absurd h (by decide)
    rw [(ht w hw).starts, hspw w hw]
    have hfin := (hl w hw).finished hpc herr
    have hstop := (hl w hw).stop_eq
    have hst : (s.workers w).started = 0 := by
      unfold Worker.started
      rw [herr]
      rcases hpc with h | h <;> rw [h] <;> rfl
    unfold block
    rw [hst, hfin, hstop, hspw w hw]
    congr 1
    generalize cfg.N / cfg.W = q
    omega

/-- With `W >= 1` dividing `N >= 0`, the block of worker `w` has `N / W` elements, the blocks
of the workers `0 .. W-1` are pairwise disjoint and cover exactly `0 .. N-1`; in every run
the sectors a worker has started form an initial segment of its block, every event of a
worker is for a sector of its block, and a worker that ends without error has started its
whole block. -/
theorem blocks_safety (cfg : Cfg) (env : Env σ) (w0 : σ) (sched : List Choice)
    (hN : 0 ≤ cfg.numSectors) (hW : 1 ≤ cfg.par.PreCommit1)
    (hmod : cfg.numSectors % cfg.par.PreCommit1 = 0) :
    (∀ w, (block cfg w).length = cfg.N / cfg.W) ∧
    (∀ w, (block cfg w).Pairwise (· < ·)) ∧
    (∀ i, i < cfg.N → ∃ w, w < cfg.W ∧ i ∈ block cfg w) ∧
    (∀ w w' i, i ∈ block cfg w → i ∈ block cfg w' → w = w') ∧
    (∀ w i, w < cfg.W → i ∈ block cfg w → i < cfg.N) ∧
    (∀ w, pc1Sectors (runSeals cfg env w0 sched).trace w <+: block cfg w) ∧
    (∀ e ∈ (runSeals cfg env w0 sched).trace, ∀ w, e.worker = some w →
      w < cfg.W ∧ e.sector ∈ block cfg w) ∧
    (∀ w, (((runSeals cfg env w0 sched).workers w).pc = .send ∨
        ((runSeals cfg env w0 sched).workers w).pc = .halted) →
      ((runSeals cfg env w0 sched).workers w).sealerr = none →
      pc1Sectors (runSeals cfg env w0 sched).trace w = block cfg w) := by
  obtain ⟨hWpos, hdiv⟩ := div_facts cfg hN hW hmod
  refine ⟨fun w => by unfold block; simp, fun w => by unfold block; exact List.pairwise_lt_range' _ _,
    block_cover cfg hWpos hdiv, ?_, fun w i hw hi => block_lt cfg hdiv w i hw hi, ?_⟩
  · intro w w' i h1 h2
    rw [block_mem] at h1 h2
    exact block_disjoint (cfg.N / cfg.W) w w' i h1.1 h1.2 h2.1 h2.2
  · by_cases hv : cfg.valid
    · exact blocks_valid cfg env _ (Inv2_runSeals cfg env w0 sched hv)
    · obtain ⟨ht, -, -, hidle, -, -⟩ := runSeals_invalid cfg env w0 sched hv
      refine ⟨fun w => ?_, fun e he => ?_, fun w hpc => ?_⟩
      · rw [ht]; exact List.nil_prefix
      · rw [ht] at he; simp at he
      · rw [hidle w] at hpc
        rcases hpc with h | h <;> exact absurd h (by decide)

/-! ## The calls made for one sector -/

theorem sectorOps_append (a b : List Event) (j : Nat) :
    sectorOps (a ++ b) j = sectorOps a j ++ sectorOps b j := by
  unfold sectorOps
  rw [List.filter_append, List.map_append, List.filter_append]

/-- The stage calls recorded in a list of (sector, action) pairs for sector `j`. -/
theorem sectorOps_view (tr : List Event) (j : Nat) :
    sectorOps tr j =
      (((tr.map Event.view).filter (fun v => decide (v.1 = j))).map Prod.snd).filter Op.isStage := by
  unfold sectorOps
  induction tr with
  | nil => rfl
  | cons e es ih =>
    simp only [List.map_cons, List.filter_cons, Event.view]
    by_cases h : e.sector = j
    · simp only [h, decide_True, if_true, List.map_cons, List.filter_cons]
      simp only [h] at ih
      rw [ih]
    · simp only [h, decide_False, Bool.false_eq_true, if_false]
      exact ih

theorem addPieceLog_filter (cfg : Cfg) (env : Env σ) (pieces : List PieceInfo) (j : Nat) :
    (addPieceLog cfg env pieces).filter (fun v => decide (v.1 = j)) =
      match pieces[j]? with
      | some pi => [(j, addPieceOp cfg env j (.ok pi))]
      | none => [] := by
  induction pieces using List.reverseRecOn with
  | nil => simp [addPieceLog]
  | append_singleton l x ih =>
    unfold addPieceLog at ih ⊢
    rw [List.mapIdx_concat, List.filter_append, ih]
    rcases Nat.lt_trichotomy j l.length with h | h | h
    · have h1 : (l ++ [x])[j]? = l[j]? := List.getElem?_append_left h
      have h2 : ¬ l.length = j := by omega
      rw [h1]
      simp [h2]
    · subst h
      have h1 : (l ++ [x])[l.length]? = some x := by simp
      have h2 : l[l.length]? = none := by simp
      rw [h1, h2]
      simp
    · have h1 : (l ++ [x])[j]? = none := by
        rw [List.getElem?_eq_none]; simp; omega
      have h2 : l[j]? = none := by rw [List.getElem?_eq_none]; omega
      have h3 : ¬ l.length = j := by omega
      rw [h1, h2]
      simp [h3]

/-- The worker events for a sector are those of the one worker whose block holds the sector. -/
theorem sectorOps_workerTrace (cfg : Cfg) (env : Env σ) (s : State σ) (h : Inv2 cfg env s)
    (w j : Nat) (hj : j ∈ block cfg w) :
    sectorOps (workerTrace s.trace) j = workerOps s.trace w j := by
  unfold sectorOps workerOps workerEvents workerTrace
  rw [List.filter_filter]
  congr 2
  apply List.filter_congr
  intro e he
  cases hw : e.worker with
  | none => simp
  | some w' =>
    have := ((blocks_valid cfg env s h).2.1 e he w' hw).2
    by_cases hs : e.sector = j
    · rw [hs] at this
      have hww : w' = w := by
        rw [block_mem] at this hj
        exact block_disjoint _ _ _ j this.1 this.2 hj.1 hj.2
      simp [hs, hww]
    · simp [hs]

theorem sectorOps_workerTrace_nil (cfg : Cfg) (env : Env σ) (s : State σ) (h : Inv2 cfg env s)
    (j : Nat) (hj : ∀ w, w < s.launched → j ∉ block cfg w) :
    sectorOps (workerTrace s.trace) j = [] := by
  unfold sectorOps workerTrace
  rw [List.filter_filter]
  have : s.trace.filter (fun a => decide (a.sector = j) && !decide (a.worker = none)) = [] := by
    rw [List.filter_eq_nil_iff]
    intro e he
    cases hw : e.worker with
    | none => simp
    | some w' =>
      have h1 := ((blocks_valid cfg env s h).2.1 e he w' hw).2
      have h2 := h.2.2 e he w' hw
      by_cases hs : e.sector = j
      · rw [hs] at h1; exact absurd h1 (hj w' h2)
      · simp [hs]
  rw [this]; rfl

/-- The calls of worker `w` for a sector of its block: none yet, or those of an iteration
that is under way or complete, or those of an iteration that failed. -/
theorem workerOps_shape (cfg : Cfg) (env : Env σ) (s : State σ) (w j : Nat)
    (hl : WLocal cfg env s w) (ht : WTrace cfg env s w)
    (hb : w * s.sectorsPerWorker ≤ j) :
    (workerOps s.trace w j = [] ∧ (s.workers w).i ≤ j) ∨
    (∃ k p, IterOf cfg env s j k ∧ workerOps s.trace w j = k.doneOps cfg env p ∧
      (j < (s.workers w).i → p = .tUnseal) ∧ p.inIter = true) ∨
    (∃ k p fl err, (s.workers w).i = j ∧ p.canFail = true ∧
      workerOps s.trace w j = k.doneOps cfg env p ++ fl ∧ FailTail cfg env k p fl err) := by
  rcases Nat.lt_trichotomy j (s.workers w).i with h | h | h
  · obtain ⟨k, h1, h2, h3, h4, h5, -⟩ := ht.past j hb h
    exact Or.inr (Or.inl ⟨k, .tUnseal, ⟨h1, h2, h3, h4⟩, h5, fun _ => rfl, rfl⟩)
  · subst h
    by_cases hin : (s.workers w).pc.inIter = true
    · obtain ⟨h3, h2, h4⟩ := hl.locals hin
      exact Or.inr (Or.inl ⟨s.workers w, (s.workers w).pc, ⟨rfl, h2, h3, h4⟩, ht.cur hin,
        fun hh => absurd hh (lt_irrefl _), hin⟩)
    · cases herr : (s.workers w).sealerr with
      | some err =>
        obtain ⟨p, fl, h1, h2, h3⟩ := ht.failed err herr
        exact Or.inr (Or.inr ⟨s.workers w, p, fl, err, rfl, h1, h2, h3⟩)
      | none =>
        left
        refine ⟨workerOps_nil_of_lt _ _ _ (fun e he hw => ?_), le_refl _⟩
        have := (ht.range e he hw).2
        simp only [Worker.bound, herr, Option.isSome_none, Bool.or_false] at this
        rw [if_neg hin] at this
        exact this
  · left
    refine ⟨workerOps_nil_of_lt _ _ _ (fun e he hw => ?_), le_of_lt h⟩
    have := (ht.range e he hw).2
    have hbd : (s.workers w).bound ≤ (s.workers w).i + 1 := by
      unfold Worker.bound; split <;> omega
    omega

/-- The calls for a sector whose worker is launched: AddPiece, then the calls of the worker. -/
theorem sectorOps_owner (cfg : Cfg) (env : Env σ) (s : State σ) (hv : cfg.valid)
    (h : Inv3 cfg env s) (w j : Nat) (hw : w < s.launched) (hj : j ∈ block cfg w) :
    ∃ pi, s.pieces[j]? = some pi ∧
      sectorOps s.trace j = addPieceOp cfg env j (.ok pi) :: workerOps s.trace w j := by
  obtain ⟨h2, hlog, -⟩ := h
  have hm := h2.1.1
  have hpos : 0 < s.launched := by omega
  have hspw := hm.spw (Or.inr (Or.inr hpos))
  have hdiv : cfg.N / cfg.W * cfg.W = cfg.N := by
    have hW : ¬ cfg.par.PreCommit1 < 0 := by
      intro hneg
      have : cfg.W = 0 := by unfold Cfg.W; omega
      omega
    exact (valid_div cfg hv hW).2.2
  have hjN : j < cfg.N := block_lt cfg hdiv w j (lt_of_lt_of_le hw hm.launched_le) hj
  have hlen : s.pieces.length = cfg.N := by
    have h1 := hm.pieces_len
    have h3 := hm.after (Or.inr (Or.inr (Or.inr hpos)))
    have h4 := hm.launched0
    by_cases hd : s.mainPc = .apDone
    · have := h4 (Or.inr (Or.inr (Or.inl hd))); omega
    · rw [if_neg hd] at h1; omega
  have hfa := failedAdd_nil cfg env s (Or.inr (by omega))
  obtain ⟨pi, hpi⟩ : ∃ pi, s.pieces[j]? = some pi := by
    rw [List.getElem?_eq_getElem (by omega)]; exact ⟨_, rfl⟩
  refine ⟨pi, hpi, ?_⟩
  have hord := hlog.order
  have hl := hlog.log
  rw [hfa, List.append_nil] at hl
  rw [hord, sectorOps_append, sectorOps_workerTrace cfg env s h2 w j hj, sectorOps_view, hl,
    addPieceLog_filter, hpi]
  have hwo : workerOps (mainEvents s.trace ++ workerTrace s.trace) w j = workerOps s.trace w j := by
    rw [← hord]
  simp only [List.map_cons, List.map_nil, List.filter_cons, List.filter_nil, addPieceOp,
    Op.isStage, if_true, List.singleton_append]
  rw [← hord]

theorem rank_pc1 (a : SectorRef) (b : Bytes) (c : List PieceInfo) (d : Except GoError Bytes) :
    (Op.sealPreCommit1 a b c d).rank = 1 := rfl

theorem rank_pc2 (a : SectorRef) (b : Bytes) (d : Except GoError SectorCids) :
    (Op.sealPreCommit2 a b d).rank = 2 := rfl

theorem rank_c1 (a : SectorRef) (b c : Bytes) (p : List PieceInfo) (q : SectorCids)
    (d : Except GoError Bytes) : (Op.sealCommit1 a b c p q d).rank = 3 := rfl

theorem rank_c2 (a : SectorRef) (b : Bytes) (d : Except GoError Bytes) :
    (Op.sealCommit2 a b d).rank = 4 := rfl

theorem rank_verify (a : SealVerifyInfo) (d : Except GoError Bool) :
    (Op.verifySeal a d).rank = 5 := rfl

theorem rank_acq (a : SectorRef) (d : Except GoError String) :
    (Op.acquireSector a d).rank = 6 := rfl

theorem rank_rm (a : String) (d : Option GoError) : (Op.remove a d).rank = 7 := rfl

theorem rank_unseal (a : SectorRef) (o n : Nat) (t : Bytes) (c : Cid) (d : Option GoError) :
    (Op.unsealPiece a o n t c d).rank = 8 := rfl

theorem ok_pc1 (a : SectorRef) (b : Bytes) (c : List PieceInfo) (d : Bytes) :
    (Op.sealPreCommit1 a b c (.ok d)).failed = false := rfl

theorem ok_pc2 (a : SectorRef) (b : Bytes) (d : SectorCids) :
    (Op.sealPreCommit2 a b (.ok d)).failed = false := rfl

theorem ok_c1 (a : SectorRef) (b c : Bytes) (p : List PieceInfo) (q : SectorCids)
    (d : Bytes) : (Op.sealCommit1 a b c p q (.ok d)).failed = false := rfl

theorem ok_c2 (a : SectorRef) (b : Bytes) (d : Bytes) :
    (Op.sealCommit2 a b (.ok d)).failed = false := rfl

theorem ok_verify (a : SealVerifyInfo) : (Op.verifySeal a (.ok true)).failed = false := rfl

theorem ok_acq (a : SectorRef) (d : String) : (Op.acquireSector a (.ok d)).failed = false := rfl

theorem ok_rm (a : String) : (Op.remove a none).failed = false := rfl

theorem ok_unseal (a : SectorRef) (o n : Nat) (t : Bytes) (c : Cid) :
    (Op.unsealPiece a o n t c none).failed = false := rfl

theorem doneOps_good (cfg : Cfg) (env : Env σ) (k : Worker) (a : Op) (p : PC)
    (ha : a.rank = 0) (haf : a.failed = false) :
    GoodLog (a :: k.doneOps cfg env p) := by
  unfold GoodLog
  cases p <;> cases h2 : cfg.skipc2 <;> cases h3 : cfg.skipunseal <;>
    simp [Worker.doneOps, Worker.opsPc1, Worker.opsPc2, Worker.opsC1, Worker.opsC2,
      Worker.opsVerify, Worker.opsAcq, Worker.opsRm, Worker.opsUnseal, h2, h3, ha, haf,
      rank_pc1, rank_pc2, rank_c1, rank_c2, rank_verify, rank_acq, rank_rm, rank_unseal,
      ok_pc1, ok_pc2, ok_c1, ok_c2, ok_verify, ok_acq, ok_rm, ok_unseal]

theorem doneOps_fail_good (cfg : Cfg) (env : Env σ) (k : Worker) (a f : Op) (p : PC)
    (ha : a.rank = 0) (haf : a.failed = false) (hf : f.rank = p.rank)
    (hp : p.canFail = true) :
    GoodLog (a :: (k.doneOps cfg env p ++ [f])) := by
  unfold GoodLog
  cases p <;> simp [PC.canFail] at hp <;> simp only [PC.rank] at hf <;>
  cases h2 : cfg.skipc2 <;> cases h3 : cfg.skipunseal <;>
    simp [Worker.doneOps, Worker.opsPc1, Worker.opsPc2, Worker.opsC1, Worker.opsC2,
      Worker.opsVerify, Worker.opsAcq, Worker.opsRm, Worker.opsUnseal, h2, h3, ha, haf, hf,
      List.pairwise_append,
      rank_pc1, rank_pc2, rank_c1, rank_c2, rank_verify, rank_acq, rank_rm, rank_unseal,
      ok_pc1, ok_pc2, ok_c1, ok_c2, ok_verify, ok_acq, ok_rm, ok_unseal]

/-! ## The calls of one sector, case by case -/

theorem rank_addPieceOp (cfg : Cfg) (env : Env σ) (j : Nat) (r : Except GoError PieceInfo) :
    (addPieceOp cfg env j r).rank = 0 := rfl

theorem ok_addPieceOp (cfg : Cfg) (env : Env σ) (j : Nat) (pi : PieceInfo) :
    (addPieceOp cfg env j (.ok pi)).failed = false := rfl

theorem failedAdd_cases (cfg : Cfg) (env : Env σ) (s : State σ) :
    s.failedAdd cfg env = [] ∨
    (∃ e, s.failedAdd cfg env = [(s.mainI, addPieceOp cfg env s.mainI (.error e))] ∧
      s.mainPc = .done ∧ s.launched = 0) := by
  unfold State.failedAdd
  by_cases hc : s.mainPc = .done ∧ s.launched = 0
  · rw [if_pos hc]
    cases hr : s.ret with
    | none => exact Or.inl rfl
    | some r =>
      obtain ⟨a, b, c⟩ := r
      cases c with
      | none => exact Or.inl rfl
      | some e => exact Or.inr ⟨e, rfl, hc⟩
  · rw [if_neg hc]; exact Or.inl rfl

/-- The orchestrator makes at most one call for a sector, and it is AddPiece. -/
theorem mainOps_short (cfg : Cfg) (env : Env σ) (s : State σ) (hm : MInv cfg env s)
    (hlog : MLog cfg env s) (j : Nat) :
    (sectorOps (mainEvents s.trace) j).length ≤ 1 ∧
      ∀ o ∈ sectorOps (mainEvents s.trace) j, o.rank = 0 := by
  rw [sectorOps_view, hlog.log, List.filter_append, addPieceLog_filter]
  rcases failedAdd_cases cfg env s with hf | ⟨e, hf, hd, -⟩
  · rw [hf]
    cases hp : s.pieces[j]? <;> simp [addPieceOp, Op.isStage, Op.rank]
  · have hlen : s.pieces.length = s.mainI := by
      have := hm.pieces_len
      rw [if_neg (by rw [hd]; decide)] at this
      exact this
    rw [hf]
    cases hp : s.pieces[j]? with
    | some pi =>
      have hj : j < s.pieces.length := by
        by_contra hh
        have := List.getElem?_eq_none (Nat.le_of_not_lt hh)
        rw [this] at hp; cases hp
      have hne : ¬ s.mainI = j := by omega
      simp [hne, addPieceOp, Op.isStage, Op.rank]
    | none =>
      by_cases hj : s.mainI = j <;> simp [hj, addPieceOp, Op.isStage, Op.rank]

/-- The calls for a sector: an AddPiece call at most, or the successful AddPiece call
followed by the calls of the launched worker whose block holds the sector. -/
theorem sector_cases (cfg : Cfg) (env : Env σ) (s : State σ) (hv : cfg.valid)
    (h : Inv3 cfg env s) (j : Nat) :
    ((sectorOps s.trace j).length ≤ 1 ∧ ∀ o ∈ sectorOps s.trace j, o.rank = 0) ∨
    (∃ w pi, w < s.launched ∧ j ∈ block cfg w ∧ s.pieces[j]? = some pi ∧
      sectorOps s.trace j = addPieceOp cfg env j (.ok pi) :: workerOps s.trace w j) := by
  by_cases hown : ∃ w, w < s.launched ∧ j ∈ block cfg w
  · obtain ⟨w, hw, hj⟩ := hown
    obtain ⟨pi, h1, h2⟩ := sectorOps_owner cfg env s hv h w j hw hj
    exact Or.inr ⟨w, pi, hw, hj, h1, h2⟩
  · left
    have hnil := sectorOps_workerTrace_nil cfg env s h.1 j
      (fun w hw hj => hown ⟨w, hw, hj⟩)
    have hord := h.2.1.order
    have : sectorOps s.trace j = sectorOps (mainEvents s.trace) j := by
      conv_lhs => rw [hord]
      rw [sectorOps_append, hnil, List.append_nil]
    rw [this]
    exact mainOps_short cfg env s h.1.1.1 h.2.1 j

/-- In every reachable state the calls of each sector are in pipeline order and only the
last of them may have failed. -/
theorem sector_good (cfg : Cfg) (env : Env σ) (s : State σ) (hv : cfg.valid)
    (h : Inv3 cfg env s) (j : Nat) : GoodLog (sectorOps s.trace j) := by
  rcases sector_cases cfg env s hv h j with ⟨h1, -⟩ | ⟨w, pi, hw, hj, -, heq⟩
  · unfold GoodLog
    match hl : sectorOps s.trace j with
    | [] => exact List.Pairwise.nil
    | [a] => exact List.pairwise_singleton _ _
    | a :: b :: l => rw [hl] at h1; simp at h1
  · rw [heq]
    have hspw := (h.1.1.1.spw (Or.inr (Or.inr (by omega)))).2
    have hb : w * s.sectorsPerWorker ≤ j := by
      rw [hspw]; exact ((block_mem cfg w j).mp hj).1
    rcases workerOps_shape cfg env s w j (h.1.1.2 w hw) (h.1.2.1 w hw) hb with
      ⟨h1, -⟩ | ⟨k, p, -, h1, -, -⟩ | ⟨k, p, fl, err, -, hp, h1, hft⟩
    · rw [h1]; exact List.pairwise_singleton _ _
    · rw [h1]
      exact doneOps_good cfg env k _ p (rank_addPieceOp cfg env j _) (ok_addPieceOp cfg env j pi)
    · rw [h1]
      rcases hft with ⟨-, hfl, -⟩ | ⟨f, hfl, -, hr, -⟩
      · rw [hfl, List.append_nil]
        exact doneOps_good cfg env k _ p (rank_addPieceOp cfg env j _)
          (ok_addPieceOp cfg env j pi)
      · rw [hfl]
        exact doneOps_fail_good cfg env k _ f p (rank_addPieceOp cfg env j _)
          (ok_addPieceOp cfg env j pi) hr hp

/-! ## A failed stage ends the pipeline of its sector -/

theorem mem_sectorOps (tr : List Event) (e : Event) (he : e ∈ tr) (hst : e.op.isStage = true) :
    e.op ∈ sectorOps tr e.sector := by
  unfold sectorOps
  rw [List.mem_filter]
  refine ⟨List.mem_map.mpr ⟨e, ?_, rfl⟩, hst⟩
  rw [List.mem_filter]
  exact ⟨he, by simp⟩

theorem of_mem_sectorOps (tr : List Event) (j : Nat) (o : Op) (ho : o ∈ sectorOps tr j) :
    ∃ e ∈ tr, e.sector = j ∧ e.op = o ∧ o.isStage = true := by
  unfold sectorOps at ho
  rw [List.mem_filter, List.mem_map] at ho
  obtain ⟨⟨e, he, rfl⟩, hst⟩ := ho
  rw [List.mem_filter] at he
  exact ⟨e, he.1, by simpa using he.2, rfl, hst⟩

/-- In a list in pipeline order no call comes after a failed one. -/
theorem GoodLog.rank_le (l : List Op) (h : GoodLog l) (a b : Op) (ha : a ∈ l) (hb : b ∈ l)
    (hf : a.failed = true) : b.rank ≤ a.rank := by
  by_cases hab : a = b
  · rw [hab]
  · have hs : l.Pairwise (fun x y => (x.rank < y.rank ∧ x.failed = false) ∨
        (y.rank < x.rank ∧ y.failed = false)) := List.Pairwise.imp (fun hxy => Or.inl hxy) h
    have := List.Pairwise.forall (fun x y hxy => Or.symm hxy) hs ha hb hab
    rcases this with ⟨-, h1⟩ | ⟨h1, -⟩
    · rw [hf] at h1; cases h1
    · exact le_of_lt h1

/-- In every state of every run the calls of each sector are in pipeline order and only
the last of them may have failed. -/
theorem runSeals_good (cfg : Cfg) (env : Env σ) (w0 : σ) (sched : List Choice) (j : Nat) :
    GoodLog (sectorOps (runSeals cfg env w0 sched).trace j) := by
  by_cases hv : cfg.valid
  · exact sector_good cfg env _ hv (Inv3_runSeals cfg env w0 sched hv) j
  · have := (runSeals_invalid cfg env w0 sched hv).1
    rw [this]
    exact List.Pairwise.nil

/-- C6: in every run of `runSeals`, under every schedule, once a stage call for a sector
has failed, every stage call made for that sector belongs to the same or an earlier stage:
no call of a later stage is ever made for it (after a failed SealPreCommit2, of rank 2, no
SealCommit1, of rank 3), and the calls of the sector are in pipeline order with the failed
call last. -/
theorem failed_stage_ends_sector (cfg : Cfg) (env : Env σ) (w0 : σ) (sched : List Choice)
    (e e' : Event)
    (he : e ∈ (runSeals cfg env w0 sched).trace)
    (he' : e' ∈ (runSeals cfg env w0 sched).trace)
    (hsec : e'.sector = e.sector)
    (hst : e.op.isStage = true) (hst' : e'.op.isStage = true)
    (hf : e.op.failed = true) :
    e'.op.rank ≤ e.op.rank ∧
      (sectorOps (runSeals cfg env w0 sched).trace e.sector).getLast? = some e.op ∧
      GoodLog (sectorOps (runSeals cfg env w0 sched).trace e.sector) := by
  have hg := runSeals_good cfg env w0 sched e.sector
  have h1 := mem_sectorOps _ e he hst
  have h2 := mem_sectorOps _ e' he' hst'
  rw [hsec] at h2
  refine ⟨GoodLog.rank_le _ hg _ _ h1 h2 hf, ?_, hg⟩
  obtain ⟨l1, l2, hl⟩ := List.append_of_mem h1
  rw [hl] at hg ⊢
  cases l2 with
  | nil => simp
  | cons b l2 =>
    unfold GoodLog at hg
    rw [List.pairwise_append] at hg
    have := (List.pairwise_cons.mp hg.2.1).1 b (List.mem_cons_self _ _)
    rw [hf] at this
    cases this.2

/-- An instance of `failed_stage_ends_sector`: SealPreCommit2 fails for sector 0 of a stub
run, and the SealPreCommit1 call of that sector is of an earlier stage. -/
theorem failed_stage_ends_sector_witness :
    (⟨some 0, 0, 14, .sealPreCommit2 ⟨⟨1000, 0⟩, 8⟩ [0, 1] (.error (.msg "boom"))⟩ : Event) ∈
      (runSeals (stubCfg 2 1) (stubEnv (.preCommit2 0)) 0 (roundRobin 1 20)).trace ∧
    (1 : Nat) ≤ 2 ∧
      (sectorOps (runSeals (stubCfg 2 1) (stubEnv (.preCommit2 0)) 0 (roundRobin 1 20)).trace
        0).getLast? = some (.sealPreCommit2 ⟨⟨1000, 0⟩, 8⟩ [0, 1] (.error (.msg "boom"))) ∧
      GoodLog (sectorOps
        (runSeals (stubCfg 2 1) (stubEnv (.preCommit2 0)) 0 (roundRobin 1 20)).trace 0) :=
  ⟨by decide,
   failed_stage_ends_sector (stubCfg 2 1) (stubEnv (.preCommit2 0)) 0 (roundRobin 1 20)
    ⟨some 0, 0, 14, .sealPreCommit2 ⟨⟨1000, 0⟩, 8⟩ [0, 1] (.error (.msg "boom"))⟩
    ⟨some 0, 0, 10, .sealPreCommit1 ⟨⟨1000, 0⟩, 8⟩ [7] [⟨2032, 1000⟩] (.ok [0, 1])⟩
    (by decide) (by decide) rfl rfl rfl rfl⟩

/-! ## The calls of a sector that went through the whole pipeline -/

/-- Only a complete iteration holds an UnsealPiece call among its successful calls. -/
theorem doneOps_rank_lt (cfg : Cfg) (env : Env σ) (k : Worker) (p : PC) (hp : p ≠ .tUnseal) :
    ∀ o ∈ k.doneOps cfg env p, o.rank < 8 := by
  cases p <;> simp at hp <;> cases h2 : cfg.skipc2 <;>
    simp [Worker.doneOps, Worker.opsPc1, Worker.opsPc2, Worker.opsC1, Worker.opsC2,
      Worker.opsVerify, Worker.opsAcq, Worker.opsRm, h2,
      rank_pc1, rank_pc2, rank_c1, rank_c2, rank_verify, rank_acq, rank_rm]

theorem runSeals_invalid_workers (cfg : Cfg) (env : Env σ) (w0 : σ) (sched : List Choice)
    (h : ¬ cfg.valid) (w : Nat) : (runSeals cfg env w0 sched).workers w = Worker.idle := by
  obtain ⟨hq, -⟩ := init_invalid_quiet cfg w0 h
  obtain ⟨t, hrun⟩ := run_quiet cfg env sched (init cfg w0) hq
  unfold runSeals
  rw [hrun]
  unfold init
  simp only [State.crash]
  split
  · rfl
  · split
    · rfl
    · split
      · rfl
      · split <;> rfl

/-- The calls of a sector whose iteration ran to its end. -/
theorem sector_processed (cfg : Cfg) (env : Env σ) (s : State σ) (hv : cfg.valid)
    (h : Inv3 cfg env s) (j : Nat) (hp : s.processed j) :
    ∃ k pi, IterOf cfg env s j k ∧ s.pieces[j]? = some pi ∧ k.piece = [pi] ∧
      sectorOps s.trace j = addPieceOp cfg env j (.ok pi) :: k.opsUnseal cfg env := by
  obtain ⟨w, hw, hb, hlt⟩ := hp
  have hl := h.1.1.2 w hw
  have hspw := (h.1.1.1.spw (Or.inr (Or.inr (by omega)))).2
  have hj : j ∈ block cfg w := by
    rw [block_mem, ← hspw]
    have h1 := hl.hi
    have h2 := hl.stop_eq
    omega
  obtain ⟨pi, hpi, hops⟩ := sectorOps_owner cfg env s hv h w j hw hj
  obtain ⟨k, h1, h2, ⟨pi2, h3, h3b⟩, h4, h5, -⟩ := (h.1.2.1 w hw).past j hb hlt
  have hpp : pi2 = pi := by rw [hpi] at h3; exact (Option.some.inj h3).symm
  subst hpp
  exact ⟨k, pi2, ⟨h1, h2, ⟨pi2, h3, h3b⟩, h4⟩, hpi, h3b, by rw [hops, h5]; rfl⟩

/-- A successful UnsealPiece call for a sector means its iteration ran to its end. -/
theorem sector_complete (cfg : Cfg) (env : Env σ) (s : State σ) (hv : cfg.valid)
    (h : Inv3 cfg env s) (j : Nat) (o : Op) (ho : o ∈ sectorOps s.trace j)
    (hr : o.rank = 8) (hf : o.failed = false) :
    ∃ k pi, IterOf cfg env s j k ∧ s.pieces[j]? = some pi ∧ k.piece = [pi] ∧
      sectorOps s.trace j = addPieceOp cfg env j (.ok pi) :: k.opsUnseal cfg env := by
  rcases sector_cases cfg env s hv h j with ⟨-, h1⟩ | ⟨w, pi, hw, hj, hpi, heq⟩
  · have := h1 o ho; omega
  · have hspw := (h.1.1.1.spw (Or.inr (Or.inr (by omega)))).2
    have hb : w * s.sectorsPerWorker ≤ j := by
      rw [hspw]; exact ((block_mem cfg w j).mp hj).1
    have hne : o ≠ addPieceOp cfg env j (.ok pi) := by
      intro hh; rw [hh, rank_addPieceOp] at hr; omega
    rw [heq] at ho ⊢
    have ho2 : o ∈ workerOps s.trace w j := by
      rcases List.mem_cons.mp ho with hh | hh
      · exact absurd hh hne
      · exact hh
    rcases workerOps_shape cfg env s w j (h.1.1.2 w hw) (h.1.2.1 w hw) hb with
      ⟨h1, -⟩ | ⟨k, p, hit, h1, -, -⟩ | ⟨k, p, fl, err, -, hp, h1, hft⟩
    · rw [h1] at ho2; cases ho2
    · rw [h1] at ho2 ⊢
      have hpt : p = .tUnseal := by
        by_contra hpn
        have := doneOps_rank_lt cfg env k p hpn o ho2
        omega
      subst hpt
      obtain ⟨i1, i2, ⟨pi2, i3, i3b⟩, i4⟩ := hit
      have hpp : pi2 = pi := by rw [hpi] at i3; exact (Option.some.inj i3).symm
      subst hpp
      exact ⟨k, pi2, ⟨i1, i2, ⟨pi2, i3, i3b⟩, i4⟩, hpi, i3b, rfl⟩
    · exfalso
      rw [h1] at ho2
      have hpn : p ≠ .tUnseal := by intro hh; rw [hh] at hp; cases hp
      rcases List.mem_append.mp ho2 with hh | hh
      · have := doneOps_rank_lt cfg env k p hpn o hh
        omega
      · rcases hft with ⟨-, hfl, -⟩ | ⟨f, hfl, hrep, -, -⟩
        · rw [hfl] at hh; cases hh
        · rw [hfl] at hh
          have : o = f := by simpa using hh
          subst this
          unfold Op.failed at hf
          rw [hrep] at hf; cases hf

/-! ## Skipping Commit2, the full pipeline, and AddPiece up front -/

/-- C8: with `skipc2` set, in every state of every run no event is a SealCommit2 call and
none is a VerifySeal call, the `proof` variable of every worker is empty, and the calls made
for each processed sector are AddPiece, SealPreCommit1, SealPreCommit2, SealCommit1, each
fed by the one before, followed only by the unseal stage when that is not skipped. -/
theorem skipc2_no_commit2 (cfg : Cfg) (env : Env σ) (w0 : σ) (sched : List Choice)
    (h : cfg.skipc2 = true) :
    (∀ e ∈ (runSeals cfg env w0 sched).trace, ∀ sid c1o r, e.op ≠ .sealCommit2 sid c1o r) ∧
    (∀ e ∈ (runSeals cfg env w0 sched).trace, ∀ svi r, e.op ≠ .verifySeal svi r) ∧
    (∀ w, ((runSeals cfg env w0 sched).workers w).proof = []) ∧
    (∀ j, (runSeals cfg env w0 sched).processed j → ∃ pi pc1o cids c1o path,
      sectorOps (runSeals cfg env w0 sched).trace j =
        [.addPiece (cfg.sid env j) (env.unpadded cfg.sectorSize) (wrap64 (100 + j)) (.ok pi),
         .sealPreCommit1 (cfg.sid env j) (env.blake2b cfg.ticketPreimage) [pi] (.ok pc1o),
         .sealPreCommit2 (cfg.sid env j) pc1o (.ok cids),
         .sealCommit1 (cfg.sid env j) (env.blake2b cfg.ticketPreimage) seedValue [pi] cids
           (.ok c1o)] ++
        (if cfg.skipunseal then [] else
          [.acquireSector (cfg.sid env j) (.ok path), .remove path none,
           .unsealPiece (cfg.sid env j) 0 (env.unpadded cfg.sectorSize)
             (env.blake2b cfg.ticketPreimage) cids.Unsealed none])) := by
  by_cases hv : cfg.valid
  · have hi := Inv3_runSeals cfg env w0 sched hv
    refine ⟨fun e he sid c1o r hop => ?_, fun e he svi r hop => ?_, fun w => ?_,
      fun j hp => ?_⟩
    · have := hi.2.2 e he
      unfold EvOK at this
      rw [hop] at this
      rw [h] at this
      cases this.2
    · have := hi.2.2 e he
      unfold EvOK at this
      rw [hop] at this
      rw [h] at this
      cases this.2
    · by_cases hw : w < (runSeals cfg env w0 sched).launched
      · exact (hi.1.1.2 w hw).proofEmpty h
      · rw [hi.1.1.1.idle w (Nat.le_of_not_lt hw)]; rfl
    · obtain ⟨k, pi, ⟨-, i2, -, i4⟩, -, i3, hops⟩ := sector_processed cfg env _ hv hi j hp
      refine ⟨pi, k.pc1o, k.cids, k.c1o, k.path, ?_⟩
      rw [hops]
      simp only [Worker.opsUnseal, Worker.opsVerify, Worker.opsC2, Worker.opsC1, Worker.opsPc2,
        Worker.opsPc1, h, if_true, List.append_nil, i2, i3, i4, addPieceOp]
      rfl
  · obtain ⟨ht, -, hl, -⟩ := runSeals_invalid cfg env w0 sched hv
    refine ⟨fun e he => ?_, fun e he => ?_, fun w => ?_, fun j hp => ?_⟩
    · rw [ht] at he; cases he
    · rw [ht] at he; cases he
    · rw [runSeals_invalid_workers cfg env w0 sched hv w]; rfl
    · obtain ⟨w, hw, -⟩ := hp
      rw [hl] at hw; cases hw

/-- An instance of `skipc2_no_commit2`: a stub run of one sector with Commit2 skipped. -/
theorem skipc2_no_commit2_witness :
    stubSkipC2.skipc2 = true ∧
    (∀ w, ((runSeals stubSkipC2 (stubEnv .never) 0 (roundRobin 1 30)).workers w).proof = []) ∧
    (∃ pi pc1o cids c1o path,
      sectorOps (runSeals stubSkipC2 (stubEnv .never) 0 (roundRobin 1 30)).trace 0 =
        [.addPiece (stubSkipC2.sid (stubEnv .never) 0)
           ((stubEnv .never).unpadded stubSkipC2.sectorSize) (wrap64 (100 + (0 : Nat))) (.ok pi),
         .sealPreCommit1 (stubSkipC2.sid (stubEnv .never) 0)
           ((stubEnv .never).blake2b stubSkipC2.ticketPreimage) [pi] (.ok pc1o),
         .sealPreCommit2 (stubSkipC2.sid (stubEnv .never) 0) pc1o (.ok cids),
         .sealCommit1 (stubSkipC2.sid (stubEnv .never) 0)
           ((stubEnv .never).blake2b stubSkipC2.ticketPreimage) seedValue [pi] cids
           (.ok c1o)] ++
        (if stubSkipC2.skipunseal then [] else
          [.acquireSector (stubSkipC2.sid (stubEnv .never) 0) (.ok path), .remove path none,
           .unsealPiece (stubSkipC2.sid (stubEnv .never) 0) 0
             ((stubEnv .never).unpadded stubSkipC2.sectorSize)
             ((stubEnv .never).blake2b stubSkipC2.ticketPreimage) cids.Unsealed none])) :=
  ⟨rfl, (skipc2_no_commit2 stubSkipC2 (stubEnv .never) 0 (roundRobin 1 30) rfl).2.2.1,
   (skipc2_no_commit2 stubSkipC2 (stubEnv .never) 0 (roundRobin 1 30) rfl).2.2.2 0
     ⟨0, by decide, by decide, by decide⟩⟩

theorem rank_unsealPiece_ok (a : SectorRef) (o n : Nat) (t : Bytes) (c : Cid) :
    (Op.unsealPiece a o n t c none).rank = 8 ∧ (Op.unsealPiece a o n t c none).failed = false ∧
      (Op.unsealPiece a o n t c none).isStage = true := ⟨rfl, rfl, rfl⟩

/-- C9: with no skip flag set, in every state of every run, a sector whose UnsealPiece call
returned without error has had exactly these calls, in this order, each once: AddPiece,
SealPreCommit1, SealPreCommit2, SealCommit1, SealCommit2, VerifySeal, the path lookup
AcquireSector of the sector provider, the removal of the unsealed file, UnsealPiece; and
each call got what the one before returned for this sector (SealPreCommit1 the piece of
AddPiece, SealPreCommit2 the output of SealPreCommit1, SealCommit1 the CIDs of
SealPreCommit2, SealCommit2 the output of SealCommit1, VerifySeal the proof of SealCommit2
and the sealed CID, the removal the path of the lookup). -/
theorem full_pipeline_order (cfg : Cfg) (env : Env σ) (w0 : σ) (sched : List Choice)
    (e : Event) (sid : SectorRef) (off sz : Nat) (t : Bytes) (un : Cid)
    (h2 : cfg.skipc2 = false) (h3 : cfg.skipunseal = false)
    (he : e ∈ (runSeals cfg env w0 sched).trace)
    (hop : e.op = .unsealPiece sid off sz t un none) :
    ∃ pi pc1o cids c1o proof path,
      sectorOps (runSeals cfg env w0 sched).trace e.sector =
        [.addPiece (cfg.sid env e.sector) (env.unpadded cfg.sectorSize)
           (wrap64 (100 + e.sector)) (.ok pi),
         .sealPreCommit1 (cfg.sid env e.sector) (env.blake2b cfg.ticketPreimage) [pi]
           (.ok pc1o),
         .sealPreCommit2 (cfg.sid env e.sector) pc1o (.ok cids),
         .sealCommit1 (cfg.sid env e.sector) (env.blake2b cfg.ticketPreimage) seedValue [pi]
           cids (.ok c1o),
         .sealCommit2 (cfg.sid env e.sector) c1o (.ok proof),
         .verifySeal ⟨⟨cfg.mid, e.sector⟩, cids.Sealed, (cfg.sid env e.sector).ProofType, proof,
           [], env.blake2b cfg.ticketPreimage, seedValue, cids.Unsealed⟩ (.ok true),
         .acquireSector (cfg.sid env e.sector) (.ok path),
         .remove path none,
         .unsealPiece (cfg.sid env e.sector) 0 (env.unpadded cfg.sectorSize)
           (env.blake2b cfg.ticketPreimage) cids.Unsealed none] := by
  by_cases hv : cfg.valid
  · have hi := Inv3_runSeals cfg env w0 sched hv
    obtain ⟨hr, hf, hst⟩ := rank_unsealPiece_ok sid off sz t un
    rw [← hop] at hr hf hst
    obtain ⟨k, pi, ⟨i1, i2, -, i4⟩, -, i3, hops⟩ :=
      sector_complete cfg env _ hv hi e.sector e.op (mem_sectorOps _ e he hst) hr hf
    refine ⟨pi, k.pc1o, k.cids, k.c1o, k.proof, k.path, ?_⟩
    rw [hops]
    simp only [Worker.opsUnseal, Worker.opsVerify, Worker.opsC2, Worker.opsC1, Worker.opsPc2,
      Worker.opsPc1, Worker.svi, h2, h3, i1, i2, i3, i4, addPieceOp]
    rfl
  · have ht := (runSeals_invalid cfg env w0 sched hv).1
    rw [ht] at he; cases he

/-- An instance of `full_pipeline_order`: sector 0 of a stub run in which every call
succeeds. -/
theorem full_pipeline_order_witness :
    (stubCfg 2 1).skipc2 = false ∧ (stubCfg 2 1).skipunseal = false ∧
    (⟨some 0, 0, 29, .unsealPiece ⟨⟨1000, 0⟩, 8⟩ 0 2032 [7] 2000 none⟩ : Event) ∈
      (runSeals (stubCfg 2 1) (stubEnv .never) 0 (roundRobin 1 30)).trace ∧
    ∃ pi pc1o cids c1o proof path,
      sectorOps (runSeals (stubCfg 2 1) (stubEnv .never) 0 (roundRobin 1 30)).trace 0 =
        [.addPiece ((stubCfg 2 1).sid (stubEnv .never) 0)
           ((stubEnv .never).unpadded (stubCfg 2 1).sectorSize) (wrap64 (100 + (0 : Nat)))
           (.ok pi),
         .sealPreCommit1 ((stubCfg 2 1).sid (stubEnv .never) 0)
           ((stubEnv .never).blake2b (stubCfg 2 1).ticketPreimage) [pi] (.ok pc1o),
         .sealPreCommit2 ((stubCfg 2 1).sid (stubEnv .never) 0) pc1o (.ok cids),
         .sealCommit1 ((stubCfg 2 1).sid (stubEnv .never) 0)
           ((stubEnv .never).blake2b (stubCfg 2 1).ticketPreimage) seedValue [pi] cids
           (.ok c1o),
         .sealCommit2 ((stubCfg 2 1).sid (stubEnv .never) 0) c1o (.ok proof),
         .verifySeal ⟨⟨(stubCfg 2 1).mid, 0⟩, cids.Sealed,
           ((stubCfg 2 1).sid (stubEnv .never) 0).ProofType, proof, [],
           (stubEnv .never).blake2b (stubCfg 2 1).ticketPreimage, seedValue, cids.Unsealed⟩
           (.ok true),
         .acquireSector ((stubCfg 2 1).sid (stubEnv .never) 0) (.ok path),
         .remove path none,
         .unsealPiece ((stubCfg 2 1).sid (stubEnv .never) 0) 0
           ((stubEnv .never).unpadded (stubCfg 2 1).sectorSize)
           ((stubEnv .never).blake2b (stubCfg 2 1).ticketPreimage) cids.Unsealed none] :=
  ⟨rfl, rfl, by decide,
   full_pipeline_order (stubCfg 2 1) (stubEnv .never) 0 (roundRobin 1 30)
     ⟨some 0, 0, 29, .unsealPiece ⟨⟨1000, 0⟩, 8⟩ 0 2032 [7] 2000 none⟩
     ⟨⟨1000, 0⟩, 8⟩ 0 2032 [7] 2000 rfl rfl (by decide) rfl⟩

/-- C10: with `W >= 1` dividing `N >= 0` (gate capacities not negative), in every state of
every run: the events of the orchestrator all come before the events of the workers; the
events of the orchestrator are the AddPiece calls for the sectors `0, 1, 2, ...` in that
order, one per sector, with the pieces they returned (and last, the AddPiece call that
failed, if one did); no worker calls AddPiece; once a worker is launched or has made a
call, all `N` AddPiece calls have returned without error; and the pieces passed to
SealPreCommit1 and SealCommit1 for a sector are the one piece AddPiece returned for it. -/
theorem addPiece_up_front (cfg : Cfg) (env : Env σ) (w0 : σ) (sched : List Choice)
    (hN : 0 ≤ cfg.numSectors) (hW : 1 ≤ cfg.par.PreCommit1)
    (h2 : 0 ≤ cfg.par.PreCommit2) (hC : 0 ≤ cfg.par.Commit)
    (hmod : cfg.numSectors % cfg.par.PreCommit1 = 0) :
    (runSeals cfg env w0 sched).trace =
      mainEvents (runSeals cfg env w0 sched).trace ++
        workerTrace (runSeals cfg env w0 sched).trace ∧
    (mainEvents (runSeals cfg env w0 sched).trace).map Event.view =
      addPieceLog cfg env (runSeals cfg env w0 sched).pieces ++
        (runSeals cfg env w0 sched).failedAdd cfg env ∧
    (∀ e ∈ (runSeals cfg env w0 sched).trace, ∀ sid sz seed r,
      e.op = .addPiece sid sz seed r → e.worker = none) ∧
    ((0 < (runSeals cfg env w0 sched).launched ∨
        workerTrace (runSeals cfg env w0 sched).trace ≠ []) →
      (runSeals cfg env w0 sched).pieces.length = cfg.N ∧
        (runSeals cfg env w0 sched).failedAdd cfg env = []) ∧
    (∀ e ∈ (runSeals cfg env w0 sched).trace, ∀ sid t ps r,
      e.op = .sealPreCommit1 sid t ps r →
        ∃ pi, (runSeals cfg env w0 sched).pieces[e.sector]? = some pi ∧ ps = [pi]) ∧
    (∀ e ∈ (runSeals cfg env w0 sched).trace, ∀ sid t sd ps c r,
      e.op = .sealCommit1 sid t sd ps c r →
        ∃ pi, (runSeals cfg env w0 sched).pieces[e.sector]? = some pi ∧ ps = [pi]) := by
  by_cases hfit : cfg.fits
  swap
  · rw [runSeals_nofit cfg env w0 sched hfit]
    simp [mainEvents, workerTrace, addPieceLog, State.failedAdd]
  have hv := valid_of cfg hN hW h2 hC hmod hfit
  have hi := Inv3_runSeals cfg env w0 sched hv
  generalize runSeals cfg env w0 sched = s at hi ⊢
  have hm := hi.1.1.1
  refine ⟨hi.2.1.order, hi.2.1.log, fun e he sid sz seed r hop => ?_, fun hl => ?_,
    fun e he sid t ps r hop => ?_, fun e he sid t sd ps c r hop => ?_⟩
  · have := hi.2.2 e he
    unfold EvOK at this
    rw [hop] at this
    exact this
  · have hpos : 0 < s.launched := by
      rcases hl with hl | hl
      · exact hl
      · by_contra h0
        exact hl (workerTrace_nil s hi.1.2.2 (by omega))
    have h3 := hm.after (Or.inr (Or.inr (Or.inr hpos)))
    have h1 := hm.pieces_len
    have hd : s.mainPc ≠ .apDone := by
      intro hd
      have := hm.launched0 (Or.inr (Or.inr (Or.inl hd)))
      omega
    rw [if_neg hd] at h1
    exact ⟨by omega, failedAdd_nil cfg env s (Or.inr (by omega))⟩
  · have := hi.2.2 e he
    unfold EvOK at this
    rw [hop] at this
    exact this.2.2.2
  · have := hi.2.2 e he
    unfold EvOK at this
    rw [hop] at this
    exact this.2.2.2

/-- An instance of `addPiece_up_front`: a stub run of two sectors with one worker. -/
theorem addPiece_up_front_witness :
    (0 : Int) ≤ (stubCfg 2 1).numSectors ∧ (1 : Int) ≤ (stubCfg 2 1).par.PreCommit1 ∧
    (stubCfg 2 1).numSectors % (stubCfg 2 1).par.PreCommit1 = 0 ∧
    (mainEvents (runSeals (stubCfg 2 1) (stubEnv .never) 0 (roundRobin 1 30)).trace).map
        Event.view =
      addPieceLog (stubCfg 2 1) (stubEnv .never)
          (runSeals (stubCfg 2 1) (stubEnv .never) 0 (roundRobin 1 30)).pieces ++
        (runSeals (stubCfg 2 1) (stubEnv .never) 0 (roundRobin 1 30)).failedAdd (stubCfg 2 1)
          (stubEnv .never) ∧
    (runSeals (stubCfg 2 1) (stubEnv .never) 0 (roundRobin 1 30)).pieces.length =
      (stubCfg 2 1).N :=
  ⟨by decide, by decide, by decide,
   (addPiece_up_front (stubCfg 2 1) (stubEnv .never) 0 (roundRobin 1 30)
     (by decide) (by decide) (by decide) (by decide) (by decide)).2.1,
   ((addPiece_up_front (stubCfg 2 1) (stubEnv .never) 0 (roundRobin 1 30)
     (by decide) (by decide) (by decide) (by decide) (by decide)).2.2.2.1
       (Or.inl (by decide))).1⟩

/-! ## Where a returned error comes from -/

theorem Reported_append (env : Env σ) (tr more : List Event) (err : GoError)
    (h : Reported env tr err) : Reported env (tr ++ more) err := by
  rcases h with ⟨e, he, h1, h2⟩ | h
  · exact Or.inl ⟨e, List.mem_append_left _ he, h1, h2⟩
  · exact Or.inr h

/-- The error a launched worker leaves with is reported by a call of its trace. -/
theorem worker_reported (cfg : Cfg) (env : Env σ) (s : State σ) (w : Nat)
    (ht : WTrace cfg env s w) (err : GoError) (herr : (s.workers w).sealerr = some err) :
    Reported env s.trace err := by
  obtain ⟨p, fl, -, hops, hft⟩ := ht.failed err herr
  rcases hft with ⟨-, -, hj⟩ | ⟨f, hfl, hrep, -, hst⟩
  · exact Or.inr ⟨_, hj⟩
  · left
    have hf : f ∈ workerOps s.trace w (s.workers w).i := by
      rw [hops, hfl]; simp
    unfold workerOps workerEvents at hf
    rw [List.mem_filter, List.mem_map] at hf
    obtain ⟨⟨e, he, rfl⟩, -⟩ := hf
    exact ⟨e, (List.mem_filter.mp he).1, hst, hrep⟩

/-- What a worker step puts in the channel `errs` is the error the worker left with. -/
theorem workerStep_errs (cfg : Cfg) (env : Env σ) (w : Nat) (s : State σ) :
    (workerStep cfg env w s).errs = s.errs ∨
    ((s.workers w).pc = .send ∧ s.errs.length < cfg.W ∧
      (workerStep cfg env w s).errs = s.errs ++ [(s.workers w).sealerr] ∧
      ((workerStep cfg env w s).workers w).pc = .halted ∧
      ((workerStep cfg env w s).workers w).sealerr = (s.workers w).sealerr) := by
  cases hpc : (s.workers w).pc <;> simp only [workerStep, hpc] <;>
    (try split) <;> (try split) <;> (try split) <;>
    first
    | exact Or.inl rfl
    | (right; refine ⟨trivial, ?_, rfl, ?_, ?_⟩ <;>
        first | assumption | simp only [State.setW, Function.update_same])
    | simp only [true_or]

theorem Inv4_mainStep (cfg : Cfg) (env : Env σ) (s : State σ) (h : Inv4 env s) :
    Inv4 env (mainStep cfg env s) := by
  obtain ⟨h1, h2⟩ := h
  cases hpc : s.mainPc <;> simp only [mainStep, hpc]
  · split
    · split
      · exact ⟨h1, h2⟩
      · exact ⟨h1, h2⟩
    · exact ⟨h1, h2⟩
  · split
    · rename_i e heq
      refine ⟨fun err he => Reported_append env _ _ err (h1 err he), fun a b err hr => ?_⟩
      simp only [Option.some.injEq, RunResult.mk.injEq] at hr
      obtain ⟨rfl, rfl, rfl⟩ := hr
      refine ⟨rfl, rfl, Or.inl ⟨_, List.mem_append_right _ (List.mem_singleton_self _), ?_, ?_⟩⟩
      · rfl
      · simp only [heq]; rfl
    · exact ⟨fun err he => Reported_append env _ _ err (h1 err he),
        fun a b err hr => by
          obtain ⟨ha, hb, hrep⟩ := h2 a b err hr
          exact ⟨ha, hb, Reported_append env _ _ err hrep⟩⟩
  · split
    · exact ⟨h1, h2⟩
    · exact ⟨h1, h2⟩
  · split
    · exact ⟨h1, h2⟩
    · exact ⟨h1, h2⟩
  · split
    · exact ⟨h1, h2⟩
    · exact ⟨h1, h2⟩
  · split
    · split
      · exact ⟨h1, h2⟩
      · rename_i e rest heq
        refine ⟨fun err he => h1 err (by rw [heq]; exact List.mem_cons_of_mem _ he),
          fun a b err hr => ?_⟩
        simp only [Option.some.injEq, RunResult.mk.injEq] at hr
        obtain ⟨rfl, rfl, rfl⟩ := hr
        exact ⟨rfl, rfl, h1 e (by rw [heq]; exact List.mem_cons_self _ _)⟩
      · rename_i rest heq
        exact ⟨fun err he => h1 err (by rw [heq]; exact List.mem_cons_of_mem _ he), h2⟩
    · refine ⟨h1, fun a b err hr => ?_⟩
      simp only [Option.some.injEq, RunResult.mk.injEq] at hr
      exact absurd hr.2.2 (by simp)
  · exact ⟨h1, h2⟩

theorem Inv4_step (cfg : Cfg) (env : Env σ) (s : State σ) (c : Choice)
    (hi : Inv2 cfg env s) (h : Inv4 env s) : Inv4 env (step cfg env c s) := by
  unfold step
  split
  · exact h
  · cases c with
    | tick => exact h
    | main => exact Inv4_mainStep cfg env s h
    | worker w =>
      simp only []
      obtain ⟨f1, f2, f3, f4, f5, f6, f7, f8, f9⟩ := workerStep_frame cfg env w s
      have hmono : ∀ err, Reported env s.trace err →
          Reported env (workerStep cfg env w s).trace err := by
        intro err hr
        rcases workerStep_trace cfg env w s with ht | ⟨op, -, ht⟩
        · rw [ht]; exact hr
        · rw [ht]; exact Reported_append env _ _ err hr
      refine ⟨fun err he => hmono err ?_, fun a b err hr => ?_⟩
      · rcases workerStep_errs cfg env w s with he2 | ⟨hpc, -, he2, -, -⟩
        · rw [he2] at he; exact h.1 err he
        · rw [he2] at he
          rcases List.mem_append.mp he with he3 | he3
          · exact h.1 err he3
          · have hse : (s.workers w).sealerr = some err := (List.mem_singleton.mp he3).symm
            by_cases hw : w < s.launched
            · exact worker_reported cfg env s w (hi.2.1 w hw) err hse
            · rw [hi.1.1.idle w (Nat.le_of_not_lt hw)] at hse
              cases hse
      · rw [f7] at hr
        obtain ⟨ha, hb, hrep⟩ := h.2 a b err hr
        exact ⟨ha, hb, hmono err hrep⟩

theorem Inv4_runSeals (cfg : Cfg) (env : Env σ) (w0 : σ) (sched : List Choice)
    (hv : cfg.valid) : Inv4 env (runSeals cfg env w0 sched) := by
  have key : ∀ (sched : List Choice) (s : State σ), Inv2 cfg env s → Inv4 env s →
      Inv4 env (run cfg env sched s) := by
    intro sched
    induction sched with
    | nil => intro s _ h; exact h
    | cons c cs ih =>
      intro s hi h
      exact ih _ (Inv2_step cfg env s c hv hi) (Inv4_step cfg env s c hi h)
  refine key sched _ (Inv2_init cfg env w0 hv) ?_
  have hinit := (MInv_init cfg env w0 hv)
  refine ⟨fun err he => ?_, fun a b err hr => ?_⟩
  · obtain ⟨hN, h2, hC, hW0, hmod, hfit⟩ := hv
    unfold init at he
    simp only [State.crash] at he
    rw [if_neg (not_or.mpr ⟨by omega, not_not.mpr hfit⟩), if_neg (by omega), if_neg hW0, if_neg (by simpa using hmod)] at he
    cases he
  · obtain ⟨hN, h2, hC, hW0, hmod, hfit⟩ := hv
    unfold init at hr
    simp only [State.crash] at hr
    rw [if_neg (not_or.mpr ⟨by omega, not_not.mpr hfit⟩), if_neg (by omega), if_neg hW0, if_neg (by simpa using hmod)] at hr
    cases hr

/-- C7, counterexample: in one stub run SealPreCommit2 fails for sector 1, in another
SealPreCommit1 fails for sector 0, and `runSeals` returns the same error in both, whose text
is `commit: boom`: the returned error names neither the stage nor the sector. -/
theorem error_tag_counterexample :
    (⟨some 0, 1, 36, .sealPreCommit2 ⟨⟨1000, 1⟩, 8⟩ [1, 1] (.error (.msg "boom"))⟩ : Event) ∈
      (runSeals (stubCfg 2 1) (stubEnv (.preCommit2 1)) 0 (roundRobin 1 50)).trace ∧
    (runSeals (stubCfg 2 1) (stubEnv (.preCommit2 1)) 0 (roundRobin 1 50)).ret =
      some ⟨none, none, some (.wrap "commit" (.msg "boom"))⟩ ∧
    (⟨some 0, 0, 10, .sealPreCommit1 ⟨⟨1000, 0⟩, 8⟩ [7] [⟨2032, 1000⟩]
        (.error (.msg "boom"))⟩ : Event) ∈
      (runSeals (stubCfg 2 1) (stubEnv (.preCommit1 0)) 0 (roundRobin 1 12)).trace ∧
    (runSeals (stubCfg 2 1) (stubEnv (.preCommit1 0)) 0 (roundRobin 1 12)).ret =
      some ⟨none, none, some (.wrap "commit" (.msg "boom"))⟩ ∧
    (GoError.wrap "commit" (.msg "boom")).Error = "commit: boom" := by
  refine ⟨by decide, by decide, by decide, by decide, by decide⟩

/-- C7, amended: with `W >= 1` dividing `N >= 0` (gate capacities not negative), whenever
`runSeals` returns an error, under any schedule, the result slices are nil and the error is
the one reported for a failed stage call of the run, or the error of `json.Marshal`.  What
is reported for a failed call (`Op.reported`) is the library error itself for AddPiece,
SealCommit1, SealCommit2, VerifySeal and UnsealPiece, the library error after the prefix
`commit` for SealPreCommit1 and SealPreCommit2 alike, after a prefix of their own for the
two storage operations of the unseal stage, and a message with the sector number when
VerifySeal judges the proof invalid. -/
theorem returned_error_reported (cfg : Cfg) (env : Env σ) (w0 : σ) (sched : List Choice)
    (a : Option (List SealingResult)) (b : Option (List SectorInfo)) (err : GoError)
    (hN : 0 ≤ cfg.numSectors) (hW : 1 ≤ cfg.par.PreCommit1)
    (h2 : 0 ≤ cfg.par.PreCommit2) (hC : 0 ≤ cfg.par.Commit)
    (hmod : cfg.numSectors % cfg.par.PreCommit1 = 0)
    (hret : (runSeals cfg env w0 sched).ret = some ⟨a, b, some err⟩) :
    a = none ∧ b = none ∧
    ((∃ e ∈ (runSeals cfg env w0 sched).trace, e.op.isStage = true ∧
        e.op.reported = some err) ∨
      (∃ c, env.jsonMarshal c = .error err)) ∧
    (∀ sid t ps e, (Op.sealPreCommit1 sid t ps (.error e)).reported = some (.wrap "commit" e)) ∧
    (∀ sid o e, (Op.sealPreCommit2 sid o (.error e)).reported = some (.wrap "commit" e)) := by
  by_cases hfit : cfg.fits
  swap
  · rw [runSeals_nofit cfg env w0 sched hfit] at hret
    cases hret
  have hv := valid_of cfg hN hW h2 hC hmod hfit
  obtain ⟨ha, hb, hrep⟩ := (Inv4_runSeals cfg env w0 sched hv).2 a b err hret
  exact ⟨ha, hb, hrep, fun _ _ _ _ => rfl, fun _ _ _ => rfl⟩

/-- An instance of `returned_error_reported`: the stub run in which SealPreCommit2 fails for
sector 1. -/
theorem returned_error_reported_witness :
    (0 : Int) ≤ (stubCfg 2 1).numSectors ∧ (1 : Int) ≤ (stubCfg 2 1).par.PreCommit1 ∧
    (stubCfg 2 1).numSectors % (stubCfg 2 1).par.PreCommit1 = 0 ∧
    (runSeals (stubCfg 2 1) (stubEnv (.preCommit2 1)) 0 (roundRobin 1 50)).ret =
      some ⟨none, none, some (.wrap "commit" (.msg "boom"))⟩ ∧
    ((∃ e ∈ (runSeals (stubCfg 2 1) (stubEnv (.preCommit2 1)) 0 (roundRobin 1 50)).trace,
        e.op.isStage = true ∧ e.op.reported = some (.wrap "commit" (.msg "boom"))) ∨
      (∃ c, (stubEnv (.preCommit2 1)).jsonMarshal c = .error (.wrap "commit" (.msg "boom")))) :=
  ⟨by decide, by decide, by decide, by decide,
   (returned_error_reported (stubCfg 2 1) (stubEnv (.preCommit2 1)) 0 (roundRobin 1 50)
     none none (.wrap "commit" (.msg "boom")) (by decide) (by decide) (by decide) (by decide)
     (by decide) (by decide)).2.2.1⟩

/-! ## Sums over the launched workers -/

theorem sumOver_succ (n : Nat) (f : Nat → Nat) : sumOver (n + 1) f = sumOver n f + f n := by
  unfold sumOver
  rw [List.range_succ, List.map_append, List.sum_append]
  simp

theorem sumOver_congr (n : Nat) (f g : Nat → Nat) (h : ∀ i, i < n → f i = g i) :
    sumOver n f = sumOver n g := by
  induction n with
  | zero => rfl
  | succ n ih =>
    rw [sumOver_succ, sumOver_succ, ih (fun i hi => h i (by omega)), h n (by omega)]

/-- Changing one summand changes the sum by as much. -/
theorem sumOver_update (n w : Nat) (f g : Nat → Nat) (hw : w < n)
    (h : ∀ i, i ≠ w → g i = f i) : sumOver n g + f w = sumOver n f + g w := by
  induction n with
  | zero => omega
  | succ n ih =>
    rw [sumOver_succ, sumOver_succ]
    by_cases hn : w = n
    · subst hn
      rw [sumOver_congr w g f (fun i hi => h i (by omega))]
      omega
    · have := ih (by omega)
      rw [h n (fun hh => hn hh.symm)]
      omega

theorem sumOver_pos (n : Nat) (f : Nat → Nat) (h : 0 < sumOver n f) : ∃ w, w < n ∧ 0 < f w := by
  induction n with
  | zero => exact absurd h (by unfold sumOver; simp)
  | succ n ih =>
    rw [sumOver_succ] at h
    by_cases hn : 0 < f n
    · exact ⟨n, by omega, hn⟩
    · obtain ⟨w, hw, hf⟩ := ih (by omega)
      exact ⟨w, by omega, hf⟩

theorem sumOver_le (n : Nat) (f : Nat → Nat) (h : ∀ i, i < n → f i ≤ 1) : sumOver n f ≤ n := by
  induction n with
  | zero => unfold sumOver; simp
  | succ n ih =>
    rw [sumOver_succ]
    have := ih (fun i hi => h i (by omega))
    have := h n (by omega)
    omega

theorem sumOver_full (n : Nat) (f : Nat → Nat) (h : ∀ i, i < n → f i ≤ 1)
    (hs : n ≤ sumOver n f) : ∀ i, i < n → f i = 1 := by
  induction n with
  | zero => intro i hi; omega
  | succ n ih =>
    rw [sumOver_succ] at hs
    have h1 := sumOver_le n f (fun i hi => h i (by omega))
    have h2 := h n (by omega)
    intro i hi
    by_cases hn : i = n
    · subst hn; omega
    · exact ih (fun i hi => h i (by omega)) (by omega) i (by omega)

theorem sumOver_lt (n : Nat) (f : Nat → Nat) (h : ∀ i, i < n → f i ≤ 1)
    (hs : sumOver n f < n) : ∃ i, i < n ∧ f i = 0 := by
  by_contra hh
  push_neg at hh
  have : ∀ i, i < n → 1 ≤ f i := fun i hi => Nat.one_le_iff_ne_zero.mpr (hh i hi)
  have h2 : sumOver n f = sumOver n (fun _ => 1) :=
    sumOver_congr n f _ (fun i hi => by have := h i hi; have := this; have := ‹∀ i, i < n → 1 ≤ f i› i hi; omega)
  have h3 : ∀ m, sumOver m (fun _ => 1) = m := by
    intro m
    induction m with
    | zero => rfl
    | succ m ih => rw [sumOver_succ, ih]
  rw [h2, h3] at hs
  omega

/-! ## Worker steps of a run that does not panic -/

/-- A worker step does not panic when the proof type is defined and the slices are as
long as the block of the worker requires. -/
theorem workerStep_nocrash (cfg : Cfg) (env : Env σ) (s : State σ) (w p : Nat)
    (hl : WLocal cfg env s w) (hspt : env.spt cfg.sectorSize = some p)
    (hP : (s.workers w).stop ≤ s.pieces.length)
    (hT : (s.workers w).stop ≤ s.sealTimings.length)
    (hS : (s.workers w).stop ≤ s.sealedSectors.length) :
    (workerStep cfg env w s).panicked = s.panicked := by
  have h4 := hl.hi_iter
  cases hpc : (s.workers w).pc <;>
    simp [hpc, PC.inIter] at h4 <;>
    simp only [workerStep, hpc] <;> (try split) <;> (try split) <;> (try split) <;>
    (try simp only [State.setW, State.crash, State.log]) <;>
    first
    | rfl
    | (exfalso; rename_i h; rw [hspt] at h; cases h)
    | (exfalso; rename_i h; rw [List.getElem?_eq_none_iff] at h; omega)
    | (exfalso; omega)

/-- The step of an enabled worker uses up some of its `todo`. -/
theorem workerStep_todo (cfg : Cfg) (env : Env σ) (s : State σ) (w : Nat)
    (hl : WLocal cfg env s w) (hp : (workerStep cfg env w s).panicked = s.panicked)
    (hn : s.panicked = none) (he : WEnabled cfg s w) :
    ((workerStep cfg env w s).workers w).todo < (s.workers w).todo := by
  have h3 := hl.hi
  have h4 := hl.hi_iter
  revert hp
  unfold WEnabled at he
  cases hpc : (s.workers w).pc <;>
    simp [hpc, PC.inIter] at h4 he <;>
    simp only [workerStep, hpc] <;> (try split) <;> (try split) <;> (try split) <;>
    (try simp only [State.setW, State.crash, State.log, Worker.fail, Function.update_same,
      Worker.todo, hpc, PC.idx, hn]) <;>
    first
    | (intro _; omega)
    | (intro hp; cases hp; done)
    | (intro _; exfalso; assumption)

/-- A worker step moves the gate counters as it moves what the worker holds. -/
theorem workerStep_gates (cfg : Cfg) (env : Env σ) (s : State σ) (w : Nat)
    (hl : WLocal cfg env s w) :
    (workerStep cfg env w s).preCommit2Sema + (s.workers w).held2 =
      s.preCommit2Sema + ((workerStep cfg env w s).workers w).held2 ∧
    (workerStep cfg env w s).commitSema + (s.workers w).heldC =
      s.commitSema + ((workerStep cfg env w s).workers w).heldC := by
  have h8 := hl.running
  have h11 := hl.held2
  have h12 := hl.heldC
  cases hpc : (s.workers w).pc <;>
    simp [hpc, PC.in2, PC.inC] at h8 h11 h12 <;>
    simp only [workerStep, hpc] <;> (try split) <;> (try split) <;> (try split) <;>
    (try simp only [State.setW, State.crash, State.log, Worker.fail, Function.update_same]) <;>
    first
    | exact ⟨rfl, rfl⟩
    | (constructor <;> omega)
    | exact ⟨trivial, trivial⟩
    | (have a := h11 h8; have b := h12 h8; constructor <;> first | trivial | omega)

/-- Only the step at `errs <- sealerr` ends a worker. -/
theorem workerStep_halted (cfg : Cfg) (env : Env σ) (s : State σ) (w : Nat)
    (h : (s.workers w).pc ≠ .send) :
    (((workerStep cfg env w s).workers w).pc = .halted ↔ (s.workers w).pc = .halted) := by
  cases hpc : (s.workers w).pc <;>
    simp only [workerStep, hpc] <;> (try split) <;> (try split) <;> (try split) <;>
    (try simp only [State.setW, State.crash, State.log, Worker.fail, Function.update_same,
      hpc]) <;>
    first
    | exact absurd hpc h
    | simp

/-- A worker that has ended does nothing. -/
theorem workerStep_done (cfg : Cfg) (env : Env σ) (s : State σ) (w : Nat)
    (h : (s.workers w).pc = .halted ∨ (s.workers w).pc = .idle) :
    workerStep cfg env w s = s := by
  rcases h with h | h <;> simp only [workerStep, h]

/-- With an environment in which every call succeeds no worker step sets `sealerr`. -/
theorem workerStep_nofail (cfg : Cfg) (env : Env σ) (s : State σ) (w : Nat)
    (hA : AllSucceed env) (h : (s.workers w).sealerr = none) :
    ((workerStep cfg env w s).workers w).sealerr = none := by
  have a1 := hA.preCommit1 (s.workers w).sid (s.workers w).ticket (s.workers w).piece s.world
  have a2 := hA.preCommit2 (s.workers w).sid (s.workers w).pc1o s.world
  have a3 := hA.commit1 (s.workers w).sid (s.workers w).ticket seedValue (s.workers w).piece
    (s.workers w).cids s.world
  have a4 := hA.commit2 (s.workers w).sid (s.workers w).c1o s.world
  have a5 := hA.verify ((s.workers w).svi cfg) s.world
  have a6 := hA.acquire (s.workers w).sid s.world
  have a7 := hA.remove (s.workers w).path s.world
  have a8 := hA.unsealPiece (s.workers w).sid 0 (env.unpadded cfg.sectorSize)
    (s.workers w).ticket (s.workers w).cids.Unsealed s.world
  have a9 := hA.marshal ⟨((s.workers w).i : Int), (s.workers w).c1o, cfg.sectorSize⟩
  cases hpc : (s.workers w).pc <;>
    simp only [workerStep, hpc] <;> (try split) <;> (try split) <;> (try split) <;>
    (try simp only [State.setW, State.crash, State.log, Worker.fail, Function.update_same]) <;>
    first
    | exact h
    | rfl
    | (exfalso; rename_i heq; rw [heq] at a1; obtain ⟨_, hh⟩ := a1; cases hh)
    | (exfalso; rename_i heq; rw [heq] at a2; obtain ⟨_, hh⟩ := a2; cases hh)
    | (exfalso; rename_i heq; rw [heq] at a3; obtain ⟨_, hh⟩ := a3; cases hh)
    | (exfalso; rename_i heq; rw [heq] at a4; obtain ⟨_, hh⟩ := a4; cases hh)
    | (exfalso; rename_i heq; rw [heq] at a5; cases a5)
    | (exfalso; rename_i heq; rw [heq] at a6; obtain ⟨_, hh⟩ := a6; cases hh)
    | (exfalso; rename_i heq; rw [heq] at a7; cases a7)
    | (exfalso; rename_i heq; rw [heq] at a8; cases a8)
    | (exfalso; rename_i heq; rw [heq] at a9; obtain ⟨_, hh⟩ := a9; cases hh)

/-! ## The invariant of runs in which every call succeeds -/

theorem sumOver_spawn (l : Nat) (f : Nat → Worker) (k : Worker) (g : Worker → Nat) :
    sumOver (l + 1) (fun w => g (Function.update f l k w)) =
      sumOver l (fun w => g (f w)) + g k := by
  rw [sumOver_succ, Function.update_same]
  congr 1
  apply sumOver_congr
  intro i hi
  rw [Function.update_noteq (by omega)]

theorem Inv5_init (cfg : Cfg) (w0 : σ) (hv : cfg.valid) : Inv5 cfg (init cfg w0 : State σ) := by
  obtain ⟨hN, h2, hC, hW0, hmod, hfit⟩ := hv
  unfold init
  simp only [State.crash]
  rw [if_neg (not_or.mpr ⟨by omega, not_not.mpr hfit⟩), if_neg (by omega), if_neg hW0, if_neg (by simpa using hmod)]
  constructor <;> simp [Worker.idle, State.sum2, State.sumC, State.haltedCount, sumOver]

theorem Inv5_mainStep (cfg : Cfg) (env : Env σ) (s : State σ) (p : Nat)
    (hA : AllSucceed env) (hspt : env.spt cfg.sectorSize = some p)
    (hW : ¬ cfg.par.PreCommit1 < 0)
    (hm : MInv cfg env s) (hl : ∀ w, w < s.launched → WLocal cfg env s w)
    (h : Inv5 cfg s) : Inv5 cfg (mainStep cfg env s) := by
  obtain ⟨h1, h2, h3, h4, h5, h6, h7⟩ := h
  cases hpc : s.mainPc <;> simp only [mainStep, hpc]
  · -- apHead
    rw [hspt]
    split
    · exact ⟨h1, h2, h3, h4, h5, fun _ => h6 (by rw [hpc]; decide), h7⟩
    · exact ⟨h1, h2, h3, h4, h5, fun _ => h6 (by rw [hpc]; decide), h7⟩
  · -- apCall
    obtain ⟨pi, hpi⟩ := hA.addPiece s.mainSid (env.unpadded cfg.sectorSize)
      (wrap64 (100 + s.mainI)) s.world
    rw [hpi]
    exact ⟨h1, h2, h3, h4, h5, fun _ => h6 (by rw [hpc]; decide), h7⟩
  · -- apDone
    have hlt := hm.at_call (Or.inr hpc)
    have hlen := hm.lenT
    split
    · rename_i heq
      rw [List.getElem?_eq_none_iff] at heq
      omega
    · refine ⟨h1, h2, h3, h4, h5, fun _ => h6 (by rw [hpc]; decide), fun r hr => ?_⟩
      have := hm.ret_none (by rw [hpc]; decide)
      rw [this] at hr; cases hr
  · -- mkErrs
    rw [if_neg hW]
    exact ⟨h1, h2, h3, h4, h5, fun _ => h6 (by rw [hpc]; decide), h7⟩
  · -- spawn
    have hrn := hm.ret_none (by rw [hpc]; decide)
    split
    · refine ⟨h1, fun w => ?_, h3, ?_, ?_, fun _ => ?_, fun r hr => ?_⟩
      · simp only []
        by_cases hw : w = s.launched
        · subst hw; rw [Function.update_same]; rfl
        · rw [Function.update_noteq hw]; exact h2 w
      · simp only [State.sum2]
        rw [sumOver_spawn s.launched s.workers _ (fun k => k.held2)]
        exact h4
      · simp only [State.sumC]
        rw [sumOver_spawn s.launched s.workers _ (fun k => k.heldC)]
        exact h5
      · simp only [State.haltedCount]
        rw [sumOver_spawn s.launched s.workers _ (fun k => if k.pc = .halted then 1 else 0)]
        exact h6 (by rw [hpc]; decide)
      · simp only [] at hr
        rw [hrn] at hr; cases hr
    · exact ⟨h1, h2, h3, h4, h5, fun _ => h6 (by rw [hpc]; decide), h7⟩
  · -- collect
    have hrn := hm.ret_none (by rw [hpc]; decide)
    have hcnt := h6 (by rw [hpc]; decide)
    have hall := hm.collect_all hpc
    split
    · split
      · exact ⟨h1, h2, h3, h4, h5, h6, h7⟩
      · rename_i e rest heq
        have := h3 (some e) (by rw [heq]; exact List.mem_cons_self _ _)
        cases this
      · rename_i rest heq
        refine ⟨h1, h2, fun x hx => h3 x (by rw [heq]; exact List.mem_cons_of_mem _ hx),
          h4, h5, fun _ => ?_, fun r hr => ?_⟩
        · simp only []
          rw [heq] at hcnt
          simp only [List.length_cons] at hcnt
          show s.received + 1 + rest.length = s.haltedCount
          omega
        · simp only [] at hr
          rw [hrn] at hr; cases hr
    · rename_i hrec
      refine ⟨h1, h2, h3, h4, h5, fun hd => absurd rfl hd, fun r hr => ?_⟩
      simp only [Option.some.injEq] at hr
      refine ⟨hr.symm, hall, fun w hw => ?_⟩
      simp only []
      have hle : ∀ i, i < s.launched →
          (fun w => if (s.workers w).pc = PC.halted then 1 else 0) i ≤ 1 := by
        intro i _; simp only []; split <;> omega
      have hfull := sumOver_full s.launched _ hle
        (by unfold State.haltedCount at hcnt; omega) w hw
      simp only [] at hfull
      by_contra hne
      rw [if_neg hne] at hfull
      cases hfull
  · exact ⟨h1, h2, h3, h4, h5, h6, h7⟩

/-- The slices are long enough for the block of every launched worker. -/
theorem worker_bounds (cfg : Cfg) (env : Env σ) (s : State σ) (hv : cfg.valid)
    (hi : Inv1 cfg env s) (w : Nat) (hw : w < s.launched) :
    (s.workers w).stop ≤ s.pieces.length ∧ (s.workers w).stop ≤ s.sealTimings.length ∧
      (s.workers w).stop ≤ s.sealedSectors.length ∧ (s.workers w).stop ≤ cfg.N := by
  obtain ⟨hm, hl⟩ := hi
  have hpos : 0 < s.launched := by omega
  have hspw := hm.spw (Or.inr (Or.inr hpos))
  have hdiv : cfg.N / cfg.W * cfg.W = cfg.N := by
    have hW : ¬ cfg.par.PreCommit1 < 0 := by
      intro hneg
      have : cfg.W = 0 := by unfold Cfg.W; omega
      omega
    exact (valid_div cfg hv hW).2.2
  have hlen : s.pieces.length = cfg.N := by
    have h1 := hm.pieces_len
    have h3 := hm.after (Or.inr (Or.inr (Or.inr hpos)))
    have h4 := hm.launched0
    by_cases hd : s.mainPc = .apDone
    · have := h4 (Or.inr (Or.inr (Or.inl hd))); omega
    · rw [if_neg hd] at h1; omega
  have hst := (hl w hw).stop_eq
  have hle := hm.launched_le
  have hstop : (s.workers w).stop ≤ cfg.N := by
    rw [hst, hspw.2]
    have h1 := Nat.mul_le_mul_right (cfg.N / cfg.W) (Nat.succ_le_of_lt (lt_of_lt_of_le hw hle))
    rw [Nat.succ_mul] at h1
    have h2 : cfg.W * (cfg.N / cfg.W) = cfg.N := by rw [Nat.mul_comm]; exact hdiv
    omega
  rw [hlen, hm.lenT, hm.lenS]
  exact ⟨hstop, hstop, hstop, hstop⟩

/-- A step of worker `w` changes a sum over the launched workers by what it changes for `w`. -/
theorem sumOver_workerStep (cfg : Cfg) (env : Env σ) (s : State σ) (w : Nat)
    (hw : w < s.launched) (g : Worker → Nat) :
    sumOver (workerStep cfg env w s).launched (fun i => g ((workerStep cfg env w s).workers i)) +
        g (s.workers w) =
      sumOver s.launched (fun i => g (s.workers i)) + g ((workerStep cfg env w s).workers w) := by
  rw [(workerStep_frame cfg env w s).2.2.1]
  exact sumOver_update s.launched w (fun i => g (s.workers i))
    (fun i => g ((workerStep cfg env w s).workers i)) hw
    (fun i hi => by simp only []; rw [workerStep_others cfg env w i s hi])

theorem workerStep_send (cfg : Cfg) (env : Env σ) (s : State σ) (w : Nat)
    (hpc : (s.workers w).pc = .send) (hlen : s.errs.length < cfg.W) :
    workerStep cfg env w s =
      ({ s with errs := s.errs ++ [(s.workers w).sealerr] }).setW w
        { s.workers w with pc := .halted } := by
  simp only [workerStep, hpc, if_pos hlen]

theorem workerStep_blocked (cfg : Cfg) (env : Env σ) (s : State σ) (w : Nat)
    (hpc : (s.workers w).pc = .send) (hlen : ¬ s.errs.length < cfg.W) :
    workerStep cfg env w s = s := by
  simp only [workerStep, hpc, if_neg hlen]

theorem Inv5_workerStep (cfg : Cfg) (env : Env σ) (s : State σ) (w p : Nat)
    (hv : cfg.valid) (hA : AllSucceed env) (hspt : env.spt cfg.sectorSize = some p)
    (hi : Inv1 cfg env s) (h : Inv5 cfg s) : Inv5 cfg (workerStep cfg env w s) := by
  by_cases hw : w < s.launched
  swap
  · rw [workerStep_done cfg env s w (Or.inr (by rw [hi.1.idle w (Nat.le_of_not_lt hw)]; rfl))]
    exact h
  by_cases hhalt : (s.workers w).pc = .halted
  · rw [workerStep_done cfg env s w (Or.inl hhalt)]; exact h
  obtain ⟨h1, h2, h3, h4, h5, h6, h7⟩ := h
  have hl := hi.2 w hw
  obtain ⟨b1, b2, b3, -⟩ := worker_bounds cfg env s hv hi w hw
  obtain ⟨f1, f2, f3, f4, f5, f6, f7, f8, f9⟩ := workerStep_frame cfg env w s
  obtain ⟨g2, gC⟩ := workerStep_gates cfg env s w hl
  have hret : s.ret = none := by
    cases hr : s.ret with
    | none => rfl
    | some r => exact absurd ((h7 r hr).2.2 w hw) hhalt
  have hnf : ∀ w', ((workerStep cfg env w s).workers w').sealerr = none := by
    intro w'
    by_cases hww : w' = w
    · subst hww; exact workerStep_nofail cfg env s w' hA (h2 w')
    · rw [workerStep_others cfg env w w' s hww]; exact h2 w'
  have hs2 := sumOver_workerStep cfg env s w hw (fun k => k.held2)
  have hsC := sumOver_workerStep cfg env s w hw (fun k => k.heldC)
  have hsH := sumOver_workerStep cfg env s w hw (fun k => if k.pc = .halted then 1 else 0)
  simp only [] at hs2 hsC hsH
  refine ⟨?_, hnf, ?_, ?_, ?_, ?_, fun r hr => ?_⟩
  · rw [workerStep_nocrash cfg env s w p hl hspt b1 b2 b3]; exact h1
  · rcases workerStep_errs cfg env w s with he | ⟨-, -, he, -, -⟩
    · rw [he]; exact h3
    · rw [he]
      intro x hx
      rcases List.mem_append.mp hx with hx | hx
      · exact h3 x hx
      · rw [List.mem_singleton.mp hx]; exact h2 w
  · unfold State.sum2 at h4 ⊢; omega
  · unfold State.sumC at h5 ⊢; omega
  · intro hd
    rw [f4] at hd
    have hc := h6 hd
    rw [f8]
    unfold State.haltedCount at hc ⊢
    rw [if_neg hhalt] at hsH
    by_cases hsend : (s.workers w).pc = .send
    · by_cases hlen : s.errs.length < cfg.W
      · have heq := workerStep_send cfg env s w hsend hlen
        have e1 : (workerStep cfg env w s).errs = s.errs ++ [(s.workers w).sealerr] := by
          rw [heq]; rfl
        have e2 : ((workerStep cfg env w s).workers w).pc = .halted := by
          rw [heq]; simp only [State.setW, Function.update_same]
        rw [e2, if_pos rfl] at hsH
        rw [e1, List.length_append, List.length_singleton]
        omega
      · rw [workerStep_blocked cfg env s w hsend hlen]; exact hc
    · have e2 := workerStep_halted cfg env s w hsend
      have e3 : ¬ ((workerStep cfg env w s).workers w).pc = .halted := fun hh => hhalt (e2.mp hh)
      rw [if_neg e3] at hsH
      rcases workerStep_errs cfg env w s with he | ⟨hpc, -⟩
      · rw [he]; omega
      · exact absurd hpc hsend
  · rw [f7, hret] at hr; cases hr

theorem Inv5_step (cfg : Cfg) (env : Env σ) (s : State σ) (c : Choice) (p : Nat)
    (hv : cfg.valid) (hW : ¬ cfg.par.PreCommit1 < 0) (hA : AllSucceed env)
    (hspt : env.spt cfg.sectorSize = some p)
    (hi : Inv1 cfg env s) (h : Inv5 cfg s) : Inv5 cfg (step cfg env c s) := by
  unfold step
  split
  · exact h
  · cases c with
    | tick => exact ⟨h.1, h.2, h.3, h.4, h.5, h.6, h.7⟩
    | main => exact Inv5_mainStep cfg env s p hA hspt hW hi.1 hi.2 h
    | worker w => exact Inv5_workerStep cfg env s w p hv hA hspt hi h

/-- Both invariants hold along a run in which every call succeeds. -/
theorem Inv35_run (cfg : Cfg) (env : Env σ) (p : Nat)
    (hv : cfg.valid) (hW : ¬ cfg.par.PreCommit1 < 0) (hA : AllSucceed env)
    (hspt : env.spt cfg.sectorSize = some p) (sched : List Choice) (s : State σ)
    (h3 : Inv3 cfg env s) (h5 : Inv5 cfg s) :
    Inv3 cfg env (run cfg env sched s) ∧ Inv5 cfg (run cfg env sched s) := by
  induction sched generalizing s with
  | nil => exact ⟨h3, h5⟩
  | cons c cs ih =>
    exact ih _ (Inv3_step cfg env s c hv h3) (Inv5_step cfg env s c p hv hW hA hspt h3.1.1 h5)

theorem run_append (cfg : Cfg) (env : Env σ) (a b : List Choice) (s : State σ) :
    run cfg env (a ++ b) s = run cfg env b (run cfg env a s) := by
  unfold run
  rw [List.foldl_append]

/-! ## Progress -/

/-- The orchestrator step uses up some of `todo` unless the orchestrator has returned or
waits for a worker. -/
theorem mainStep_todo (cfg : Cfg) (env : Env σ) (s : State σ)
    (hm : MInv cfg env s) (hp : (mainStep cfg env s).panicked = none)
    (hn : s.panicked = none) (hd : s.mainPc ≠ .done)
    (he : s.mainPc = .collect → s.received < cfg.W → s.errs ≠ []) :
    (mainStep cfg env s).todo cfg < s.todo cfg := by
  revert hp
  have hat := hm.at_call
  have hl0 := hm.launched0
  have hspw := hm.spw
  cases hpc : s.mainPc <;> simp [hpc] at hat hl0 hspw he <;>
    simp only [mainStep, hpc]
  · split
    · split
      · intro hp; simp only [State.crash] at hp; cases hp
      · intro _
        simp only [State.todo, mainTodo, hpc]
        omega
    · intro _
      simp only [State.todo, mainTodo, hpc]
      omega
  · split
    · intro _
      simp only [State.todo, mainTodo, hpc, State.log, hl0, sumOver]
      simp
    · intro _
      simp only [State.todo, mainTodo, hpc, State.log]
      omega
  · split
    · intro hp; simp only [State.crash] at hp; cases hp
    · intro _
      simp only [State.todo, mainTodo, hpc]
      omega
  · split
    · intro hp; simp only [State.crash] at hp; cases hp
    · intro _
      simp only [State.todo, mainTodo, hpc, hl0, Nat.sub_zero]
      omega
  · split
    · intro _
      rename_i hlt
      simp only [State.todo, mainTodo, hpc]
      rw [sumOver_spawn s.launched s.workers _ (fun k => k.todo)]
      simp only [Worker.todo, PC.idx, Cfg.budget, hspw.2]
      have : (cfg.W - s.launched) * (cfg.N / cfg.W * 30 + 31) =
          (cfg.W - (s.launched + 1)) * (cfg.N / cfg.W * 30 + 31) + (cfg.N / cfg.W * 30 + 31) := by
        have : cfg.W - s.launched = (cfg.W - (s.launched + 1)) + 1 := by omega
        rw [this, Nat.add_mul, Nat.one_mul]
      rw [this]
      generalize (cfg.W - (s.launched + 1)) * (cfg.N / cfg.W * 30 + 31) = X
      generalize cfg.N / cfg.W = q
      omega
    · intro _
      simp only [State.todo, mainTodo, hpc]
      have : cfg.W - s.launched = 0 := by omega
      rw [this]
      omega
  · split
    · rename_i hrec
      have hne := he hrec
      split
      · rename_i heq; exact absurd heq hne
      · intro _
        simp only [State.todo, mainTodo, hpc]
        omega
      · intro _
        simp only [State.todo, mainTodo, hpc]
        omega
    · intro _
      simp only [State.todo, mainTodo, hpc]
      omega
  · exact absurd hpc hd

theorem sumOver_ge (n : Nat) (f : Nat → Nat) (w : Nat) (hw : w < n) : f w ≤ sumOver n f := by
  induction n with
  | zero => omega
  | succ n ih =>
    rw [sumOver_succ]
    by_cases hn : w = n
    · subst hn; omega
    · have := ih (by omega); omega

/-- When a slot of the PreCommit2 gate is taken, the worker that holds it can move. -/
theorem holder2_enabled (cfg : Cfg) (env : Env σ) (s : State σ)
    (hl : ∀ w, w < s.launched → WLocal cfg env s w) (h5 : Inv5 cfg s)
    (h : 0 < s.preCommit2Sema) : ∃ w, w < s.launched ∧ WEnabled cfg s w := by
  rw [h5.gate2] at h
  obtain ⟨w, hw, hpos⟩ := sumOver_pos _ _ h
  have hpos : 0 < (s.workers w).held2 := hpos
  have hh := (hl w hw).held2 (h5.nofail w)
  refine ⟨w, hw, ?_⟩
  unfold WEnabled
  cases hpc : (s.workers w).pc <;> simp [hpc, PC.in2] at hh <;>
    first
    | omega
    | trivial
    | (simp only []; rw [h5.gate2]; exact h)

theorem holderC_enabled (cfg : Cfg) (env : Env σ) (s : State σ)
    (hl : ∀ w, w < s.launched → WLocal cfg env s w) (h5 : Inv5 cfg s)
    (h : 0 < s.commitSema) : ∃ w, w < s.launched ∧ WEnabled cfg s w := by
  rw [h5.gateC] at h
  obtain ⟨w, hw, hpos⟩ := sumOver_pos _ _ h
  have hpos : 0 < (s.workers w).heldC := hpos
  have hh := (hl w hw).heldC (h5.nofail w)
  refine ⟨w, hw, ?_⟩
  unfold WEnabled
  cases hpc : (s.workers w).pc <;> simp [hpc, PC.inC] at hh <;>
    first
    | omega
    | trivial
    | (simp only []; rw [h5.gateC]; exact h)

/-- While the orchestrator waits with an empty channel, some worker can move. -/
theorem exists_enabled (cfg : Cfg) (env : Env σ) (s : State σ)
    (h2 : 1 ≤ cfg.par.PreCommit2) (hC : 1 ≤ cfg.par.Commit)
    (hm : MInv cfg env s)
    (hl : ∀ w, w < s.launched → WLocal cfg env s w) (h5 : Inv5 cfg s)
    (hpc : s.mainPc = .collect) (hrec : s.received < cfg.W) (herrs : s.errs = []) :
    ∃ w, w < s.launched ∧ WEnabled cfg s w := by
  have hcnt := h5.count (by rw [hpc]; decide)
  have hall := hm.collect_all hpc
  rw [herrs] at hcnt
  simp only [List.length_nil, Nat.add_zero] at hcnt
  have hle : ∀ i, i < s.launched →
      (fun w => if (s.workers w).pc = PC.halted then 1 else 0) i ≤ 1 := by
    intro i _; simp only []; split <;> omega
  obtain ⟨w, hw, hz⟩ := sumOver_lt s.launched _ hle
    (by unfold State.haltedCount at hcnt; omega)
  have hz : (if (s.workers w).pc = PC.halted then 1 else 0) = 0 := hz
  have hnh : (s.workers w).pc ≠ .halted := by
    intro hh; rw [if_pos hh] at hz; cases hz
  have hni := (hl w hw).not_idle
  have hh2 := (hl w hw).held2 (h5.nofail w)
  have hhC := (hl w hw).heldC (h5.nofail w)
  have g2 := sumOver_ge s.launched (fun w => (s.workers w).held2) w hw
  have gC := sumOver_ge s.launched (fun w => (s.workers w).heldC) w hw
  simp only [] at g2 gC
  have e2 := h5.gate2
  have eC := h5.gateC
  unfold State.sum2 at e2
  unfold State.sumC at eC
  by_cases hblocked : WEnabled cfg s w
  · exact ⟨w, hw, hblocked⟩
  · unfold WEnabled at hblocked
    cases hp : (s.workers w).pc <;> simp [hp, PC.in2, PC.inC] at hblocked hh2 hhC hni hnh
    · exact holder2_enabled cfg env s hl h5 (by omega)
    · omega
    · exact holderC_enabled cfg env s hl h5 (by omega)
    · omega
    · rw [herrs] at hblocked; simp at hblocked; omega

theorem mainTodo_workerStep (cfg : Cfg) (env : Env σ) (s : State σ) (w : Nat) :
    mainTodo cfg (workerStep cfg env w s) = mainTodo cfg s := by
  obtain ⟨f1, f2, f3, f4, f5, f6, f7, f8, f9⟩ := workerStep_frame cfg env w s
  unfold mainTodo
  rw [f3, f4, f5, f8]

/-- Before `runSeals` has returned some goroutine can make a step that uses up `todo`. -/
theorem progress_step (cfg : Cfg) (env : Env σ) (s : State σ) (p : Nat)
    (hv : cfg.valid) (hW : ¬ cfg.par.PreCommit1 < 0)
    (h2 : 1 ≤ cfg.par.PreCommit2) (hC : 1 ≤ cfg.par.Commit)
    (hA : AllSucceed env) (hspt : env.spt cfg.sectorSize = some p)
    (h3 : Inv3 cfg env s) (h5 : Inv5 cfg s) (hret : s.ret = none) :
    ∃ c, (step cfg env c s).todo cfg < s.todo cfg := by
  have hm := h3.1.1.1
  have hl := h3.1.1.2
  have hd : s.mainPc ≠ .done := by
    intro hd
    have := hm.ret_some hd
    rw [hret] at this; cases this
  have hmain : step cfg env .main s = mainStep cfg env s := by
    unfold step
    split
    · rename_i h; rw [h5.nopanic] at h; cases h
    · rfl
  have hwork : ∀ w, step cfg env (.worker w) s = workerStep cfg env w s := by
    intro w
    unfold step
    split
    · rename_i h; rw [h5.nopanic] at h; cases h
    · rfl
  by_cases hwait : s.mainPc = .collect ∧ s.received < cfg.W ∧ s.errs = []
  · obtain ⟨hpc, hrec, herrs⟩ := hwait
    obtain ⟨w, hw, hen⟩ := exists_enabled cfg env s h2 hC hm hl h5 hpc hrec herrs
    refine ⟨.worker w, ?_⟩
    rw [hwork]
    have hnp := (Inv5_workerStep cfg env s w p hv hA hspt h3.1.1 h5).nopanic
    have ht := workerStep_todo cfg env s w (hl w hw) (by rw [hnp, h5.nopanic]) h5.nopanic hen
    have hs := sumOver_workerStep cfg env s w hw (fun k => k.todo)
    simp only [] at hs
    unfold State.todo
    rw [mainTodo_workerStep]
    omega
  · refine ⟨.main, ?_⟩
    rw [hmain]
    have hnp := (Inv5_mainStep cfg env s p hA hspt hW hm hl h5).nopanic
    exact mainStep_todo cfg env s hm hnp h5.nopanic hd
      (fun hpc hrec herrs => hwait ⟨hpc, hrec, herrs⟩)

/-- From every state of a run in which every call succeeds, some continuation of the
schedule makes `runSeals` return. -/
theorem progress (cfg : Cfg) (env : Env σ) (p : Nat)
    (hv : cfg.valid) (hW : ¬ cfg.par.PreCommit1 < 0)
    (h2 : 1 ≤ cfg.par.PreCommit2) (hC : 1 ≤ cfg.par.Commit)
    (hA : AllSucceed env) (hspt : env.spt cfg.sectorSize = some p) :
    ∀ (n : Nat) (s : State σ), s.todo cfg ≤ n → Inv3 cfg env s → Inv5 cfg s →
      ∃ more, (run cfg env more s).ret.isSome = true := by
  intro n
  induction n with
  | zero =>
    intro s hn h3 h5
    cases hret : s.ret with
    | some r => exact ⟨[], by show s.ret.isSome = true; rw [hret]; rfl⟩
    | none =>
      obtain ⟨c, hc⟩ := progress_step cfg env s p hv hW h2 hC hA hspt h3 h5 hret
      omega
  | succ n ih =>
    intro s hn h3 h5
    cases hret : s.ret with
    | some r => exact ⟨[], by show s.ret.isSome = true; rw [hret]; rfl⟩
    | none =>
      obtain ⟨c, hc⟩ := progress_step cfg env s p hv hW h2 hC hA hspt h3 h5 hret
      obtain ⟨more, hmore⟩ := ih (step cfg env c s) (by omega)
        (Inv3_step cfg env s c hv h3) (Inv5_step cfg env s c p hv hW hA hspt h3.1.1 h5)
      exact ⟨c :: more, hmore⟩

/-! ## The result of a run in which every call succeeds -/

theorem pc2_mem_opsUnseal (cfg : Cfg) (env : Env σ) (k : Worker) (j : Nat)
    (r : Except GoError PieceInfo) (sid : SectorRef) (o : Bytes) (res : Except GoError SectorCids)
    (h : Op.sealPreCommit2 sid o res ∈ addPieceOp cfg env j r :: k.opsUnseal cfg env) :
    res = .ok k.cids := by
  cases h2 : cfg.skipc2 <;> cases h3 : cfg.skipunseal <;>
    simp [Worker.opsUnseal, Worker.opsVerify, Worker.opsC2, Worker.opsC1, Worker.opsPc2,
      Worker.opsPc1, addPieceOp, h2, h3] at h <;>
    exact h.2.2

theorem pc2_in_opsUnseal (cfg : Cfg) (env : Env σ) (k : Worker) :
    Op.sealPreCommit2 k.sid k.pc1o (.ok k.cids) ∈ k.opsUnseal cfg env := by
  simp [Worker.opsUnseal, Worker.opsVerify, Worker.opsC2, Worker.opsC1, Worker.opsPc2,
    Worker.opsPc1]

/-- The calls and the summary of a sector whose iteration ran to its end. -/
theorem sector_sealed (cfg : Cfg) (env : Env σ) (s : State σ) (hv : cfg.valid)
    (h : Inv3 cfg env s) (w j : Nat) (hw : w < s.launched)
    (hb : w * s.sectorsPerWorker ≤ j) (hlt : j < (s.workers w).i) :
    ∃ (k : Worker) (pi : PieceInfo), k.sid = cfg.sid env j ∧
      sectorOps s.trace j = addPieceOp cfg env j (.ok pi) :: k.opsUnseal cfg env ∧
      s.sealedSectors[j]? = some ⟨k.sid.ProofType, j, k.cids.Sealed⟩ := by
  have hl := h.1.1.2 w hw
  have hspw := (h.1.1.1.spw (Or.inr (Or.inr (by omega)))).2
  have hj : j ∈ block cfg w := by
    rw [block_mem, ← hspw]
    have h1 := hl.hi
    have h2 := hl.stop_eq
    omega
  obtain ⟨pi, -, hops⟩ := sectorOps_owner cfg env s hv h w j hw hj
  obtain ⟨k, -, h2, -, -, h5, h6⟩ := (h.1.2.1 w hw).past j hb hlt
  exact ⟨k, pi, h2, by rw [hops, h5]; rfl, h6⟩

/-- C2 (amended): with `N >= 1` sectors, `W >= 1` workers dividing `N`, a timing slice of
`N` records within the allocation limit of `make`, gates of capacity at least one, a
sector size that has a proof type `p`, and an environment in which every call succeeds:
`runSeals` never panics; every schedule can be continued so that `runSeals`
returns; and whenever it has returned, under any schedule, the error is nil, the timing
slice and the sealed-sector slice both have length `N`, and for every index `i < N` the
`i`-th summary has proof type `p`, sector number `i` and the sealed CID of the result of
the SealPreCommit2 call for sector `i`, of which there is exactly one result. -/
theorem runSeals_all_succeed (cfg : Cfg) (env : Env σ) (w0 : σ) (sched : List Choice) (p : Nat)
    (hN : 1 ≤ cfg.numSectors) (hW : 1 ≤ cfg.par.PreCommit1)
    (hmod : cfg.numSectors % cfg.par.PreCommit1 = 0)
    (h2 : 1 ≤ cfg.par.PreCommit2) (hC : 1 ≤ cfg.par.Commit)
    (hfit : cfg.fits)
    (hspt : env.spt cfg.sectorSize = some p) (hA : AllSucceed env) :
    (runSeals cfg env w0 sched).panicked = none ∧
    (∃ more, (runSeals cfg env w0 (sched ++ more)).ret.isSome = true) ∧
    (∀ r, (runSeals cfg env w0 sched).ret = some r →
      r.err = none ∧ ∃ ts ss, r.timings = some ts ∧ r.sealed = some ss ∧
        ts.length = cfg.N ∧ ss.length = cfg.N ∧
        ∀ i, i < cfg.N → ∃ cids, ss[i]? = some ⟨p, i, cids.Sealed⟩ ∧
          (∃ e ∈ (runSeals cfg env w0 sched).trace, e.sector = i ∧
            ∃ sid o, e.op = .sealPreCommit2 sid o (.ok cids)) ∧
          (∀ e ∈ (runSeals cfg env w0 sched).trace, e.sector = i →
            ∀ sid o res, e.op = .sealPreCommit2 sid o res → res = .ok cids)) := by
  have hv := valid_of cfg (by omega) hW (by omega) (by omega) hmod hfit
  have hWn : ¬ cfg.par.PreCommit1 < 0 := by omega
  obtain ⟨h3, h5⟩ := Inv35_run cfg env p hv hWn hA hspt sched (init cfg w0)
    (Inv3_init cfg env w0 hv) (Inv5_init cfg w0 hv)
  have hrs : run cfg env sched (init cfg w0) = runSeals cfg env w0 sched := rfl
  rw [hrs] at h3 h5
  refine ⟨h5.nopanic, ?_, fun r hr => ?_⟩
  · obtain ⟨more, hmore⟩ := progress cfg env p hv hWn h2 hC hA hspt _ _ (le_refl _) h3 h5
    refine ⟨more, ?_⟩
    unfold runSeals at hmore ⊢
    rw [run_append]
    exact hmore
  · generalize runSeals cfg env w0 sched = s at h3 h5 hr
    obtain ⟨hreq, hlaunched, hhalt⟩ := h5.retOK r hr
    have hm := h3.1.1.1
    obtain ⟨hWpos, hdiv⟩ := div_facts cfg (by omega) hW hmod
    have hspw : s.sectorsPerWorker = cfg.N / cfg.W :=
      (hm.spw (Or.inr (Or.inr (by omega)))).2
    subst hreq
    refine ⟨rfl, s.sealTimings, s.sealedSectors, rfl, rfl, hm.lenT, hm.lenS, fun i hi => ?_⟩
    obtain ⟨w, hw, hiw⟩ := block_cover cfg hWpos hdiv i hi
    have hwl : w < s.launched := by omega
    have hl := h3.1.1.2 w hwl
    have hfin := hl.finished (Or.inr (hhalt w hwl)) (h5.nofail w)
    have hst := hl.stop_eq
    rw [block_mem, ← hspw] at hiw
    obtain ⟨k, pi, hsid, hops, hsl⟩ := sector_sealed cfg env s hv h3 w i hwl hiw.1 (by omega)
    have hpt : k.sid.ProofType = p := by
      rw [hsid]; unfold Cfg.sid; simp only [hspt, Option.getD_some]
    rw [hpt] at hsl
    refine ⟨k.cids, hsl, ?_, fun e he hsec sid o res hop => ?_⟩
    · have hmem : Op.sealPreCommit2 k.sid k.pc1o (.ok k.cids) ∈ sectorOps s.trace i := by
        rw [hops]; exact List.mem_cons_of_mem _ (pc2_in_opsUnseal cfg env k)
      obtain ⟨e, he, hsec, hop, -⟩ := of_mem_sectorOps _ _ _ hmem
      exact ⟨e, he, hsec, k.sid, k.pc1o, hop⟩
    · have hmem := mem_sectorOps s.trace e he (by rw [hop]; rfl)
      rw [hsec, hops, hop] at hmem
      exact pc2_mem_opsUnseal cfg env k i _ sid o res hmem

/-! ## Instances on stub runs -/

theorem stubEnv_allSucceed : AllSucceed (stubEnv .never) := by
  constructor <;> intros <;> simp [stubEnv]

/-- An instance of `runSeals_indivisible`: three sectors and two workers. -/
theorem runSeals_indivisible_witness :
    (0 : Int) ≤ (stubCfg 3 2).numSectors ∧ (1 : Int) ≤ (stubCfg 3 2).par.PreCommit1 ∧
    (stubCfg 3 2).numSectors % (stubCfg 3 2).par.PreCommit1 ≠ 0 ∧ (stubCfg 3 2).fits ∧
    (runSeals (stubCfg 3 2) (stubEnv .never) 0 (roundRobin 2 5)).ret =
      some ⟨none, none, some (.msg "parallelism factor must cleanly divide numSectors")⟩ ∧
    (runSeals (stubCfg 3 2) (stubEnv .never) 0 (roundRobin 2 5)).trace = [] :=
  ⟨by decide, by decide, by decide, by decide,
   (runSeals_indivisible (stubCfg 3 2) (stubEnv .never) 0 (roundRobin 2 5)
     (by decide) (by decide) (by decide) (by decide) (by decide) (by decide)).1,
   (runSeals_indivisible (stubCfg 3 2) (stubEnv .never) 0 (roundRobin 2 5)
     (by decide) (by decide) (by decide) (by decide) (by decide) (by decide)).2.2.1⟩

/-- An instance of `SumSealingTime_error_iff`: two records for two sectors. -/
theorem SumSealingTime_error_iff_witness : smallBench.SumSealingTime.1 = none :=
  (SumSealingTime_error_iff smallBench).2 (by decide)

/-- An instance of `runSeals_all_succeed`: four sectors, two workers, a stub that always
succeeds; the run returns the four sealed CIDs of the stub in index order. -/
theorem runSeals_all_succeed_witness :
    (1 : Int) ≤ (stubCfg 4 2).numSectors ∧ (1 : Int) ≤ (stubCfg 4 2).par.PreCommit1 ∧
    (stubCfg 4 2).numSectors % (stubCfg 4 2).par.PreCommit1 = 0 ∧ (stubCfg 4 2).fits ∧
    (stubEnv .never).spt (stubCfg 4 2).sectorSize = some 8 ∧
    AllSucceed (stubEnv .never) ∧
    ((runSeals (stubCfg 4 2) (stubEnv .never) 0 (roundRobin 2 70)).ret.map RunResult.sealed =
      some (some [⟨8, 0, 3000⟩, ⟨8, 1, 3001⟩, ⟨8, 2, 3002⟩, ⟨8, 3, 3003⟩])) ∧
    (runSeals (stubCfg 4 2) (stubEnv .never) 0 (roundRobin 2 70)).panicked = none ∧
    (∃ more, (runSeals (stubCfg 4 2) (stubEnv .never) 0
      (roundRobin 2 70 ++ more)).ret.isSome = true) :=
  ⟨by decide, by decide, by decide, by decide, rfl, stubEnv_allSucceed, by decide,
   (runSeals_all_succeed (stubCfg 4 2) (stubEnv .never) 0 (roundRobin 2 70) 8
     (by decide) (by decide) (by decide) (by decide) (by decide) (by decide) rfl
     stubEnv_allSucceed).1,
   (runSeals_all_succeed (stubCfg 4 2) (stubEnv .never) 0 (roundRobin 2 70) 8
     (by decide) (by decide) (by decide) (by decide) (by decide) (by decide) rfl
     stubEnv_allSucceed).2.1⟩

theorem noSptEnv_allSucceed : AllSucceed noSptEnv := by
  constructor <;> intros <;> simp [noSptEnv, stubEnv]

/-- C2, counterexample: three runs with `N >= 1`, `W >= 1` dividing `N` and a stub whose
every operation succeeds, none of which returns.  With a commit gate of capacity zero the
worker stays at `commitSema <- struct{}{}` and the orchestrator at the collection loop:
neither can move.  With `N = 2^62` the first `make` panics.  With a sector size that has no
seal proof type the helper `spt` panics. -/
theorem all_succeed_counterexample :
    AllSucceed (stubEnv .never) ∧ AllSucceed noSptEnv ∧
    (1 : Int) ≤ zeroGateCfg.numSectors ∧ (1 : Int) ≤ zeroGateCfg.par.PreCommit1 ∧
    zeroGateCfg.numSectors % zeroGateCfg.par.PreCommit1 = 0 ∧
    (runSeals zeroGateCfg (stubEnv .never) 0 (roundRobin 1 40)).ret = none ∧
    (runSeals zeroGateCfg (stubEnv .never) 0 (roundRobin 1 40)).mainPc = .collect ∧
    (runSeals zeroGateCfg (stubEnv .never) 0 (roundRobin 1 40)).errs = [] ∧
    ((runSeals zeroGateCfg (stubEnv .never) 0 (roundRobin 1 40)).workers 0).pc = .acqCommit ∧
    (step zeroGateCfg (stubEnv .never) .main
      (runSeals zeroGateCfg (stubEnv .never) 0 (roundRobin 1 40))).mainPc = .collect ∧
    (step zeroGateCfg (stubEnv .never) .main
      (runSeals zeroGateCfg (stubEnv .never) 0 (roundRobin 1 40))).ret = none ∧
    ((step zeroGateCfg (stubEnv .never) (.worker 0)
      (runSeals zeroGateCfg (stubEnv .never) 0 (roundRobin 1 40))).workers 0).pc = .acqCommit ∧
    (stubCfg 4611686018427387904 2).numSectors % (stubCfg 4611686018427387904 2).par.PreCommit1
      = 0 ∧
    (runSeals (stubCfg 4611686018427387904 2) (stubEnv .never) 0 (roundRobin 2 5)).panicked =
      some "makeslice: len out of range" ∧
    (runSeals (stubCfg 4611686018427387904 2) (stubEnv .never) 0 (roundRobin 2 5)).ret = none ∧
    (runSeals (stubCfg 1 1) noSptEnv 0 (roundRobin 1 10)).panicked = some "spt" ∧
    (runSeals (stubCfg 1 1) noSptEnv 0 (roundRobin 1 10)).ret = none := by
  refine ⟨stubEnv_allSucceed, noSptEnv_allSucceed, by decide, by decide, by decide, by decide,
    by decide, by decide, by decide, by decide, by decide, by decide, by decide, ?_, ?_,
    by decide, by decide⟩
  · rw [runSeals_nofit _ _ _ _ (by decide)]
  · rw [runSeals_nofit _ _ _ _ (by decide)]

/-! ## Gates and outcomes in every run -/

/-- A worker step keeps a gate counter within the capacity of the gate. -/
theorem workerStep_caps (cfg : Cfg) (env : Env σ) (s : State σ) (w : Nat)
    (h2 : (s.preCommit2Sema : Int) ≤ cfg.par.PreCommit2)
    (hC : (s.commitSema : Int) ≤ cfg.par.Commit) :
    ((workerStep cfg env w s).preCommit2Sema : Int) ≤ cfg.par.PreCommit2 ∧
    ((workerStep cfg env w s).commitSema : Int) ≤ cfg.par.Commit := by
  cases hpc : (s.workers w).pc <;>
    simp only [workerStep, hpc] <;> (try split) <;> (try split) <;> (try split) <;>
    (try simp only [State.setW, State.crash, State.log]) <;>
    first
    | exact ⟨h2, hC⟩
    | (constructor <;> omega)

theorem Inv6_init (cfg : Cfg) (w0 : σ) (hv : cfg.valid) : Inv6 cfg (init cfg w0 : State σ) := by
  obtain ⟨hN, h2, hC, hW0, hmod, hfit⟩ := hv
  unfold init
  simp only [State.crash]
  rw [if_neg (not_or.mpr ⟨by omega, not_not.mpr hfit⟩), if_neg (by omega), if_neg hW0, if_neg (by simpa using hmod)]
  constructor <;> simp [Worker.idle, State.sum2, State.sumC, State.haltedCount, sumOver]
  · exact h2
  · exact hC

theorem Inv6_mainStep (cfg : Cfg) (env : Env σ) (s : State σ)
    (hm : MInv cfg env s) (h : Inv6 cfg s) : Inv6 cfg (mainStep cfg env s) := by
  obtain ⟨h1, h2, h3, h4, h5, h6, h7, h8⟩ := h
  have hrn := hm.ret_none
  cases hpc : s.mainPc <;> simp only [mainStep, hpc]
  · -- apHead
    split
    · split
      · exact ⟨h1, h2, h3, h4, fun _ => h5 (by rw [hpc]; decide), h6, h7, h8⟩
      · exact ⟨h1, h2, h3, h4, fun _ => h5 (by rw [hpc]; decide), h6, h7, h8⟩
    · exact ⟨h1, h2, h3, h4, fun _ => h5 (by rw [hpc]; decide), h6, h7, h8⟩
  · -- apCall
    have hl0 := hm.launched0 (Or.inr (Or.inl hpc))
    split
    · refine ⟨h1, h2, h3, h4, fun hd => absurd rfl hd, h6, fun a b err _ hl => ?_,
        fun a b hr => ?_⟩
      · simp only [State.log] at hl; omega
      · simp only [Option.some.injEq, RunResult.mk.injEq] at hr
        exact absurd hr.2.2 (by simp)
    · refine ⟨h1, h2, h3, h4, fun _ => h5 (by rw [hpc]; decide), h6, fun a b err hr => ?_,
        fun a b hr => ?_⟩
      · simp only [State.log] at hr; rw [hrn (by rw [hpc]; decide)] at hr; cases hr
      · simp only [State.log] at hr; rw [hrn (by rw [hpc]; decide)] at hr; cases hr
  · -- apDone
    split
    · exact ⟨h1, h2, h3, h4, h5, h6, h7, h8⟩
    · refine ⟨h1, h2, h3, h4, fun _ => h5 (by rw [hpc]; decide), h6, fun a b err hr => ?_,
        fun a b hr => ?_⟩
      · simp only [] at hr; rw [hrn (by rw [hpc]; decide)] at hr; cases hr
      · simp only [] at hr; rw [hrn (by rw [hpc]; decide)] at hr; cases hr
  · -- mkErrs
    split
    · exact ⟨h1, h2, h3, h4, h5, h6, h7, h8⟩
    · exact ⟨h1, h2, h3, h4, fun _ => h5 (by rw [hpc]; decide), h6, h7, h8⟩
  · -- spawn
    split
    · refine ⟨?_, ?_, h3, h4, fun _ => ?_, fun err he => ?_, fun a b err hr => ?_,
        fun a b hr => ?_⟩
      · simp only [State.sum2]
        rw [sumOver_spawn s.launched s.workers _ (fun k => k.held2)]
        exact h1
      · simp only [State.sumC]
        rw [sumOver_spawn s.launched s.workers _ (fun k => k.heldC)]
        exact h2
      · simp only [State.haltedCount]
        rw [sumOver_spawn s.launched s.workers _ (fun k => if k.pc = .halted then 1 else 0)]
        exact h5 (by rw [hpc]; decide)
      · obtain ⟨w, hw, hw1, hw2⟩ := h6 err he
        refine ⟨w, Nat.lt_succ_of_lt hw, ?_, ?_⟩
        · simp only []; rw [Function.update_noteq (by omega)]; exact hw1
        · simp only []; rw [Function.update_noteq (by omega)]; exact hw2
      · simp only [] at hr; rw [hrn (by rw [hpc]; decide)] at hr; cases hr
      · simp only [] at hr; rw [hrn (by rw [hpc]; decide)] at hr; cases hr
    · exact ⟨h1, h2, h3, h4, fun _ => h5 (by rw [hpc]; decide), h6, h7, h8⟩
  · -- collect
    have hcnt := h5 (by rw [hpc]; decide)
    have hall := hm.collect_all hpc
    have hle : ∀ i, i < s.launched →
        (fun w => if (s.workers w).pc = PC.halted then 1 else 0) i ≤ 1 := by
      intro i _; simp only []; split <;> omega
    have hhc : s.haltedCount ≤ s.launched := sumOver_le s.launched _ hle
    split
    · rename_i hrec
      split
      · exact ⟨h1, h2, h3, h4, h5, h6, h7, h8⟩
      · rename_i e rest heq
        have hfrom := h6 e (by rw [heq]; exact List.mem_cons_self _ _)
        refine ⟨h1, h2, h3, h4, fun hd => absurd rfl hd,
          fun err he => h6 err (by rw [heq]; exact List.mem_cons_of_mem _ he),
          fun a b err hr _ => ?_, fun a b hr => ?_⟩
        · simp only [Option.some.injEq, RunResult.mk.injEq] at hr
          obtain ⟨rfl, rfl, rfl⟩ := hr
          exact ⟨rfl, rfl, hrec, hfrom⟩
        · simp only [Option.some.injEq, RunResult.mk.injEq] at hr
          exact absurd hr.2.2 (by simp)
      · rename_i rest heq
        refine ⟨h1, h2, h3, h4, fun _ => ?_,
          fun err he => h6 err (by rw [heq]; exact List.mem_cons_of_mem _ he),
          fun a b err hr => ?_, fun a b hr => ?_⟩
        · rw [heq] at hcnt
          simp only [List.length_cons] at hcnt
          show s.received + 1 + rest.length = s.haltedCount
          omega
        · simp only [] at hr; rw [hrn (by rw [hpc]; decide)] at hr; cases hr
        · simp only [] at hr; rw [hrn (by rw [hpc]; decide)] at hr; cases hr
    · rename_i hrec
      refine ⟨h1, h2, h3, h4, fun hd => absurd rfl hd, h6, fun a b err hr => ?_,
        fun a b hr => ?_⟩
      · simp only [Option.some.injEq, RunResult.mk.injEq] at hr
        exact absurd hr.2.2 (by simp)
      · simp only [Option.some.injEq, RunResult.mk.injEq, and_true] at hr
        refine ⟨hr.1.symm, hr.2.symm, by show s.received = cfg.W; omega, hall, fun w hw => ?_⟩
        have hfull := sumOver_full s.launched _ hle
          (by unfold State.haltedCount at hcnt; omega) w hw
        simp only [] at hfull
        show (s.workers w).pc = .halted
        by_contra hne
        rw [if_neg hne] at hfull
        cases hfull
  · exact ⟨h1, h2, h3, h4, h5, h6, h7, h8⟩

theorem Inv6_workerStep (cfg : Cfg) (env : Env σ) (s : State σ) (w : Nat)
    (hi : Inv1 cfg env s) (h : Inv6 cfg s) : Inv6 cfg (workerStep cfg env w s) := by
  by_cases hw : w < s.launched
  swap
  · rw [workerStep_done cfg env s w (Or.inr (by rw [hi.1.idle w (Nat.le_of_not_lt hw)]; rfl))]
    exact h
  by_cases hhalt : (s.workers w).pc = .halted
  · rw [workerStep_done cfg env s w (Or.inl hhalt)]; exact h
  obtain ⟨h1, h2, h3, h4, h5, h6, h7, h8⟩ := h
  have hl := hi.2 w hw
  obtain ⟨f1, f2, f3, f4, f5, f6, f7, f8, f9⟩ := workerStep_frame cfg env w s
  obtain ⟨g2, gC⟩ := workerStep_gates cfg env s w hl
  obtain ⟨c2, cC⟩ := workerStep_caps cfg env s w h3 h4
  have hs2 := sumOver_workerStep cfg env s w hw (fun k => k.held2)
  have hsC := sumOver_workerStep cfg env s w hw (fun k => k.heldC)
  have hsH := sumOver_workerStep cfg env s w hw (fun k => if k.pc = .halted then 1 else 0)
  simp only [] at hs2 hsC hsH
  have hkeep : ∀ w' err, w' < s.launched → (s.workers w').pc = .halted →
      (s.workers w').sealerr = some err →
      ∃ v, v < (workerStep cfg env w s).launched ∧
        ((workerStep cfg env w s).workers v).pc = .halted ∧
        ((workerStep cfg env w s).workers v).sealerr = some err := by
    intro w' err hw' hp he
    have hne : w' ≠ w := fun hh => hhalt (by rw [← hh]; exact hp)
    refine ⟨w', by rw [f3]; exact hw', ?_, ?_⟩
    · rw [workerStep_others cfg env w w' s hne]; exact hp
    · rw [workerStep_others cfg env w w' s hne]; exact he
  refine ⟨?_, ?_, c2, cC, ?_, fun err he => ?_, fun a b err hr hpos => ?_, fun a b hr => ?_⟩
  · unfold State.sum2 at h1 ⊢; omega
  · unfold State.sumC at h2 ⊢; omega
  · intro hd
    rw [f4] at hd
    have hc := h5 hd
    rw [f8]
    unfold State.haltedCount at hc ⊢
    rw [if_neg hhalt] at hsH
    by_cases hsend : (s.workers w).pc = .send
    · by_cases hlen : s.errs.length < cfg.W
      · have heq := workerStep_send cfg env s w hsend hlen
        have e1 : (workerStep cfg env w s).errs = s.errs ++ [(s.workers w).sealerr] := by
          rw [heq]; rfl
        have e2 : ((workerStep cfg env w s).workers w).pc = .halted := by
          rw [heq]; simp only [State.setW, Function.update_same]
        rw [e2, if_pos rfl] at hsH
        rw [e1, List.length_append, List.length_singleton]
        omega
      · rw [workerStep_blocked cfg env s w hsend hlen]; exact hc
    · have e2 := workerStep_halted cfg env s w hsend
      have e3 : ¬ ((workerStep cfg env w s).workers w).pc = .halted := fun hh => hhalt (e2.mp hh)
      rw [if_neg e3] at hsH
      rcases workerStep_errs cfg env w s with he | ⟨hpc, -⟩
      · rw [he]; omega
      · exact absurd hpc hsend
  · rcases workerStep_errs cfg env w s with he2 | ⟨-, -, he2, hp2, hs2'⟩
    · rw [he2] at he
      obtain ⟨w', hw', hp, hse⟩ := h6 err he
      exact hkeep w' err hw' hp hse
    · rw [he2] at he
      rcases List.mem_append.mp he with he3 | he3
      · obtain ⟨w', hw', hp, hse⟩ := h6 err he3
        exact hkeep w' err hw' hp hse
      · have hse : (s.workers w).sealerr = some err := (List.mem_singleton.mp he3).symm
        exact ⟨w, by rw [f3]; exact hw, hp2, by rw [hs2', hse]⟩
  · rw [f7] at hr
    rw [f3] at hpos
    obtain ⟨ha, hb, hrec, w', hw', hp, hse⟩ := h7 a b err hr hpos
    exact ⟨ha, hb, by rw [f8]; exact hrec, hkeep w' err hw' hp hse⟩
  · rw [f7] at hr
    exact absurd ((h8 a b hr).2.2.2.2 w hw) hhalt

theorem Inv6_step (cfg : Cfg) (env : Env σ) (s : State σ) (c : Choice)
    (hi : Inv1 cfg env s) (h : Inv6 cfg s) : Inv6 cfg (step cfg env c s) := by
  unfold step
  split
  · exact h
  · cases c with
    | tick => exact ⟨h.1, h.2, h.3, h.4, h.5, h.6, h.7, h.8⟩
    | main => exact Inv6_mainStep cfg env s hi.1 h
    | worker w => exact Inv6_workerStep cfg env s w hi h

theorem Inv6_runSeals (cfg : Cfg) (env : Env σ) (w0 : σ) (sched : List Choice)
    (hv : cfg.valid) : Inv6 cfg (runSeals cfg env w0 sched) := by
  have key : ∀ (sched : List Choice) (s : State σ), Inv1 cfg env s → Inv6 cfg s →
      Inv6 cfg (run cfg env sched s) := by
    intro sched
    induction sched with
    | nil => intro s _ h; exact h
    | cons c cs ih =>
      intro s hi h
      exact ih _ (Inv1_step cfg env s c hv hi) (Inv6_step cfg env s c hi h)
  exact key sched _ (Inv1_init cfg env w0 hv) (Inv6_init cfg w0 hv)

/-! ## The collection loop -/

theorem sumOver_mono (n : Nat) (f g : Nat → Nat) (h : ∀ i, i < n → f i ≤ g i) :
    sumOver n f ≤ sumOver n g := by
  induction n with
  | zero => exact Nat.le_refl _
  | succ n ih =>
    rw [sumOver_succ, sumOver_succ]
    have := ih (fun i hi => h i (by omega))
    have := h n (by omega)
    omega

/-- C11: with `W >= 1` dividing `N >= 0` (gate capacities not negative), in every state of
every run: at the collection loop the orchestrator returns the first error it takes from
the channel `errs`, with nil slices, goes on after a nil outcome, and after `W` nil
outcomes returns the two slices with a nil error; an error returned after the launch of
the workers is the outcome `sealerr` of a worker that has ended, the slices returned with
it are nil; and a result with a nil error holds the timing slice and the sealed-sector
slice, both of length `N`, and was returned after `W` nil outcomes. -/
theorem collected_outcome (cfg : Cfg) (env : Env σ) (w0 : σ) (sched : List Choice)
    (hN : 0 ≤ cfg.numSectors) (hW : 1 ≤ cfg.par.PreCommit1)
    (h2 : 0 ≤ cfg.par.PreCommit2) (hC : 0 ≤ cfg.par.Commit)
    (hmod : cfg.numSectors % cfg.par.PreCommit1 = 0) :
    (∀ e rest, (runSeals cfg env w0 sched).mainPc = .collect →
      (runSeals cfg env w0 sched).received < cfg.W →
      (runSeals cfg env w0 sched).errs = some e :: rest →
      (mainStep cfg env (runSeals cfg env w0 sched)).ret = some ⟨none, none, some e⟩) ∧
    (∀ rest, (runSeals cfg env w0 sched).mainPc = .collect →
      (runSeals cfg env w0 sched).received < cfg.W →
      (runSeals cfg env w0 sched).errs = none :: rest →
      (mainStep cfg env (runSeals cfg env w0 sched)).ret = none ∧
      (mainStep cfg env (runSeals cfg env w0 sched)).received =
        (runSeals cfg env w0 sched).received + 1) ∧
    ((runSeals cfg env w0 sched).mainPc = .collect →
      ¬ (runSeals cfg env w0 sched).received < cfg.W →
      (mainStep cfg env (runSeals cfg env w0 sched)).ret =
        some ⟨some (runSeals cfg env w0 sched).sealTimings,
          some (runSeals cfg env w0 sched).sealedSectors, none⟩) ∧
    (∀ a b err, (runSeals cfg env w0 sched).ret = some ⟨a, b, some err⟩ →
      0 < (runSeals cfg env w0 sched).launched →
      a = none ∧ b = none ∧
      ∃ w, w < cfg.W ∧ ((runSeals cfg env w0 sched).workers w).pc = .halted ∧
        ((runSeals cfg env w0 sched).workers w).sealerr = some err) ∧
    (∀ a b, (runSeals cfg env w0 sched).ret = some ⟨a, b, none⟩ →
      (runSeals cfg env w0 sched).received = cfg.W ∧
      ∃ ts ss, a = some ts ∧ b = some ss ∧ ts.length = cfg.N ∧ ss.length = cfg.N) := by
  by_cases hfit : cfg.fits
  swap
  · rw [runSeals_nofit cfg env w0 sched hfit]
    simp
  have hv := valid_of cfg hN hW h2 hC hmod hfit
  have h6 := Inv6_runSeals cfg env w0 sched hv
  have h1 := (Inv3_runSeals cfg env w0 sched hv).1.1.1
  generalize runSeals cfg env w0 sched = s at h6 h1
  refine ⟨fun e rest hpc hrec herrs => ?_, fun rest hpc hrec herrs => ?_, fun hpc hrec => ?_,
    fun a b err hr hl => ?_, fun a b hr => ?_⟩
  · simp only [mainStep, hpc, if_pos hrec, herrs]
  · have := h1.ret_none (by rw [hpc]; decide)
    simp only [mainStep, hpc, if_pos hrec, herrs, this, and_self]
  · simp only [mainStep, hpc, if_neg hrec]
  · obtain ⟨ha, hb, -, w, hw, hp, hs⟩ := h6.retErr a b err hr hl
    exact ⟨ha, hb, w, lt_of_lt_of_le hw h1.launched_le, hp, hs⟩
  · obtain ⟨ha, hb, hrec, -, -⟩ := h6.retOK a b hr
    exact ⟨hrec, s.sealTimings, s.sealedSectors, ha, hb, h1.lenT, h1.lenS⟩

/-- An instance of `collected_outcome`: the error of the one failing worker is returned. -/
theorem collected_outcome_witness :
    (0 : Int) ≤ (stubCfg 2 2).numSectors ∧ (1 : Int) ≤ (stubCfg 2 2).par.PreCommit1 ∧
    (stubCfg 2 2).numSectors % (stubCfg 2 2).par.PreCommit1 = 0 ∧
    (runSeals (stubCfg 2 2) (stubEnv (.preCommit1 0)) 0 earlyReturn).ret =
      some ⟨none, none, some (.wrap "commit" (.msg "boom"))⟩ ∧
    (none = (none : Option (List SealingResult)) ∧ none = (none : Option (List SectorInfo)) ∧
      ∃ w, w < (stubCfg 2 2).W ∧
        ((runSeals (stubCfg 2 2) (stubEnv (.preCommit1 0)) 0 earlyReturn).workers w).pc =
          .halted ∧
        ((runSeals (stubCfg 2 2) (stubEnv (.preCommit1 0)) 0 earlyReturn).workers w).sealerr =
          some (.wrap "commit" (.msg "boom"))) :=
  ⟨by decide, by decide, by decide, by decide,
   (collected_outcome (stubCfg 2 2) (stubEnv (.preCommit1 0)) 0 earlyReturn
     (by decide) (by decide) (by decide) (by decide) (by decide)).2.2.2.1
     none none (.wrap "commit" (.msg "boom")) (by decide) (by decide)⟩

/-! ## The gates -/

/-- C13: with gates of capacity at least one (`W >= 1` dividing `N >= 0`), in every state
of every run, whatever the interleaving, the number of workers between the acquire and the
release of the PreCommit2 gate is at most `par.PreCommit2`, the number of workers between
the acquire and the release of the commit gate is at most `par.Commit`, and so are the
numbers of slots taken in the two channels. -/
theorem gate_capacity (cfg : Cfg) (env : Env σ) (w0 : σ) (sched : List Choice)
    (hN : 0 ≤ cfg.numSectors) (hW : 1 ≤ cfg.par.PreCommit1)
    (h2 : 1 ≤ cfg.par.PreCommit2) (hC : 1 ≤ cfg.par.Commit)
    (hmod : cfg.numSectors % cfg.par.PreCommit1 = 0) :
    ((runSeals cfg env w0 sched).holders2 : Int) ≤ cfg.par.PreCommit2 ∧
    ((runSeals cfg env w0 sched).holdersC : Int) ≤ cfg.par.Commit ∧
    ((runSeals cfg env w0 sched).preCommit2Sema : Int) ≤ cfg.par.PreCommit2 ∧
    ((runSeals cfg env w0 sched).commitSema : Int) ≤ cfg.par.Commit := by
  by_cases hfit : cfg.fits
  swap
  · rw [runSeals_nofit cfg env w0 sched hfit]
    simp only [State.holders2, State.holdersC, sumOver, List.range_zero, List.map_nil,
      List.sum_nil, Nat.cast_zero]
    omega
  have hv := valid_of cfg hN hW (by omega) (by omega) hmod hfit
  have h6 := Inv6_runSeals cfg env w0 sched hv
  have hl := (Inv3_runSeals cfg env w0 sched hv).1.1.2
  generalize runSeals cfg env w0 sched = s at h6 hl
  have a2 : s.holders2 ≤ s.sum2 := by
    unfold State.holders2 State.sum2
    apply sumOver_mono
    intro w hw
    have h8 := (hl w hw).running
    have h11 := (hl w hw).held2
    show (if (s.workers w).pc.in2 = true then 1 else 0) ≤ (s.workers w).held2
    cases hpc : (s.workers w).pc <;> simp [hpc, PC.in2] at h8 h11 ⊢ <;>
      (have hq := h11 h8; omega)
  have aC : s.holdersC ≤ s.sumC := by
    unfold State.holdersC State.sumC
    apply sumOver_mono
    intro w hw
    have h8 := (hl w hw).running
    have h12 := (hl w hw).heldC
    show (if (s.workers w).pc.inC = true then 1 else 0) ≤ (s.workers w).heldC
    cases hpc : (s.workers w).pc <;> simp [hpc, PC.inC] at h8 h12 ⊢ <;>
      (have hq := h12 h8; omega)
  have b2 := h6.gate2
  have bC := h6.gateC
  have c2 := h6.cap2
  have cC := h6.capC
  refine ⟨by omega, by omega, c2, cC⟩

/-- An instance of `gate_capacity`: two workers and gates of capacity one, at a moment
when worker 0 is about to call SealPreCommit2, holding the one slot of the PreCommit2 gate,
and worker 1 waits at the acquire, where its step leaves it. -/
theorem gate_capacity_witness :
    (0 : Int) ≤ (stubCfg 4 2).numSectors ∧ (1 : Int) ≤ (stubCfg 4 2).par.PreCommit1 ∧
    (1 : Int) ≤ (stubCfg 4 2).par.PreCommit2 ∧ (1 : Int) ≤ (stubCfg 4 2).par.Commit ∧
    (stubCfg 4 2).numSectors % (stubCfg 4 2).par.PreCommit1 = 0 ∧
    (runSeals (stubCfg 4 2) (stubEnv .never) 0 (roundRobin 2 19)).launched = 2 ∧
    ((runSeals (stubCfg 4 2) (stubEnv .never) 0 (roundRobin 2 19)).workers 0).pc = .pc2 ∧
    ((runSeals (stubCfg 4 2) (stubEnv .never) 0 (roundRobin 2 19)).workers 1).pc = .acqPC2 ∧
    ((workerStep (stubCfg 4 2) (stubEnv .never) 1
      (runSeals (stubCfg 4 2) (stubEnv .never) 0 (roundRobin 2 19))).workers 1).pc = .acqPC2 ∧
    (runSeals (stubCfg 4 2) (stubEnv .never) 0 (roundRobin 2 19)).holders2 = 1 ∧
    (runSeals (stubCfg 4 2) (stubEnv .never) 0 (roundRobin 2 24)).holders2 = 1 ∧
    (runSeals (stubCfg 4 2) (stubEnv .never) 0 (roundRobin 2 24)).holdersC = 1 ∧
    (((runSeals (stubCfg 4 2) (stubEnv .never) 0 (roundRobin 2 19)).holders2 : Int) ≤
        (stubCfg 4 2).par.PreCommit2 ∧
      ((runSeals (stubCfg 4 2) (stubEnv .never) 0 (roundRobin 2 19)).holdersC : Int) ≤
        (stubCfg 4 2).par.Commit ∧
      ((runSeals (stubCfg 4 2) (stubEnv .never) 0 (roundRobin 2 19)).preCommit2Sema : Int) ≤
        (stubCfg 4 2).par.PreCommit2 ∧
      ((runSeals (stubCfg 4 2) (stubEnv .never) 0 (roundRobin 2 19)).commitSema : Int) ≤
        (stubCfg 4 2).par.Commit) :=
  ⟨by decide, by decide, by decide, by decide, by decide, by decide, by decide, by decide,
   by decide, by decide, by decide, by decide,
   gate_capacity (stubCfg 4 2) (stubEnv .never) 0 (roundRobin 2 19)
     (by decide) (by decide) (by decide) (by decide) (by decide)⟩

/-- C12 fails on the code: SealPreCommit2 fails for sector 0; the worker leaves at main.go
1457 without receiving from `preCommit2Sema`, and ends holding the one slot of the gate,
which stays taken. -/
theorem gate_leak_on_error :
    ((runSeals (stubCfg 2 1) (stubEnv (.preCommit2 0)) 0 (roundRobin 1 20)).workers 0).pc =
      .halted ∧
    ((runSeals (stubCfg 2 1) (stubEnv (.preCommit2 0)) 0 (roundRobin 1 20)).workers 0).sealerr =
      some (.wrap "commit" (.msg "boom")) ∧
    ((runSeals (stubCfg 2 1) (stubEnv (.preCommit2 0)) 0 (roundRobin 1 20)).workers 0).held2 = 1 ∧
    (runSeals (stubCfg 2 1) (stubEnv (.preCommit2 0)) 0 (roundRobin 1 20)).preCommit2Sema = 1 := by
  refine ⟨by decide, by decide, by decide, by decide⟩

/-- C14, counterexample: two workers; worker 0 fails and sends its error, the orchestrator
takes it and returns while worker 1 has not made a step: one outcome received, not two. -/
theorem early_return_counterexample :
    (stubCfg 2 2).W = 2 ∧
    (runSeals (stubCfg 2 2) (stubEnv (.preCommit1 0)) 0 earlyReturn).ret =
      some ⟨none, none, some (.wrap "commit" (.msg "boom"))⟩ ∧
    (runSeals (stubCfg 2 2) (stubEnv (.preCommit1 0)) 0 earlyReturn).received = 0 ∧
    (runSeals (stubCfg 2 2) (stubEnv (.preCommit1 0)) 0 earlyReturn).errs = [] ∧
    ((runSeals (stubCfg 2 2) (stubEnv (.preCommit1 0)) 0 earlyReturn).workers 0).pc = .halted ∧
    ((runSeals (stubCfg 2 2) (stubEnv (.preCommit1 0)) 0 earlyReturn).workers 1).pc = .head := by
  refine ⟨by decide, by decide, by decide, by decide, by decide, by decide⟩

/-- C14, amended: with `W >= 1` dividing `N >= 0` (gate capacities not negative), in every
state of every run: a result with a nil error is returned after exactly `W` nil outcomes,
when each of the `W` workers has sent its outcome and ended; a result with an error, after
the launch, was returned after fewer than `W` nil outcomes, the worker that sent the error
having ended; at the collection loop, when the next outcome in the channel is an error,
the step of the orchestrator returns this error with nil slices at once, whatever the
number of outcomes received so far, and leaves the rest of the channel and the workers as
they are, the workers that have ended being those whose outcomes were received or are in
the channel, however few; and after its return the orchestrator receives nothing. -/
theorem returns_on_first_error (cfg : Cfg) (env : Env σ) (w0 : σ) (sched : List Choice)
    (hN : 0 ≤ cfg.numSectors) (hW : 1 ≤ cfg.par.PreCommit1)
    (h2 : 0 ≤ cfg.par.PreCommit2) (hC : 0 ≤ cfg.par.Commit)
    (hmod : cfg.numSectors % cfg.par.PreCommit1 = 0) :
    (∀ a b, (runSeals cfg env w0 sched).ret = some ⟨a, b, none⟩ →
      (runSeals cfg env w0 sched).received = cfg.W ∧
      (runSeals cfg env w0 sched).launched = cfg.W ∧
      ∀ w, w < cfg.W → ((runSeals cfg env w0 sched).workers w).pc = .halted) ∧
    (∀ a b err, (runSeals cfg env w0 sched).ret = some ⟨a, b, some err⟩ →
      0 < (runSeals cfg env w0 sched).launched →
      (runSeals cfg env w0 sched).received < cfg.W ∧
      ∃ w, w < cfg.W ∧ ((runSeals cfg env w0 sched).workers w).pc = .halted ∧
        ((runSeals cfg env w0 sched).workers w).sealerr = some err) ∧
    (∀ e rest, (runSeals cfg env w0 sched).mainPc = .collect →
      (runSeals cfg env w0 sched).received < cfg.W →
      (runSeals cfg env w0 sched).errs = some e :: rest →
      (mainStep cfg env (runSeals cfg env w0 sched)).ret = some ⟨none, none, some e⟩ ∧
      (mainStep cfg env (runSeals cfg env w0 sched)).mainPc = .done ∧
      (mainStep cfg env (runSeals cfg env w0 sched)).errs = rest ∧
      (mainStep cfg env (runSeals cfg env w0 sched)).received =
        (runSeals cfg env w0 sched).received ∧
      (mainStep cfg env (runSeals cfg env w0 sched)).workers =
        (runSeals cfg env w0 sched).workers ∧
      (runSeals cfg env w0 sched).haltedCount =
        (runSeals cfg env w0 sched).received + 1 + rest.length) ∧
    ((runSeals cfg env w0 sched).mainPc = .done →
      mainStep cfg env (runSeals cfg env w0 sched) = runSeals cfg env w0 sched) := by
  by_cases hfit : cfg.fits
  swap
  · rw [runSeals_nofit cfg env w0 sched hfit]
    simp [mainStep]
  have hv := valid_of cfg hN hW h2 hC hmod hfit
  have h6 := Inv6_runSeals cfg env w0 sched hv
  have h1 := (Inv3_runSeals cfg env w0 sched hv).1.1.1
  generalize runSeals cfg env w0 sched = s at h6 h1
  refine ⟨fun a b hr => ?_, fun a b err hr hl => ?_, fun e rest hpc hrec herrs => ?_,
    fun hpc => ?_⟩
  · obtain ⟨-, -, hrec, hla, hall⟩ := h6.retOK a b hr
    exact ⟨hrec, hla, fun w hw => hall w (by omega)⟩
  · obtain ⟨-, -, hrec, w, hw, hp, hs⟩ := h6.retErr a b err hr hl
    exact ⟨hrec, w, lt_of_lt_of_le hw h1.launched_le, hp, hs⟩
  · have hcnt := h6.count (by rw [hpc]; decide)
    rw [herrs] at hcnt
    simp only [List.length_cons] at hcnt
    simp only [mainStep, hpc, if_pos hrec, herrs, true_and]
    omega
  · simp only [mainStep, hpc]

/-- An instance of `returns_on_first_error`: two workers, one sector each; worker 0 has
failed and ended, its error is in the channel, worker 1 has not made a step; the next step
of the orchestrator returns the error, one worker out of two having ended. -/
theorem returns_on_first_error_witness :
    (0 : Int) ≤ (stubCfg 2 2).numSectors ∧ (1 : Int) ≤ (stubCfg 2 2).par.PreCommit1 ∧
    (stubCfg 2 2).numSectors % (stubCfg 2 2).par.PreCommit1 = 0 ∧ (stubCfg 2 2).W = 2 ∧
    (runSeals (stubCfg 2 2) (stubEnv (.preCommit1 0)) 0 earlyCollect).mainPc = .collect ∧
    (runSeals (stubCfg 2 2) (stubEnv (.preCommit1 0)) 0 earlyCollect).received = 0 ∧
    (runSeals (stubCfg 2 2) (stubEnv (.preCommit1 0)) 0 earlyCollect).errs =
      [some (.wrap "commit" (.msg "boom"))] ∧
    ((runSeals (stubCfg 2 2) (stubEnv (.preCommit1 0)) 0 earlyCollect).workers 1).pc = .head ∧
    (runSeals (stubCfg 2 2) (stubEnv (.preCommit1 0)) 0 earlyCollect).haltedCount = 1 ∧
    ((mainStep (stubCfg 2 2) (stubEnv (.preCommit1 0))
        (runSeals (stubCfg 2 2) (stubEnv (.preCommit1 0)) 0 earlyCollect)).ret =
        some ⟨none, none, some (.wrap "commit" (.msg "boom"))⟩ ∧
      (mainStep (stubCfg 2 2) (stubEnv (.preCommit1 0))
        (runSeals (stubCfg 2 2) (stubEnv (.preCommit1 0)) 0 earlyCollect)).mainPc = .done ∧
      (mainStep (stubCfg 2 2) (stubEnv (.preCommit1 0))
        (runSeals (stubCfg 2 2) (stubEnv (.preCommit1 0)) 0 earlyCollect)).errs = [] ∧
      (mainStep (stubCfg 2 2) (stubEnv (.preCommit1 0))
        (runSeals (stubCfg 2 2) (stubEnv (.preCommit1 0)) 0 earlyCollect)).received =
        (runSeals (stubCfg 2 2) (stubEnv (.preCommit1 0)) 0 earlyCollect).received ∧
      (mainStep (stubCfg 2 2) (stubEnv (.preCommit1 0))
        (runSeals (stubCfg 2 2) (stubEnv (.preCommit1 0)) 0 earlyCollect)).workers =
        (runSeals (stubCfg 2 2) (stubEnv (.preCommit1 0)) 0 earlyCollect).workers ∧
      (runSeals (stubCfg 2 2) (stubEnv (.preCommit1 0)) 0 earlyCollect).haltedCount =
        (runSeals (stubCfg 2 2) (stubEnv (.preCommit1 0)) 0 earlyCollect).received + 1 +
          ([] : List (Option GoError)).length) :=
  ⟨by decide, by decide, by decide, by decide, by decide, by decide, by decide, by decide,
   by decide,
   (returns_on_first_error (stubCfg 2 2) (stubEnv (.preCommit1 0)) 0 earlyCollect
     (by decide) (by decide) (by decide) (by decide) (by decide)).2.2.1
     (.wrap "commit" (.msg "boom")) [] (by decide) (by decide) (by decide)⟩

/-- C15 fails on the code: with `par.PreCommit1 = 0` the divisibility test of main.go 1394
divides by zero and `runSeals` panics; with `par.PreCommit1 = -1`, which divides every
sector count, AddPiece is called for every sector and `runSeals` then panics at
`make(chan error, par.PreCommit1)`.  No configuration error is returned. -/
theorem nonpositive_workers_panic :
    (runSeals (stubCfg 1 0) (stubEnv .never) 0 (roundRobin 1 20)).panicked =
      some "integer divide by zero" ∧
    (runSeals (stubCfg 1 0) (stubEnv .never) 0 (roundRobin 1 20)).ret = none ∧
    (runSeals (stubCfg 1 (-1)) (stubEnv .never) 0 (roundRobin 1 20)).panicked =
      some "makechan: size out of range" ∧
    (runSeals (stubCfg 1 (-1)) (stubEnv .never) 0 (roundRobin 1 20)).ret = none ∧
    (runSeals (stubCfg 1 (-1)) (stubEnv .never) 0 (roundRobin 1 20)).trace =
      [⟨none, 0, 1, .addPiece ⟨⟨1000, 0⟩, 8⟩ 2032 100 (.ok ⟨2032, 1000⟩)⟩] := by
  refine ⟨by decide, by decide, by decide, by decide, by decide⟩

/-! ## The arguments of the calls -/

theorem workerStep_args (cfg : Cfg) (env : Env σ) (s : State σ) (w : Nat)
    (hl : WLocal cfg env s w) :
    ∀ e, (workerStep cfg env w s).trace = s.trace ++ [e] → EvArgs cfg env e := by
  have hloc := hl.locals
  cases hpc : (s.workers w).pc <;>
    simp [hpc, PC.inIter] at hloc <;>
    simp only [workerStep, hpc] <;> (try split) <;> (try split) <;> (try split) <;>
    (try simp only [State.setW, State.crash, State.log]) <;>
    first
    | (intro e he; exact absurd (List.self_eq_append_right.mp he) (List.cons_ne_nil _ _))
    | (intro e he
       have he2 := List.append_cancel_left he
       simp only [List.cons.injEq, and_true] at he2
       subst he2
       simp_all [EvArgs, Worker.svi])

theorem EvArgs_step (cfg : Cfg) (env : Env σ) (s : State σ) (c : Choice)
    (hi : Inv1 cfg env s) (h : ∀ e ∈ s.trace, EvArgs cfg env e) :
    ∀ e ∈ (step cfg env c s).trace, EvArgs cfg env e := by
  unfold step
  split
  · exact h
  · cases c with
    | tick => exact h
    | main =>
      simp only []
      rcases mainStep_trace cfg env s with ht | ⟨-, ht⟩
      · rw [ht]; exact h
      · rw [ht]
        intro e he
        rcases List.mem_append.mp he with he | he
        · exact h e he
        · rw [List.mem_singleton.mp he]; trivial
    | worker w =>
      simp only []
      by_cases hw : w < s.launched
      · rcases workerStep_trace cfg env w s with ht | ⟨op, -, ht⟩
        · rw [ht]; exact h
        · intro e he
          rw [ht] at he
          rcases List.mem_append.mp he with he | he
          · exact h e he
          · rw [List.mem_singleton.mp he]
            exact workerStep_args cfg env s w (hi.2 w hw) _ ht
      · rw [workerStep_done cfg env s w
          (Or.inr (by rw [hi.1.idle w (Nat.le_of_not_lt hw)]; rfl))]
        exact h

theorem init_trace (cfg : Cfg) (w0 : σ) : (init cfg w0 : State σ).trace = [] := by
  unfold init
  simp only [State.crash]
  split
  · rfl
  · split
    · rfl
    · split
      · rfl
      · split <;> rfl

/-- In every run the arguments of every call are those of its sector. -/
theorem EvArgs_runSeals (cfg : Cfg) (env : Env σ) (w0 : σ) (sched : List Choice)
    (hv : cfg.valid) : ∀ e ∈ (runSeals cfg env w0 sched).trace, EvArgs cfg env e := by
  have key : ∀ (sched : List Choice) (s : State σ), Inv1 cfg env s →
      (∀ e ∈ s.trace, EvArgs cfg env e) →
      ∀ e ∈ (run cfg env sched s).trace, EvArgs cfg env e := by
    intro sched
    induction sched with
    | nil => intro s _ h; exact h
    | cons c cs ih =>
      intro s hi h
      exact ih _ (Inv1_step cfg env s c hv hi) (EvArgs_step cfg env s c hi h)
  refine key sched _ (Inv1_init cfg env w0 hv) ?_
  intro e he
  rw [init_trace] at he; cases he

/-! ## The ticket -/

/-- C20, counterexample: in a stub run of two sectors the SealPreCommit1 calls for sector 0
and for sector 1 get the same ticket, the hash of the preimage (the stub hash is the
identity, the preimage is `[7]`): the sector index is no input of the derivation. -/
theorem ticket_counterexample :
    (stubEnv .never).blake2b (stubCfg 2 1).ticketPreimage = [7] ∧
    (⟨some 0, 0, 10, .sealPreCommit1 ⟨⟨1000, 0⟩, 8⟩ [7] [⟨2032, 1000⟩] (.ok [0, 1])⟩ : Event) ∈
      (runSeals (stubCfg 2 1) (stubEnv .never) 0 (roundRobin 1 40)).trace ∧
    (⟨some 0, 1, 32, .sealPreCommit1 ⟨⟨1000, 1⟩, 8⟩ [7] [⟨2032, 1001⟩] (.ok [1, 1])⟩ : Event) ∈
      (runSeals (stubCfg 2 1) (stubEnv .never) 0 (roundRobin 1 40)).trace := by
  refine ⟨by decide, by decide, by decide⟩

/-- C20, amended: with `W >= 1` dividing `N >= 0` (gate capacities not negative), in every
run the ticket passed to SealPreCommit1, to SealCommit1, to VerifySeal (as `Randomness`) and
to UnsealPiece is `blake2b(ticketPreimage)`, for every sector: one value, derived from the
preimage alone, the same for all sectors. -/
theorem ticket_from_preimage (cfg : Cfg) (env : Env σ) (w0 : σ) (sched : List Choice)
    (e : Event)
    (hN : 0 ≤ cfg.numSectors) (hW : 1 ≤ cfg.par.PreCommit1)
    (h2 : 0 ≤ cfg.par.PreCommit2) (hC : 0 ≤ cfg.par.Commit)
    (hmod : cfg.numSectors % cfg.par.PreCommit1 = 0)
    (he : e ∈ (runSeals cfg env w0 sched).trace) :
    (∀ sid t ps r, e.op = .sealPreCommit1 sid t ps r → t = env.blake2b cfg.ticketPreimage) ∧
    (∀ sid t sd ps c r, e.op = .sealCommit1 sid t sd ps c r →
      t = env.blake2b cfg.ticketPreimage) ∧
    (∀ svi r, e.op = .verifySeal svi r → svi.Randomness = env.blake2b cfg.ticketPreimage) ∧
    (∀ sid o sz t un r, e.op = .unsealPiece sid o sz t un r →
      t = env.blake2b cfg.ticketPreimage) := by
  by_cases hfit : cfg.fits
  swap
  · rw [runSeals_nofit cfg env w0 sched hfit] at he
    cases he
  have hv := valid_of cfg hN hW h2 hC hmod hfit
  have h1 := (Inv3_runSeals cfg env w0 sched hv).2.2 e he
  have h2 := EvArgs_runSeals cfg env w0 sched hv e he
  unfold EvOK at h1
  unfold EvArgs at h2
  refine ⟨fun sid t ps r hop => ?_, fun sid t sd ps c r hop => ?_, fun svi r hop => ?_,
    fun sid o sz t un r hop => ?_⟩
  · rw [hop] at h1; exact h1.2.2.1
  · rw [hop] at h1; exact h1.2.2.1
  · rw [hop] at h2; exact h2.2.1
  · rw [hop] at h2; exact h2.2.2

/-- An instance of `ticket_from_preimage`: the SealPreCommit1 call for sector 1 of a stub
run. -/
theorem ticket_from_preimage_witness :
    (0 : Int) ≤ (stubCfg 2 1).numSectors ∧ (1 : Int) ≤ (stubCfg 2 1).par.PreCommit1 ∧
    (stubCfg 2 1).numSectors % (stubCfg 2 1).par.PreCommit1 = 0 ∧
    (⟨some 0, 1, 32, .sealPreCommit1 ⟨⟨1000, 1⟩, 8⟩ [7] [⟨2032, 1001⟩] (.ok [1, 1])⟩ : Event) ∈
      (runSeals (stubCfg 2 1) (stubEnv .never) 0 (roundRobin 1 40)).trace ∧
    ([7] : Bytes) = (stubEnv .never).blake2b (stubCfg 2 1).ticketPreimage :=
  ⟨by decide, by decide, by decide, by decide,
   (ticket_from_preimage (stubCfg 2 1) (stubEnv .never) 0 (roundRobin 1 40)
     ⟨some 0, 1, 32, .sealPreCommit1 ⟨⟨1000, 1⟩, 8⟩ [7] [⟨2032, 1001⟩] (.ok [1, 1])⟩
     (by decide) (by decide) (by decide) (by decide) (by decide) (by decide)).1
     ⟨⟨1000, 1⟩, 8⟩ [7] [⟨2032, 1001⟩] (.ok [1, 1]) rfl⟩

/-! ## What is done while a gate is held -/

/-- What a worker holds when it makes a call, and how a gate operation changes it. -/
theorem workerStep_gate_event (cfg : Cfg) (env : Env σ) (s : State σ) (w : Nat)
    (hl : WLocal cfg env s w) :
    ∀ e, (workerStep cfg env w s).trace = s.trace ++ [e] →
      (e.op.isGate = false →
        (s.workers w).held2 = (if e.op.gateOf = some .preCommit2 then 1 else 0) ∧
        (s.workers w).heldC = (if e.op.gateOf = some .commit then 1 else 0)) ∧
      (e.op = .acquire .preCommit2 →
        (s.workers w).held2 = 0 ∧ ((workerStep cfg env w s).workers w).held2 = 1) ∧
      (e.op = .release .preCommit2 →
        (s.workers w).held2 = 1 ∧ ((workerStep cfg env w s).workers w).held2 = 0) ∧
      (e.op = .acquire .commit →
        (s.workers w).heldC = 0 ∧ ((workerStep cfg env w s).workers w).heldC = 1) ∧
      (e.op = .release .commit →
        (s.workers w).heldC = 1 ∧ ((workerStep cfg env w s).workers w).heldC = 0) := by
  have h8 := hl.running
  have h11 := hl.held2
  have h12 := hl.heldC
  cases hpc : (s.workers w).pc <;>
    simp [hpc, PC.in2, PC.inC] at h8 h11 h12 <;>
    simp only [workerStep, hpc] <;> (try split) <;> (try split) <;> (try split) <;>
    (try simp only [State.setW, State.crash, State.log, Function.update_same]) <;>
    first
    | (intro e he; exact absurd (List.self_eq_append_right.mp he) (List.cons_ne_nil _ _))
    | (intro e he
       have he2 := List.append_cancel_left he
       simp only [List.cons.injEq, and_true] at he2
       subst he2
       have a := h11 h8
       have b := h12 h8
       simp [Op.isGate, Op.gateOf, a, b])

/-- C18, counterexample: in a stub run that saves the Commit2 input, between the acquire
and the release of the commit gate the worker calls SealCommit1, writes the file and calls
SealCommit2: two Sealer operations and the bookkeeping under one acquisition. -/
theorem commit_gate_counterexample :
    (((runSeals stubSave (stubEnv .never) 0 (roundRobin 1 30)).trace.map Event.op).drop 5).take 5 =
      [.acquire .commit,
       .sealCommit1 ⟨⟨1000, 0⟩, 8⟩ [7] seedValue [⟨2032, 1000⟩] ⟨2000, 3000⟩ (.ok [0, 3]),
       .writeFile "c2.json" [0, 3] none,
       .sealCommit2 ⟨⟨1000, 0⟩, 8⟩ [0, 3] (.ok [0, 4]),
       .release .commit] := by
  decide

/-- What a worker holds when it makes a call: one slot of the PreCommit2 gate and none of
the commit gate for SealPreCommit2; one slot of the commit gate and none of the PreCommit2
gate for SealCommit1, for writing the saved Commit2 input file and for SealCommit2; no slot
for every other call; an acquire is made holding no slot of its gate, a release holding
one. -/
theorem gate_counters (cfg : Cfg) (env : Env σ) (w0 : σ) (sched : List Choice)
    (w : Nat) (e : Event)
    (hN : 0 ≤ cfg.numSectors) (hW : 1 ≤ cfg.par.PreCommit1)
    (h2 : 0 ≤ cfg.par.PreCommit2) (hC : 0 ≤ cfg.par.Commit)
    (hmod : cfg.numSectors % cfg.par.PreCommit1 = 0)
    (he : (workerStep cfg env w (runSeals cfg env w0 sched)).trace =
      (runSeals cfg env w0 sched).trace ++ [e]) :
    (e.op.isGate = false →
      ((runSeals cfg env w0 sched).workers w).held2 =
        (if e.op.gateOf = some .preCommit2 then 1 else 0) ∧
      ((runSeals cfg env w0 sched).workers w).heldC =
        (if e.op.gateOf = some .commit then 1 else 0)) ∧
    (e.op = .acquire .preCommit2 → ((runSeals cfg env w0 sched).workers w).held2 = 0 ∧
      ((workerStep cfg env w (runSeals cfg env w0 sched)).workers w).held2 = 1) ∧
    (e.op = .release .preCommit2 → ((runSeals cfg env w0 sched).workers w).held2 = 1 ∧
      ((workerStep cfg env w (runSeals cfg env w0 sched)).workers w).held2 = 0) ∧
    (e.op = .acquire .commit → ((runSeals cfg env w0 sched).workers w).heldC = 0 ∧
      ((workerStep cfg env w (runSeals cfg env w0 sched)).workers w).heldC = 1) ∧
    (e.op = .release .commit → ((runSeals cfg env w0 sched).workers w).heldC = 1 ∧
      ((workerStep cfg env w (runSeals cfg env w0 sched)).workers w).heldC = 0) := by
  by_cases hfit : cfg.fits
  swap
  · rw [runSeals_nofit cfg env w0 sched hfit] at he
    simp [workerStep, Worker.idle] at he
  have hv := valid_of cfg hN hW h2 hC hmod hfit
  have hi := (Inv3_runSeals cfg env w0 sched hv).1.1
  generalize runSeals cfg env w0 sched = s at hi he
  by_cases hw : w < s.launched
  · exact workerStep_gate_event cfg env s w (hi.2 w hw) e he
  · rw [workerStep_done cfg env s w
      (Or.inr (by rw [hi.1.idle w (Nat.le_of_not_lt hw)]; rfl))] at he
    exact absurd (List.self_eq_append_right.mp he) (List.cons_ne_nil _ _)

/-! ## What the Unseal duration covers -/

theorem isStage_of_rank (o : Op) (h : 6 ≤ o.rank) : o.isStage = true := by
  cases o <;> simp [Op.rank] at h <;> rfl

theorem opsVerify_rank (cfg : Cfg) (k : Worker) : ∀ o ∈ k.opsVerify cfg, o.rank ≤ 5 := by
  cases h2 : cfg.skipc2 <;>
    simp [Worker.opsPc1, Worker.opsPc2, Worker.opsC1, Worker.opsC2, Worker.opsVerify, h2,
      rank_pc1, rank_pc2, rank_c1, rank_c2, rank_verify]

/-- How a worker gets into the unseal stage and moves in it. -/
theorem workerStep_unseal (cfg : Cfg) (env : Env σ) (s : State σ) (w : Nat)
    (h : ((workerStep cfg env w s).workers w).pc.inUnseal = true) :
    ((s.workers w).pc = .tVerify ∧
      ((workerStep cfg env w s).workers w).tVerifySeal = s.clock ∧
      ((workerStep cfg env w s).workers w).i = (s.workers w).i ∧
      (workerStep cfg env w s).trace = s.trace) ∨
    ((s.workers w).pc.inUnseal = true ∧
      ((workerStep cfg env w s).workers w).tVerifySeal = (s.workers w).tVerifySeal ∧
      ((workerStep cfg env w s).workers w).i = (s.workers w).i) := by
  revert h
  cases hpc : (s.workers w).pc <;>
    simp only [workerStep, hpc] <;> (try split) <;> (try split) <;> (try split) <;>
    (try simp only [State.setW, State.crash, State.log, Worker.fail, Function.update_same,
      hpc, PC.inUnseal]) <;>
    simp

theorem WTimeU_step_self (cfg : Cfg) (env : Env σ) (s : State σ) (w : Nat)
    (ht : WTrace cfg env s w) (h : WTimeU s w) : WTimeU (workerStep cfg env w s) w := by
  intro hin
  have hclock := (workerStep_frame cfg env w s).2.2.2.2.2.2.2.2
  rw [hclock]
  rcases workerStep_unseal cfg env s w hin with ⟨hpc, htv, hi, htr⟩ | ⟨hin0, htv, hi⟩
  · rw [htv, hi, htr]
    refine ⟨le_refl _, fun e he hw hs hr => ?_⟩
    exfalso
    have hcur := ht.cur (by rw [hpc]; rfl)
    have hmem : e.op ∈ workerOps s.trace w (s.workers w).i := by
      unfold workerOps workerEvents
      rw [List.mem_filter]
      refine ⟨List.mem_map.mpr ⟨e, ?_, rfl⟩, isStage_of_rank _ hr⟩
      rw [List.mem_filter]
      exact ⟨he, by simp [hw, hs]⟩
    rw [hcur, hpc] at hmem
    have := opsVerify_rank cfg (s.workers w) e.op hmem
    omega
  · obtain ⟨h1, h2⟩ := h hin0
    rw [htv, hi]
    refine ⟨h1, fun e he hw hs hr => ?_⟩
    rcases workerStep_trace cfg env w s with htr | ⟨op, -, htr⟩
    · rw [htr] at he; exact h2 e he hw hs hr
    · rw [htr] at he
      rcases List.mem_append.mp he with he | he
      · exact h2 e he hw hs hr
      · rw [List.mem_singleton.mp he]
        exact ⟨h1, le_refl _⟩

theorem mainStep_workers (cfg : Cfg) (env : Env σ) (s : State σ) (w : Nat) :
    (mainStep cfg env s).workers w = s.workers w ∨
      ((mainStep cfg env s).workers w).pc = .head := by
  cases hpc : s.mainPc <;> simp only [mainStep, hpc] <;> (try split) <;> (try split) <;>
    first
    | exact Or.inl rfl
    | (by_cases hw : w = s.launched
       · right; subst hw; simp only [Function.update_same]
       · left; simp only [Function.update_noteq hw])
    | simp

theorem mainStep_clock (cfg : Cfg) (env : Env σ) (s : State σ) :
    (mainStep cfg env s).clock = s.clock := by
  cases hpc : s.mainPc <;> simp only [mainStep, hpc] <;> (try split) <;> (try split) <;>
    first
    | rfl
    | simp [State.crash, State.log]

theorem WTimeU_step (cfg : Cfg) (env : Env σ) (s : State σ) (c : Choice)
    (hi : Inv2 cfg env s) (h : ∀ w, WTimeU s w) : ∀ w, WTimeU (step cfg env c s) w := by
  unfold step
  split
  · exact h
  · cases c with
    | tick =>
      intro w hin
      obtain ⟨h1, h2⟩ := h w hin
      exact ⟨Nat.le_succ_of_le h1, fun e he hw hs hr =>
        ⟨(h2 e he hw hs hr).1, Nat.le_succ_of_le (h2 e he hw hs hr).2⟩⟩
    | main =>
      intro w hin
      simp only [] at hin ⊢
      rcases mainStep_workers cfg env s w with hw | hw
      · rw [hw] at hin ⊢
        rw [mainStep_clock]
        obtain ⟨h1, h2⟩ := h w hin
        refine ⟨h1, fun e he hwk hs hr => ?_⟩
        rcases mainStep_trace cfg env s with ht | ⟨-, ht⟩
        · rw [ht] at he; exact h2 e he hwk hs hr
        · rw [ht] at he
          rcases List.mem_append.mp he with he | he
          · exact h2 e he hwk hs hr
          · rw [List.mem_singleton.mp he] at hwk; cases hwk
      · rw [hw] at hin; cases hin
    | worker w0 =>
      intro w
      simp only []
      by_cases hw0 : w0 < s.launched
      · by_cases hww : w = w0
        · subst hww
          exact WTimeU_step_self cfg env s w (hi.2.1 w hw0) (h w)
        · intro hin
          rw [workerStep_others cfg env w0 w s hww] at hin ⊢
          rw [(workerStep_frame cfg env w0 s).2.2.2.2.2.2.2.2]
          obtain ⟨h1, h2⟩ := h w hin
          refine ⟨h1, fun e he hwk hs hr => ?_⟩
          rcases workerStep_trace cfg env w0 s with ht | ⟨op, -, ht⟩
          · rw [ht] at he; exact h2 e he hwk hs hr
          · rw [ht] at he
            rcases List.mem_append.mp he with he | he
            · exact h2 e he hwk hs hr
            · rw [List.mem_singleton.mp he] at hwk
              simp only [Option.some.injEq] at hwk
              exact absurd hwk.symm hww
      · rw [workerStep_done cfg env s w0
          (Or.inr (by rw [hi.1.1.idle w0 (Nat.le_of_not_lt hw0)]; rfl))]
        exact h w

theorem WTimeU_runSeals (cfg : Cfg) (env : Env σ) (w0 : σ) (sched : List Choice)
    (hv : cfg.valid) : ∀ w, WTimeU (runSeals cfg env w0 sched) w := by
  have key : ∀ (sched : List Choice) (s : State σ), Inv2 cfg env s → (∀ w, WTimeU s w) →
      ∀ w, WTimeU (run cfg env sched s) w := by
    intro sched
    induction sched with
    | nil => intro s _ h; exact h
    | cons c cs ih =>
      intro s hi h
      exact ih _ (Inv2_step cfg env s c hv hi) (WTimeU_step cfg env s c hi h)
  refine key sched _ (Inv2_init cfg env w0 hv) ?_
  intro w hin
  have hidle := (MInv_init cfg env w0 hv).idle w (by
    have := (MInv_init cfg env w0 hv).launched0
    obtain ⟨hN, h2, hC, hW0, hmod, hfit⟩ := hv
    unfold init
    simp only [State.crash]
    rw [if_neg (not_or.mpr ⟨by omega, not_not.mpr hfit⟩), if_neg (by omega), if_neg hW0, if_neg (by simpa using hmod)]
    exact Nat.zero_le _)
  rw [hidle] at hin
  cases hin

/-- C19, counterexample: in a stub run of one sector the reading `verifySeal` is taken at
time 23, AcquireSector is called at 24, the unsealed file is removed at 25, UnsealPiece is
called at 26, and the Unseal duration recorded is 4, the whole interval from 23 to 27: it
covers the AcquireSector call and the removal. -/
theorem unseal_timing_counterexample :
    ((runSeals stubSave (stubEnv .never) 0 (roundRobin 1 30)).workers 0).tVerifySeal = 23 ∧
    ((runSeals stubSave (stubEnv .never) 0 (roundRobin 1 30)).trace.filter
        (fun e => decide (6 ≤ e.op.rank))).map (fun e => (e.time, e.op.rank)) =
      [(24, 6), (25, 7), (26, 8)] ∧
    (runSeals stubSave (stubEnv .never) 0 (roundRobin 1 30)).sealTimings.map
        SealingResult.Unseal = [4] := by
  refine ⟨by decide, by decide, by decide⟩

/-- C19, amended: with `skipunseal` unset (`W >= 1` dividing `N >= 0`, gate capacities not
negative), in every state of every run in which a worker is about to record the timings of
its sector: its calls for the sector end with AcquireSector, the removal of the unsealed
file and UnsealPiece, in this order; each of these calls was made between the reading
`verifySeal` and now; and the step records as Unseal duration the time from the reading
`verifySeal` to now.  The Unseal duration covers AcquireSector, the removal and
UnsealPiece. -/
theorem unseal_duration_covers_removal (cfg : Cfg) (env : Env σ) (w0 : σ)
    (sched : List Choice) (w : Nat)
    (hN : 0 ≤ cfg.numSectors) (hW : 1 ≤ cfg.par.PreCommit1)
    (h2 : 0 ≤ cfg.par.PreCommit2) (hC : 0 ≤ cfg.par.Commit)
    (hmod : cfg.numSectors % cfg.par.PreCommit1 = 0)
    (hsk : cfg.skipunseal = false)
    (hpc : ((runSeals cfg env w0 sched).workers w).pc = .tUnseal) :
    workerOps (runSeals cfg env w0 sched).trace w ((runSeals cfg env w0 sched).workers w).i =
      ((runSeals cfg env w0 sched).workers w).opsVerify cfg ++
        [.acquireSector ((runSeals cfg env w0 sched).workers w).sid
           (.ok ((runSeals cfg env w0 sched).workers w).path),
         .remove ((runSeals cfg env w0 sched).workers w).path none,
         .unsealPiece ((runSeals cfg env w0 sched).workers w).sid 0
           (env.unpadded cfg.sectorSize) ((runSeals cfg env w0 sched).workers w).ticket
           ((runSeals cfg env w0 sched).workers w).cids.Unsealed none] ∧
    (∀ e ∈ (runSeals cfg env w0 sched).trace, e.worker = some w →
      e.sector = ((runSeals cfg env w0 sched).workers w).i → 6 ≤ e.op.rank →
      ((runSeals cfg env w0 sched).workers w).tVerifySeal ≤ e.time ∧
      e.time ≤ (runSeals cfg env w0 sched).clock) ∧
    (∃ t, (workerStep cfg env w (runSeals cfg env w0 sched)).sealTimings[
        ((runSeals cfg env w0 sched).workers w).i]? = some t ∧
      t.Unseal = ((runSeals cfg env w0 sched).clock : Int) -
        (((runSeals cfg env w0 sched).workers w).tVerifySeal : Int)) := by
  by_cases hfit : cfg.fits
  swap
  · rw [runSeals_nofit cfg env w0 sched hfit] at hpc
    cases hpc
  have hv := valid_of cfg hN hW h2 hC hmod hfit
  have hi := Inv2_runSeals cfg env w0 sched hv
  have ht := WTimeU_runSeals cfg env w0 sched hv w
  generalize runSeals cfg env w0 sched = s at hi ht hpc
  have hw : w < s.launched := by
    by_contra hw
    rw [hi.1.1.idle w (Nat.le_of_not_lt hw)] at hpc
    cases hpc
  have hl := hi.1.2 w hw
  have hcur := (hi.2.1 w hw).cur (by rw [hpc]; rfl)
  obtain ⟨-, b2, -, -⟩ := worker_bounds cfg env s hv hi.1 w hw
  have hlt := hl.hi_iter (by rw [hpc]; rfl)
  refine ⟨?_, (ht (by rw [hpc]; rfl)).2, ?_⟩
  · rw [hcur, hpc]
    simp only [Worker.doneOps, Worker.opsUnseal, hsk, Bool.false_eq_true, if_false]
  · have hlen : (s.workers w).i < s.sealTimings.length := by omega
    have hsome : s.sealTimings[(s.workers w).i]? = some (s.sealTimings[(s.workers w).i]) :=
      List.getElem?_eq_getElem hlen
    simp only [workerStep, hpc, hsome, State.setW]
    rw [List.getElem?_set_self hlen]
    exact ⟨_, rfl, rfl⟩

/-- An instance of `unseal_duration_covers_removal`: the worker of a stub run of one sector,
about to record the timings. -/
theorem unseal_duration_covers_removal_witness :
    (0 : Int) ≤ stubSave.numSectors ∧ (1 : Int) ≤ stubSave.par.PreCommit1 ∧
    stubSave.numSectors % stubSave.par.PreCommit1 = 0 ∧ stubSave.skipunseal = false ∧
    ((runSeals stubSave (stubEnv .never) 0 (roundRobin 1 26)).workers 0).pc = .tUnseal ∧
    (∃ t, (workerStep stubSave (stubEnv .never) 0
        (runSeals stubSave (stubEnv .never) 0 (roundRobin 1 26))).sealTimings[
          ((runSeals stubSave (stubEnv .never) 0 (roundRobin 1 26)).workers 0).i]? = some t ∧
      t.Unseal = ((runSeals stubSave (stubEnv .never) 0 (roundRobin 1 26)).clock : Int) -
        (((runSeals stubSave (stubEnv .never) 0 (roundRobin 1 26)).workers 0).tVerifySeal :
          Int)) :=
  ⟨by decide, by decide, by decide, rfl, by decide,
   (unseal_duration_covers_removal stubSave (stubEnv .never) 0 (roundRobin 1 26) 0
     (by decide) (by decide) (by decide) (by decide) (by decide) rfl (by decide)).2.2⟩

/-! ## A failed call and the outcome of its worker -/

theorem doneOps_ok (cfg : Cfg) (env : Env σ) (k : Worker) (p : PC) :
    ∀ o ∈ k.doneOps cfg env p, o.failed = false := by
  cases p <;> cases h2 : cfg.skipc2 <;> cases h3 : cfg.skipunseal <;>
    simp [Worker.doneOps, Worker.opsPc1, Worker.opsPc2, Worker.opsC1, Worker.opsC2,
      Worker.opsVerify, Worker.opsAcq, Worker.opsRm, Worker.opsUnseal, h2, h3,
      ok_pc1, ok_pc2, ok_c1, ok_c2, ok_verify, ok_acq, ok_rm, ok_unseal]

/-- The worker that made a failed call has left with the error reported for that call. -/
theorem failed_event_sealerr (cfg : Cfg) (env : Env σ) (s : State σ)
    (h : Inv2 cfg env s) (e : Event) (w : Nat) (he : e ∈ s.trace) (hw : e.worker = some w)
    (hst : e.op.isStage = true) (hf : e.op.failed = true) :
    (s.workers w).sealerr = e.op.reported ∧ (s.workers w).i = e.sector := by
  have hwl : w < s.launched := h.2.2 e he w hw
  have hl := h.1.2 w hwl
  have ht := h.2.1 w hwl
  have hmem : e.op ∈ workerOps s.trace w e.sector := by
    unfold workerOps workerEvents
    rw [List.mem_filter]
    refine ⟨List.mem_map.mpr ⟨e, ?_, rfl⟩, hst⟩
    rw [List.mem_filter]
    exact ⟨he, by simp [hw]⟩
  have hr := ht.range e he hw
  have hnot : ∀ k p, workerOps s.trace w e.sector = Worker.doneOps k cfg env p → False := by
    intro k p heq
    rw [heq] at hmem
    have := doneOps_ok cfg env k p e.op hmem
    rw [hf] at this; cases this
  rcases Nat.lt_trichotomy e.sector (s.workers w).i with hlt | heq | hgt
  · obtain ⟨k, -, -, -, -, h5, -⟩ := ht.past e.sector hr.1 hlt
    exact absurd (hnot k _ h5) id
  · by_cases hin : (s.workers w).pc.inIter = true
    · have := ht.cur hin
      rw [← heq] at this
      exact absurd (hnot _ _ this) id
    · cases herr : (s.workers w).sealerr with
      | none =>
        exfalso
        have := hr.2
        simp only [Worker.bound, herr, Option.isSome_none, Bool.or_false] at this
        rw [if_neg hin] at this
        omega
      | some err =>
        obtain ⟨p, fl, -, hops, hft⟩ := ht.failed err herr
        rw [← heq] at hops
        rw [hops] at hmem
        rcases List.mem_append.mp hmem with hm | hm
        · have := doneOps_ok cfg env _ p e.op hm
          rw [hf] at this; cases this
        · rcases hft with ⟨-, hfl, -⟩ | ⟨f, hfl, hrep, -, -⟩
          · rw [hfl] at hm; cases hm
          · rw [hfl] at hm
            have hef : e.op = f := List.mem_singleton.mp hm
            rw [hef, hrep]
            exact ⟨rfl, heq.symm⟩
  · exfalso
    have := hr.2
    have hbd : (s.workers w).bound ≤ (s.workers w).i + 1 := by
      unfold Worker.bound; split <;> omega
    have hb2 : (s.workers w).bound = (s.workers w).i + 1 → e.sector ≤ (s.workers w).i := by
      intro hh; omega
    omega

/-! ## The command: PoSt verdicts and existing sectors -/

theorem core_after (evs : List CmdEvent) (r : CmdResult) : (r.after evs).core = r.core := rfl

theorem trace_after (evs : List CmdEvent) (r : CmdResult) :
    (r.after evs).trace = evs ++ r.trace := rfl

/-- The window PoSt part returns and reports the same when every verdict is `true`. -/
theorem windowPhase_accept (env : CmdEnv τ) (a : CmdArgs) (ss : List SectorInfo)
    (ch : Bytes) (bo : BenchResults) (t : Int) (w0 : τ) :
    (windowPhase env.accept a ss ch bo t w0).core = (windowPhase env a ss ch bo t w0).core := by
  unfold windowPhase
  simp only [CmdEnv.accept, core_after]
  cases (env.GenerateWindowPoSt a.mid ss ch w0).1 with
  | error e => rfl
  | ok p1 =>
    simp only []
    cases (env.GenerateWindowPoSt a.mid ss ch (env.GenerateWindowPoSt a.mid ss ch w0).2).1 with
    | error e => rfl
    | ok p2 =>
      simp only [core_after]
      generalize (env.GenerateWindowPoSt a.mid ss ch (env.GenerateWindowPoSt a.mid ss ch w0).2).2
        = w2
      cases hv1 : (env.VerifyWindowPoSt ⟨ch, p1, ss, a.mid⟩ w2).1 with
      | error e => rfl
      | ok ok1 =>
        simp only [Except.map, core_after]
        cases hv2 : (env.VerifyWindowPoSt ⟨ch, p2, ss, a.mid⟩
          (env.VerifyWindowPoSt ⟨ch, p1, ss, a.mid⟩ w2).2).1 with
        | error e => rfl
        | ok ok2 => rfl

/-- The PoSt benchmark returns and reports the same when every verdict is `true`. -/
theorem postPhase_accept (env : CmdEnv τ) (a : CmdArgs) (ss : List SectorInfo)
    (ch : Bytes) (bo : BenchResults) (w0 : τ) :
    (postPhase env.accept a ss ch bo w0).core = (postPhase env a ss ch bo w0).core := by
  unfold postPhase
  have hspt : env.accept.spt = env.spt := rfl
  have hreg : env.accept.RegisteredWinningPoStProof = env.RegisteredWinningPoStProof := rfl
  have hch : env.accept.GenerateWinningPoStSectorChallenge =
    env.GenerateWinningPoStSectorChallenge := rfl
  have hgen : env.accept.GenerateWinningPoSt = env.GenerateWinningPoSt := rfl
  have hnow : env.accept.now = env.now := rfl
  have hver : env.accept.VerifyWinningPoSt = fun v w =>
      ((env.VerifyWinningPoSt v w).1.map (fun _ => true), (env.VerifyWinningPoSt v w).2) := rfl
  simp only [hspt, hreg, hch, hgen, hnow, hver, core_after]
  cases env.spt a.sectorSize with
  | none => rfl
  | some p =>
    simp only []
    cases env.RegisteredWinningPoStProof p with
    | error e => rfl
    | ok wipt =>
      simp only []
      generalize env.GenerateWinningPoStSectorChallenge wipt a.mid ch ss.length w0 = r1
      cases r1.1 with
      | error e => rfl
      | ok fc =>
        simp only []
        cases fc.mapM (fun i => ss[i]?) with
        | none => rfl
        | some cands =>
          simp only []
          generalize env.GenerateWinningPoSt a.mid cands ch r1.2 = r2
          cases r2.1 with
          | error e => rfl
          | ok p1 =>
            simp only []
            generalize env.GenerateWinningPoSt a.mid cands ch r2.2 = r3
            cases r3.1 with
            | error e => rfl
            | ok p2 =>
              simp only [core_after]
              generalize env.VerifyWinningPoSt ⟨ch, p1, cands, a.mid⟩ r3.2 = r4
              cases r4.1 with
              | error e => rfl
              | ok ok1 =>
                simp only [Except.map, core_after]
                generalize env.VerifyWinningPoSt ⟨ch, p2, cands, a.mid⟩ r4.2 = r5
                cases r5.1 with
                | error e => rfl
                | ok ok2 =>
                  simp only [core_after]
                  exact windowPhase_accept env a ss ch _ _ _

theorem sealOrLoad_accept (env : CmdEnv τ) (a : CmdArgs) (rs : RunResult) (w0 : τ) :
    sealOrLoad env.accept a rs w0 = sealOrLoad env a rs w0 := rfl

/-- The command returns and reports the same when every verdict is `true`. -/
theorem sealBench_accept (env : CmdEnv τ) (a : CmdArgs) (rs : RunResult) (w0 : τ) :
    (sealBench env.accept a rs w0).core = (sealBench env a rs w0).core := by
  unfold sealBench
  rw [sealOrLoad_accept]
  cases sealOrLoad env a rs w0 with
  | error e => rfl
  | ok x =>
    obtain ⟨st, ss, w1⟩ := x
    simp only []
    split
    · rfl
    · have hr : env.accept.randRead = env.randRead := rfl
      rw [hr]
      split
      · rfl
      · exact postPhase_accept env a ss _ _ _

/-! ## The trace of the command -/

theorem Logged_nil : Logged [] := trivial

theorem Logged_cons (ev : CmdEvent) (rest : List CmdEvent)
    (h1 : ∀ l, ev.line = some l → ∃ r2, rest = .logError l :: r2) (h2 : Logged rest) :
    Logged (ev :: rest) := ⟨h1, h2⟩

theorem Logged_split (tr : List CmdEvent) (h : Logged tr) :
    ∀ l1 ev l2 l, tr = l1 ++ ev :: l2 → ev.line = some l → ∃ l3, l2 = .logError l :: l3 := by
  induction tr with
  | nil => intro l1 ev l2 l he; simp at he
  | cons a rest ih =>
    intro l1 ev l2 l he hl
    cases l1 with
    | nil =>
      simp only [List.nil_append, List.cons.injEq] at he
      obtain ⟨rfl, rfl⟩ := he
      exact h.1 l hl
    | cons b l1 =>
      simp only [List.cons_append, List.cons.injEq] at he
      exact ih h.2 l1 ev l2 l he.2 hl

theorem GoodTrace_nil (env : CmdEnv τ) : GoodTrace env [] :=
  ⟨Logged_nil, fun _ h => absurd h (List.not_mem_nil _), rfl⟩

/-- A call that returned an error, before a good trace. -/
theorem GoodTrace_error (env : CmdEnv τ) (ev : CmdEvent) (tr : List CmdEvent)
    (hl : ev.line = none) (hlog : logLines [ev] = []) (hf : FromEnv env ev)
    (h : GoodTrace env tr) : GoodTrace env (ev :: tr) := by
  refine ⟨Logged_cons _ _ (fun l h1 => by rw [hl] at h1; cases h1) h.1, ?_, ?_⟩
  · intro e he
    rcases List.mem_cons.mp he with rfl | he
    · exact hf
    · exact h.2.1 e he
  · have h3 := h.2.2
    unfold logLines at h3 hlog ⊢
    simp only [List.filterMap_cons, hl]
    cases ev <;> simp_all

/-- A call of VerifyWinningPoSt that returned a verdict, and what the command logs after
it, before a good trace. -/
theorem GoodTrace_winning (env : CmdEnv τ) (info : PoStVerifyInfo) (ok : Bool)
    (tr : List CmdEvent) (hf : ∃ w, (env.VerifyWinningPoSt info w).1 = .ok ok)
    (h : GoodTrace env tr) :
    GoodTrace env (.verifyWinning info (.ok ok) ::
      ((if ok then [] else [.logError "post verification failed"]) ++ tr)) := by
  obtain ⟨h1, h2, h3⟩ := h
  cases ok with
  | true =>
    refine ⟨Logged_cons _ _ (fun l hl => by simp [CmdEvent.line] at hl) h1, ?_, ?_⟩
    · intro e he
      simp only [if_true, List.nil_append, List.mem_cons] at he
      rcases he with rfl | he
      · exact hf
      · exact h2 e he
    · unfold logLines at h3 ⊢
      simp only [if_true, List.nil_append, List.filterMap_cons, CmdEvent.line]
      exact h3
  | false =>
    refine ⟨Logged_cons _ _ (fun l hl => ?_)
      (Logged_cons _ _ (fun l hl => by simp [CmdEvent.line] at hl) h1), ?_, ?_⟩
    · simp only [CmdEvent.line, Option.some.injEq] at hl
      subst hl
      exact ⟨tr, rfl⟩
    · intro e he
      simp only [Bool.false_eq_true, if_false, List.singleton_append, List.mem_cons] at he
      rcases he with rfl | rfl | he
      · exact hf
      · trivial
      · exact h2 e he
    · unfold logLines at h3 ⊢
      simp only [Bool.false_eq_true, if_false, List.singleton_append, List.filterMap_cons,
        CmdEvent.line]
      rw [h3]

/-- A call of VerifyWindowPoSt that returned a verdict, and what the command logs after
it, before a good trace. -/
theorem GoodTrace_window (env : CmdEnv τ) (info : PoStVerifyInfo) (ok : Bool)
    (tr : List CmdEvent) (hf : ∃ w, (env.VerifyWindowPoSt info w).1 = .ok ok)
    (h : GoodTrace env tr) :
    GoodTrace env (.verifyWindow info (.ok ok) ::
      ((if ok then [] else [.logError "window post verification failed"]) ++ tr)) := by
  obtain ⟨h1, h2, h3⟩ := h
  cases ok with
  | true =>
    refine ⟨Logged_cons _ _ (fun l hl => by simp [CmdEvent.line] at hl) h1, ?_, ?_⟩
    · intro e he
      simp only [if_true, List.nil_append, List.mem_cons] at he
      rcases he with rfl | he
      · exact hf
      · exact h2 e he
    · unfold logLines at h3 ⊢
      simp only [if_true, List.nil_append, List.filterMap_cons, CmdEvent.line]
      exact h3
  | false =>
    refine ⟨Logged_cons _ _ (fun l hl => ?_)
      (Logged_cons _ _ (fun l hl => by simp [CmdEvent.line] at hl) h1), ?_, ?_⟩
    · simp only [CmdEvent.line, Option.some.injEq] at hl
      subst hl
      exact ⟨tr, rfl⟩
    · intro e he
      simp only [Bool.false_eq_true, if_false, List.singleton_append, List.mem_cons] at he
      rcases he with rfl | rfl | he
      · exact hf
      · trivial
      · exact h2 e he
    · unfold logLines at h3 ⊢
      simp only [Bool.false_eq_true, if_false, List.singleton_append, List.filterMap_cons,
        CmdEvent.line]
      rw [h3]

/-- The trace of the window PoSt part is good. -/
theorem windowPhase_trace (env : CmdEnv τ) (a : CmdArgs) (ss : List SectorInfo)
    (ch : Bytes) (bo : BenchResults) (t : Int) (w0 : τ) :
    GoodTrace env (windowPhase env a ss ch bo t w0).trace := by
  unfold windowPhase
  simp only []
  split
  · exact GoodTrace_nil env
  · split
    · exact GoodTrace_nil env
    · rw [trace_after]
      generalize hr3 : env.VerifyWindowPoSt _ _ = r3
      cases h3 : r3.1 with
      | error e =>
        exact GoodTrace_error env _ _ rfl rfl ⟨_, by rw [hr3, h3]⟩ (GoodTrace_nil env)
      | ok ok1 =>
        simp only [trace_after, List.singleton_append]
        refine GoodTrace_window env _ ok1 _ ⟨_, by rw [hr3, h3]⟩ ?_
        generalize hr4 : env.VerifyWindowPoSt _ r3.2 = r4
        cases h4 : r4.1 with
        | error e =>
          exact GoodTrace_error env _ _ rfl rfl ⟨_, by rw [hr4, h4]⟩ (GoodTrace_nil env)
        | ok ok2 =>
          simp only [trace_after, List.singleton_append]
          have := GoodTrace_window env _ ok2 [] ⟨_, by rw [hr4, h4]⟩ (GoodTrace_nil env)
          simpa using this

/-- The trace of the PoSt benchmark is good. -/
theorem postPhase_trace (env : CmdEnv τ) (a : CmdArgs) (ss : List SectorInfo)
    (ch : Bytes) (bo : BenchResults) (w0 : τ) :
    GoodTrace env (postPhase env a ss ch bo w0).trace := by
  unfold postPhase
  simp only []
  split
  · exact GoodTrace_nil env
  · split
    · exact GoodTrace_nil env
    · split
      · exact GoodTrace_nil env
      · split
        · exact GoodTrace_nil env
        · split
          · exact GoodTrace_nil env
          · split
            · exact GoodTrace_nil env
            · rw [trace_after]
              generalize hr4 : env.VerifyWinningPoSt _ _ = r4
              cases h4 : r4.1 with
              | error e =>
                exact GoodTrace_error env _ _ rfl rfl ⟨_, by rw [hr4, h4]⟩ (GoodTrace_nil env)
              | ok ok1 =>
                simp only [trace_after, List.singleton_append]
                refine GoodTrace_winning env _ ok1 _ ⟨_, by rw [hr4, h4]⟩ ?_
                generalize hr5 : env.VerifyWinningPoSt _ r4.2 = r5
                cases h5 : r5.1 with
                | error e =>
                  exact GoodTrace_error env _ _ rfl rfl ⟨_, by rw [hr5, h5]⟩
                    (GoodTrace_nil env)
                | ok ok2 =>
                  simp only [trace_after, List.singleton_append]
                  exact GoodTrace_winning env _ ok2 _ ⟨_, by rw [hr5, h5]⟩
                    (windowPhase_trace env a ss ch _ _ _)

/-- The trace of the command is good. -/
theorem sealBench_trace (env : CmdEnv τ) (a : CmdArgs) (rs : RunResult) (w0 : τ) :
    GoodTrace env (sealBench env a rs w0).trace := by
  unfold sealBench
  split
  · exact GoodTrace_nil env
  · simp only []
    generalize BenchResults.SumSealingTime _ = r
    obtain ⟨e, bo1⟩ := r
    cases e with
    | some e => exact GoodTrace_nil env
    | none =>
      simp only []
      split
      · exact GoodTrace_nil env
      · exact postPhase_trace env a _ _ _ _

/-! ## C16: a negative verdict -/

/-- C16, counterexample: a run of the command in which the first VerifyWinningPoSt returns
`false` without error and every other verification `true`, and a run in which the first
VerifyWindowPoSt does: the command returns no error, and its report is the report of the
run in which every verification returned `true`. -/
theorem post_verdict_counterexample :
    (sealBench (stubCmd (some 4)) stubArgs stubSealed 0).trace[0]? =
      some (.verifyWinning ⟨[9], [[5]], [⟨8, 0, 3000⟩], 1000⟩ (.ok false)) ∧
    (sealBench (stubCmd none) stubArgs stubSealed 0).trace[0]? =
      some (.verifyWinning ⟨[9], [[5]], [⟨8, 0, 3000⟩], 1000⟩ (.ok true)) ∧
    (sealBench (stubCmd (some 4)) stubArgs stubSealed 0).panicked = none ∧
    (sealBench (stubCmd (some 4)) stubArgs stubSealed 0).err = none ∧
    (sealBench (stubCmd (some 4)) stubArgs stubSealed 0).report.isSome = true ∧
    (sealBench (stubCmd (some 4)) stubArgs stubSealed 0).report =
      (sealBench (stubCmd none) stubArgs stubSealed 0).report ∧
    (sealBench (stubCmd (some 8)) stubArgs stubSealed 0).trace[2]? =
      some (.verifyWindow ⟨[9], [[6]], [⟨8, 0, 3000⟩, ⟨8, 1, 3001⟩], 1000⟩ (.ok false)) ∧
    (sealBench (stubCmd none) stubArgs stubSealed 0).trace[2]? =
      some (.verifyWindow ⟨[9], [[6]], [⟨8, 0, 3000⟩, ⟨8, 1, 3001⟩], 1000⟩ (.ok true)) ∧
    (sealBench (stubCmd (some 8)) stubArgs stubSealed 0).panicked = none ∧
    (sealBench (stubCmd (some 8)) stubArgs stubSealed 0).err = none ∧
    (sealBench (stubCmd (some 8)) stubArgs stubSealed 0).report =
      (sealBench (stubCmd none) stubArgs stubSealed 0).report := by
  decide

/-- C16 (amended): in the sealing command a PoSt verification that returns `false` with no
library error is written to the log and changes nothing else.  Two runs whose
collaborators differ only in such verdicts end with the same panic, the same error and the
same report.  In the trace of the command every recorded verification holds what the
verifier returned for its argument; every VerifyWinningPoSt that returned `false` is
followed at once by the line "post verification failed", every VerifyWindowPoSt that
returned `false` by the line "window post verification failed"; and the lines of the log
are these lines, one for each negative verdict, in order.  In `runSeals` a VerifySeal
result of `false` with no library error makes the worker that called it leave with the
error "porep proof for sector N was invalid", N being the sector of the call. -/
theorem negative_verdict_logged (env env2 : CmdEnv τ) (a : CmdArgs) (rs : RunResult) (w0 : τ)
    (cfg : Cfg) (senv : Env σ) (s0 : σ) (sched : List Choice)
    (hsame : env.accept = env2.accept) :
    ((sealBench env a rs w0).panicked = (sealBench env2 a rs w0).panicked ∧
      (sealBench env a rs w0).err = (sealBench env2 a rs w0).err ∧
      (sealBench env a rs w0).report = (sealBench env2 a rs w0).report) ∧
    ((∀ info res, .verifyWinning info res ∈ (sealBench env a rs w0).trace →
        ∃ w, (env.VerifyWinningPoSt info w).1 = res) ∧
      (∀ info res, .verifyWindow info res ∈ (sealBench env a rs w0).trace →
        ∃ w, (env.VerifyWindowPoSt info w).1 = res) ∧
      (∀ l1 l2 info,
        (sealBench env a rs w0).trace = l1 ++ .verifyWinning info (.ok false) :: l2 →
        ∃ l3, l2 = .logError "post verification failed" :: l3) ∧
      (∀ l1 l2 info,
        (sealBench env a rs w0).trace = l1 ++ .verifyWindow info (.ok false) :: l2 →
        ∃ l3, l2 = .logError "window post verification failed" :: l3) ∧
      (sealBench env a rs w0).log = (sealBench env a rs w0).trace.filterMap CmdEvent.line) ∧
    ∀ e ∈ (runSeals cfg senv s0 sched).trace, ∀ svi, e.op = .verifySeal svi (.ok false) →
      ∃ w, e.worker = some w ∧
        ((runSeals cfg senv s0 sched).workers w).sealerr =
          some (.msg ("porep proof for sector " ++ toString e.sector ++ " was invalid")) ∧
        (((runSeals cfg senv s0 sched).workers w).pc = .send ∨
          ((runSeals cfg senv s0 sched).workers w).pc = .halted) := by
  refine ⟨?_, ?_, ?_⟩
  · have h1 := sealBench_accept env a rs w0
    have h2 := sealBench_accept env2 a rs w0
    rw [hsame] at h1
    have h := h1.symm.trans h2
    simp only [CmdResult.core, Prod.mk.injEq] at h
    exact h
  · obtain ⟨g1, g2, g3⟩ := sealBench_trace env a rs w0
    exact ⟨fun info res h => g2 _ h, fun info res h => g2 _ h,
      fun l1 l2 info h => Logged_split _ g1 l1 _ l2 _ h rfl,
      fun l1 l2 info h => Logged_split _ g1 l1 _ l2 _ h rfl, g3⟩
  · intro e he svi hop
    by_cases hv : cfg.valid
    swap
    · rw [(runSeals_invalid cfg senv s0 sched hv).1] at he
      cases he
    have h3 := Inv3_runSeals cfg senv s0 sched hv
    have hok := h3.2.2 e he
    have harg := EvArgs_runSeals cfg senv s0 sched hv e he
    simp only [EvOK, hop] at hok
    simp only [EvArgs, hop] at harg
    cases hw : e.worker with
    | none => exact absurd hw hok.1
    | some w =>
      have hf := failed_event_sealerr cfg senv _ h3.1 e w he hw (by rw [hop]; rfl)
        (by rw [hop]; rfl)
      have hwl : w < (runSeals cfg senv s0 sched).launched := h3.1.2.2 e he w hw
      have hl := h3.1.1.2 w hwl
      have herr : ((runSeals cfg senv s0 sched).workers w).sealerr =
          some (.msg ("porep proof for sector " ++ toString e.sector ++ " was invalid")) := by
        rw [hf.1, hop]
        simp only [Op.reported, harg.1]
      refine ⟨w, rfl, herr, ?_⟩
      by_contra hne
      simp only [not_or] at hne
      have := hl.running hne.1 hne.2
      rw [herr] at this
      cases this

/-- An instance of `negative_verdict_logged`: the stub run of the command in which the
first VerifyWindowPoSt returns `false`, against the run in which it returns `true`, and the
stub run of `runSeals` in which VerifySeal returns `false` for sector 0. -/
theorem negative_verdict_logged_witness :
    (stubCmd (some 8)).accept = (stubCmd none).accept ∧
    (sealBench (stubCmd (some 8)) stubArgs stubSealed 0).report =
      (sealBench (stubCmd none) stubArgs stubSealed 0).report ∧
    (sealBench (stubCmd (some 8)) stubArgs stubSealed 0).trace =
      [.verifyWinning ⟨[9], [[5]], [⟨8, 0, 3000⟩], 1000⟩ (.ok true),
       .verifyWinning ⟨[9], [[5]], [⟨8, 0, 3000⟩], 1000⟩ (.ok true)] ++
      .verifyWindow ⟨[9], [[6]], [⟨8, 0, 3000⟩, ⟨8, 1, 3001⟩], 1000⟩ (.ok false) ::
      [.logError "window post verification failed",
       .verifyWindow ⟨[9], [[6]], [⟨8, 0, 3000⟩, ⟨8, 1, 3001⟩], 1000⟩ (.ok true)] ∧
    (∃ l3, [CmdEvent.logError "window post verification failed",
        .verifyWindow ⟨[9], [[6]], [⟨8, 0, 3000⟩, ⟨8, 1, 3001⟩], 1000⟩ (.ok true)] =
      .logError "window post verification failed" :: l3) ∧
    (sealBench (stubCmd (some 8)) stubArgs stubSealed 0).log =
      ["window post verification failed"] ∧
    (sealBench (stubCmd (some 4)) stubArgs stubSealed 0).log = ["post verification failed"] ∧
    (∃ e ∈ (runSeals (stubCfg 1 1) (stubEnv (.verifyFalse 0)) 0 (roundRobin 1 30)).trace,
      e.op.rank = 5 ∧ e.op.failed = true) ∧
    ∀ e ∈ (runSeals (stubCfg 1 1) (stubEnv (.verifyFalse 0)) 0 (roundRobin 1 30)).trace,
      ∀ svi, e.op = .verifySeal svi (.ok false) →
      ∃ w, e.worker = some w ∧
        ((runSeals (stubCfg 1 1) (stubEnv (.verifyFalse 0)) 0 (roundRobin 1 30)).workers w).sealerr
          = some (.msg ("porep proof for sector " ++ toString e.sector ++ " was invalid")) ∧
        (((runSeals (stubCfg 1 1) (stubEnv (.verifyFalse 0)) 0 (roundRobin 1 30)).workers w).pc
            = .send ∨
          ((runSeals (stubCfg 1 1) (stubEnv (.verifyFalse 0)) 0 (roundRobin 1 30)).workers w).pc
            = .halted) :=
  ⟨rfl,
   (negative_verdict_logged (stubCmd (some 8)) (stubCmd none) stubArgs stubSealed 0
     (stubCfg 1 1) (stubEnv (.verifyFalse 0)) 0 (roundRobin 1 30) rfl).1.2.2,
   by decide,
   (negative_verdict_logged (stubCmd (some 8)) (stubCmd none) stubArgs stubSealed 0
     (stubCfg 1 1) (stubEnv (.verifyFalse 0)) 0 (roundRobin 1 30) rfl).2.1.2.2.2.1
     [.verifyWinning ⟨[9], [[5]], [⟨8, 0, 3000⟩], 1000⟩ (.ok true),
      .verifyWinning ⟨[9], [[5]], [⟨8, 0, 3000⟩], 1000⟩ (.ok true)]
     [.logError "window post verification failed",
      .verifyWindow ⟨[9], [[6]], [⟨8, 0, 3000⟩, ⟨8, 1, 3001⟩], 1000⟩ (.ok true)]
     ⟨[9], [[6]], [⟨8, 0, 3000⟩, ⟨8, 1, 3001⟩], 1000⟩ (by decide),
   by decide, by decide, by decide,
   (negative_verdict_logged (stubCmd (some 8)) (stubCmd none) stubArgs stubSealed 0
     (stubCfg 1 1) (stubEnv (.verifyFalse 0)) 0 (roundRobin 1 30) rfl).2.2⟩

/-! ## C17: the flag `benchmark-existing-sectorbuilder` -/

/-- With the flag `benchmark-existing-sectorbuilder`, a readable pre-seal file and the miner
in it, the sealed sectors are those of the file, and the command returns the error of
`SumSealingTime` on the empty list of timings: the PoSt benchmark is not entered. -/
theorem sealBench_existing (env : CmdEnv τ) (a : CmdArgs) (rs : RunResult) (w0 : τ)
    (fdata : Bytes) (genmm : List (String × List PreSeal)) (sectors : List PreSeal)
    (hro : a.robench ≠ "")
    (hread : (env.ReadFile (a.sbdir ++ "/pre-seal-" ++ a.maddr ++ ".json") w0).1 = .ok fdata)
    (hum : env.Unmarshal fdata = .ok genmm) (hl : genmm.lookup a.maddr = some sectors) :
    sealOrLoad env a rs w0 =
      .ok ([], sectors.map (fun s => ⟨s.ProofType, s.SectorID, s.CommR⟩),
        (env.ReadFile (a.sbdir ++ "/pre-seal-" ++ a.maddr ++ ".json") w0).2) ∧
    sealBench env a rs w0 =
      ⟨none, some (.msg "BenchResults SealingResults len <= 0"), none, [], false⟩ := by
  have h1 : sealOrLoad env a rs w0 =
      .ok ([], sectors.map (fun s => ⟨s.ProofType, s.SectorID, s.CommR⟩),
        (env.ReadFile (a.sbdir ++ "/pre-seal-" ++ a.maddr ++ ".json") w0).2) := by
    unfold sealOrLoad
    rw [if_neg hro]
    simp only [hread, hum, hl]
  refine ⟨h1, ?_⟩
  unfold sealBench
  rw [h1]
  rfl

/-- C17 (the code at the failing input): the stub run of the command with the flag
`benchmark-existing-sectorbuilder`, `skip-commit2` unset, a readable pre-seal file with
two sectors of the miner.  The sealed-sector list is built from the file, then the command
returns the error "BenchResults SealingResults len <= 0" without entering the PoSt
benchmark, whatever the verdicts of the verifier would be and whatever `runSeals` would
have returned.  The same run without the flag enters the PoSt benchmark. -/
theorem existing_sectors_no_post (bad : Option Nat) (rs : RunResult) :
    stubExisting.skipc2 = false ∧
    sealOrLoad (stubCmd bad) stubExisting rs 0 =
      .ok ([], [⟨8, 0, 3000⟩, ⟨8, 1, 3001⟩], 1) ∧
    (sealBench (stubCmd bad) stubExisting rs 0).err =
      some (.msg "BenchResults SealingResults len <= 0") ∧
    (sealBench (stubCmd bad) stubExisting rs 0).report = none ∧
    (sealBench (stubCmd bad) stubExisting rs 0).reachedPost = false ∧
    (sealBench (stubCmd none) stubArgs stubSealed 0).reachedPost = true := by
  have h := sealBench_existing (stubCmd bad) stubExisting rs 0 [1]
    [("t01000", [⟨3000, 0, 8⟩, ⟨3001, 1, 8⟩])] [⟨3000, 0, 8⟩, ⟨3001, 1, 8⟩]
    (by decide) rfl rfl (by decide)
  refine ⟨rfl, h.1, ?_, ?_, ?_, by decide⟩ <;> rw [h.2]

/-! ## C22: `SumSealingTime` on failure -/

/-- C22: on every `BenchResults` on which `SumSealingTime` returns an error, that is with
an empty `SealingResults` or with a length different from `SectorNumber`, the receiver
after the call is the receiver before the call: every field, the seven totals of
`SealingSum` among them, is as it was. -/
theorem SumSealingTime_atomic (bo : BenchResults)
    (h : bo.SealingResults = [] ∨ (bo.SealingResults.length : Int) ≠ bo.SectorNumber) :
    bo.SumSealingTime.1.isSome = true ∧ bo.SumSealingTime.2 = bo ∧
    ∀ f ∈ SealingResult.fields, f bo.SumSealingTime.2.SealingSum = f bo.SealingSum := by
  have key : bo.SumSealingTime.1.isSome = true ∧ bo.SumSealingTime.2 = bo := by
    unfold BenchResults.SumSealingTime
    by_cases h1 : (bo.SealingResults.length : Int) ≤ 0
    · rw [if_pos h1]; exact ⟨rfl, rfl⟩
    · rw [if_neg h1]
      have hne : bo.SealingResults ≠ [] := by
        intro hh; rw [hh] at h1; simp at h1
      have h2 : (bo.SealingResults.length : Int) ≠ bo.SectorNumber := by
        rcases h with h | h
        · exact absurd h hne
        · exact h
      rw [if_pos h2]; exact ⟨rfl, rfl⟩
  exact ⟨key.1, key.2, fun f _ => by rw [key.2]⟩

/-- An instance of `SumSealingTime_atomic`: totals that are not zero, one timing record,
two sectors. -/
theorem SumSealingTime_atomic_witness :
    (staleBench.SealingResults.length : Int) ≠ staleBench.SectorNumber ∧
    staleBench.SealingSum = ⟨1, 2, 3, 4, 5, 6, 7⟩ ∧
    staleBench.SumSealingTime.1.isSome = true ∧ staleBench.SumSealingTime.2 = staleBench :=
  ⟨by decide, rfl, (SumSealingTime_atomic staleBench (Or.inr (by decide))).1,
   (SumSealingTime_atomic staleBench (Or.inr (by decide))).2.1⟩

/-! ## C23: the throughput -/

/-- Euclidean division by a positive divisor is the floor of the exact quotient. -/
theorem ediv_eq_floor (a d : Int) (hd : 0 < d) : Int.ediv a d = ⌊(a : ℚ) / (d : ℚ)⌋ := by
  obtain ⟨k, rfl⟩ := Int.eq_ofNat_of_zero_le (le_of_lt hd)
  have := Rat.floor_intCast_div_natCast a k
  rw [Int.cast_natCast, this]
  rfl

/-- C23: for every sector size `s`, sector count `n` and duration of `d > 0` nanoseconds
the number that `bps` formats is the floor of the exact quotient `s * n * 10^9 / d`,
whatever the size of the product; and for every duration `d`, `bps` panics exactly when
`d = 0`, on the zero divisor. -/
theorem bps_exact (SizeStr : Int → String) (s : Nat) (n d : Int) (hd : 0 < d) :
    bpsValue s n d = some ⌊((s : ℚ) * (n : ℚ) * 10 ^ 9) / (d : ℚ)⌋ ∧
    bps SizeStr s n d = .ok (SizeStr ⌊((s : ℚ) * (n : ℚ) * 10 ^ 9) / (d : ℚ)⌋ ++ "/s") ∧
    ∀ d2 : Int, (bpsValue s n d2 = none ↔ d2 = 0) ∧
      (bps SizeStr s n d2 = .error "division by zero" ↔ d2 = 0) := by
  have hv : bpsValue s n d = some ⌊((s : ℚ) * (n : ℚ) * 10 ^ 9) / (d : ℚ)⌋ := by
    unfold bpsValue
    simp only []
    rw [if_neg (ne_of_gt hd), ediv_eq_floor _ _ hd]
    push_cast
    norm_num
  refine ⟨hv, ?_, fun d2 => ?_⟩
  · unfold bps
    rw [hv]
  · have h1 : bpsValue s n d2 = none ↔ d2 = 0 := by
      unfold bpsValue
      simp only []
      by_cases h0 : d2 = 0
      · rw [if_pos h0]; simp [h0]
      · rw [if_neg h0]; simp [h0]
    refine ⟨h1, ?_⟩
    unfold bps
    cases hb : bpsValue s n d2 with
    | none => simp only [true_iff]; exact h1.mp hb
    | some v =>
      have : d2 ≠ 0 := fun h0 => by rw [h1.mpr h0] at hb; cases hb
      simp [this]

/-- An instance of `bps_exact`: two sectors of 2048 bytes in 3 nanoseconds, and a product
that does not fit 64 bits. -/
theorem bps_exact_witness :
    (0 : Int) < 3 ∧
    bpsValue 2048 2 3 = some 1365333333333 ∧
    bpsValue 18446744073709551615 9223372036854775807 1 =
      some 170141183460469231704017187605319778305000000000 ∧
    bpsValue 2048 2 3 = some ⌊(((2048 : Nat) : ℚ) * ((2 : Int) : ℚ) * 10 ^ 9) / ((3 : Int) : ℚ)⌋ ∧
    bps (fun v => toString v) 2048 2 0 = .error "division by zero" :=
  ⟨by decide, by decide, by decide, (bps_exact (fun v => toString v) 2048 2 3 (by decide)).1,
   ((bps_exact (fun v => toString v) 2048 2 3 (by decide)).2.2 0).2.mpr rfl⟩

/-! ## C21: what a failed call stops -/

/-- A worker that has left its closure makes no call. -/
theorem workerStep_left_trace (cfg : Cfg) (env : Env σ) (s : State σ) (w : Nat)
    (h : (s.workers w).pc = .send ∨ (s.workers w).pc = .halted) :
    (workerStep cfg env w s).trace = s.trace := by
  rcases h with h | h
  · by_cases hlen : s.errs.length < cfg.W
    · rw [workerStep_send cfg env s w h hlen]; rfl
    · rw [workerStep_blocked cfg env s w h hlen]
  · rw [workerStep_done cfg env s w (Or.inl h)]

/-- C21, counterexample: four sectors, two workers, SealPreCommit1 fails for sector 0.
Worker 0 has ended and `runSeals` has returned the error; sector 1, the next of the block
of worker 0, got its AddPiece call and no other call, while sector 3, of the block of
worker 1, went through all its stages. -/
theorem same_block_counterexample :
    block (stubCfg 4 2) 0 = [0, 1] ∧
    (⟨some 0, 0, 16, .sealPreCommit1 ⟨⟨1000, 0⟩, 8⟩ [7] [⟨2032, 1000⟩]
        (.error (.msg "boom"))⟩ : Event) ∈
      (runSeals (stubCfg 4 2) (stubEnv (.preCommit1 0)) 0 (roundRobin 2 70)).trace ∧
    ((runSeals (stubCfg 4 2) (stubEnv (.preCommit1 0)) 0 (roundRobin 2 70)).workers 0).pc =
      .halted ∧
    ((runSeals (stubCfg 4 2) (stubEnv (.preCommit1 0)) 0 (roundRobin 2 70)).workers 1).pc =
      .halted ∧
    (runSeals (stubCfg 4 2) (stubEnv (.preCommit1 0)) 0 (roundRobin 2 70)).ret =
      some ⟨none, none, some (.wrap "commit" (.msg "boom"))⟩ ∧
    (sectorOps (runSeals (stubCfg 4 2) (stubEnv (.preCommit1 0)) 0 (roundRobin 2 70)).trace
      1).map Op.rank = [0] ∧
    (sectorOps (runSeals (stubCfg 4 2) (stubEnv (.preCommit1 0)) 0 (roundRobin 2 70)).trace
      3).map Op.rank = [0, 1, 2, 3, 4, 5, 6, 7, 8] := by
  refine ⟨by decide, by decide, by decide, by decide, by decide, by decide, by decide⟩

/-! ## How a worker leaves its loop -/

theorem of_mem_workerOps (tr : List Event) (w j : Nat) (o : Op) (ho : o ∈ workerOps tr w j) :
    ∃ e ∈ tr, e.worker = some w ∧ e.sector = j ∧ e.op = o ∧ o.isStage = true := by
  unfold workerOps workerEvents at ho
  rw [List.mem_filter, List.mem_map] at ho
  obtain ⟨⟨e, he, rfl⟩, hst⟩ := ho
  rw [List.mem_filter] at he
  have h2 := he.2
  simp only [decide_eq_true_eq] at h2
  exact ⟨e, he.1, h2.1, h2.2, rfl, hst⟩

/-- Every sector of its block below the loop index of a worker went through all its
stages. -/
theorem block_below_done (cfg : Cfg) (env : Env σ) (s : State σ) (hv : cfg.valid)
    (h : Inv3 cfg env s) (w : Nat) (hw : w < s.launched) (j : Nat) (hj : j ∈ block cfg w)
    (hlt : j < (s.workers w).i) :
    ∃ k pi, IterOf cfg env s j k ∧ s.pieces[j]? = some pi ∧ k.piece = [pi] ∧
      sectorOps s.trace j = addPieceOp cfg env j (.ok pi) :: k.opsUnseal cfg env := by
  have hspw := (h.1.1.1.spw (Or.inr (Or.inr (by omega)))).2
  rw [block_mem, ← hspw] at hj
  exact sector_processed cfg env s hv h j ⟨w, hw, hj.1, hlt⟩

/-- A worker has left its loop either with the error of a failed call of its own, made for
the sector at which it stopped, or of `json.Marshal`, or without error after every sector
of its block went through all its stages. -/
theorem left_loop_cases (cfg : Cfg) (env : Env σ) (s : State σ) (hv : cfg.valid)
    (h : Inv3 cfg env s) (w : Nat) (hw : w < s.launched)
    (hpc : (s.workers w).pc = .send ∨ (s.workers w).pc = .halted) :
    (∃ err, (s.workers w).sealerr = some err ∧
      ((∃ e ∈ s.trace, e.worker = some w ∧ e.sector = (s.workers w).i ∧
          e.op.isStage = true ∧ e.op.reported = some err) ∨
        (∃ c, env.jsonMarshal c = .error err))) ∨
    ((s.workers w).sealerr = none ∧ ∀ j ∈ block cfg w, ∃ k pi,
      IterOf cfg env s j k ∧ s.pieces[j]? = some pi ∧ k.piece = [pi] ∧
      sectorOps s.trace j = addPieceOp cfg env j (.ok pi) :: k.opsUnseal cfg env) := by
  have hl := h.1.1.2 w hw
  have ht := h.1.2.1 w hw
  cases herr : (s.workers w).sealerr with
  | some err =>
    left
    refine ⟨err, rfl, ?_⟩
    obtain ⟨p, fl, -, hops, hft⟩ := ht.failed err herr
    rcases hft with ⟨-, -, hm⟩ | ⟨f, hfl, hrep, -, hst⟩
    · exact Or.inr ⟨_, hm⟩
    · left
      have hmem : f ∈ workerOps s.trace w (s.workers w).i := by
        rw [hops, hfl]; simp
      obtain ⟨e, he, hew, hes, heo, -⟩ := of_mem_workerOps _ _ _ _ hmem
      exact ⟨e, he, hew, hes, by rw [heo]; exact hst, by rw [heo]; exact hrep⟩
  | none =>
    right
    refine ⟨rfl, fun j hj => ?_⟩
    have hfin := hl.finished hpc herr
    have hspw := (h.1.1.1.spw (Or.inr (Or.inr (by omega)))).2
    have hst := hl.stop_eq
    have hj2 := (block_mem cfg w j).mp hj
    rw [← hspw] at hj2
    exact block_below_done cfg env s hv h w hw j hj (by omega)

/-- C21, amended: with `W >= 1` dividing `N >= 0` (gate capacities not negative), in every
state of every run in which a stage call of worker `w` has failed: the worker has left its
loop with the error of that call and makes no further call; every sector of larger index in
its block has got its AddPiece call and no other call.  No other worker is stopped by the
failure: the steps of worker `w` leave the other workers as they are; another worker that
is in its loop has made, for its current sector, exactly the calls of the pipeline up to
its program point, after all the stages of the earlier sectors of its block, and its next
step, unless it is blocked on a channel, takes it further; and another worker has left
its loop only with the error of a failed call of its own (or of `json.Marshal`), or without
error after every sector of its block went through all its stages. -/
theorem failure_stops_worker (cfg : Cfg) (env : Env σ) (w0 : σ) (sched : List Choice)
    (e : Event) (w : Nat)
    (hN : 0 ≤ cfg.numSectors) (hW : 1 ≤ cfg.par.PreCommit1)
    (h2 : 0 ≤ cfg.par.PreCommit2) (hC : 0 ≤ cfg.par.Commit)
    (hmod : cfg.numSectors % cfg.par.PreCommit1 = 0)
    (he : e ∈ (runSeals cfg env w0 sched).trace) (hw : e.worker = some w)
    (hst : e.op.isStage = true) (hf : e.op.failed = true) :
    (((runSeals cfg env w0 sched).workers w).sealerr = e.op.reported ∧
      (((runSeals cfg env w0 sched).workers w).pc = .send ∨
        ((runSeals cfg env w0 sched).workers w).pc = .halted) ∧
      (workerStep cfg env w (runSeals cfg env w0 sched)).trace =
        (runSeals cfg env w0 sched).trace) ∧
    (∀ j ∈ block cfg w, e.sector < j → ∃ pi,
      sectorOps (runSeals cfg env w0 sched).trace j = [addPieceOp cfg env j (.ok pi)]) ∧
    (∀ w2, w2 ≠ w →
      (workerStep cfg env w (runSeals cfg env w0 sched)).workers w2 =
        (runSeals cfg env w0 sched).workers w2 ∧
      (WEnabled cfg (runSeals cfg env w0 sched) w2 →
        (runSeals cfg env w0 sched).panicked = none →
        (workerStep cfg env w2 (runSeals cfg env w0 sched)).panicked = none →
        ((workerStep cfg env w2 (runSeals cfg env w0 sched)).workers w2).todo <
          ((runSeals cfg env w0 sched).workers w2).todo) ∧
      (((runSeals cfg env w0 sched).workers w2).pc.inIter = true →
        workerOps (runSeals cfg env w0 sched).trace w2
            ((runSeals cfg env w0 sched).workers w2).i =
          ((runSeals cfg env w0 sched).workers w2).doneOps cfg env
            ((runSeals cfg env w0 sched).workers w2).pc ∧
        ∀ j ∈ block cfg w2, j < ((runSeals cfg env w0 sched).workers w2).i → ∃ k pi,
          IterOf cfg env (runSeals cfg env w0 sched) j k ∧
          sectorOps (runSeals cfg env w0 sched).trace j =
            addPieceOp cfg env j (.ok pi) :: k.opsUnseal cfg env) ∧
      (w2 < (runSeals cfg env w0 sched).launched →
        (((runSeals cfg env w0 sched).workers w2).pc = .send ∨
          ((runSeals cfg env w0 sched).workers w2).pc = .halted) →
        (∃ err, ((runSeals cfg env w0 sched).workers w2).sealerr = some err ∧
          ((∃ e2 ∈ (runSeals cfg env w0 sched).trace, e2.worker = some w2 ∧
              e2.sector = ((runSeals cfg env w0 sched).workers w2).i ∧
              e2.op.isStage = true ∧ e2.op.reported = some err) ∨
            (∃ c, env.jsonMarshal c = .error err))) ∨
        (((runSeals cfg env w0 sched).workers w2).sealerr = none ∧
          ∀ j ∈ block cfg w2, ∃ k pi, IterOf cfg env (runSeals cfg env w0 sched) j k ∧
            sectorOps (runSeals cfg env w0 sched).trace j =
              addPieceOp cfg env j (.ok pi) :: k.opsUnseal cfg env))) := by
  by_cases hfit : cfg.fits
  swap
  · rw [runSeals_nofit cfg env w0 sched hfit] at he
    cases he
  have hv := valid_of cfg hN hW h2 hC hmod hfit
  have h3 := Inv3_runSeals cfg env w0 sched hv
  generalize runSeals cfg env w0 sched = s at h3 he
  have hfe := failed_event_sealerr cfg env s h3.1 e w he hw hst hf
  have hwl : w < s.launched := h3.1.2.2 e he w hw
  have hl := h3.1.1.2 w hwl
  have ht := h3.1.2.1 w hwl
  have hsome : (s.workers w).sealerr.isSome = true := by
    rw [hfe.1]; exact hf
  have hpc : (s.workers w).pc = .send ∨ (s.workers w).pc = .halted := by
    by_contra hne
    simp only [not_or] at hne
    have := hl.running hne.1 hne.2
    rw [this] at hsome
    cases hsome
  refine ⟨⟨hfe.1, hpc, workerStep_left_trace cfg env s w hpc⟩, ?_, ?_⟩
  · intro j hj hlt
    obtain ⟨pi, -, hops⟩ := sectorOps_owner cfg env s hv h3 w j hwl hj
    refine ⟨pi, ?_⟩
    rw [hops, workerOps_nil_of_lt s.trace w j]
    intro e2 he2 hw2
    have hr := (ht.range e2 he2 hw2).2
    have hb : (s.workers w).bound ≤ (s.workers w).i + 1 := by
      unfold Worker.bound; split <;> omega
    rw [hfe.2] at hb
    omega
  · intro w2 hne
    have hlaunched : (s.workers w2).pc ≠ .idle → w2 < s.launched := by
      intro hni
      by_contra hge
      exact hni (by rw [h3.1.1.1.idle w2 (Nat.le_of_not_lt hge)]; rfl)
    refine ⟨workerStep_others cfg env w w2 s hne, fun hen hn hp => ?_, fun hin => ?_,
      fun hw2 hpc2 => ?_⟩
    · have hw2 : w2 < s.launched := by
        apply hlaunched
        intro hidle
        unfold WEnabled at hen
        rw [hidle] at hen
        exact hen
      exact workerStep_todo cfg env s w2 (h3.1.1.2 w2 hw2) (by rw [hp, hn]) hn hen
    · have hw2 : w2 < s.launched := by
        apply hlaunched
        intro hidle
        rw [hidle] at hin
        cases hin
      refine ⟨(h3.1.2.1 w2 hw2).cur hin, fun j hj hlt => ?_⟩
      obtain ⟨k, pi, h1, -, -, h4⟩ := block_below_done cfg env s hv h3 w2 hw2 j hj hlt
      exact ⟨k, pi, h1, h4⟩
    · rcases left_loop_cases cfg env s hv h3 w2 hw2 hpc2 with h | ⟨h1, h2⟩
      · exact Or.inl h
      · refine Or.inr ⟨h1, fun j hj => ?_⟩
        obtain ⟨k, pi, g1, -, -, g4⟩ := h2 j hj
        exact ⟨k, pi, g1, g4⟩

/-- An instance of `failure_stops_worker`: the stub run of four sectors and two workers in
which SealPreCommit1 fails for sector 0.  At a moment when worker 0 has ended and
`runSeals` has returned, worker 1 is about to call SealPreCommit2 for sector 2, having
called SealPreCommit1 for it, and its step takes it further; at the end of the run
worker 1 has left its loop without error, its sectors 2 and 3 having gone through all
their stages. -/
theorem failure_stops_worker_witness :
    (⟨some 0, 0, 16, .sealPreCommit1 ⟨⟨1000, 0⟩, 8⟩ [7] [⟨2032, 1000⟩] (.error (.msg "boom"))⟩ : Event) ∈
      (runSeals (stubCfg 4 2) (stubEnv (.preCommit1 0)) 0 (roundRobin 2 20)).trace ∧
    ((runSeals (stubCfg 4 2) (stubEnv (.preCommit1 0)) 0 (roundRobin 2 20)).workers 1).pc = .pc2 ∧
    (runSeals (stubCfg 4 2) (stubEnv (.preCommit1 0)) 0 (roundRobin 2 20)).mainPc = .done ∧
    (∀ j ∈ block (stubCfg 4 2) 0, 0 < j → ∃ pi,
      sectorOps (runSeals (stubCfg 4 2) (stubEnv (.preCommit1 0)) 0 (roundRobin 2 20)).trace j =
        [addPieceOp (stubCfg 4 2) (stubEnv (.preCommit1 0)) j (.ok pi)]) ∧
    ((workerStep (stubCfg 4 2) (stubEnv (.preCommit1 0)) 1
        (runSeals (stubCfg 4 2) (stubEnv (.preCommit1 0)) 0 (roundRobin 2 20))).workers 1).todo <
      ((runSeals (stubCfg 4 2) (stubEnv (.preCommit1 0)) 0 (roundRobin 2 20)).workers 1).todo ∧
    workerOps (runSeals (stubCfg 4 2) (stubEnv (.preCommit1 0)) 0 (roundRobin 2 20)).trace 1
        ((runSeals (stubCfg 4 2) (stubEnv (.preCommit1 0)) 0 (roundRobin 2 20)).workers 1).i =
      ((runSeals (stubCfg 4 2) (stubEnv (.preCommit1 0)) 0 (roundRobin 2 20)).workers 1).doneOps
        (stubCfg 4 2) (stubEnv (.preCommit1 0))
        ((runSeals (stubCfg 4 2) (stubEnv (.preCommit1 0)) 0 (roundRobin 2 20)).workers 1).pc ∧
    ((runSeals (stubCfg 4 2) (stubEnv (.preCommit1 0)) 0 (roundRobin 2 70)).workers 1).pc = .halted ∧
    ((∃ err, ((runSeals (stubCfg 4 2) (stubEnv (.preCommit1 0)) 0 (roundRobin 2 70)).workers 1).sealerr = some err ∧
        ((∃ e2 ∈ (runSeals (stubCfg 4 2) (stubEnv (.preCommit1 0)) 0 (roundRobin 2 70)).trace, e2.worker = some 1 ∧
            e2.sector = ((runSeals (stubCfg 4 2) (stubEnv (.preCommit1 0)) 0 (roundRobin 2 70)).workers 1).i ∧
            e2.op.isStage = true ∧ e2.op.reported = some err) ∨
          (∃ c, (stubEnv (.preCommit1 0)).jsonMarshal c = .error err))) ∨
      (((runSeals (stubCfg 4 2) (stubEnv (.preCommit1 0)) 0 (roundRobin 2 70)).workers 1).sealerr = none ∧
        ∀ j ∈ block (stubCfg 4 2) 1, ∃ k pi,
          IterOf (stubCfg 4 2) (stubEnv (.preCommit1 0)) (runSeals (stubCfg 4 2) (stubEnv (.preCommit1 0)) 0 (roundRobin 2 70)) j k ∧
          sectorOps (runSeals (stubCfg 4 2) (stubEnv (.preCommit1 0)) 0 (roundRobin 2 70)).trace j =
            addPieceOp (stubCfg 4 2) (stubEnv (.preCommit1 0)) j (.ok pi) ::
              k.opsUnseal (stubCfg 4 2) (stubEnv (.preCommit1 0)))) :=
  ⟨by decide, by decide, by decide,
   (failure_stops_worker (stubCfg 4 2) (stubEnv (.preCommit1 0)) 0 (roundRobin 2 20)
     ⟨some 0, 0, 16, .sealPreCommit1 ⟨⟨1000, 0⟩, 8⟩ [7] [⟨2032, 1000⟩] (.error (.msg "boom"))⟩
     0 (by decide) (by decide) (by decide) (by decide) (by decide) (by decide) rfl rfl rfl).2.1,
   (((failure_stops_worker (stubCfg 4 2) (stubEnv (.preCommit1 0)) 0 (roundRobin 2 20)
     ⟨some 0, 0, 16, .sealPreCommit1 ⟨⟨1000, 0⟩, 8⟩ [7] [⟨2032, 1000⟩] (.error (.msg "boom"))⟩
     0 (by decide) (by decide) (by decide) (by decide) (by decide) (by decide) rfl rfl rfl).2.2
     1 (by decide)).2.1 (by decide) (by decide) (by decide)),
   ((((failure_stops_worker (stubCfg 4 2) (stubEnv (.preCommit1 0)) 0 (roundRobin 2 20)
     ⟨some 0, 0, 16, .sealPreCommit1 ⟨⟨1000, 0⟩, 8⟩ [7] [⟨2032, 1000⟩] (.error (.msg "boom"))⟩
     0 (by decide) (by decide) (by decide) (by decide) (by decide) (by decide) rfl rfl rfl).2.2
     1 (by decide)).2.2.1 (by decide)).1),
   by decide,
   (((failure_stops_worker (stubCfg 4 2) (stubEnv (.preCommit1 0)) 0 (roundRobin 2 70)
     ⟨some 0, 0, 16, .sealPreCommit1 ⟨⟨1000, 0⟩, 8⟩ [7] [⟨2032, 1000⟩] (.error (.msg "boom"))⟩
     0 (by decide) (by decide) (by decide) (by decide) (by decide) (by decide) rfl rfl rfl).2.2
     1 (by decide)).2.2.2 (by decide) (Or.inr (by decide)))⟩

/-! ## C3: the blocks of the workers -/

/-- C3, counterexample: two sectors, one worker, SealPreCommit2 fails for sector 0.  The
block of worker 0 is `[0, 1]`; the worker has ended and `runSeals` has returned, and the
worker has started sector 0 only: sector 1 got its AddPiece call and was processed by no
worker. -/
theorem block_unfinished_counterexample :
    (0 : Int) ≤ (stubCfg 2 1).numSectors ∧ (1 : Int) ≤ (stubCfg 2 1).par.PreCommit1 ∧
    (stubCfg 2 1).numSectors % (stubCfg 2 1).par.PreCommit1 = 0 ∧
    block (stubCfg 2 1) 0 = [0, 1] ∧
    ((runSeals (stubCfg 2 1) (stubEnv (.preCommit2 0)) 0 (roundRobin 1 40)).workers 0).pc =
      .halted ∧
    (runSeals (stubCfg 2 1) (stubEnv (.preCommit2 0)) 0 (roundRobin 1 40)).ret =
      some ⟨none, none, some (.wrap "commit" (.msg "boom"))⟩ ∧
    pc1Sectors (runSeals (stubCfg 2 1) (stubEnv (.preCommit2 0)) 0 (roundRobin 1 40)).trace 0 =
      [0] ∧
    (sectorOps (runSeals (stubCfg 2 1) (stubEnv (.preCommit2 0)) 0 (roundRobin 1 40)).trace
      1).map Op.rank = [0] := by
  refine ⟨by decide, by decide, by decide, by decide, by decide, by decide, by decide,
    by decide⟩

/-- C3 (amended): with `W >= 1` dividing `N >= 0`, the block of worker `w`, the indices
its loop runs over in increasing order, has `N / W` elements, and the blocks of the
workers `0 .. W-1` are pairwise disjoint and cover exactly `0 .. N-1`.  In every run the
sectors a worker has started form an initial segment of its block in that order, and every
event of a worker is for a sector of its block.  A worker that has left its loop without
error has started every sector of its block, and every sector of its block went through
all its stages; a worker whose call fails stops there.  When every call succeeds (gates of
capacity at least one, a sector size with a proof type, a timing slice within the
allocation limit), every schedule can be continued so that `runSeals` returns, and then
every worker has ended without error and has processed exactly its block. -/
theorem worker_blocks (cfg : Cfg) (env : Env σ) (w0 : σ) (sched : List Choice) (p : Nat)
    (hN : 0 ≤ cfg.numSectors) (hW : 1 ≤ cfg.par.PreCommit1)
    (hmod : cfg.numSectors % cfg.par.PreCommit1 = 0) :
    (∀ w, (block cfg w).length = cfg.N / cfg.W) ∧
    (∀ w, (block cfg w).Pairwise (· < ·)) ∧
    (∀ i, i < cfg.N → ∃ w, w < cfg.W ∧ i ∈ block cfg w) ∧
    (∀ w w' i, i ∈ block cfg w → i ∈ block cfg w' → w = w') ∧
    (∀ w i, w < cfg.W → i ∈ block cfg w → i < cfg.N) ∧
    (∀ w, pc1Sectors (runSeals cfg env w0 sched).trace w <+: block cfg w) ∧
    (∀ e ∈ (runSeals cfg env w0 sched).trace, ∀ w, e.worker = some w →
      w < cfg.W ∧ e.sector ∈ block cfg w) ∧
    (∀ w, (((runSeals cfg env w0 sched).workers w).pc = .send ∨
        ((runSeals cfg env w0 sched).workers w).pc = .halted) →
      ((runSeals cfg env w0 sched).workers w).sealerr = none →
      pc1Sectors (runSeals cfg env w0 sched).trace w = block cfg w ∧
      ∀ j ∈ block cfg w, ∃ k pi, IterOf cfg env (runSeals cfg env w0 sched) j k ∧
        sectorOps (runSeals cfg env w0 sched).trace j =
          addPieceOp cfg env j (.ok pi) :: k.opsUnseal cfg env) ∧
    (AllSucceed env → 1 ≤ cfg.par.PreCommit2 → 1 ≤ cfg.par.Commit →
      env.spt cfg.sectorSize = some p → cfg.fits →
      ∃ more, (runSeals cfg env w0 (sched ++ more)).ret.isSome = true ∧
        ∀ w, w < cfg.W →
          ((runSeals cfg env w0 (sched ++ more)).workers w).pc = .halted ∧
          ((runSeals cfg env w0 (sched ++ more)).workers w).sealerr = none ∧
          pc1Sectors (runSeals cfg env w0 (sched ++ more)).trace w = block cfg w ∧
          ∀ j ∈ block cfg w, ∃ k pi,
            IterOf cfg env (runSeals cfg env w0 (sched ++ more)) j k ∧
            sectorOps (runSeals cfg env w0 (sched ++ more)).trace j =
              addPieceOp cfg env j (.ok pi) :: k.opsUnseal cfg env) := by
  obtain ⟨a1, a2, a3, a4, a5, a6, a7, a8⟩ := blocks_safety cfg env w0 sched hN hW hmod
  have full : ∀ (sch : List Choice) (w : Nat),
      (((runSeals cfg env w0 sch).workers w).pc = .send ∨
        ((runSeals cfg env w0 sch).workers w).pc = .halted) →
      ((runSeals cfg env w0 sch).workers w).sealerr = none →
      ∀ j ∈ block cfg w, ∃ k pi, IterOf cfg env (runSeals cfg env w0 sch) j k ∧
        sectorOps (runSeals cfg env w0 sch).trace j =
          addPieceOp cfg env j (.ok pi) :: k.opsUnseal cfg env := by
    intro sch w hpc herr j hj
    by_cases hv : cfg.valid
    · have h3 := Inv3_runSeals cfg env w0 sch hv
      have hwl : w < (runSeals cfg env w0 sch).launched := by
        by_contra hge
        have hidle := h3.1.1.1.idle w (Nat.le_of_not_lt hge)
        rw [hidle] at hpc
        rcases hpc with h | h <;> cases h
      rcases left_loop_cases cfg env _ hv h3 w hwl hpc with ⟨err, h1, -⟩ | ⟨-, h2⟩
      · rw [herr] at h1; cases h1
      · obtain ⟨k, pi, g1, -, -, g4⟩ := h2 j hj
        exact ⟨k, pi, g1, g4⟩
    · have hidle := (runSeals_invalid cfg env w0 sch hv).2.2.2.1 w
      rw [hidle] at hpc
      rcases hpc with h | h <;> cases h
  refine ⟨a1, a2, a3, a4, a5, a6, a7, fun w hpc herr => ⟨a8 w hpc herr, full sched w hpc herr⟩,
    fun hA h2 hC hspt hfit => ?_⟩
  have hv := valid_of cfg hN hW (by omega) (by omega) hmod hfit
  have hWn : ¬ cfg.par.PreCommit1 < 0 := by omega
  obtain ⟨h3, h5⟩ := Inv35_run cfg env p hv hWn hA hspt sched (init cfg w0)
    (Inv3_init cfg env w0 hv) (Inv5_init cfg w0 hv)
  obtain ⟨more, hmore⟩ := progress cfg env p hv hWn h2 hC hA hspt _ _ (le_refl _) h3 h5
  have hrun : run cfg env more (run cfg env sched (init cfg w0)) =
      runSeals cfg env w0 (sched ++ more) := by
    unfold runSeals
    rw [run_append]
  rw [hrun] at hmore
  refine ⟨more, hmore, fun w hw => ?_⟩
  obtain ⟨-, h5'⟩ := Inv35_run cfg env p hv hWn hA hspt (sched ++ more) (init cfg w0)
    (Inv3_init cfg env w0 hv) (Inv5_init cfg w0 hv)
  have hrs : run cfg env (sched ++ more) (init cfg w0) = runSeals cfg env w0 (sched ++ more) :=
    rfl
  rw [hrs] at h5'
  obtain ⟨r, hr⟩ := Option.isSome_iff_exists.mp hmore
  obtain ⟨-, hla, hhalt⟩ := h5'.retOK r hr
  have hpc := hhalt w (by omega)
  have herr := h5'.nofail w
  obtain ⟨-, -, -, -, -, -, -, b8⟩ := blocks_safety cfg env w0 (sched ++ more) hN hW hmod
  exact ⟨hpc, herr, b8 w (Or.inr hpc) herr, full (sched ++ more) w (Or.inr hpc) herr⟩

/-- An instance of `worker_blocks`: four sectors and two workers, a stub in which every call
succeeds.  At the end of the run each worker has started exactly the sectors of its block,
`[0, 1]` and `[2, 3]`, in this order. -/
theorem worker_blocks_witness :
    (0 : Int) ≤ (stubCfg 4 2).numSectors ∧ (1 : Int) ≤ (stubCfg 4 2).par.PreCommit1 ∧
    (stubCfg 4 2).numSectors % (stubCfg 4 2).par.PreCommit1 = 0 ∧
    block (stubCfg 4 2) 0 = [0, 1] ∧ block (stubCfg 4 2) 1 = [2, 3] ∧
    ((runSeals (stubCfg 4 2) (stubEnv .never) 0 (roundRobin 2 70)).workers 1).pc = .halted ∧
    pc1Sectors (runSeals (stubCfg 4 2) (stubEnv .never) 0 (roundRobin 2 70)).trace 1 = [2, 3] ∧
    (sectorOps (runSeals (stubCfg 4 2) (stubEnv .never) 0 (roundRobin 2 70)).trace 3).map
      Op.rank = [0, 1, 2, 3, 4, 5, 6, 7, 8] ∧
    (pc1Sectors (runSeals (stubCfg 4 2) (stubEnv .never) 0 (roundRobin 2 70)).trace 1 =
        block (stubCfg 4 2) 1 ∧
      ∀ j ∈ block (stubCfg 4 2) 1, ∃ k pi,
        IterOf (stubCfg 4 2) (stubEnv .never)
          (runSeals (stubCfg 4 2) (stubEnv .never) 0 (roundRobin 2 70)) j k ∧
        sectorOps (runSeals (stubCfg 4 2) (stubEnv .never) 0 (roundRobin 2 70)).trace j =
          addPieceOp (stubCfg 4 2) (stubEnv .never) j (.ok pi) ::
            k.opsUnseal (stubCfg 4 2) (stubEnv .never)) ∧
    (∃ more, (runSeals (stubCfg 4 2) (stubEnv .never) 0 (roundRobin 2 20 ++ more)).ret.isSome =
        true ∧
      ∀ w, w < (stubCfg 4 2).W →
        ((runSeals (stubCfg 4 2) (stubEnv .never) 0 (roundRobin 2 20 ++ more)).workers w).pc =
          .halted ∧
        ((runSeals (stubCfg 4 2) (stubEnv .never) 0
          (roundRobin 2 20 ++ more)).workers w).sealerr = none ∧
        pc1Sectors (runSeals (stubCfg 4 2) (stubEnv .never) 0 (roundRobin 2 20 ++ more)).trace w
          = block (stubCfg 4 2) w ∧
        ∀ j ∈ block (stubCfg 4 2) w, ∃ k pi,
          IterOf (stubCfg 4 2) (stubEnv .never)
            (runSeals (stubCfg 4 2) (stubEnv .never) 0 (roundRobin 2 20 ++ more)) j k ∧
          sectorOps (runSeals (stubCfg 4 2) (stubEnv .never) 0
              (roundRobin 2 20 ++ more)).trace j =
            addPieceOp (stubCfg 4 2) (stubEnv .never) j (.ok pi) ::
              k.opsUnseal (stubCfg 4 2) (stubEnv .never)) :=
  ⟨by decide, by decide, by decide, by decide, by decide, by decide, by decide, by decide,
   (worker_blocks (stubCfg 4 2) (stubEnv .never) 0 (roundRobin 2 70) 8
     (by decide) (by decide) (by decide)).2.2.2.2.2.2.2.1 1 (Or.inr (by decide)) (by decide),
   (worker_blocks (stubCfg 4 2) (stubEnv .never) 0 (roundRobin 2 20) 8
     (by decide) (by decide) (by decide)).2.2.2.2.2.2.2.2 stubEnv_allSucceed (by decide)
     (by decide) rfl (by decide)⟩

/-! ## The actions of a sector, gate operations included -/

theorem wnames_append (tr : List Event) (e : Event) (w j : Nat) :
    wnames (tr ++ [e]) w j =
      wnames tr w j ++ (if e.worker = some w ∧ e.sector = j then [e.op.name] else []) := by
  unfold wnames
  rw [workerEvents_append, List.map_append]
  by_cases h : e.worker = some w ∧ e.sector = j
  · simp [h]
  · simp [h]

theorem wnames_nil (tr : List Event) (w j : Nat)
    (h : ∀ e ∈ tr, e.worker = some w → e.sector ≠ j) : wnames tr w j = [] := by
  unfold wnames workerEvents
  have : tr.filter (fun e => decide (e.worker = some w ∧ e.sector = j)) = [] := by
    rw [List.filter_eq_nil_iff]
    intro e he
    simp only [decide_eq_true_eq, not_and]
    exact fun hw => h e he hw
  rw [this]; rfl

set_option maxHeartbeats 8000000 in
/-- What one step of a worker adds to the actions of its sector: nothing, the program
point staying within the same actions, or the next action of the pipeline. -/
theorem gate_step (cfg : Cfg) (env : Env σ) (s : State σ) (w : Nat)
    (huns : ((s.workers w).pc = .unsealRm ∨ (s.workers w).pc = .unseal) →
      cfg.skipunseal = false) :
    ((workerStep cfg env w s).trace = s.trace ∧
      (((workerStep cfg env w s).workers w).pc.inIter = true →
        ((workerStep cfg env w s).workers w).i = (s.workers w).i ∧
        cfg.made ((workerStep cfg env w s).workers w).pc = cfg.made (s.workers w).pc)) ∨
    (∃ op, (s.workers w).pc.inIter = true ∧
      (workerStep cfg env w s).trace =
        s.trace ++ [⟨some w, (s.workers w).i, s.clock, op⟩] ∧
      cfg.pipeline.take (cfg.made (s.workers w).pc) ++ [op.name] =
        cfg.pipeline.take (cfg.made (s.workers w).pc + 1) ∧
      (((workerStep cfg env w s).workers w).pc.inIter = true →
        ((workerStep cfg env w s).workers w).i = (s.workers w).i ∧
        cfg.made ((workerStep cfg env w s).workers w).pc =
          cfg.made (s.workers w).pc + 1)) := by
  have hflag : (cfg.saveC2inp = "" ∧ decide (cfg.saveC2inp ≠ "") = false) ∨
      (¬ cfg.saveC2inp = "" ∧ decide (cfg.saveC2inp ≠ "") = true) := by
    by_cases h : cfg.saveC2inp = ""
    · exact Or.inl ⟨h, by simp [h]⟩
    · exact Or.inr ⟨h, by simp [h]⟩
  rcases hflag with ⟨hs, hsd⟩ | ⟨hs, hsd⟩ <;> cases h2 : cfg.skipc2 <;>
    cases h3 : cfg.skipunseal <;>
    cases hpc : (s.workers w).pc <;>
    simp [hpc, h3] at huns <;>
    simp only [workerStep, hpc] <;> (try split) <;> (try split) <;> (try split) <;>
    (try simp only [State.setW, State.crash, State.log, Worker.fail, Function.update_same,
      hpc, Cfg.made, Cfg.pipeline, PC.made, pipelineNames, hsd, h2, h3]) <;>
    first
    | (left; exact ⟨by first | rfl | trivial, fun h => absurd h (by decide)⟩)
    | (left; refine ⟨by first | rfl | trivial, fun _ => ?_⟩
       first | trivial | exact ⟨rfl, rfl⟩ | (simp; done))
    | (right; refine ⟨_, rfl, rfl, ?_, fun h => absurd h (by decide)⟩
       first | rfl | (simp; done) | (simp; rfl))
    | (right; refine ⟨_, rfl, rfl, ?_, fun _ => ?_⟩ <;>
       first | rfl | trivial | exact ⟨rfl, rfl⟩ | (simp; done) | (simp; rfl))
    | (simp_all; done)

theorem made_outside (cfg : Cfg) (p : PC) (h : p.inIter = false) : cfg.made p = 0 := by
  cases p <;> simp [PC.inIter] at h <;> rfl

theorem enter_from_head (cfg : Cfg) (env : Env σ) (s : State σ) (w : Nat)
    (h : (s.workers w).pc.inIter = false)
    (h2 : ((workerStep cfg env w s).workers w).pc.inIter = true) :
    (s.workers w).pc = .head := by
  cases hpc : (s.workers w).pc <;> simp [hpc, PC.inIter] at h <;>
    first
    | rfl
    | (simp only [workerStep, hpc] at h2
       (try split at h2) <;> simp [State.setW, hpc, PC.inIter] at h2)

theorem WGate_step_self (cfg : Cfg) (env : Env σ) (s : State σ) (w : Nat)
    (hl : WLocal cfg env s w) (ht : WTrace cfg env s w) (hg : WGate cfg s w) :
    WGate cfg (workerStep cfg env w s) w := by
  rcases gate_step cfg env s w hl.unsealing with ⟨htr, hnext⟩ | ⟨op, hin, htr, htake, hnext⟩
  · refine ⟨fun hin2 => ?_, fun j => by rw [htr]; exact hg.all j⟩
    obtain ⟨hi, hm⟩ := hnext hin2
    rw [htr, hi, hm]
    by_cases hin : (s.workers w).pc.inIter = true
    · exact hg.cur hin
    · have hin0 : (s.workers w).pc.inIter = false := by simpa using hin
      have hhead := enter_from_head cfg env s w hin0 hin2
      have herr : (s.workers w).sealerr = none :=
        hl.running (by rw [hhead]; decide) (by rw [hhead]; decide)
      rw [made_outside cfg _ hin0, List.take_zero]
      apply wnames_nil
      intro e he hew
      have := (ht.range e he hew).2
      simp only [Worker.bound, hin0, herr, Option.isSome_none, Bool.or_self] at this
      simp at this
      omega
  · constructor
    · intro hin2
      obtain ⟨hi, hm⟩ := hnext hin2
      rw [htr, hi, hm, wnames_append, if_pos ⟨rfl, rfl⟩, hg.cur hin]
      exact htake
    · intro j
      rw [htr, wnames_append]
      by_cases hj : (s.workers w).i = j
      · subst hj
        rw [if_pos ⟨rfl, rfl⟩, hg.cur hin]
        show _ ++ [op.name] <+: _
        rw [htake]
        exact List.take_prefix _ _
      · rw [if_neg (fun hh => hj hh.2), List.append_nil]
        exact hg.all j

theorem WGate_congr (cfg : Cfg) (s t : State σ) (w : Nat)
    (hw : t.workers w = s.workers w)
    (hn : ∀ j, wnames t.trace w j = wnames s.trace w j)
    (h : WGate cfg s w) : WGate cfg t w := by
  refine ⟨?_, fun j => by rw [hn]; exact h.all j⟩
  rw [hw, hn]
  exact h.cur

theorem wnames_step_ne (cfg : Cfg) (env : Env σ) (s : State σ) (w0 w j : Nat) (h : w ≠ w0) :
    wnames (workerStep cfg env w0 s).trace w j = wnames s.trace w j := by
  rcases workerStep_trace cfg env w0 s with h1 | ⟨op, -, h1⟩
  · rw [h1]
  · rw [h1, wnames_append, if_neg, List.append_nil]
    intro hh
    simp only [Option.some.injEq] at hh
    exact h hh.1.symm

theorem GInv_init (cfg : Cfg) (env : Env σ) (w0 : σ) (hv : cfg.valid) :
    GInv cfg env (init cfg w0) := by
  refine ⟨Inv2_init cfg env w0 hv, ?_⟩
  rw [init_valid cfg w0 hv]; intro w hw; simp at hw

theorem GInv_step (cfg : Cfg) (env : Env σ) (s : State σ) (c : Choice) (hv : cfg.valid)
    (h : GInv cfg env s) : GInv cfg env (step cfg env c s) := by
  refine ⟨Inv2_step cfg env s c hv h.1, ?_⟩
  obtain ⟨⟨⟨hm, hl⟩, ht, hev⟩, hg⟩ := h
  unfold step
  split
  · exact hg
  · cases c with
    | tick =>
      intro w hlt
      exact WGate_congr cfg s _ w rfl (fun _ => rfl) (hg w hlt)
    | main =>
      simp only []
      intro w hlt
      by_cases hlt2 : w < s.launched
      · obtain ⟨-, -, f3, -, -, -, -, -, f9⟩ := mainStep_frame cfg env s hm (by omega)
        exact WGate_congr cfg s _ w (f9 w hlt2) (fun _ => by rw [f3]) (hg w hlt2)
      · rcases mainStep_launched_succ cfg env s with h1 | ⟨hpc, hlW, h1⟩
        · omega
        · have hwl : w = s.launched := by omega
          subst hwl
          have htr : (mainStep cfg env s).trace = s.trace := by
            rcases mainStep_trace cfg env s with h2 | ⟨h2, -⟩
            · exact h2
            · rw [hpc] at h2; exact absurd h2 (by decide)
          have hnil : ∀ j, wnames (mainStep cfg env s).trace s.launched j = [] := by
            intro j
            rw [htr]
            apply wnames_nil
            intro e he hw
            exact absurd (hev e he _ hw) (by omega)
          refine ⟨?_, fun j => by rw [hnil]; exact List.nil_prefix⟩
          rw [(mainStep_spawn cfg env s hpc hlW).2]
          intro hh
          simp [PC.inIter] at hh
    | worker w0 =>
      simp only []
      by_cases hw0 : s.launched ≤ w0
      · rw [workerStep_idle cfg env s w0 (by rw [hm.idle w0 hw0]; rfl)]
        exact hg
      · obtain ⟨-, -, f3, -⟩ := workerStep_frame cfg env w0 s
        rw [f3]
        intro w hlt
        by_cases hww : w = w0
        · subst hww; exact WGate_step_self cfg env s w (hl w hlt) (ht w hlt) (hg w hlt)
        · exact WGate_congr cfg s _ w (workerStep_others cfg env w0 w s hww)
            (fun j => wnames_step_ne cfg env s w0 w j hww) (hg w hlt)

theorem GInv_run (cfg : Cfg) (env : Env σ) (sched : List Choice) (s : State σ)
    (hv : cfg.valid) (h : GInv cfg env s) : GInv cfg env (run cfg env sched s) := by
  induction sched generalizing s with
  | nil => exact h
  | cons c cs ih => exact ih _ (GInv_step cfg env s c hv h)

theorem GInv_runSeals (cfg : Cfg) (env : Env σ) (w0 : σ) (sched : List Choice)
    (hv : cfg.valid) : GInv cfg env (runSeals cfg env w0 sched) :=
  GInv_run cfg env sched _ hv (GInv_init cfg env w0 hv)

/-! ## One acquisition of the commit gate for a sector -/

theorem pipeline_eq (cfg : Cfg) :
    cfg.pipeline =
      [.sealPreCommit1, .acquirePreCommit2, .sealPreCommit2, .releasePreCommit2,
        .acquireCommit, .sealCommit1] ++
      (if cfg.saveC2inp ≠ "" then [.writeFile] else []) ++
      (if cfg.skipc2 = true then [] else [.sealCommit2]) ++ [.releaseCommit] ++
      (if cfg.skipc2 = true then [] else [.verifySeal]) ++
      (if cfg.skipunseal = true then [] else [.acquireSector, .remove, .unsealPiece]) := by
  unfold Cfg.pipeline pipelineNames
  by_cases hs : cfg.saveC2inp = "" <;> cases h2 : cfg.skipc2 <;> cases h3 : cfg.skipunseal <;>
    simp [hs]

/-- C18 (amended): in a run of runSeals the actions of a worker for one sector, gate
operations and the writing of the saved Commit2 input included, are an initial part of
SealPreCommit1, acquire PreCommit2 gate, SealPreCommit2, release PreCommit2 gate, acquire
commit gate, SealCommit1, write of the Commit2 input file (when a file name is given),
SealCommit2 (when skip-commit2 is unset), release commit gate, VerifySeal, unseal actions:
the PreCommit2 gate is acquired once and brackets the single SealPreCommit2 call, the commit
gate is acquired once and that one acquisition brackets SealCommit1, the file write and
SealCommit2. Every action a worker adds is for a sector not below the sectors of its earlier
actions, and it is made holding one slot of the PreCommit2 gate for SealPreCommit2, one slot
of the commit gate for SealCommit1, the file write and SealCommit2, and no slot otherwise;
an acquire is made holding no slot of its gate and a release holding one. -/
theorem calls_under_gates (cfg : Cfg) (env : Env σ) (w0 : σ) (sched : List Choice)
    (w : Nat)
    (hN : 0 ≤ cfg.numSectors) (hW : 1 ≤ cfg.par.PreCommit1)
    (h2 : 0 ≤ cfg.par.PreCommit2) (hC : 0 ≤ cfg.par.Commit)
    (hmod : cfg.numSectors % cfg.par.PreCommit1 = 0) :
    (∀ j, wnames (runSeals cfg env w0 sched).trace w j <+:
      [.sealPreCommit1, .acquirePreCommit2, .sealPreCommit2, .releasePreCommit2,
        .acquireCommit, .sealCommit1] ++
      (if cfg.saveC2inp ≠ "" then [.writeFile] else []) ++
      (if cfg.skipc2 = true then [] else [.sealCommit2]) ++ [.releaseCommit] ++
      (if cfg.skipc2 = true then [] else [.verifySeal]) ++
      (if cfg.skipunseal = true then [] else [.acquireSector, .remove, .unsealPiece])) ∧
    (∀ e, (workerStep cfg env w (runSeals cfg env w0 sched)).trace =
        (runSeals cfg env w0 sched).trace ++ [e] →
      e.worker = some w ∧
      (∀ e2 ∈ (runSeals cfg env w0 sched).trace, e2.worker = some w → e2.sector ≤ e.sector) ∧
      (e.op.isGate = false →
        ((runSeals cfg env w0 sched).workers w).held2 =
          (if e.op.gateOf = some .preCommit2 then 1 else 0) ∧
        ((runSeals cfg env w0 sched).workers w).heldC =
          (if e.op.gateOf = some .commit then 1 else 0)) ∧
      (e.op = .acquire .preCommit2 → ((runSeals cfg env w0 sched).workers w).held2 = 0 ∧
        ((workerStep cfg env w (runSeals cfg env w0 sched)).workers w).held2 = 1) ∧
      (e.op = .release .preCommit2 → ((runSeals cfg env w0 sched).workers w).held2 = 1 ∧
        ((workerStep cfg env w (runSeals cfg env w0 sched)).workers w).held2 = 0) ∧
      (e.op = .acquire .commit → ((runSeals cfg env w0 sched).workers w).heldC = 0 ∧
        ((workerStep cfg env w (runSeals cfg env w0 sched)).workers w).heldC = 1) ∧
      (e.op = .release .commit → ((runSeals cfg env w0 sched).workers w).heldC = 1 ∧
        ((workerStep cfg env w (runSeals cfg env w0 sched)).workers w).heldC = 0)) := by
  rw [← pipeline_eq]
  by_cases hfit : cfg.fits
  swap
  · rw [runSeals_nofit cfg env w0 sched hfit]
    refine ⟨fun j => List.nil_prefix, fun e he => ?_⟩
    simp [workerStep, Worker.idle] at he
  have hv := valid_of cfg hN hW h2 hC hmod hfit
  have hi := GInv_runSeals cfg env w0 sched hv
  generalize runSeals cfg env w0 sched = s at hi
  obtain ⟨⟨⟨hm, hl⟩, ht, hev⟩, hg⟩ := hi
  by_cases hw : w < s.launched
  · refine ⟨(hg w hw).all, fun e he => ?_⟩
    have hgate := workerStep_gate_event cfg env s w (hl w hw) e he
    rcases workerStep_trace cfg env w s with h1 | ⟨op, hin, h1⟩
    · rw [h1] at he
      exact absurd (List.self_eq_append_right.mp he) (List.cons_ne_nil _ _)
    · rw [h1] at he
      have he2 := List.append_cancel_left he
      simp only [List.cons.injEq, and_true] at he2
      subst he2
      refine ⟨rfl, fun e2 hmem hew => ?_, hgate⟩
      have hb := ((ht w hw).range e2 hmem hew).2
      have hle : (s.workers w).bound ≤ (s.workers w).i + 1 := by
        unfold Worker.bound; split <;> omega
      show e2.sector ≤ (s.workers w).i
      omega
  · constructor
    · intro j
      rw [wnames_nil s.trace w j (fun e he hew => absurd (hev e he w hew) hw)]
      exact List.nil_prefix
    · intro e he
      rw [workerStep_done cfg env s w
        (Or.inr (by rw [hm.idle w (Nat.le_of_not_lt hw)]; rfl))] at he
      exact absurd (List.self_eq_append_right.mp he) (List.cons_ne_nil _ _)

/-- An instance of `calls_under_gates`: the thirteen actions of the sector of a stub run
that saves the Commit2 input, and the step that writes the file with the commit gate
held. -/
theorem calls_under_gates_witness :
    (0 : Int) ≤ stubSave.numSectors ∧ (1 : Int) ≤ stubSave.par.PreCommit1 ∧
    (0 : Int) ≤ stubSave.par.PreCommit2 ∧ (0 : Int) ≤ stubSave.par.Commit ∧
    stubSave.numSectors % stubSave.par.PreCommit1 = 0 ∧
    wnames (runSeals stubSave (stubEnv .never) 0 (roundRobin 1 40)).trace 0 0 =
      [.sealPreCommit1, .acquirePreCommit2, .sealPreCommit2, .releasePreCommit2,
        .acquireCommit, .sealCommit1, .writeFile, .sealCommit2, .releaseCommit,
        .verifySeal, .acquireSector, .remove, .unsealPiece] ∧
    wnames (runSeals stubSave (stubEnv .never) 0 (roundRobin 1 40)).trace 0 0 <+:
      [.sealPreCommit1, .acquirePreCommit2, .sealPreCommit2, .releasePreCommit2,
        .acquireCommit, .sealCommit1, .writeFile, .sealCommit2, .releaseCommit,
        .verifySeal, .acquireSector, .remove, .unsealPiece] ∧
    (workerStep stubSave (stubEnv .never) 0
        (runSeals stubSave (stubEnv .never) 0 (roundRobin 1 17))).trace =
      (runSeals stubSave (stubEnv .never) 0 (roundRobin 1 17)).trace ++
        [⟨some 0, 0, 17, .writeFile "c2.json" [0, 3] none⟩] ∧
    ((runSeals stubSave (stubEnv .never) 0 (roundRobin 1 17)).workers 0).held2 = 0 ∧
    ((runSeals stubSave (stubEnv .never) 0 (roundRobin 1 17)).workers 0).heldC = 1 :=
  ⟨by decide, by decide, by decide, by decide, by decide, by decide,
   (calls_under_gates stubSave (stubEnv .never) 0 (roundRobin 1 40) 0
     (by decide) (by decide) (by decide) (by decide) (by decide)).1 0,
   by decide,
   ((calls_under_gates stubSave (stubEnv .never) 0 (roundRobin 1 17) 0
     (by decide) (by decide) (by decide) (by decide) (by decide)).2
     ⟨some 0, 0, 17, .writeFile "c2.json" [0, 3] none⟩ (by decide)).2.2.1 rfl⟩

end LotusBench
